import Mathlib

/-!
BrickPi host driver: frame codec, bit-packing codec, ValuesExchange fields, and
the exchanges with the two links (emergency stop, timeout and baud settings,
baud bootstrap, values with retries) against a reply oracle.

A shallow embedding of `drivers/BrickPi.h`.  C arrays are lists of naturals,
`unsigned char` values are naturals reduced modulo `2^8`, `unsigned int` and
`unsigned long` values are naturals reduced modulo `2^32`, and `long`/`int`
values are integers.  A `while` loop is a function that recurses on a fuel
argument and tests the loop condition of the source on every round; the callers
pass more fuel than an 8-bit counter can consume.  `none` stands for a memory
access outside an array or a division by zero (or for exhausted fuel, which the
theorems exclude).
-/

namespace BrickPi

/-! ## Frame codec: `BrickPiTx` and the validation part of `BrickPiRx` -/

/-- The `while(i < ByteCount)` loop of `BrickPiTx`: adds `OutArray[i]` to the
checksum byte `tx_buffer[1]` and copies it to `tx_buffer[i + 3]`. -/
def BrickPiTx.txLoop (ByteCount : Nat) (OutArray : List Nat) :
    Nat → Nat → List Nat → Option (List Nat)
  | 0, _, _ => none
  | fuel + 1, i, tx_buffer =>
    if i < ByteCount then
      if i < OutArray.length ∧ i + 3 < tx_buffer.length then
        BrickPiTx.txLoop ByteCount OutArray fuel ((i + 1) % 256)
          ((tx_buffer.set 1 ((tx_buffer.getD 1 0 + OutArray.getD i 0) % 256)).set
            (i + 3) (OutArray.getD i 0))
      else none
    else some tx_buffer

/-- The bytes `BrickPiTx(dest, ByteCount, OutArray)` hands to `write`: the first
`ByteCount + 3` (as an `unsigned char`) bytes of the 256-byte `tx_buffer`. -/
def BrickPiTx (dest ByteCount : Nat) (OutArray : List Nat) : Option (List Nat) :=
  let dest := dest % 256
  let ByteCount := ByteCount % 256
  let tx_buffer :=
    (((List.replicate 256 0).set 0 dest).set 1 ((dest + ByteCount) % 256)).set 2 ByteCount
  match BrickPiTx.txLoop ByteCount OutArray 256 0 tx_buffer with
  | none => none
  | some tx_buffer => some (tx_buffer.take ((ByteCount + 3) % 256))

/-- The `while(i < (RxBytes - 2))` loop of `BrickPiRx`: accumulates the checksum
and copies the received bytes after the two header bytes into `InArray`. -/
def BrickPiRx.rxLoop (rx_buffer : List Nat) (RxBytes : Nat) :
    Nat → Nat → Nat → List Nat → Option (Nat × List Nat)
  | 0, _, _, _ => none
  | fuel + 1, i, CheckSum, InArray =>
    if i < RxBytes - 2 then
      if i < InArray.length then
        BrickPiRx.rxLoop rx_buffer RxBytes fuel ((i + 1) % 256)
          ((CheckSum + rx_buffer.getD (i + 2) 0) % 256)
          (InArray.set i (rx_buffer.getD (i + 2) 0))
      else none
    else some (CheckSum, InArray)

/-- The frame validation of `BrickPiRx` (from `if(RxBytes < 2)` to the end), run
on the bytes `rx_buffer` that `read` delivered, `RxBytes` being their number
(an `unsigned char`, so at most 255).
The result is the return code, the caller's `InArray` and the caller's
`InBytes` as the function leaves them. -/
def BrickPiRx.validate (rx_buffer : List Nat) (InArray : List Nat) (InBytes : Nat) :
    Option (Int × List Nat × Nat) :=
  let RxBytes := rx_buffer.length
  if 255 < RxBytes then none
  else if RxBytes < 2 then some (-4, InArray, InBytes)
  else if RxBytes < rx_buffer.getD 1 0 + 2 then some (-6, InArray, InBytes)
  else
    match BrickPiRx.rxLoop rx_buffer RxBytes 256 0 (rx_buffer.getD 1 0) InArray with
    | none => none
    | some (CheckSum, InArray) =>
      if CheckSum ≠ rx_buffer.getD 0 0 then some (-5, InArray, InBytes)
      else some (0, InArray, RxBytes - 2)

/-! ## Bit-packing codec: `AddBits`, `GetBits`, `BitsNeeded` -/

/-- The globals the codec works on: the 256-byte scratch buffer `Array` and the
bit cursor `Bit_Offset` (an `unsigned int`). -/
structure Globals where
  Array : List Nat
  Bit_Offset : Nat

/-- The `while(i < bits)` loop of `AddBits`.  A set bit of `value` is OR-ed into
the byte `byte_offset + (bit_offset + Bit_Offset + i) / 8`; OR-ing one bit below
`2^8` into a byte leaves a byte, so the store needs no reduction. -/
def AddBits.addLoop (byte_offset bit_offset bits Bit_Offset : Nat) :
    Nat → Nat → Nat → List Nat → Option (List Nat)
  | 0, _, _, _ => none
  | fuel + 1, i, value, Array =>
    if i < bits then
      let pos := (bit_offset + Bit_Offset + i) % 2 ^ 32
      if value &&& 1 ≠ 0 then
        if byte_offset + pos / 8 < Array.length then
          AddBits.addLoop byte_offset bit_offset bits Bit_Offset fuel ((i + 1) % 256)
            (value / 2)
            (Array.set (byte_offset + pos / 8)
              (Array.getD (byte_offset + pos / 8) 0 ||| (1 <<< (pos % 8))))
        else none
      else
        AddBits.addLoop byte_offset bit_offset bits Bit_Offset fuel ((i + 1) % 256)
          (value / 2) Array
    else some Array

/-- The function `AddBits(byte_offset, bit_offset, bits, value)`: the three
`unsigned char` arguments are reduced modulo `2^8`, the `unsigned long` value
modulo `2^32`; the cursor advances by `bits`. -/
def AddBits (byte_offset bit_offset bits value : Nat) (g : Globals) : Option Globals :=
  match AddBits.addLoop (byte_offset % 256) (bit_offset % 256) (bits % 256) g.Bit_Offset
      256 0 (value % 2 ^ 32) g.Array with
  | none => none
  | some Array => some ⟨Array, (g.Bit_Offset + bits % 256) % 2 ^ 32⟩

/-- The `while(i)` loop of `GetBits`, `i` counting down from `bits` (`char` is
unsigned on the ARM hosts the driver is built for). -/
def GetBits.getLoop (byte_offset bit_offset Bit_Offset : Nat) (Array : List Nat) :
    Nat → Nat → Nat → Option Nat
  | 0, _, _ => none
  | fuel + 1, i, Result =>
    if i ≠ 0 then
      let pos := (bit_offset + Bit_Offset + (i - 1)) % 2 ^ 32
      if byte_offset + pos / 8 < Array.length then
        GetBits.getLoop byte_offset bit_offset Bit_Offset Array fuel (i - 1)
          (((Result * 2) % 2 ^ 32) |||
            ((Array.getD (byte_offset + pos / 8) 0 >>> (pos % 8)) &&& 1))
      else none
    else some Result

/-- The function `GetBits(byte_offset, bit_offset, bits)`: the value read and the
globals with the cursor advanced by `bits`. -/
def GetBits (byte_offset bit_offset bits : Nat) (g : Globals) : Option (Nat × Globals) :=
  match GetBits.getLoop (byte_offset % 256) (bit_offset % 256) g.Bit_Offset g.Array
      256 (bits % 256) 0 with
  | none => none
  | some Result => some (Result, ⟨g.Array, (g.Bit_Offset + bits % 256) % 2 ^ 32⟩)

/-- The `while(i < 32)` loop of `BitsNeeded` with its `return 31` fall-through. -/
def BitsNeeded.needLoop : Nat → Nat → Nat → Option Nat
  | 0, _, _ => none
  | fuel + 1, i, value =>
    if i < 32 then
      if value = 0 then some i
      else BitsNeeded.needLoop fuel ((i + 1) % 256) (value / 2)
    else some 31

/-- The function `BitsNeeded(value)` on an `unsigned long` (32-bit) value. -/
def BitsNeeded (value : Nat) : Option Nat :=
  BitsNeeded.needLoop 64 0 (value % 2 ^ 32)

/-- Bit `P` of a byte buffer, bits counted from bit 0 of byte 0 upwards. -/
def bitOf (A : List Nat) (P : Nat) : Bool :=
  (A.getD (P / 8) 0).testBit (P % 8)

/-- The number whose bit `k` is bit `base + k` of the buffer, for `k < n`. -/
def readBits (A : List Nat) (base : Nat) : Nat → Nat
  | 0 => 0
  | n + 1 => readBits A base n + (bitOf A (base + n)).toNat * 2 ^ n

/-! ## Device state and the outbound ValuesExchange fields of `BrickPiUpdateValues` -/

/-- The value an `int` or `long` (both 32 bits wide on the ARM hosts) takes when
the mathematical result `x` is stored in it: two's-complement wrap-around. -/
def toLong (x : Int) : Int :=
  (x + 2 ^ 31) % 2 ^ 32 - 2 ^ 31

/-- The conversion of an `int` or `long` to `unsigned long`: its 32-bit pattern. -/
def toULong (x : Int) : Nat :=
  (x % 2 ^ 32).toNat

/-- The number of low bits a natural loses when it is cut to a 24-bit
significand (the first argument is fuel; the natural itself is enough). -/
def f32.excess : Nat → Nat → Nat
  | 0, _ => 0
  | fuel + 1, m => if m < 2 ^ 24 then 0 else f32.excess fuel (m / 2) + 1

/-- Rounding of a natural to single precision: the nearest natural with at most
24 significant bits, a tie going to the even significand. -/
def f32.roundNat (m : Nat) : Nat :=
  let e := f32.excess m m
  let q := m / 2 ^ e
  let r := m % 2 ^ e
  if 2 ^ e < 2 * r ∨ (2 * r = 2 ^ e ∧ q % 2 = 1) then (q + 1) * 2 ^ e else q * 2 ^ e

/-- The `float` nearest to an integer: IEEE-754 single precision, round to
nearest even.  The `float` values of the position regulator are integers as long
as the gains are, so a `float` is modelled by the integer it holds and every
`float` operation by the exact operation followed by `f32`.  (Overflow to
infinity, beyond `2^128`, is outside this model.) -/
def f32 (x : Int) : Int :=
  if x < 0 then -(f32.roundNat x.natAbs : Int) else (f32.roundNat x.natAbs : Int)

/-- The macro `Max(x, y)`, `(x>y?x:y)`. -/
def Max (x y : Int) : Int :=
  if x > y then x else y

/-- The macro `Min(x, y)`, `(x<y?x:y)`. -/
def Min (x y : Int) : Int :=
  if x < y then x else y

/-- The macro `Clip(v, x, y)`, `(Min(Max(v, x), y))`. -/
def Clip (v x y : Int) : Int :=
  Min (Max v x) y

/-- The constant `TYPE_MOTOR_FLOAT`. -/
def TYPE_MOTOR_FLOAT : Nat := 0

/-- The constant `TYPE_MOTOR_SPEED`. -/
def TYPE_MOTOR_SPEED : Nat := 1

/-- The constant `TYPE_MOTOR_POSITION`. -/
def TYPE_MOTOR_POSITION : Nat := 2

/-- The device state `struct BrickPiStruct`; an array is a list, a `float` gain
the integer it holds (see `f32`). -/
structure BrickPiStruct where
  LED : List Int
  Address : List Nat
  Timeout : Nat
  MotorSpeed : List Int
  MotorEnable : List Nat
  MotorTarget : List Int
  MotorTargetLastError : List Int
  MotorTargetKP : List Int
  MotorTargetKD : List Int
  MotorDead : List Nat
  EncoderOffset : List Int
  Encoder : List Int
  Sensor : List Int
  SensorArray : List (List Int)
  SensorType : List Nat
  SensorSettings : List (List Nat)
  SensorI2CDevices : List Nat
  SensorI2CSpeed : List Nat
  SensorI2CAddr : List (List Nat)
  SensorI2CWrite : List (List Nat)
  SensorI2CRead : List (List Nat)
  SensorI2COut : List (List (List Nat))
  SensorI2CIn : List (List (List Nat))

/-- The global `BrickPi` as the C runtime initialises it: all zero. -/
def BrickPi_zero : BrickPiStruct where
  LED := List.replicate 2 0
  Address := List.replicate 2 0
  Timeout := 0
  MotorSpeed := List.replicate 4 0
  MotorEnable := List.replicate 4 0
  MotorTarget := List.replicate 4 0
  MotorTargetLastError := List.replicate 4 0
  MotorTargetKP := List.replicate 4 0
  MotorTargetKD := List.replicate 4 0
  MotorDead := List.replicate 4 0
  EncoderOffset := List.replicate 4 0
  Encoder := List.replicate 4 0
  Sensor := List.replicate 4 0
  SensorArray := List.replicate 4 (List.replicate 4 0)
  SensorType := List.replicate 4 0
  SensorSettings := List.replicate 4 (List.replicate 8 0)
  SensorI2CDevices := List.replicate 4 0
  SensorI2CSpeed := List.replicate 4 0
  SensorI2CAddr := List.replicate 4 (List.replicate 8 0)
  SensorI2CWrite := List.replicate 4 (List.replicate 8 0)
  SensorI2CRead := List.replicate 4 (List.replicate 8 0)
  SensorI2COut := List.replicate 4 (List.replicate 8 (List.replicate 16 0))
  SensorI2CIn := List.replicate 4 (List.replicate 8 (List.replicate 16 0))

/-- One round of the encoder-offset loop of `BrickPiUpdateValues` (the body
of the first `while(ii < 2)`), for the port `port`.  The `|=` of the direction
bit acts on the 32-bit pattern of `Temp_Value`, which is what `AddBits` receives. -/
def BrickPiUpdateValues.encoderOffsetPort (B : BrickPiStruct) (port : Nat) (g : Globals) :
    Option Globals :=
  if B.EncoderOffset.getD port 0 ≠ 0 then do
    let Temp_Value := B.EncoderOffset.getD port 0
    let g ← AddBits 1 0 1 1 g
    let Temp_ENC_DIR : Nat := if Temp_Value < 0 then 1 else 0
    let Temp_Value := if Temp_Value < 0 then toLong (Temp_Value * (-1)) else Temp_Value
    let Temp_BitsNeeded ← BitsNeeded (toULong Temp_Value)
    let g ← AddBits 1 0 5 Temp_BitsNeeded g
    let Temp_BitsNeeded := (Temp_BitsNeeded + 1) % 256
    let Temp_Value := toLong (Temp_Value * 2)
    AddBits 1 0 Temp_BitsNeeded (toULong Temp_Value ||| Temp_ENC_DIR) g
  else AddBits 1 0 1 0 g

/-- The speed selection in one round of the motor loop of `BrickPiUpdateValues`:
the commanded speed of a `TYPE_MOTOR_SPEED` port, the regulator output of a
`TYPE_MOTOR_POSITION` port (which also stores the position error), and for any
other mode the value the local `speed` still holds. -/
def BrickPiUpdateValues.motorSpeed (B : BrickPiStruct) (port : Nat) (speed : Int) :
    BrickPiStruct × Int :=
  if B.MotorEnable.getD port 0 = TYPE_MOTOR_SPEED then (B, B.MotorSpeed.getD port 0)
  else if B.MotorEnable.getD port 0 = TYPE_MOTOR_POSITION then
    let error := toLong (B.MotorTarget.getD port 0 - B.Encoder.getD port 0)
    let speed_f := f32 (f32 (f32 error * B.MotorTargetKP.getD port 0) +
      f32 (f32 (toLong (error - B.MotorTargetLastError.getD port 0)) *
        B.MotorTargetKD.getD port 0))
    let B := { B with MotorTargetLastError := B.MotorTargetLastError.set port error }
    let Dead : Int := B.MotorDead.getD port 0
    let speed_f := if speed_f < Dead ∧ speed_f > -Dead then 0 else speed_f
    let speed_f :=
      if speed_f > 0 then f32 (speed_f + Dead)
      else if speed_f < 0 then f32 (speed_f - Dead)
      else speed_f
    (B, Clip speed_f (-255) 255)
  else (B, speed)

/-- The 10-bit motor word built from `speed` in the motor loop: direction bit,
magnitude capped at 255, enable bit; with it the value `speed` is left at. -/
def BrickPiUpdateValues.motorWord (speed : Int) : Nat × Int :=
  let dir : Nat := if speed < 0 then 1 else 0
  let speed := if speed < 0 then toLong (speed * (-1)) else speed
  let speed := if speed > 255 then 255 else speed
  ((((toULong speed &&& 0xFF) <<< 2) ||| (dir <<< 1) ||| 0x01) &&& 0x3FF, speed)

/-- One round of the motor loop of `BrickPiUpdateValues` (the body of the second
`while(ii < 2)`), for the port `port`; `speed` is the local variable declared
before the loop. -/
def BrickPiUpdateValues.motorPort (B : BrickPiStruct) (port : Nat) (speed : Int)
    (g : Globals) : Option (BrickPiStruct × Int × Globals) :=
  if B.MotorEnable.getD port 0 = TYPE_MOTOR_FLOAT then do
    let g ← AddBits 1 0 10 0 g
    some (B, speed, g)
  else do
    let (B, speed) := BrickPiUpdateValues.motorSpeed B port speed
    let (word, speed) := BrickPiUpdateValues.motorWord speed
    let g ← AddBits 1 0 10 word g
    some (B, speed, g)

/-! ## The transport, and the exchanges built on it -/

/-- What a call of `BrickPiRx` finds on the serial line: nothing before the
deadline (`return -2`), a failing `ioctl` or `read` (`return -1`), or the bytes
`read` delivers into `rx_buffer`. -/
inductive RxEvent where
  | timeout : RxEvent
  | ioError : RxEvent
  | bytes (rx_buffer : List Nat) : RxEvent

/-- The reply oracle that stands for the peers: the event each call of
`BrickPiRx` finds, the call being named by the counters of the loops around it
(for `BrickPiUpdateValues` the link `i` and the attempt `Retried`, for
`BrickPiEmergencyStop` the round `i` and the link `ii`, and so on). -/
abbrev Oracle := List Nat → RxEvent

/-- The mutable globals of the driver, with the record `sent` of what was
handed to `write`: every frame with the `BaudRate` in force. -/
structure World where
  BrickPi : BrickPiStruct
  g : Globals
  BytesReceived : Nat
  Retried : Nat
  BaudRate : Nat
  sent : List (Nat × List Nat)

/-- The constant `MSG_TYPE_VALUES`. -/
def MSG_TYPE_VALUES : Nat := 3

/-- The constant `MSG_TYPE_E_STOP`. -/
def MSG_TYPE_E_STOP : Nat := 4

/-- The constant `MSG_TYPE_TIMEOUT_SETTINGS`. -/
def MSG_TYPE_TIMEOUT_SETTINGS : Nat := 5

/-- The constant `MSG_TYPE_BAUD_SETTINGS`. -/
def MSG_TYPE_BAUD_SETTINGS : Nat := 6

/-- The constant `TYPE_SENSOR_TOUCH`. -/
def TYPE_SENSOR_TOUCH : Nat := 32

/-- The constant `TYPE_SENSOR_ULTRASONIC_CONT`. -/
def TYPE_SENSOR_ULTRASONIC_CONT : Nat := 33

/-- The constant `TYPE_SENSOR_ULTRASONIC_SS`. -/
def TYPE_SENSOR_ULTRASONIC_SS : Nat := 34

/-- The constant `TYPE_SENSOR_COLOR_FULL`. -/
def TYPE_SENSOR_COLOR_FULL : Nat := 36

/-- The constant `TYPE_SENSOR_I2C`. -/
def TYPE_SENSOR_I2C : Nat := 41

/-- The constant `TYPE_SENSOR_I2C_9V`. -/
def TYPE_SENSOR_I2C_9V : Nat := 42

/-- The constant `BIT_I2C_SAME`. -/
def BIT_I2C_SAME : Nat := 2

/-- The constant `INDEX_RED`. -/
def INDEX_RED : Nat := 0

/-- The constant `INDEX_GREEN`. -/
def INDEX_GREEN : Nat := 1

/-- The constant `INDEX_BLUE`. -/
def INDEX_BLUE : Nat := 2

/-- The constant `INDEX_BLANK`. -/
def INDEX_BLANK : Nat := 3

/-- The constant `BAUD_DEFAULT`. -/
def BAUD_DEFAULT : Nat := 9600

/-- The constant `BAUD_IDEAL` of the configured host (`HOST == BBB`). -/
def BAUD_IDEAL : Nat := 115200

/-- The table `BAUD_RATES`. -/
def BAUD_RATES : List Nat :=
  [2400, 4800, 9600, 19200, 38400, 57600, 115200, 230400, 460800, 500000, 921600, 1000000,
    1500000, 2000000, 3000000]

/-- The element `a[i][j]` of a two-dimensional array, `none` outside it. -/
def readAt2 (a : List (List Nat)) (i j : Nat) : Option Nat :=
  match a.get? i with
  | none => none
  | some row => row.get? j

/-- The element `a[i][j][k]` of a three-dimensional array, `none` outside it. -/
def readAt3 (a : List (List (List Nat))) (i j k : Nat) : Option Nat :=
  match a.get? i with
  | none => none
  | some plane => readAt2 plane j k

/-- The assignment `a[i][j] = v` on a two-dimensional array, `none` outside it. -/
def writeAt2 (a : List (List Int)) (i j : Nat) (v : Int) : Option (List (List Int)) :=
  if i < a.length ∧ j < (a.getD i []).length then some (a.set i ((a.getD i []).set j v))
  else none

/-- The assignment `a[i][j][k] = v` on a three-dimensional array, `none` outside it. -/
def writeAt3 (a : List (List (List Nat))) (i j k v : Nat) : Option (List (List (List Nat))) :=
  if i < a.length ∧ j < (a.getD i []).length ∧ k < ((a.getD i []).getD j []).length then
    some (a.set i ((a.getD i []).set j (((a.getD i []).getD j []).set k v)))
  else none

/-- A call `BrickPiTx(dest, ByteCount, Array)`: the frame is handed to `write`, and
`BrickPiSetLed` leaves `BrickPi.LED[LED_1]` at 0.  The pause after `write` is
`(1000000 * 10) / BaudRate` byte times: with `BaudRate` 0 the division has no
value. -/
def BrickPiTx.send (dest ByteCount : Nat) (w : World) : Option World :=
  match BrickPiTx dest ByteCount w.g.Array with
  | none => none
  | some frame =>
    if w.BaudRate = 0 then none
    else
      some { w with
        sent := w.sent ++ [(w.BaudRate, frame)]
        BrickPi := { w.BrickPi with LED := w.BrickPi.LED.set 0 0 } }

/-- A call `BrickPiRx(&BytesReceived, Array, timeout)` that finds the event `ev`:
the return code and the globals as the call leaves them.  Once bytes are there
the function waits `((1000000 * 10) / BaudRate) * 2` for more: with `BaudRate` 0
the division has no value. -/
def BrickPiRx.receive (ev : RxEvent) (w : World) : Option (Int × World) :=
  match ev with
  | RxEvent.timeout => some (-2, w)
  | RxEvent.ioError => some (-1, w)
  | RxEvent.bytes rx_buffer =>
    if w.BaudRate = 0 then none
    else
      match BrickPiRx.validate rx_buffer w.g.Array w.BytesReceived with
      | none => none
      | some (code, InArray, InBytes) =>
        some (code, { w with g := ⟨InArray, w.g.Bit_Offset⟩, BytesReceived := InBytes })

/-- The assignment `Array[index] = value` on the scratch buffer. -/
def World.setArray (w : World) (index value : Nat) : World :=
  { w with g := ⟨w.g.Array.set index value, w.g.Bit_Offset⟩ }

/-- The inner `while(ii < 2)` of one round of `BrickPiEmergencyStop`: `true` when
`return 0` is reached, `false` when the round ends at `NEXT_TRY`. -/
def BrickPiEmergencyStop.links (rx : Oracle) (i : Nat) : Nat → Nat → World → Option (Bool × World)
  | 0, _, _ => none
  | fuel + 1, ii, w =>
    if ii < 2 then
      match BrickPiTx.send (w.BrickPi.Address.getD ii 0) 1 (w.setArray 0 MSG_TYPE_E_STOP) with
      | none => none
      | some w =>
        match BrickPiRx.receive (rx [i, ii]) w with
        | none => none
        | some (result, w) =>
          if result ≠ 0 then some (false, w)
          else if ¬ (w.BytesReceived = 1 ∧ w.g.Array.getD 0 0 = MSG_TYPE_E_STOP) then
            some (false, w)
          else if ii = 1 then some (true, w)
          else BrickPiEmergencyStop.links rx i fuel ((ii + 1) % 256) w
    else some (false, w)

/-- The first `while(i < 3)` of `BrickPiEmergencyStop`: `true` when `return 0` is
reached in one of the rounds. -/
def BrickPiEmergencyStop.rounds (rx : Oracle) : Nat → Nat → World → Option (Bool × World)
  | 0, _, _ => none
  | fuel + 1, i, w =>
    if i < 3 then
      match BrickPiEmergencyStop.links rx i 3 0 w with
      | none => none
      | some (true, w) => some (true, w)
      | some (false, w) => BrickPiEmergencyStop.rounds rx fuel ((i + 1) % 256) w
    else some (false, w)

/-- The second `while(i < 3)` of `BrickPiEmergencyStop`: the broadcasts. -/
def BrickPiEmergencyStop.broadcast : Nat → Nat → World → Option World
  | 0, _, _ => none
  | fuel + 1, i, w =>
    if i < 3 then
      match BrickPiTx.send 0 1 (w.setArray 0 MSG_TYPE_E_STOP) with
      | none => none
      | some w => BrickPiEmergencyStop.broadcast fuel ((i + 1) % 256) w
    else some w

/-- The function `BrickPiEmergencyStop`. -/
def BrickPiEmergencyStop (rx : Oracle) (w : World) : Option (Int × World) :=
  match BrickPiEmergencyStop.rounds rx 4 0 w with
  | none => none
  | some (true, w) => some (0, w)
  | some (false, w) =>
    match BrickPiEmergencyStop.broadcast 4 0 w with
    | none => none
    | some w => some (-1, w)

/-- The function `BrickPiSetTimeout` (its `while(i < 2)` with the two early
`return -1`), the call of `BrickPiRx` for link `i` finding `rx [i]`. -/
def BrickPiSetTimeout (rx : Oracle) : Nat → Nat → World → Option (Int × World)
  | 0, _, _ => none
  | fuel + 1, i, w =>
    if i < 2 then
      let Timeout := w.BrickPi.Timeout % 2 ^ 32
      let w := w.setArray 0 MSG_TYPE_TIMEOUT_SETTINGS
      let w := w.setArray 1 (Timeout &&& 0xFF)
      let w := w.setArray 2 ((Timeout / 256) &&& 0xFF)
      let w := w.setArray 3 ((Timeout / 65536) &&& 0xFF)
      let w := w.setArray 4 ((Timeout / 16777216) &&& 0xFF)
      match BrickPiTx.send (w.BrickPi.Address.getD i 0) 5 w with
      | none => none
      | some w =>
        match BrickPiRx.receive (rx [i]) w with
        | none => none
        | some (result, w) =>
          if result ≠ 0 then some (-1, w)
          else if ¬ (w.BytesReceived = 1 ∧ w.g.Array.getD 0 0 = MSG_TYPE_TIMEOUT_SETTINGS) then
            some (-1, w)
          else BrickPiSetTimeout rx fuel ((i + 1) % 256) w
    else some (0, w)

/-- The function `BaudCompute`; `termios` gives the speed constants `B50` ...
`B3000000` of `<termios.h>`, which are not part of the driver. -/
def BaudCompute (termios : Nat → Int) (baud : Nat) : Int :=
  if baud ∈ [50, 75, 110, 134, 150, 200, 300, 600, 1200, 1800, 2400, 4800, 9600, 19200,
      38400, 57600, 115200, 230400, 460800, 500000, 921600, 1000000, 1500000, 2000000,
      3000000] then termios baud
  else -1

/-- The function `UART_Configure`, as far as the driver's own state goes: the
global `BaudRate` follows the line speed unless `BaudCompute` knows no constant. -/
def UART_Configure (termios : Nat → Int) (baud : Nat) (w : World) : Int × World :=
  if BaudCompute termios baud = -1 then (-1, w)
  else (0, { w with BaudRate := baud })

/-- The `while(i < 2)` of `BrickPiSetBaud`, the call of `BrickPiRx` for link `i`
finding `rx [0, i]`; `result` is the `unsigned char` failure mask. -/
def BrickPiSetBaud.links (termios : Nat → Int) (rx : Oracle) (baud_old baud_new : Nat) :
    Nat → Nat → Nat → World → Option (Nat × World)
  | 0, _, _, _ => none
  | fuel + 1, i, result, w =>
    if i < 2 then
      let w := w.setArray 0 MSG_TYPE_BAUD_SETTINGS
      let w := w.setArray 1 (baud_new &&& 0xFF)
      let w := w.setArray 2 ((baud_new / 256) &&& 0xFF)
      let w := w.setArray 3 ((baud_new / 65536) &&& 0xFF)
      let w := (UART_Configure termios baud_old w).2
      match BrickPiTx.send (w.BrickPi.Address.getD i 0) 4 w with
      | none => none
      | some w =>
        let w := (UART_Configure termios baud_new w).2
        match BrickPiRx.receive (rx [0, i]) w with
        | none => none
        | some (code, w) =>
          let result := if code ≠ 0 then (result ||| (0x01 <<< i)) % 256 else result
          let result :=
            if ¬ (w.BytesReceived = 1 ∧ w.g.Array.getD 0 0 = MSG_TYPE_BAUD_SETTINGS) then
              (result ||| (0x01 <<< i)) % 256
            else result
          BrickPiSetBaud.links termios rx baud_old baud_new fuel (i + 1) result w
    else some (result, w)

/-- The function `BrickPiSetBaud`; the calls of `BrickPiRx` inside the nested
`BrickPiSetTimeout` find `rx (1 :: key)`. -/
def BrickPiSetBaud (termios : Nat → Int) (rx : Oracle) (baud_old baud_new : Nat) (w : World) :
    Option (Int × World) :=
  match BrickPiSetBaud.links termios rx (baud_old % 2 ^ 32) (baud_new % 2 ^ 32) 3 0 0 w with
  | none => none
  | some (result, w) =>
    if result ≠ 0 then
      match BrickPiSetTimeout (fun key => rx (1 :: key)) 3 0 w with
      | none => none
      | some (t, w) => if t = -1 then some (result, w) else some (0, w)
    else some (0, w)

/-- The function `BrickPiForceBaud` (its `while(i < 15)`); the call of
`BrickPiSetBaud` for catalog entry `i` works with the oracle `rx (i :: key)`. -/
def BrickPiForceBaud (termios : Nat → Int) (rx : Oracle) (baud : Nat) :
    Nat → Nat → World → Option (Int × World)
  | 0, _, _ => none
  | fuel + 1, i, w =>
    if i < 15 then
      if BaudCompute termios (BAUD_RATES.getD i 0) ≠ -1 then
        match BrickPiSetBaud termios (fun key => rx (i :: key)) (BAUD_RATES.getD i 0) baud w with
        | none => none
        | some (r, w) =>
          if r = 0 then some (0, w)
          else BrickPiForceBaud termios rx baud fuel (i + 1) w
      else BrickPiForceBaud termios rx baud fuel (i + 1) w
    else some (-1, w)

/-- The baud bootstrap of `BrickPiSetup` (its `while(i < 5)`): 0 when the loop is
left by a `break`, -1 when `return -1` is reached.  The step `s` of round `i`
works with the oracle `rx (i :: s :: key)`. -/
def BrickPiSetup.bootstrap (termios : Nat → Int) (rx : Oracle) :
    Nat → Nat → World → Option (Int × World)
  | 0, _, _ => none
  | fuel + 1, i, w =>
    if i < 5 then
      match BrickPiSetBaud termios (fun key => rx (i :: 0 :: key)) BAUD_IDEAL BAUD_IDEAL w with
      | none => none
      | some (r, w) =>
        if r = 0 then some (0, w)
        else
          match BrickPiSetBaud termios (fun key => rx (i :: 1 :: key)) BAUD_DEFAULT BAUD_IDEAL w
          with
          | none => none
          | some (r, w) =>
            if r = 0 then some (0, w)
            else
              match BrickPiSetBaud termios (fun key => rx (i :: 2 :: key)) BAUD_IDEAL BAUD_IDEAL
                w with
              | none => none
              | some (r, w) =>
                if r = 0 then some (0, w)
                else
                  match BrickPiForceBaud termios (fun key => rx (i :: 3 :: key)) BAUD_IDEAL 16 0
                    w with
                  | none => none
                  | some (r, w) =>
                    if r = 0 then some (0, w)
                    else if i = 4 then some (-1, w)
                    else BrickPiSetup.bootstrap termios rx fuel ((i + 1) % 256) w
    else some (0, w)

/-! ## `BrickPiUpdateValues`: the exchange with retries -/

/-- The loop `while(out_byte < BrickPi.SensorI2CWrite[port][device])` that appends
the literal write bytes of one I2C device (`Write` is that length; `byte_offset`
is 1 in `BrickPiUpdateValues` and 3 in `BrickPiSetupSensors`). -/
def I2COutBytes (B : BrickPiStruct) (byte_offset port device Write : Nat) :
    Nat → Nat → Globals → Option Globals
  | 0, _, _ => none
  | fuel + 1, out_byte, g =>
    if out_byte < Write then
      match readAt3 B.SensorI2COut port device out_byte with
      | none => none
      | some b =>
        match AddBits byte_offset 0 8 b g with
        | none => none
        | some g => I2COutBytes B byte_offset port device Write fuel ((out_byte + 1) % 256) g
    else some g

/-- The loop `while(device < BrickPi.SensorI2CDevices[port])` of the outbound
ValuesExchange: the devices not flagged `BIT_I2C_SAME` append their write
length, read length and write bytes. -/
def BrickPiUpdateValues.i2cOutDevices (B : BrickPiStruct) (port : Nat) :
    Nat → Nat → Globals → Option Globals
  | 0, _, _ => none
  | fuel + 1, device, g =>
    if device < B.SensorI2CDevices.getD port 0 then
      match readAt2 B.SensorSettings port device with
      | none => none
      | some settings =>
        if settings &&& BIT_I2C_SAME = 0 then
          match readAt2 B.SensorI2CWrite port device, readAt2 B.SensorI2CRead port device with
          | some Write, some Read =>
            match AddBits 1 0 4 Write g with
            | none => none
            | some g =>
              match AddBits 1 0 4 Read g with
              | none => none
              | some g =>
                match I2COutBytes B 1 port device Write 256 0 g with
                | none => none
                | some g =>
                  BrickPiUpdateValues.i2cOutDevices B port fuel ((device + 1) % 256) g
          | _, _ => none
        else BrickPiUpdateValues.i2cOutDevices B port fuel ((device + 1) % 256) g
    else some g

/-- One round of the third `while(ii < 2)` of `BrickPiUpdateValues`: the I2C
block of the port `port`. -/
def BrickPiUpdateValues.i2cOutPort (B : BrickPiStruct) (port : Nat) (g : Globals) :
    Option Globals :=
  if B.SensorType.getD port 0 = TYPE_SENSOR_I2C ∨
      B.SensorType.getD port 0 = TYPE_SENSOR_I2C_9V then
    BrickPiUpdateValues.i2cOutDevices B port 256 0 g
  else some g

/-- The building of the outbound ValuesExchange for link `i`: the buffer is
zeroed, the kind byte set, the cursor reset, and the three loops over the two
ports of the link append their fields.  `speed` is what the uninitialised local
`int speed` happens to hold. -/
def BrickPiUpdateValues.encode (i : Nat) (speed : Int) (w : World) : Option World := do
  let g : Globals := ⟨(List.replicate 256 0).set 0 MSG_TYPE_VALUES, 0⟩
  let g ← BrickPiUpdateValues.encoderOffsetPort w.BrickPi ((i * 2 + 0) % 256) g
  let g ← BrickPiUpdateValues.encoderOffsetPort w.BrickPi ((i * 2 + 1) % 256) g
  let (B, speed, g) ← BrickPiUpdateValues.motorPort w.BrickPi ((i * 2 + 0) % 256) speed g
  let (B, _, g) ← BrickPiUpdateValues.motorPort B ((i * 2 + 1) % 256) speed g
  let g ← BrickPiUpdateValues.i2cOutPort B ((i * 2 + 0) % 256) g
  let g ← BrickPiUpdateValues.i2cOutPort B ((i * 2 + 1) % 256) g
  some { w with BrickPi := B, g := g }

/-- The decoding of one encoder value of the inbound ValuesExchange: a field of
`bits` bits, odd values being negative. -/
def BrickPiUpdateValues.decodeEncoder (B : BrickPiStruct) (port bits : Nat) (g : Globals) :
    Option (BrickPiStruct × Globals) := do
  let (Temp_EncoderVal, g) ← GetBits 1 0 bits g
  let v : Int :=
    if Temp_EncoderVal &&& 0x01 ≠ 0 then toLong (((Temp_EncoderVal / 2 : Nat) : Int) * (-1))
    else toLong ((Temp_EncoderVal / 2 : Nat) : Int)
  some ({ B with Encoder := B.Encoder.set port v }, g)

/-- The loop `while(in_byte < BrickPi.SensorI2CRead[port][device])` of the inbound
ValuesExchange (`Read` is that length). -/
def BrickPiUpdateValues.i2cInBytes (port device Read : Nat) :
    Nat → Nat → BrickPiStruct → Globals → Option (BrickPiStruct × Globals)
  | 0, _, _, _ => none
  | fuel + 1, in_byte, B, g =>
    if in_byte < Read then
      match GetBits 1 0 8 g with
      | none => none
      | some (v, g) =>
        match writeAt3 B.SensorI2CIn port device in_byte (v % 256) with
        | none => none
        | some In =>
          BrickPiUpdateValues.i2cInBytes port device Read fuel ((in_byte + 1) % 256)
            { B with SensorI2CIn := In } g
    else some (B, g)

/-- The loop `while(device < BrickPi.SensorI2CDevices[port])` of the inbound
ValuesExchange: a device whose bit is set in `BrickPi.Sensor[port]` gets its read
bytes.  The shift `0x01 << device` of an `int` is defined for `device < 31`. -/
def BrickPiUpdateValues.i2cInDevices (port : Nat) :
    Nat → Nat → BrickPiStruct → Globals → Option (BrickPiStruct × Globals)
  | 0, _, _, _ => none
  | fuel + 1, device, B, g =>
    if device < B.SensorI2CDevices.getD port 0 then
      if 31 ≤ device then none
      else if toULong (B.Sensor.getD port 0) &&& (0x01 <<< device) ≠ 0 then
        match readAt2 B.SensorI2CRead port device with
        | none => none
        | some Read =>
          match BrickPiUpdateValues.i2cInBytes port device Read 256 0 B g with
          | none => none
          | some (B, g) => BrickPiUpdateValues.i2cInDevices port fuel ((device + 1) % 256) B g
      else BrickPiUpdateValues.i2cInDevices port fuel ((device + 1) % 256) B g
    else some (B, g)

/-- The `switch(BrickPi.SensorType[port])` of the inbound ValuesExchange. -/
def BrickPiUpdateValues.decodeSensor (B : BrickPiStruct) (port : Nat) (g : Globals) :
    Option (BrickPiStruct × Globals) :=
  if B.SensorType.getD port 0 = TYPE_SENSOR_TOUCH then do
    let (v, g) ← GetBits 1 0 1 g
    some ({ B with Sensor := B.Sensor.set port (toLong v) }, g)
  else if B.SensorType.getD port 0 = TYPE_SENSOR_ULTRASONIC_CONT ∨
      B.SensorType.getD port 0 = TYPE_SENSOR_ULTRASONIC_SS then do
    let (v, g) ← GetBits 1 0 8 g
    some ({ B with Sensor := B.Sensor.set port (toLong v) }, g)
  else if B.SensorType.getD port 0 = TYPE_SENSOR_COLOR_FULL then do
    let (v, g) ← GetBits 1 0 3 g
    let (blank, g) ← GetBits 1 0 10 g
    let (red, g) ← GetBits 1 0 10 g
    let (green, g) ← GetBits 1 0 10 g
    let (blue, g) ← GetBits 1 0 10 g
    let a ← writeAt2 B.SensorArray port INDEX_BLANK (toLong blank)
    let a ← writeAt2 a port INDEX_RED (toLong red)
    let a ← writeAt2 a port INDEX_GREEN (toLong green)
    let a ← writeAt2 a port INDEX_BLUE (toLong blue)
    some ({ B with Sensor := B.Sensor.set port (toLong v), SensorArray := a }, g)
  else if B.SensorType.getD port 0 = TYPE_SENSOR_I2C ∨
      B.SensorType.getD port 0 = TYPE_SENSOR_I2C_9V then do
    let (v, g) ← GetBits 1 0 (B.SensorI2CDevices.getD port 0) g
    BrickPiUpdateValues.i2cInDevices port 256 0 { B with Sensor := B.Sensor.set port (toLong v) } g
  else do
    let (v, g) ← GetBits 1 0 10 g
    some ({ B with Sensor := B.Sensor.set port (toLong v) }, g)

/-- The decoding of an accepted inbound ValuesExchange for link `i` (from the
second `Bit_Offset = 0` to the end of the link's round). -/
def BrickPiUpdateValues.decode (i : Nat) (w : World) : Option World := do
  let g : Globals := ⟨w.g.Array, 0⟩
  let (Temp_BitsUsed0, g) ← GetBits 1 0 5 g
  let (Temp_BitsUsed1, g) ← GetBits 1 0 5 g
  let (B, g) ← BrickPiUpdateValues.decodeEncoder w.BrickPi ((0 + i * 2) % 256)
    (Temp_BitsUsed0 % 256) g
  let (B, g) ← BrickPiUpdateValues.decodeEncoder B ((1 + i * 2) % 256) (Temp_BitsUsed1 % 256) g
  let (B, g) ← BrickPiUpdateValues.decodeSensor B ((0 + i * 2) % 256) g
  let (B, g) ← BrickPiUpdateValues.decodeSensor B ((1 + i * 2) % 256) g
  some { w with BrickPi := B, g := g }

/-- The clearing of the pending encoder offsets of link `i`, which
`BrickPiUpdateValues` does after every receive that did not return -2. -/
def BrickPiUpdateValues.clearOffsets (i : Nat) (result : Int) (w : World) : World :=
  if result ≠ -2 then
    { w with BrickPi := { w.BrickPi with
        EncoderOffset := (w.BrickPi.EncoderOffset.set (i * 2 + 0) 0).set (i * 2 + 1) 0 } }
  else w

/-- One attempt of `BrickPiUpdateValues` for link `i`, from the label
`__RETRY_COMMUNICATION__` to the test of the reply: the message is built and
sent, the reply awaited, the pending offsets cleared unless the receive returned
-2.  The result is the return code of `BrickPiRx`. -/
def BrickPiUpdateValues.attempt (ev : RxEvent) (i : Nat) (speed : Int) (w : World) :
    Option (Int × World) := do
  let w ← BrickPiUpdateValues.encode i speed w
  let UART_TX_BYTES := ((w.g.Bit_Offset + 7) / 8 + 1) % 256
  let w ← BrickPiTx.send (w.BrickPi.Address.getD i 0) UART_TX_BYTES w
  let (result, w) ← BrickPiRx.receive ev w
  some (result, BrickPiUpdateValues.clearOffsets i result w)

/-- The attempts of `BrickPiUpdateValues` for link `i`, from the label
`__RETRY_COMMUNICATION__` on: a rejected reply leads back to the label while
`Retried < 4` and to `return -1` otherwise; an accepted one is decoded.  The
receive of attempt `Retried` finds `rx [i, Retried]`. -/
def BrickPiUpdateValues.retry (rx : Oracle) (i : Nat) (speed : Int) :
    Nat → World → Option (Int × World)
  | 0, _ => none
  | fuel + 1, w =>
    match BrickPiUpdateValues.attempt (rx [i, w.Retried]) i speed w with
    | none => none
    | some (result, w) =>
      if result ≠ 0 ∨ w.g.Array.getD 0 0 ≠ MSG_TYPE_VALUES then
        if w.Retried < 4 then
          BrickPiUpdateValues.retry rx i speed fuel { w with Retried := (w.Retried + 1) % 256 }
        else some (-1, w)
      else
        match BrickPiUpdateValues.decode i w with
        | none => none
        | some w => some (0, w)

/-- The loop `while(i < 2)` over the links of `BrickPiUpdateValues`. -/
def BrickPiUpdateValues.links (rx : Oracle) (speed : Int) : Nat → Nat → World → Option (Int × World)
  | 0, _, _ => none
  | fuel + 1, i, w =>
    if i < 2 then
      match BrickPiUpdateValues.retry rx i speed 8 { w with Retried := 0 } with
      | none => none
      | some (r, w) =>
        if r ≠ 0 then some (-1, w)
        else BrickPiUpdateValues.links rx speed fuel ((i + 1) % 256) w
    else some (0, w)

/-- The function `BrickPiUpdateValues` (the LED update at its start only drives
the indicator outputs). -/
def BrickPiUpdateValues (rx : Oracle) (speed : Int) (w : World) : Option (Int × World) :=
  BrickPiUpdateValues.links rx speed 3 0 w

/-- A reply that the test `if(result || (Array[BYTE_MSG_TYPE] != MSG_TYPE_VALUES))`
lets pass: the bytes pass the validation of `BrickPiRx` and the first payload
byte is 3 (a frame without payload leaves the 3 of the outbound message there). -/
def RxEvent.acceptedValues : RxEvent → Prop
  | RxEvent.bytes rx_buffer =>
    2 ≤ rx_buffer.length ∧ rx_buffer.length ≤ 255 ∧
      rx_buffer.getD 1 0 + 2 ≤ rx_buffer.length ∧
      (rx_buffer.getD 1 0 + (rx_buffer.drop 2).sum) % 256 = rx_buffer.getD 0 0 ∧
      (2 < rx_buffer.length → rx_buffer.getD 2 0 = MSG_TYPE_VALUES)
  | _ => False

/-- The return code of `BrickPiRx` for an event, in closed form:
-2 for a timeout, -1 for a transport error, -4 for fewer than 2 bytes, -6 for
fewer bytes than declared, -5 for a wrong checksum, 0 otherwise. -/
def RxEvent.code : RxEvent → Int
  | RxEvent.timeout => -2
  | RxEvent.ioError => -1
  | RxEvent.bytes rx_buffer =>
    if rx_buffer.length < 2 then -4
    else if rx_buffer.length < rx_buffer.getD 1 0 + 2 then -6
    else if (rx_buffer.getD 1 0 + (rx_buffer.drop 2).sum) % 256 ≠ rx_buffer.getD 0 0 then -5
    else 0

/-- An acknowledgement of kind `kind`: a frame that passes the validation of
`BrickPiRx` with one payload byte, the byte `kind`. -/
def RxEvent.acknowledges (kind : Nat) : RxEvent → Prop
  | RxEvent.bytes rx_buffer =>
    rx_buffer.length = 3 ∧ rx_buffer.getD 1 0 ≤ 1 ∧
      (rx_buffer.getD 1 0 + rx_buffer.getD 2 0) % 256 = rx_buffer.getD 0 0 ∧
      rx_buffer.getD 2 0 = kind
  | _ => False

/-- An event whose bytes are bytes, at most 255 of them (the count is an
`unsigned char`). -/
def RxEvent.wellFormed : RxEvent → Prop
  | RxEvent.bytes rx_buffer => rx_buffer.length ≤ 255 ∧ ∀ b ∈ rx_buffer, b < 256
  | _ => True

/-- The frame `BrickPiTx` writes for the address `dest` and a payload, in closed
form: address, checksum, length, payload. -/
def wireFrame (dest : Nat) (payload : List Nat) : List Nat :=
  (dest % 256) :: ((dest % 256 + payload.length + payload.sum) % 256) :: payload.length ::
    payload

/-- The payload of a TimeoutConfig message: the kind byte and the timeout,
little-endian on 32 bits. -/
def timeoutPayload (Timeout : Nat) : List Nat :=
  [MSG_TYPE_TIMEOUT_SETTINGS, Timeout &&& 0xFF, (Timeout / 256) &&& 0xFF,
    (Timeout / 65536) &&& 0xFF, (Timeout / 16777216) &&& 0xFF]

/-- The payload of a BaudConfig message: the kind byte and the baud rate,
little-endian on 24 bits. -/
def baudPayload (baud : Nat) : List Nat :=
  [MSG_TYPE_BAUD_SETTINGS, baud &&& 0xFF, (baud / 256) &&& 0xFF, (baud / 65536) &&& 0xFF]

/-- The calls of `BrickPiSetBaud` of bootstrap round `r`, by the words of the
spec: (a) target to target, (b) default to target, (c) as (a), (d) every rate of
the catalog, in its order, to target.  An entry holds the oracle key of the
call, the rate assumed and the rate asked for. -/
def bootstrapRound (r : Nat) : List (List Nat × Nat × Nat) :=
  [([r, 0], BAUD_IDEAL, BAUD_IDEAL), ([r, 1], BAUD_DEFAULT, BAUD_IDEAL),
    ([r, 2], BAUD_IDEAL, BAUD_IDEAL)] ++
    (List.range 15).map (fun j => ([r, 3, j], BAUD_RATES.getD j 0, BAUD_IDEAL))

/-- The calls of `BrickPiSetBaud` of the five bootstrap rounds, in order. -/
def bootstrapSchedule : List (List Nat × Nat × Nat) :=
  bootstrapRound 0 ++ bootstrapRound 1 ++ bootstrapRound 2 ++ bootstrapRound 3 ++
    bootstrapRound 4

/-- Calls of `BrickPiSetBaud` tried in the order of a list, stopping at the
first that returns 0; -1 when none does. -/
def tryInOrder (termios : Nat → Int) (rx : Oracle) :
    List (List Nat × Nat × Nat) → World → Option (Int × World)
  | [], w => some (-1, w)
  | (key, baud_old, baud_new) :: rest, w =>
    match BrickPiSetBaud termios (fun k => rx (key ++ k)) baud_old baud_new w with
    | none => none
    | some (r, w) => if r = 0 then some (0, w) else tryInOrder termios rx rest w

/-- The peers let the call of `BrickPiSetBaud` with oracle key `key` succeed:
both acknowledge the BaudConfig, or both acknowledge the TimeoutConfig that
follows a failed BaudConfig. -/
def baudAccepted (rx : Oracle) (key : List Nat) : Prop :=
  ((rx (key ++ [0, 0])).acknowledges 6 ∧ (rx (key ++ [0, 1])).acknowledges 6) ∨
    ((rx (key ++ [1, 0])).acknowledges 5 ∧ (rx (key ++ [1, 1])).acknowledges 5)

/-- The arrays of the device state that the sensor part of the ValuesExchange
works on have the dimensions of the C declaration. -/
def BrickPiStruct.shaped (B : BrickPiStruct) : Prop :=
  B.Sensor.length = 4 ∧ B.SensorArray.length = 4 ∧ (∀ r ∈ B.SensorArray, r.length = 4) ∧
    B.SensorSettings.length = 4 ∧ (∀ r ∈ B.SensorSettings, r.length = 8) ∧
    B.SensorI2CWrite.length = 4 ∧ (∀ r ∈ B.SensorI2CWrite, r.length = 8) ∧
    B.SensorI2CRead.length = 4 ∧ (∀ r ∈ B.SensorI2CRead, r.length = 8) ∧
    B.SensorI2COut.length = 4 ∧
    (∀ p ∈ B.SensorI2COut, p.length = 8 ∧ ∀ r ∈ p, r.length = 16) ∧
    B.SensorI2CIn.length = 4 ∧
    (∀ p ∈ B.SensorI2CIn, p.length = 8 ∧ ∀ r ∈ p, r.length = 16)

/-- The port is of type I2C or I2C-powered. -/
def isI2C (B : BrickPiStruct) (port : Nat) : Prop :=
  B.SensorType.getD port 0 = TYPE_SENSOR_I2C ∨ B.SensorType.getD port 0 = TYPE_SENSOR_I2C_9V

/-- The bits the devices `device`, ... of an I2C port append to the outbound
ValuesExchange: 4 + 4 + 8 per write byte for a device not flagged
`BIT_I2C_SAME`. -/
def i2cOutBitsFrom (B : BrickPiStruct) (port device : Nat) : Nat :=
  (((List.range (B.SensorI2CDevices.getD port 0)).drop device).map (fun d =>
    if (B.SensorSettings.getD port []).getD d 0 &&& BIT_I2C_SAME = 0 then
      8 + 8 * (B.SensorI2CWrite.getD port []).getD d 0
    else 0)).sum

/-- The bits the I2C block of the outbound ValuesExchange appends for a port. -/
def i2cOutBits (B : BrickPiStruct) (port : Nat) : Nat :=
  if B.SensorType.getD port 0 = TYPE_SENSOR_I2C ∨
      B.SensorType.getD port 0 = TYPE_SENSOR_I2C_9V then i2cOutBitsFrom B port 0
  else 0

/-- The I2C settings of a port stay inside the arrays: at most 8 devices, at
most 16 bytes to write and to read for each. -/
def i2cPortFits (B : BrickPiStruct) (port : Nat) : Prop :=
  B.SensorI2CDevices.getD port 0 ≤ 8 ∧
    ∀ device, device < B.SensorI2CDevices.getD port 0 →
      (B.SensorI2CWrite.getD port []).getD device 0 ≤ 16 ∧
        (B.SensorI2CRead.getD port []).getD device 0 ≤ 16

/-- The outbound ValuesExchange of link `i` stays inside the arrays and inside
the 252 bytes `BrickPiTx` frames: the settings of an I2C port fit, the encoder
offsets and motor words of the two ports take at most 96 bits, the I2C blocks
the rest. -/
def outboundFits (B : BrickPiStruct) (i : Nat) : Prop :=
  i < 2 ∧ B.shaped ∧ (isI2C B (i * 2) → i2cPortFits B (i * 2)) ∧
    (isI2C B (i * 2 + 1) → i2cPortFits B (i * 2 + 1)) ∧
    96 + i2cOutBits B (i * 2) + i2cOutBits B (i * 2 + 1) ≤ 2008

/-- The bits of the read bytes that precede those of the device `device` in the
inbound ValuesExchange of an I2C port with presence bitmap `bitmap`. -/
def i2cInOffset (B : BrickPiStruct) (port bitmap device : Nat) : Nat :=
  ((List.range device).map (fun d =>
    if bitmap.testBit d then 8 * (B.SensorI2CRead.getD port []).getD d 0 else 0)).sum

/-- The most bits the decoder of the inbound ValuesExchange reads for the
sensor of a port: 43 for a full colour sensor, less for the other plain types,
the bitmap and every read byte for an I2C port. -/
def sensorInMax (B : BrickPiStruct) (port : Nat) : Nat :=
  if B.SensorType.getD port 0 = TYPE_SENSOR_I2C ∨
      B.SensorType.getD port 0 = TYPE_SENSOR_I2C_9V then
    B.SensorI2CDevices.getD port 0 +
      ((List.range (B.SensorI2CDevices.getD port 0)).map (fun d =>
        8 * (B.SensorI2CRead.getD port []).getD d 0)).sum
  else 43

/-- The inbound ValuesExchange of link `i` is decoded inside the arrays and
inside the 256-byte buffer: the two encoder fields take at most 72 bits. -/
def inboundFits (B : BrickPiStruct) (i : Nat) : Prop :=
  i < 2 ∧ B.shaped ∧ (isI2C B (i * 2) → i2cPortFits B (i * 2)) ∧
    (isI2C B (i * 2 + 1) → i2cPortFits B (i * 2 + 1)) ∧
    72 + sensorInMax B (i * 2) + sensorInMax B (i * 2 + 1) ≤ 2040

/-! ## Lists of fields -/

/-- Fields `(bits, value)` appended in order, each by a call
`AddBits(byte_offset, 0, bits, value)`. -/
def addFields (byte_offset : Nat) : List (Nat × Nat) → Globals → Option Globals
  | [], g => some g
  | (bits, value) :: fs, g =>
    match AddBits byte_offset 0 bits value g with
    | none => none
    | some g => addFields byte_offset fs g

/-- Fields of the given widths read in order, each by a call
`GetBits(byte_offset, 0, bits)`. -/
def getFields (byte_offset : Nat) : List Nat → Globals → Option (List Nat × Globals)
  | [], g => some ([], g)
  | bits :: ws, g =>
    match GetBits byte_offset 0 bits g with
    | none => none
    | some (v, g) =>
      match getFields byte_offset ws g with
      | none => none
      | some (vs, g) => some (v :: vs, g)

/-- The bits of the buffer from position `base` on are the fields `(bits, value)`
one after the other, each value reduced to its width, least significant bit
first. -/
def fieldsAt (A : List Nat) : Nat → List (Nat × Nat) → Prop
  | _, [] => True
  | base, (bits, value) :: fs =>
    readBits A base bits = value % 2 ^ bits ∧ fieldsAt A (base + bits) fs

/-- The bits a list of fields takes. -/
def fieldsWidth (fs : List (Nat × Nat)) : Nat :=
  (fs.map (fun f => f.1)).sum

/-! ## `BrickPiSetupSensors` -/

/-- The constant `MSG_TYPE_SENSOR_TYPE`. -/
def MSG_TYPE_SENSOR_TYPE : Nat := 2

/-- The constant `BYTE_SENSOR_1_TYPE`. -/
def BYTE_SENSOR_1_TYPE : Nat := 1

/-- The constant `BYTE_SENSOR_2_TYPE`. -/
def BYTE_SENSOR_2_TYPE : Nat := 2

/-- The constant `PORT_1`. -/
def PORT_1 : Nat := 0

/-- The constant `PORT_2`. -/
def PORT_2 : Nat := 1

/-- The loop `while(device < BrickPi.SensorI2CDevices[port])` of
`BrickPiSetupSensors`: every device appends its address shifted right by one and
its settings, a device flagged `BIT_I2C_SAME` also its write length, read length
and write bytes. -/
def BrickPiSetupSensors.devices (B : BrickPiStruct) (port : Nat) :
    Nat → Nat → Globals → Option Globals
  | 0, _, _ => none
  | fuel + 1, device, g =>
    if device < B.SensorI2CDevices.getD port 0 then
      match readAt2 B.SensorI2CAddr port device with
      | none => none
      | some addr =>
        match AddBits 3 0 7 (addr >>> 1) g with
        | none => none
        | some g =>
          match readAt2 B.SensorSettings port device with
          | none => none
          | some settings =>
            match AddBits 3 0 2 settings g with
            | none => none
            | some g =>
              if settings &&& BIT_I2C_SAME ≠ 0 then
                match readAt2 B.SensorI2CWrite port device,
                    readAt2 B.SensorI2CRead port device with
                | some Write, some Read =>
                  match AddBits 3 0 4 Write g with
                  | none => none
                  | some g =>
                    match AddBits 3 0 4 Read g with
                    | none => none
                    | some g =>
                      match I2COutBytes B 3 port device Write 256 0 g with
                      | none => none
                      | some g =>
                        BrickPiSetupSensors.devices B port fuel ((device + 1) % 256) g
                | _, _ => none
              else BrickPiSetupSensors.devices B port fuel ((device + 1) % 256) g
    else some g

/-- One round of the `while(ii < 2)` of `BrickPiSetupSensors`, for the port
`(i * 2) + ii`: when the type byte of the message is an I2C type, the bus speed,
the device count less one (the stored count first brought into 1..8) and the
devices are appended. -/
def BrickPiSetupSensors.sensorPort (i ii : Nat) (B : BrickPiStruct) (g : Globals) :
    Option (BrickPiStruct × Globals) :=
  let port := (i * 2 + ii) % 256
  if g.Array.getD (BYTE_SENSOR_1_TYPE + ii) 0 = TYPE_SENSOR_I2C ∨
      g.Array.getD (BYTE_SENSOR_1_TYPE + ii) 0 = TYPE_SENSOR_I2C_9V then
    match AddBits 3 0 8 (B.SensorI2CSpeed.getD port 0) g with
    | none => none
    | some g =>
      let B : BrickPiStruct :=
        if B.SensorI2CDevices.getD port 0 > 8 then
          { B with SensorI2CDevices := B.SensorI2CDevices.set port 8 }
        else B
      let B : BrickPiStruct :=
        if B.SensorI2CDevices.getD port 0 = 0 then
          { B with SensorI2CDevices := B.SensorI2CDevices.set port 1 }
        else B
      match AddBits 3 0 3 (toULong ((B.SensorI2CDevices.getD port 0 : Int) - 1)) g with
      | none => none
      | some g =>
        match BrickPiSetupSensors.devices B port 256 0 g with
        | none => none
        | some g => some (B, g)
  else some (B, g)

/-- The building of the SensorTypeConfig message for link `i` in
`BrickPiSetupSensors`: the buffer is zeroed, the cursor reset, the kind byte and
the two type bytes set, and the two ports of the link append their I2C
settings. -/
def BrickPiSetupSensors.build (i : Nat) (B : BrickPiStruct) :
    Option (BrickPiStruct × Globals) :=
  let Array := List.replicate 256 0
  let Array := Array.set 0 MSG_TYPE_SENSOR_TYPE
  let Array := Array.set BYTE_SENSOR_1_TYPE (B.SensorType.getD (PORT_1 + i * 2) 0)
  let Array := Array.set BYTE_SENSOR_2_TYPE (B.SensorType.getD (PORT_2 + i * 2) 0)
  match BrickPiSetupSensors.sensorPort i 0 B ⟨Array, 0⟩ with
  | none => none
  | some (B, g) => BrickPiSetupSensors.sensorPort i 1 B g

/-- The message for link `i` built and handed to `BrickPiTx` with
`UART_TX_BYTES = ((Bit_Offset + 7) / 8) + 3` (an `unsigned char`). -/
def BrickPiSetupSensors.transmit (i : Nat) (w : World) : Option World :=
  match BrickPiSetupSensors.build i w.BrickPi with
  | none => none
  | some (B, g) =>
    let UART_TX_BYTES := ((g.Bit_Offset + 7) / 8 + 3) % 256
    BrickPiTx.send (B.Address.getD i 0) UART_TX_BYTES { w with BrickPi := B, g := g }

/-- The function `BrickPiSetupSensors` (its `while(i < 2)` with the two early
`return -1`), the call of `BrickPiRx` for link `i` finding `rx [i]`. -/
def BrickPiSetupSensors (rx : Oracle) : Nat → Nat → World → Option (Int × World)
  | 0, _, _ => none
  | fuel + 1, i, w =>
    if i < 2 then
      match BrickPiSetupSensors.transmit i w with
      | none => none
      | some w =>
        match BrickPiRx.receive (rx [i]) w with
        | none => none
        | some (result, w) =>
          if result ≠ 0 then some (-1, w)
          else if ¬ (w.BytesReceived = 1 ∧ w.g.Array.getD 0 0 = MSG_TYPE_SENSOR_TYPE) then
            some (-1, w)
          else BrickPiSetupSensors rx fuel ((i + 1) % 256) w
    else some (0, w)

/-- The literal write bytes of an I2C device as 8-bit fields, as many as its
write length. -/
def i2cLiteralFields (B : BrickPiStruct) (port device : Nat) : List (Nat × Nat) :=
  (List.range ((B.SensorI2CWrite.getD port []).getD device 0)).map (fun k =>
    (8, (((B.SensorI2COut.getD port []).getD device []).getD k 0)))

/-- The fields the specification lists for an I2C device whose lengths travel
with the message: write length (4 bits), read length (4 bits), then the literal
write bytes. -/
def i2cLengthFields (B : BrickPiStruct) (port device : Nat) : List (Nat × Nat) :=
  (4, (B.SensorI2CWrite.getD port []).getD device 0) ::
    (4, (B.SensorI2CRead.getD port []).getD device 0) :: i2cLiteralFields B port device

/-- The fields the specification lists for one device of an I2C port in the
outbound ValuesExchange: the length fields and literal bytes of a device not
flagged fixed-per-cycle, nothing for a flagged one. -/
def valuesI2CDeviceFields (B : BrickPiStruct) (port device : Nat) : List (Nat × Nat) :=
  if (B.SensorSettings.getD port []).getD device 0 &&& BIT_I2C_SAME = 0 then
    i2cLengthFields B port device
  else []

/-- The fields the specification lists for one device of an I2C port in the
SensorTypeConfig payload: address shifted right by one (7 bits), flags (2 bits)
and, when the fixed-per-cycle flag is set, the length fields and literal bytes. -/
def sensorTypeDeviceFields (B : BrickPiStruct) (port device : Nat) : List (Nat × Nat) :=
  (7, (B.SensorI2CAddr.getD port []).getD device 0 / 2) ::
    (2, (B.SensorSettings.getD port []).getD device 0) ::
    (if (B.SensorSettings.getD port []).getD device 0 &&& BIT_I2C_SAME ≠ 0 then
      i2cLengthFields B port device
    else [])

/-- A device count brought into 1..8. -/
def clampDevices (n : Nat) : Nat :=
  if n > 8 then 8 else if n = 0 then 1 else n

/-- The device state with the device count of an I2C port brought into 1..8. -/
def clampPort (B : BrickPiStruct) (port : Nat) : BrickPiStruct :=
  if B.SensorType.getD port 0 = TYPE_SENSOR_I2C ∨
      B.SensorType.getD port 0 = TYPE_SENSOR_I2C_9V then
    { B with SensorI2CDevices :=
        (B.SensorI2CDevices.set port (clampDevices (B.SensorI2CDevices.getD port 0))) }
  else B

/-- The fields the specification lists for one port in the SensorTypeConfig
payload: nothing for a port that is not of an I2C type; for an I2C port the bus
speed (8 bits), the clamped device count less one (3 bits), then the devices. -/
def sensorTypePortFields (B : BrickPiStruct) (port : Nat) : List (Nat × Nat) :=
  if B.SensorType.getD port 0 = TYPE_SENSOR_I2C ∨
      B.SensorType.getD port 0 = TYPE_SENSOR_I2C_9V then
    (8, B.SensorI2CSpeed.getD port 0) ::
      (3, clampDevices (B.SensorI2CDevices.getD port 0) - 1) ::
      (List.range (clampDevices (B.SensorI2CDevices.getD port 0))).flatMap
        (sensorTypeDeviceFields B port)
  else []

/-- The settings of link `i` let `BrickPiSetupSensors` build its message inside
the arrays: the arrays have the dimensions of the C declaration, the write length
of a device flagged fixed-per-cycle is at most 16, and the appended fields stay
inside the 256-byte buffer (at most 2024 bits behind its first 3 bytes). -/
def setupFits (B : BrickPiStruct) (i : Nat) : Prop :=
  i < 2 ∧ B.shaped ∧ B.SensorI2CDevices.length = 4 ∧ B.SensorI2CAddr.length = 4 ∧
    (∀ r ∈ B.SensorI2CAddr, r.length = 8) ∧
    (∀ port device, (port = i * 2 ∨ port = i * 2 + 1) → device < 8 →
      (B.SensorSettings.getD port []).getD device 0 &&& BIT_I2C_SAME ≠ 0 →
      (B.SensorI2CWrite.getD port []).getD device 0 ≤ 16) ∧
    fieldsWidth (sensorTypePortFields B (i * 2) ++ sensorTypePortFields B (i * 2 + 1)) ≤ 2024

/-! ## Lemmas on buffers -/

theorem getD_set_eq (l : List Nat) (i j v : Nat) :
    (l.set i v).getD j 0 = if i = j ∧ i < l.length then v else l.getD j 0 := by
  simp only [List.getD_eq_getElem?_getD, List.getElem?_set]
  by_cases h : i = j
  · by_cases h2 : i < l.length
    · subst h
      simp [h2]
    · subst h
      simp [h2, List.getElem?_eq_none (Nat.le_of_not_lt h2)]
  · simp [h]

theorem getElem?_eq_some_getD (l : List Nat) (j : Nat) (h : j < l.length) :
    l[j]? = some (l.getD j 0) := by
  simp [List.getD_eq_getElem?_getD, List.getElem?_eq_getElem h]

theorem drop_take_sum_step (l : List Nat) (n i : Nat) (hi : i < n) (hn : n ≤ l.length) :
    ((l.take n).drop i).sum = l.getD i 0 + ((l.take n).drop (i + 1)).sum := by
  have hlen : i < (l.take n).length := by simp; omega
  rw [List.drop_eq_getElem_cons hlen, List.sum_cons]
  congr 1
  rw [List.getElem_take]
  simp [List.getD_eq_getElem?_getD, List.getElem?_eq_getElem (show i < l.length by omega)]

/-- What the transmit loop leaves in `tx_buffer` when started at index `i`. -/
theorem BrickPiTx_loop_spec (ByteCount : Nat) (OutArray : List Nat)
    (hBC : ByteCount ≤ 253) (hOut : ByteCount ≤ OutArray.length) :
    ∀ (fuel i : Nat) (tx : List Nat), i ≤ ByteCount → ByteCount - i < fuel →
      tx.length = 256 → tx.getD 1 0 < 256 →
      ∃ tx', BrickPiTx.txLoop ByteCount OutArray fuel i tx = some tx' ∧ tx'.length = 256 ∧
        ∀ j, tx'.getD j 0 =
          if j = 1 then (tx.getD 1 0 + ((OutArray.take ByteCount).drop i).sum) % 256
          else if i + 3 ≤ j ∧ j < ByteCount + 3 then OutArray.getD (j - 3) 0
          else tx.getD j 0 := by
  intro fuel
  induction fuel with
  | zero => intro i tx _ h; omega
  | succ fuel ih =>
    intro i tx hi hf hlen hb
    unfold BrickPiTx.txLoop
    by_cases hlt : i < ByteCount
    · have h1 : i < OutArray.length ∧ i + 3 < tx.length := by omega
      have h2 : (i + 1) % 256 = i + 1 := by omega
      simp only [hlt, h1, if_true, and_self, h2]
      obtain ⟨tx', he, hl, hj⟩ := ih (i + 1)
        ((tx.set 1 ((tx.getD 1 0 + OutArray.getD i 0) % 256)).set (i + 3) (OutArray.getD i 0))
        (by omega) (by omega) (by simp [hlen])
        (by
          simp only [getD_set_eq, List.length_set, hlen]
          have : ¬ (i + 3 = 1 ∧ i + 3 < 256) := by omega
          simp only [this, if_false, if_true, true_and]
          norm_num
          omega)
      refine ⟨tx', he, hl, ?_⟩
      intro j
      rw [hj j, drop_take_sum_step OutArray ByteCount i hlt hOut]
      simp only [getD_set_eq, List.length_set, hlen]
      by_cases hj1 : j = 1
      · subst hj1
        have : ¬ (i + 3 = 1 ∧ i + 3 < 256) := by omega
        simp only [this, if_false, if_true, true_and]
        norm_num
        omega
      · simp only [hj1, if_false]
        by_cases hj3 : j = i + 3
        · subst hj3
          have : ¬ (i + 1 + 3 ≤ i + 3 ∧ i + 3 < ByteCount + 3) := by omega
          have h5 : i + 3 ≤ i + 3 ∧ i + 3 < ByteCount + 3 := by omega
          have h6 : i + 3 < 256 := by omega
          simp [this, h5, h6]
        · have h7 : ¬ (i + 3 = j ∧ i + 3 < 256) := by omega
          have h8 : ¬ (1 = j ∧ 1 < 256) := by omega
          simp only [h7, h8, if_false]
          by_cases h9 : i + 3 ≤ j ∧ j < ByteCount + 3
          · have : i + 1 + 3 ≤ j ∧ j < ByteCount + 3 := by omega
            simp [this, h9]
          · have : ¬ (i + 1 + 3 ≤ j ∧ j < ByteCount + 3) := by omega
            simp [this, h9]
    · have hi2 : i = ByteCount := by omega
      subst hi2
      simp only [hlt, if_false]
      refine ⟨tx, rfl, hlen, ?_⟩
      intro j
      have : ¬ (i + 3 ≤ j ∧ j < i + 3) := by omega
      simp only [this, if_false]
      split_ifs with hj1
      · subst hj1
        have hd : (List.take i OutArray).drop i = [] := by
          apply List.drop_eq_nil_of_le
          simp
        rw [hd]
        simp only [List.sum_nil, Nat.add_zero]
        omega
      · rfl

theorem getD_replicate_zero (n j : Nat) : (List.replicate n 0).getD j 0 = 0 := by
  simp only [List.getD_eq_getElem?_getD, List.getElem?_replicate]
  split_ifs <;> rfl

/-- The frame `BrickPiTx` writes, for a payload of at most 252 bytes: the
checksum byte is the sum of the address, the length and the payload bytes. -/
theorem BrickPiTx_frame (dest : Nat) (payload rest : List Nat) (hd : dest < 256)
    (hlen : payload.length ≤ 252) :
    BrickPiTx dest payload.length (payload ++ rest) =
      some (dest :: ((dest + payload.length + payload.sum) % 256) :: payload.length ::
        payload) := by
  have h1 : dest % 256 = dest := Nat.mod_eq_of_lt hd
  have h2 : payload.length % 256 = payload.length := Nat.mod_eq_of_lt (by omega)
  have h3 : (payload.length + 3) % 256 = payload.length + 3 := Nat.mod_eq_of_lt (by omega)
  obtain ⟨tx', he, hl, hj⟩ := BrickPiTx_loop_spec payload.length (payload ++ rest)
    (by omega) (by simp) 256 0
    ((((List.replicate 256 0).set 0 dest).set 1 ((dest + payload.length) % 256)).set 2
      payload.length)
    (by omega) (by omega) (by simp only [List.length_set, List.length_replicate])
    (by
      simp only [getD_set_eq, List.length_set, List.length_replicate]
      have : ¬ (2 = 1 ∧ 2 < 256) := by omega
      simp only [this, if_false, true_and, Nat.one_lt_ofNat, if_true]
      omega)
  simp only [BrickPiTx, h1, h2, h3, he]
  congr 1
  apply List.ext_getElem?
  intro n
  rw [List.getElem?_take]
  by_cases hn : n < payload.length + 3
  · simp only [hn, if_true]
    rw [getElem?_eq_some_getD tx' n (by omega), hj n]
    simp only [getD_set_eq, List.length_set, List.length_replicate, getD_replicate_zero,
      List.drop_zero, List.take_left]
    match n, hn with
    | 0, _ => simp
    | 1, _ => simp [Nat.add_assoc]
    | 2, _ => simp
    | m + 3, hm =>
      have hm2 : m < payload.length := by omega
      simp [hm2, List.getD_eq_getElem?_getD, List.getElem?_append_left hm2]
  · simp only [hn, if_false]
    symm
    apply List.getElem?_eq_none
    simp
    omega

theorem drop_sum_step (l : List Nat) (i : Nat) (hi : i < l.length) :
    (l.drop i).sum = l.getD i 0 + (l.drop (i + 1)).sum := by
  rw [List.drop_eq_getElem_cons hi, List.sum_cons]
  simp [List.getD_eq_getElem?_getD, List.getElem?_eq_getElem hi]

/-- What the receive loop computes when started at index `i`: the checksum over
the remaining received bytes, and `InArray` filled with them. -/
theorem BrickPiRx_loop_spec (rx : List Nat) (hrx : rx.length ≤ 255) (h2 : 2 ≤ rx.length) :
    ∀ (fuel i CheckSum : Nat) (InArray : List Nat), i ≤ rx.length - 2 →
      rx.length - 2 - i < fuel → InArray.length = 256 → CheckSum < 256 →
      ∃ InArray', BrickPiRx.rxLoop rx rx.length fuel i CheckSum InArray =
          some ((CheckSum + (rx.drop (i + 2)).sum) % 256, InArray') ∧
        InArray'.length = 256 ∧
        ∀ j, InArray'.getD j 0 =
          if i ≤ j ∧ j < rx.length - 2 then rx.getD (j + 2) 0 else InArray.getD j 0 := by
  intro fuel
  induction fuel with
  | zero => intro i _ _ _ h; omega
  | succ fuel ih =>
    intro i CheckSum InArray hi hf hlen hc
    unfold BrickPiRx.rxLoop
    by_cases hlt : i < rx.length - 2
    · have h1 : i < InArray.length := by omega
      have h3 : (i + 1) % 256 = i + 1 := by omega
      simp only [hlt, h1, if_true, h3]
      obtain ⟨A, he, hl, hj⟩ := ih (i + 1) ((CheckSum + rx.getD (i + 2) 0) % 256)
        (InArray.set i (rx.getD (i + 2) 0)) (by omega) (by omega) (by simp [hlen])
        (Nat.mod_lt _ (by norm_num))
      refine ⟨A, ?_, hl, ?_⟩
      · rw [he, drop_sum_step rx (i + 2) (by omega)]
        have e1 : i + 1 + 2 = i + 2 + 1 := by omega
        rw [e1]
        congr 2
        omega
      · intro j
        rw [hj j]
        simp only [getD_set_eq, hlen]
        by_cases hji : i = j
        · subst hji
          have ha : ¬ (i + 1 ≤ i ∧ i < rx.length - 2) := by omega
          have hb : i ≤ i ∧ i < rx.length - 2 := by omega
          have hc : i = i ∧ i < 256 := by omega
          rw [if_neg ha, if_pos hc, if_pos hb]
        · have hc : ¬ (i = j ∧ i < 256) := by omega
          simp only [hc, if_false]
          by_cases hd : i ≤ j ∧ j < rx.length - 2
          · have : i + 1 ≤ j ∧ j < rx.length - 2 := by omega
            simp only [this, hd, if_true, and_self]
          · have : ¬ (i + 1 ≤ j ∧ j < rx.length - 2) := by omega
            simp only [this, hd, if_false]
    · have hi2 : i = rx.length - 2 := by omega
      simp only [hlt, if_false]
      refine ⟨InArray, ?_, hlen, ?_⟩
      · have hd : rx.drop (i + 2) = [] := List.drop_eq_nil_of_le (by omega)
        rw [hd, List.sum_nil, Nat.add_zero, Nat.mod_eq_of_lt hc]
      · intro j
        have : ¬ (i ≤ j ∧ j < rx.length - 2) := by omega
        simp only [this, if_false]

/-- The validation of `BrickPiRx` in closed form. -/
theorem BrickPiRx_validate_spec (rx InArray : List Nat) (InBytes : Nat)
    (hrx : rx.length ≤ 255) (hlen : InArray.length = 256) (hb : rx.getD 1 0 < 256) :
    ∃ InArray', InArray'.length = 256 ∧
      (∀ j, InArray'.getD j 0 =
        if j < rx.length - 2 then rx.getD (j + 2) 0 else InArray.getD j 0) ∧
      BrickPiRx.validate rx InArray InBytes =
        if rx.length < 2 then some (-4, InArray, InBytes)
        else if rx.length < rx.getD 1 0 + 2 then some (-6, InArray, InBytes)
        else if (rx.getD 1 0 + (rx.drop 2).sum) % 256 ≠ rx.getD 0 0 then
          some (-5, InArray', InBytes)
        else some (0, InArray', rx.length - 2) := by
  by_cases h2 : rx.length < 2
  · obtain ⟨A, _, hl, hj⟩ : ∃ A : List Nat, True ∧ A.length = 256 ∧ ∀ j, A.getD j 0 =
        if j < rx.length - 2 then rx.getD (j + 2) 0 else InArray.getD j 0 := by
      refine ⟨InArray, trivial, hlen, ?_⟩
      intro j
      have : ¬ j < rx.length - 2 := by omega
      simp only [this, if_false]
    refine ⟨A, hl, hj, ?_⟩
    have h255 : ¬ 255 < rx.length := by omega
    simp only [BrickPiRx.validate, h255, h2, if_true, if_false]
  · obtain ⟨A, he, hl, hj⟩ := BrickPiRx_loop_spec rx hrx (by omega) 256 0 (rx.getD 1 0)
      InArray (by omega) (by omega) hlen hb
    refine ⟨A, hl, ?_, ?_⟩
    · intro j
      rw [hj j]
      simp only [Nat.zero_le, true_and]
    · have h255 : ¬ 255 < rx.length := by omega
      simp only [BrickPiRx.validate, h255, h2, if_false]
      split_ifs <;> simp_all

theorem getD_lt_of_forall (l : List Nat) (j : Nat) (h : ∀ b ∈ l, b < 256) :
    l.getD j 0 < 256 := by
  rw [List.getD_eq_getElem?_getD]
  by_cases hj : j < l.length
  · rw [List.getElem?_eq_getElem hj]
    exact h _ (List.getElem_mem hj)
  · rw [List.getElem?_eq_none (Nat.le_of_not_lt hj)]
    simp

theorem sum_set_add (l : List Nat) (j v : Nat) (hj : j < l.length) :
    (l.set j v).sum + l.getD j 0 = l.sum + v := by
  induction l generalizing j with
  | nil => simp at hj
  | cons a t ih =>
    cases j with
    | zero => simp [List.set]; omega
    | succ j =>
      have := ih j (by simpa using hj)
      simp only [List.set, List.sum_cons, List.getD_cons_succ]
      omega

theorem xor_two_pow_byte (b k : Nat) (hb : b < 256) (hk : k < 8) :
    b ^^^ 2 ^ k < 256 ∧ b ^^^ 2 ^ k ≠ b := by
  constructor
  · have h1 : b < 2 ^ 8 := by simpa using hb
    have h2 : 2 ^ k < 2 ^ 8 := Nat.pow_lt_pow_right (by norm_num) hk
    simpa using Nat.xor_lt_two_pow h1 h2
  · intro h
    have h3 : b ^^^ (b ^^^ 2 ^ k) = 2 ^ k := Nat.xor_cancel_left b (2 ^ k)
    rw [h, Nat.xor_self] at h3
    have : 0 < 2 ^ k := Nat.pos_pow_of_pos k (by norm_num)
    omega

/-- C1 (amended): for every address byte and every payload of at most 252
bytes, `BrickPiTx` emits `[address, checksum, length, payload...]` with `length`
the payload length and `checksum = (address + length + sum of payload) mod 256`. -/
theorem BrickPiTx_emits_frame (dest : Nat) (payload rest : List Nat) (hd : dest < 256)
    (hlen : payload.length ≤ 252) :
    BrickPiTx dest payload.length (payload ++ rest) =
      some (dest :: ((dest + payload.length + payload.sum) % 256) :: payload.length ::
        payload) :=
  BrickPiTx_frame dest payload rest hd hlen

/-- Witness of `BrickPiTx_emits_frame` at address 2 and payload `[3, 7]`. -/
theorem BrickPiTx_emits_frame_witness :
    BrickPiTx 2 [3, 7].length ([3, 7] ++ [9]) =
      some (2 :: ((2 + [3, 7].length + [3, 7].sum) % 256) :: [3, 7].length :: [3, 7]) :=
  BrickPiTx_emits_frame 2 [3, 7] [9] (by decide) (by decide)

/-- With 253 payload bytes the `unsigned char` byte count `253 + 3` wraps to 0,
so that `BrickPiTx` writes no byte at all. -/
theorem BrickPiTx_253 (dest : Nat) (OutArray : List Nat) (h : OutArray.length = 253) :
    BrickPiTx dest 253 OutArray = some [] := by
  obtain ⟨tx', he, _, _⟩ := BrickPiTx_loop_spec 253 OutArray (by omega) (by omega) 256 0
    ((((List.replicate 256 0).set 0 (dest % 256)).set 1 ((dest % 256 + 253) % 256)).set 2 253)
    (by omega) (by omega) (by simp only [List.length_set, List.length_replicate])
    (by
      simp only [getD_set_eq, List.length_set, List.length_replicate]
      have : ¬ (2 = 1 ∧ 2 < 256) := by omega
      simp only [this, if_false, true_and, Nat.one_lt_ofNat, if_true]
      omega)
  have e1 : 253 % 256 = 253 := rfl
  have e2 : (253 + 3) % 256 = 0 := rfl
  simp only [BrickPiTx, e1, e2, he, List.take_zero]

set_option maxRecDepth 100000 in
/-- C1 fails as stated: at address 1 and payload `[3]` the checksum byte is 5,
not `(1 + 3) mod 256`; and a 253-byte payload makes the `unsigned char` byte
count `253 + 3` wrap to 0, so that no byte is written. -/
theorem BrickPiTx_checksum_counterexample :
    BrickPiTx 1 1 [3] = some [1, 5, 1, 3] ∧
      BrickPiTx 1 1 [3] ≠ some [1, ([3].length + [3].sum) % 256, [3].length, 3] ∧
      BrickPiTx 0 253 (List.replicate 253 0) = some [] :=
  ⟨by decide, by decide, BrickPiTx_253 0 (List.replicate 253 0) (List.length_replicate 253 0)⟩

/-- C2 (amended): for a payload of at most 252 bytes, the frame of `BrickPiTx`
without its address byte passes the validation of `BrickPiRx` (code 0, the
payload bytes and the payload length delivered) exactly when the address is 0;
for every other address the validation answers -5, the payload bytes being
copied all the same. -/
theorem BrickPiTx_then_BrickPiRx (dest : Nat) (payload rest InArray : List Nat)
    (InBytes : Nat) (hd : dest < 256) (hlen : payload.length ≤ 252)
    (hA : InArray.length = 256) :
    ∃ frame InArray', BrickPiTx dest payload.length (payload ++ rest) = some frame ∧
      InArray'.take payload.length = payload ∧
      BrickPiRx.validate frame.tail InArray InBytes =
        if dest = 0 then some (0, InArray', payload.length)
        else some (-5, InArray', InBytes) := by
  obtain ⟨A, hl, hj, hv⟩ := BrickPiRx_validate_spec
    (((dest + payload.length + payload.sum) % 256) :: payload.length :: payload)
    InArray InBytes (by simp; omega) hA (by simp; omega)
  refine ⟨_, A, BrickPiTx_frame dest payload rest hd hlen, ?_, ?_⟩
  · apply List.ext_getElem?
    intro n
    rw [List.getElem?_take]
    by_cases hn : n < payload.length
    · rw [if_pos hn, getElem?_eq_some_getD A n (by omega), hj n]
      simp [hn, List.getD_eq_getElem?_getD, List.getElem?_eq_getElem hn]
    · rw [if_neg hn]
      exact (List.getElem?_eq_none (Nat.le_of_not_lt hn)).symm
  · rw [List.tail_cons, hv]
    have h1 : ¬ (payload.length + 2 < 2) := by omega
    have h2 : ¬ (payload.length + 2 < payload.length + 2) := by omega
    simp only [List.length_cons, List.getD_cons_succ, List.getD_cons_zero, List.drop_succ_cons,
      List.drop_zero, h1, h2, if_false, Nat.add_sub_cancel]
    by_cases h0 : dest = 0
    · subst h0
      simp
    · have h3 : (payload.length + payload.sum) % 256 ≠
          (dest + payload.length + payload.sum) % 256 := by omega
      simp [h0, h3]

/-- Witness of `BrickPiTx_then_BrickPiRx` at address 1 and payload `[3]`. -/
theorem BrickPiTx_then_BrickPiRx_witness :
    ∃ frame InArray', BrickPiTx 1 [3].length ([3] ++ []) = some frame ∧
      InArray'.take [3].length = [3] ∧
      BrickPiRx.validate frame.tail (List.replicate 256 0) 0 =
        if 1 = 0 then some (0, InArray', [3].length) else some (-5, InArray', 0) :=
  BrickPiTx_then_BrickPiRx 1 [3] [] (List.replicate 256 0) 0 (by decide) (by decide)
    (List.length_replicate 256 0)

set_option maxRecDepth 100000 in
/-- C2 fails as stated: the frame `BrickPiTx` emits for address 1 and payload
`[3]`, with the address byte removed, is rejected with code -5. -/
theorem BrickPiTx_then_BrickPiRx_counterexample :
    BrickPiTx 1 1 [3] = some [1, 5, 1, 3] ∧
      (BrickPiRx.validate [5, 1, 3] (List.replicate 256 0) 0).map (fun r => r.1) =
        some (-5) := by
  refine ⟨by decide, by decide⟩

/-- C3: when the validation of `BrickPiRx` accepts a received frame
`[checksum, length, payload...]`, the same frame with one bit of one payload
byte flipped is rejected with code -5. -/
theorem BrickPiRx_bit_flip (rx InArray : List Nat) (InBytes j k : Nat)
    (hb : ∀ b ∈ rx, b < 256) (hA : InArray.length = 256)
    (hacc : ∃ A n, BrickPiRx.validate rx InArray InBytes = some (0, A, n))
    (hj : j + 2 < rx.length) (hk : k < 8) :
    ∃ A, BrickPiRx.validate (rx.set (j + 2) (rx.getD (j + 2) 0 ^^^ 2 ^ k)) InArray InBytes =
      some (-5, A, InBytes) := by
  obtain ⟨A0, n0, h0⟩ := hacc
  have hrx : rx.length ≤ 255 := by
    by_contra hc
    have : 255 < rx.length := by omega
    simp [BrickPiRx.validate, this] at h0
  obtain ⟨A1, _, _, hv1⟩ := BrickPiRx_validate_spec rx InArray InBytes hrx hA
    (getD_lt_of_forall rx 1 hb)
  rw [h0] at hv1
  have hbj := getD_lt_of_forall rx (j + 2) hb
  obtain ⟨hx1, hx2⟩ := xor_two_pow_byte (rx.getD (j + 2) 0) k hbj hk
  have hs := sum_set_add (rx.drop 2) j (rx.getD (j + 2) 0 ^^^ 2 ^ k) (by simp; omega)
  have e1 : (rx.set (j + 2) (rx.getD (j + 2) 0 ^^^ 2 ^ k)).getD 1 0 = rx.getD 1 0 := by
    rw [getD_set_eq]
    have : ¬ (j + 2 = 1 ∧ j + 2 < rx.length) := by omega
    rw [if_neg this]
  have e0 : (rx.set (j + 2) (rx.getD (j + 2) 0 ^^^ 2 ^ k)).getD 0 0 = rx.getD 0 0 := by
    rw [getD_set_eq]
    have : ¬ (j + 2 = 0 ∧ j + 2 < rx.length) := by omega
    rw [if_neg this]
  have ed : (rx.set (j + 2) (rx.getD (j + 2) 0 ^^^ 2 ^ k)).drop 2 =
      (rx.drop 2).set j (rx.getD (j + 2) 0 ^^^ 2 ^ k) := by
    match rx, hj with
    | a :: b :: t, _ => simp [List.set]
  have eg : (rx.drop 2).getD j 0 = rx.getD (j + 2) 0 := by
    match rx, hj with
    | a :: b :: t, _ => simp
  obtain ⟨A2, _, _, hv2⟩ := BrickPiRx_validate_spec
    (rx.set (j + 2) (rx.getD (j + 2) 0 ^^^ 2 ^ k)) InArray InBytes (by simpa using hrx) hA
    (by rw [e1]; exact getD_lt_of_forall rx 1 hb)
  refine ⟨A2, ?_⟩
  rw [hv2, e1, e0, ed, List.length_set]
  rw [eg] at hs
  have c1 : ¬ rx.length < 2 := by omega
  rw [if_neg c1] at hv1 ⊢
  by_cases c2 : rx.length < rx.getD 1 0 + 2
  · rw [if_pos c2] at hv1
    simp at hv1
  · rw [if_neg c2] at hv1 ⊢
    by_cases c3 : (rx.getD 1 0 + (rx.drop 2).sum) % 256 ≠ rx.getD 0 0
    · rw [if_pos c3] at hv1
      simp at hv1
    · have c4 : (rx.getD 1 0 + ((rx.drop 2).set j (rx.getD (j + 2) 0 ^^^ 2 ^ k)).sum) % 256 ≠
          rx.getD 0 0 := by
        have c5 : (rx.getD 1 0 + (rx.drop 2).sum) % 256 = rx.getD 0 0 := by
          by_contra hne
          exact c3 hne
        omega
      rw [if_pos c4]

set_option maxRecDepth 100000 in
/-- Witness of `BrickPiRx_bit_flip`: the accepted frame `[9, 1, 8]` with bit 0
of its payload byte flipped. -/
theorem BrickPiRx_bit_flip_witness :
    ∃ A, BrickPiRx.validate ([9, 1, 8].set (0 + 2) (([9, 1, 8] : List Nat).getD (0 + 2) 0 ^^^ 2 ^ 0))
      (List.replicate 256 0) 0 = some (-5, A, 0) :=
  BrickPiRx_bit_flip [9, 1, 8] (List.replicate 256 0) 0 0 0 (by decide)
    (List.length_replicate 256 0) ⟨(List.replicate 256 0).set 0 8, 1, by decide⟩
    (by decide) (by decide)

/-- C4 (amended): the validation of `BrickPiRx` answers -4 for fewer than 2
received bytes and -6 whenever fewer bytes than the declared length follow the
two header bytes; when at least the declared number of bytes follows (more
included) it answers 0 or -5, according to the checksum over all bytes after
the header. -/
theorem BrickPiRx_length_checks (rx InArray : List Nat) (InBytes : Nat)
    (hrx : rx.length ≤ 255) (hb : ∀ b ∈ rx, b < 256) (hA : InArray.length = 256) :
    (rx.length < 2 → BrickPiRx.validate rx InArray InBytes = some (-4, InArray, InBytes)) ∧
    (2 ≤ rx.length → rx.length - 2 < rx.getD 1 0 →
      BrickPiRx.validate rx InArray InBytes = some (-6, InArray, InBytes)) ∧
    (2 ≤ rx.length → rx.getD 1 0 ≤ rx.length - 2 →
      ∃ A, BrickPiRx.validate rx InArray InBytes =
        if (rx.getD 1 0 + (rx.drop 2).sum) % 256 = rx.getD 0 0 then
          some (0, A, rx.length - 2)
        else some (-5, A, InBytes)) := by
  obtain ⟨A, _, _, hv⟩ := BrickPiRx_validate_spec rx InArray InBytes hrx hA
    (getD_lt_of_forall rx 1 hb)
  refine ⟨?_, ?_, ?_⟩
  · intro h
    rw [hv, if_pos h]
  · intro h1 h2
    rw [hv, if_neg (by omega), if_pos (by omega)]
  · intro h1 h2
    refine ⟨A, ?_⟩
    rw [hv, if_neg (by omega), if_neg (by omega)]
    by_cases hc : (rx.getD 1 0 + (rx.drop 2).sum) % 256 = rx.getD 0 0
    · rw [if_pos hc, if_neg (not_not.mpr hc)]
    · rw [if_neg hc, if_pos hc]

/-- Witness of `BrickPiRx_length_checks` at the received bytes `[5, 0, 5]`. -/
theorem BrickPiRx_length_checks_witness :
    (([5, 0, 5] : List Nat).length < 2 →
      BrickPiRx.validate [5, 0, 5] (List.replicate 256 0) 0 =
        some (-4, List.replicate 256 0, 0)) ∧
    (2 ≤ ([5, 0, 5] : List Nat).length →
      ([5, 0, 5] : List Nat).length - 2 < ([5, 0, 5] : List Nat).getD 1 0 →
      BrickPiRx.validate [5, 0, 5] (List.replicate 256 0) 0 =
        some (-6, List.replicate 256 0, 0)) ∧
    (2 ≤ ([5, 0, 5] : List Nat).length →
      ([5, 0, 5] : List Nat).getD 1 0 ≤ ([5, 0, 5] : List Nat).length - 2 →
      ∃ A, BrickPiRx.validate [5, 0, 5] (List.replicate 256 0) 0 =
        if (([5, 0, 5] : List Nat).getD 1 0 + (([5, 0, 5] : List Nat).drop 2).sum) % 256 =
            ([5, 0, 5] : List Nat).getD 0 0 then
          some (0, A, ([5, 0, 5] : List Nat).length - 2)
        else some (-5, A, 0)) :=
  BrickPiRx_length_checks [5, 0, 5] (List.replicate 256 0) 0 (by decide) (by decide)
    (List.length_replicate 256 0)

set_option maxRecDepth 100000 in
/-- C4 fails as stated: the bytes `[5, 0, 5]` declare length 0 and carry one
byte after the header, yet the validation answers 0 and not -6. -/
theorem BrickPiRx_length_counterexample :
    ([5, 0, 5] : List Nat).getD 1 0 ≠ ([5, 0, 5] : List Nat).length - 2 ∧
      (BrickPiRx.validate [5, 0, 5] (List.replicate 256 0) 0).map (fun r => r.1) =
        some 0 := by
  refine ⟨by decide, by decide⟩

/-! ## The bit-packing codec -/

theorem bitOf_set_or (A : List Nat) (Q P : Nat) (hQ : Q / 8 < A.length) :
    bitOf (A.set (Q / 8) (A.getD (Q / 8) 0 ||| (1 <<< (Q % 8)))) P =
      (bitOf A P || decide (P = Q)) := by
  unfold bitOf
  rw [getD_set_eq]
  by_cases h : Q / 8 = P / 8
  · rw [if_pos ⟨h, hQ⟩, Nat.testBit_or, Nat.one_shiftLeft, Nat.testBit_two_pow, h]
    congr 1
    by_cases h2 : Q % 8 = P % 8
    · have : P = Q := by omega
      simp [h2, this]
    · have : ¬ P = Q := by omega
      simp [h2, this]
  · have h1 : ¬ (Q / 8 = P / 8 ∧ Q / 8 < A.length) := fun hh => h hh.1
    have h2 : ¬ P = Q := fun hh => h (by rw [hh])
    rw [if_neg h1]
    simp [h2]

/-- What the append loop leaves in the buffer: every bit of the field is OR-ed
with the matching bit of `value`, every other bit is kept. -/
theorem AddBits_addLoop_spec (bo boff bits c : Nat) (hbits : bits ≤ 255)
    (hw : boff + c + bits ≤ 2 ^ 32) :
    ∀ (fuel i value : Nat) (A : List Nat), i ≤ bits → bits - i < fuel →
      8 * bo + boff + c + bits ≤ 8 * A.length →
      ∃ A', AddBits.addLoop bo boff bits c fuel i value A = some A' ∧
        A'.length = A.length ∧
        ∀ P, bitOf A' P = (bitOf A P ||
          (decide (8 * bo + boff + c + i ≤ P ∧ P < 8 * bo + boff + c + bits) &&
            value.testBit (P - (8 * bo + boff + c + i)))) := by
  intro fuel
  induction fuel with
  | zero => intro i _ _ _ h; omega
  | succ fuel ih =>
    intro i value A hi hf hin
    unfold AddBits.addLoop
    by_cases hlt : i < bits
    · have h3 : (i + 1) % 256 = i + 1 := by omega
      have hpos : (boff + c + i) % 2 ^ 32 = boff + c + i := Nat.mod_eq_of_lt (by omega)
      simp only [hlt, if_true, h3, hpos, Nat.and_one_is_mod]
      have hidx : bo + (boff + c + i) / 8 = (8 * bo + boff + c + i) / 8 := by omega
      have hsh : (boff + c + i) % 8 = (8 * bo + boff + c + i) % 8 := by omega
      by_cases hodd : value % 2 = 1
      · have hne : value % 2 ≠ 0 := by omega
        have hle : bo + (boff + c + i) / 8 < A.length := by omega
        simp only [hne, ne_eq, not_false_eq_true, if_true, hle]
        rw [hidx, hsh]
        obtain ⟨A', he, hl, hP⟩ := ih (i + 1) (value / 2)
          (A.set ((8 * bo + boff + c + i) / 8)
            (A.getD ((8 * bo + boff + c + i) / 8) 0 ||| 1 <<< ((8 * bo + boff + c + i) % 8)))
          (by omega) (by omega) (by simpa using hin)
        refine ⟨A', he, by simpa using hl, ?_⟩
        intro P
        rw [hP P, bitOf_set_or A _ P (by omega)]
        rcases Nat.lt_trichotomy P (8 * bo + boff + c + i) with h | h | h
        · have e1 : ¬ P = 8 * bo + boff + c + i := by omega
          have e2 : ¬ (8 * bo + boff + c + (i + 1) ≤ P ∧ P < 8 * bo + boff + c + bits) := by omega
          have e3 : ¬ (8 * bo + boff + c + i ≤ P ∧ P < 8 * bo + boff + c + bits) := by omega
          simp [e1, e2, e3]
        · subst h
          have e2 : ¬ (8 * bo + boff + c + (i + 1) ≤ 8 * bo + boff + c + i ∧
              8 * bo + boff + c + i < 8 * bo + boff + c + bits) := by omega
          have e3 : (8 * bo + boff + c + i ≤ 8 * bo + boff + c + i ∧
              8 * bo + boff + c + i < 8 * bo + boff + c + bits) := by omega
          simp [e2, e3, Nat.testBit_zero, hodd]
        · have e1 : ¬ P = 8 * bo + boff + c + i := by omega
          have e4 : P - (8 * bo + boff + c + i) = (P - (8 * bo + boff + c + (i + 1))).succ := by
            omega
          rw [e4, Nat.testBit_succ]
          have e5 : (8 * bo + boff + c + (i + 1) ≤ P ∧ P < 8 * bo + boff + c + bits) ↔
              (8 * bo + boff + c + i ≤ P ∧ P < 8 * bo + boff + c + bits) := by omega
          simp [e1, e5]
      · have hne : ¬ value % 2 ≠ 0 := by omega
        simp only [hne, if_false]
        obtain ⟨A', he, hl, hP⟩ := ih (i + 1) (value / 2) A (by omega) (by omega) hin
        refine ⟨A', he, hl, ?_⟩
        intro P
        rw [hP P]
        rcases Nat.lt_trichotomy P (8 * bo + boff + c + i) with h | h | h
        · have e2 : ¬ (8 * bo + boff + c + (i + 1) ≤ P ∧ P < 8 * bo + boff + c + bits) := by omega
          have e3 : ¬ (8 * bo + boff + c + i ≤ P ∧ P < 8 * bo + boff + c + bits) := by omega
          simp [e2, e3]
        · subst h
          have e2 : ¬ (8 * bo + boff + c + (i + 1) ≤ 8 * bo + boff + c + i ∧
              8 * bo + boff + c + i < 8 * bo + boff + c + bits) := by omega
          simp [e2, Nat.testBit_zero, hodd]
        · have e4 : P - (8 * bo + boff + c + i) = (P - (8 * bo + boff + c + (i + 1))).succ := by
            omega
          rw [e4, Nat.testBit_succ]
          have e5 : (8 * bo + boff + c + (i + 1) ≤ P ∧ P < 8 * bo + boff + c + bits) ↔
              (8 * bo + boff + c + i ≤ P ∧ P < 8 * bo + boff + c + bits) := by omega
          simp [e5]
    · have hi2 : i = bits := by omega
      subst hi2
      simp only [hlt, if_false]
      refine ⟨A, rfl, rfl, ?_⟩
      intro P
      have e3 : ¬ (8 * bo + boff + c + i ≤ P ∧ P < 8 * bo + boff + c + i) := by omega
      simp [e3]

theorem bit_read_eq (A : List Nat) (bo pos : Nat) :
    (A.getD (bo + pos / 8) 0 >>> (pos % 8)) &&& 1 = (bitOf A (8 * bo + pos)).toNat := by
  have hidx : bo + pos / 8 = (8 * bo + pos) / 8 := by omega
  have hsh : pos % 8 = (8 * bo + pos) % 8 := by omega
  unfold bitOf
  rw [Nat.toNat_testBit, Nat.and_one_is_mod, Nat.shiftRight_eq_div_pow, hidx, hsh]

theorem shift_or_bit (R b : Nat) (hb : b < 2) :
    ((R * 2) % 2 ^ 32) ||| b = (R * 2) % 2 ^ 32 + b := by
  have h1 : (R * 2) % 2 ^ 32 = 2 ^ 1 * ((R * 2) % 2 ^ 32 / 2) := by
    norm_num
    omega
  rw [h1, ← Nat.mul_add_lt_is_or (by simpa using hb)]

/-- What the read loop returns: the running result shifted up by the `i`
remaining bits, plus those bits of the buffer. -/
theorem GetBits_getLoop_spec (bo boff c : Nat) (A : List Nat) :
    ∀ (fuel i R : Nat), i < fuel → R < 2 ^ 32 → boff + c + i ≤ 2 ^ 32 →
      8 * bo + boff + c + i ≤ 8 * A.length →
      GetBits.getLoop bo boff c A fuel i R =
        some ((R * 2 ^ i + readBits A (8 * bo + boff + c) i) % 2 ^ 32) := by
  intro fuel
  induction fuel with
  | zero => intro i _ h; omega
  | succ fuel ih =>
    intro i R hf hR hw hin
    unfold GetBits.getLoop
    cases i with
    | zero =>
      simp only [ne_eq, not_true_eq_false, if_false, readBits, pow_zero, Nat.mul_one,
        Nat.add_zero]
      rw [Nat.mod_eq_of_lt hR]
    | succ i =>
      have hpos : (boff + c + i) % 2 ^ 32 = boff + c + i := Nat.mod_eq_of_lt (by omega)
      have hle : bo + (boff + c + i) / 8 < A.length := by omega
      simp only [ne_eq, Nat.add_one_ne_zero, not_false_eq_true, if_true, Nat.add_sub_cancel,
        hpos, hle]
      rw [bit_read_eq A bo (boff + c + i)]
      have hb : (bitOf A (8 * bo + (boff + c + i))).toNat < 2 := by
        cases bitOf A (8 * bo + (boff + c + i)) <;> simp
      rw [shift_or_bit R _ hb]
      have hR' : (R * 2) % 2 ^ 32 + (bitOf A (8 * bo + (boff + c + i))).toNat < 2 ^ 32 := by
        norm_num at hb ⊢
        omega
      rw [ih i _ (by omega) hR' (by omega) (by omega)]
      congr 1
      have e1 : 8 * bo + (boff + c + i) = 8 * bo + boff + c + i := by omega
      rw [e1]
      simp only [readBits]
      have hm : ((R * 2) % 2 ^ 32 + (bitOf A (8 * bo + boff + c + i)).toNat) ≡
          (R * 2 + (bitOf A (8 * bo + boff + c + i)).toNat) [MOD 2 ^ 32] :=
        Nat.ModEq.add_right _ (Nat.mod_modEq _ _)
      have hm2 := (hm.mul_right (2 ^ i)).add_right (readBits A (8 * bo + boff + c) i)
      have e2 : (R * 2 + (bitOf A (8 * bo + boff + c + i)).toNat) * 2 ^ i +
          readBits A (8 * bo + boff + c) i =
          R * 2 ^ (i + 1) + (readBits A (8 * bo + boff + c) i +
            (bitOf A (8 * bo + boff + c + i)).toNat * 2 ^ i) := by
        ring
      rw [e2] at hm2
      exact hm2

theorem readBits_eq_mod (A : List Nat) (base v : Nat) :
    ∀ n, (∀ k, k < n → bitOf A (base + k) = v.testBit k) → readBits A base n = v % 2 ^ n := by
  intro n
  induction n with
  | zero => intro _; simp [readBits, Nat.mod_one]
  | succ n ih =>
    intro h
    simp only [readBits]
    rw [ih (fun k hk => h k (by omega)), h n (by omega), Nat.toNat_testBit, Nat.mod_pow_succ]
    ring

theorem readBits_congr (A B : List Nat) (base : Nat) :
    ∀ n, (∀ k, k < n → bitOf A (base + k) = bitOf B (base + k)) →
      readBits A base n = readBits B base n := by
  intro n
  induction n with
  | zero => intro _; rfl
  | succ n ih =>
    intro h
    simp only [readBits]
    rw [ih (fun k hk => h k (by omega)), h n (by omega)]

theorem readBits_lt (A : List Nat) (base : Nat) : ∀ n, readBits A base n < 2 ^ n := by
  intro n
  induction n with
  | zero => simp [readBits]
  | succ n ih =>
    simp only [readBits]
    have hb : (bitOf A (base + n)).toNat ≤ 1 := by
      cases bitOf A (base + n) <;> simp
    have : (bitOf A (base + n)).toNat * 2 ^ n ≤ 1 * 2 ^ n := Nat.mul_le_mul_right _ hb
    rw [pow_succ]
    omega

theorem bitOf_replicate_zero (n P : Nat) : bitOf (List.replicate n 0) P = false := by
  unfold bitOf
  rw [getD_replicate_zero, Nat.zero_testBit]

/-- The function `AddBits` in closed form, for a field inside the 256-byte buffer. -/
theorem AddBits_spec (bo boff w v : Nat) (g : Globals) (hlen : g.Array.length = 256)
    (hbo : bo < 256) (hboff : boff < 256) (hw : w ≤ 255)
    (hin : 8 * bo + boff + g.Bit_Offset + w ≤ 2048) :
    ∃ A', AddBits bo boff w v g = some ⟨A', g.Bit_Offset + w⟩ ∧ A'.length = 256 ∧
      ∀ P, bitOf A' P = (bitOf g.Array P ||
        (decide (8 * bo + boff + g.Bit_Offset ≤ P ∧ P < 8 * bo + boff + g.Bit_Offset + w) &&
          (v % 2 ^ 32).testBit (P - (8 * bo + boff + g.Bit_Offset)))) := by
  obtain ⟨A', he, hl, hP⟩ := AddBits_addLoop_spec bo boff w g.Bit_Offset hw (by omega)
    256 0 (v % 2 ^ 32) g.Array (by omega) (by omega) (by omega)
  refine ⟨A', ?_, by omega, ?_⟩
  · have e1 : bo % 256 = bo := Nat.mod_eq_of_lt hbo
    have e2 : boff % 256 = boff := Nat.mod_eq_of_lt hboff
    have e3 : w % 256 = w := Nat.mod_eq_of_lt (by omega)
    have e4 : (g.Bit_Offset + w) % 2 ^ 32 = g.Bit_Offset + w := Nat.mod_eq_of_lt (by omega)
    simp only [AddBits, e1, e2, e3, e4, he]
  · intro P
    simpa using hP P

/-- The function `GetBits` in closed form, for a field inside the 256-byte buffer. -/
theorem GetBits_spec (bo boff w : Nat) (g : Globals) (hlen : g.Array.length = 256)
    (hbo : bo < 256) (hboff : boff < 256) (hw : w ≤ 255)
    (hin : 8 * bo + boff + g.Bit_Offset + w ≤ 2048) :
    GetBits bo boff w g =
      some (readBits g.Array (8 * bo + boff + g.Bit_Offset) w % 2 ^ 32,
        ⟨g.Array, g.Bit_Offset + w⟩) := by
  have e1 : bo % 256 = bo := Nat.mod_eq_of_lt hbo
  have e2 : boff % 256 = boff := Nat.mod_eq_of_lt hboff
  have e3 : w % 256 = w := Nat.mod_eq_of_lt (by omega)
  have e4 : (g.Bit_Offset + w) % 2 ^ 32 = g.Bit_Offset + w := Nat.mod_eq_of_lt (by omega)
  have h := GetBits_getLoop_spec bo boff g.Bit_Offset g.Array 256 w 0 (by omega) (by norm_num)
    (by omega) (by omega)
  simp only [GetBits, e1, e2, e3, e4, h, Nat.zero_mul, Nat.zero_add]

/-- C5: for every width `w` in `[1, 32]` and value `v < 2^w`, `AddBits(byte_offset,
0, w, v)` on the zeroed buffer with cursor 0, followed by `GetBits(byte_offset, 0,
w)` with the cursor reset to 0, returns `v` (the field lying inside the buffer). -/
theorem AddBits_GetBits_roundtrip (byte_offset w v : Nat) (hw1 : 1 ≤ w) (hw : w ≤ 32)
    (hv : v < 2 ^ w) (hin : 8 * byte_offset + w ≤ 2048) :
    ∃ g', AddBits byte_offset 0 w v ⟨List.replicate 256 0, 0⟩ = some g' ∧
      g'.Bit_Offset = w ∧
      GetBits byte_offset 0 w ⟨g'.Array, 0⟩ = some (v, ⟨g'.Array, w⟩) := by
  obtain ⟨A', he, hl, hP⟩ := AddBits_spec byte_offset 0 w v ⟨List.replicate 256 0, 0⟩
    (List.length_replicate 256 0) (by omega) (by omega) (by omega) (by simpa using hin)
  dsimp only at he hP
  refine ⟨⟨A', 0 + w⟩, he, Nat.zero_add w, ?_⟩
  have hg := GetBits_spec byte_offset 0 w ⟨A', 0⟩ hl (by omega) (by omega) (by omega)
    (by simpa using hin)
  dsimp only at hg ⊢
  rw [hg]
  have hle : 2 ^ w ≤ 2 ^ 32 := Nat.pow_le_pow_right (by norm_num) hw
  have hr : readBits A' (8 * byte_offset + 0 + 0) w = v % 2 ^ 32 % 2 ^ w := by
    apply readBits_eq_mod
    intro k hk
    rw [hP, bitOf_replicate_zero]
    have e : 8 * byte_offset + 0 + 0 ≤ 8 * byte_offset + 0 + 0 + k ∧
        8 * byte_offset + 0 + 0 + k < 8 * byte_offset + 0 + 0 + w := by omega
    rw [decide_eq_true e, Nat.add_sub_cancel_left]
    rfl
  have hv1 : v % 2 ^ 32 = v := Nat.mod_eq_of_lt (by omega)
  rw [hr, hv1, Nat.mod_eq_of_lt hv, Nat.mod_eq_of_lt (by omega), Nat.zero_add]

/-- Witness of `AddBits_GetBits_roundtrip`: the 5-bit value 19 at byte offset 1. -/
theorem AddBits_GetBits_roundtrip_witness :
    ∃ g', AddBits 1 0 5 19 ⟨List.replicate 256 0, 0⟩ = some g' ∧
      g'.Bit_Offset = 5 ∧
      GetBits 1 0 5 ⟨g'.Array, 0⟩ = some (19, ⟨g'.Array, 5⟩) :=
  AddBits_GetBits_roundtrip 1 5 19 (by decide) (by decide) (by decide) (by decide)

theorem size_half (v : Nat) (hv : v ≠ 0) : Nat.size (v / 2) + 1 = Nat.size v := by
  apply le_antisymm
  · have h1 : 0 < Nat.size v := Nat.size_pos.mpr (Nat.pos_of_ne_zero hv)
    obtain ⟨t, ht⟩ : ∃ t, Nat.size v = t + 1 := ⟨Nat.size v - 1, by omega⟩
    rw [ht]
    have h2 : v < 2 ^ (t + 1) := by
      rw [← ht]
      exact Nat.lt_size_self v
    have h3 : Nat.size (v / 2) ≤ t := by
      rw [Nat.size_le]
      rw [pow_succ] at h2
      omega
    omega
  · rw [Nat.size_le, pow_succ]
    have := Nat.lt_size_self (v / 2)
    omega

theorem clog_succ_eq_size (v : Nat) : Nat.clog 2 (v + 1) = Nat.size v := by
  apply le_antisymm
  · rw [← Nat.le_pow_iff_clog_le (by norm_num)]
    exact Nat.lt_size_self v
  · rw [Nat.size_le]
    have : v + 1 ≤ 2 ^ Nat.clog 2 (v + 1) := (Nat.le_pow_iff_clog_le (by norm_num)).mpr le_rfl
    omega

/-- What the counting loop returns from round `i` on. -/
theorem BitsNeeded_needLoop_spec :
    ∀ (fuel i value : Nat), i ≤ 32 → 32 - i < fuel →
      BitsNeeded.needLoop fuel i value =
        some (if i + Nat.size value < 32 then i + Nat.size value else 31) := by
  intro fuel
  induction fuel with
  | zero => intro i _ _ h; omega
  | succ fuel ih =>
    intro i value hi hf
    unfold BitsNeeded.needLoop
    by_cases h32 : i < 32
    · rw [if_pos h32]
      by_cases hz : value = 0
      · subst hz
        simp [h32]
      · rw [if_neg hz]
        have h3 : (i + 1) % 256 = i + 1 := by omega
        rw [h3, ih (i + 1) (value / 2) (by omega) (by omega)]
        have := size_half value hz
        have e : i + 1 + Nat.size (value / 2) = i + Nat.size value := by omega
        rw [e]
    · rw [if_neg h32]
      have : ¬ i + Nat.size value < 32 := by omega
      rw [if_neg this]

theorem BitsNeeded_eq (v : Nat) (hv : v < 2 ^ 32) :
    BitsNeeded v = some (min (Nat.size v) 31) := by
  unfold BitsNeeded
  rw [Nat.mod_eq_of_lt hv, BitsNeeded_needLoop_spec 64 0 v (by omega) (by omega)]
  have h : Nat.size v ≤ 32 := Nat.size_le.mpr hv
  congr 1
  simp only [Nat.zero_add]
  split_ifs <;> omega

/-- C6: for every 32-bit value `v`, `BitsNeeded(v)` is 0 for `v = 0` and otherwise
`min(ceil(log2(v + 1)), 31)`; for `v < 2^31` it is the least `n` with `v < 2^n`. -/
theorem BitsNeeded_bit_length (v : Nat) (hv : v < 2 ^ 32) :
    BitsNeeded v = some (if v = 0 then 0 else min (Nat.clog 2 (v + 1)) 31) ∧
      (v < 2 ^ 31 → ∃ n, BitsNeeded v = some n ∧ v < 2 ^ n ∧ ∀ m, v < 2 ^ m → n ≤ m) := by
  have h := BitsNeeded_eq v hv
  constructor
  · rw [h, clog_succ_eq_size]
    by_cases hz : v = 0
    · subst hz
      simp
    · rw [if_neg hz]
  · intro h31
    have hs : Nat.size v ≤ 31 := Nat.size_le.mpr h31
    refine ⟨Nat.size v, ?_, Nat.lt_size_self v, ?_⟩
    · rw [h, Nat.min_eq_left hs]
    · intro m hm
      exact Nat.size_le.mpr hm

/-- Witness of `BitsNeeded_bit_length` at `v = 5`. -/
theorem BitsNeeded_bit_length_witness :
    BitsNeeded 5 = some (if 5 = 0 then 0 else min (Nat.clog 2 (5 + 1)) 31) ∧
      (5 < 2 ^ 31 → ∃ n, BitsNeeded 5 = some n ∧ 5 < 2 ^ n ∧ ∀ m, 5 < 2 ^ m → n ≤ m) :=
  BitsNeeded_bit_length 5 (by norm_num)

/-! ## Fields appended at the cursor -/

/-- A field appended at the cursor of a buffer that is still zero from the
cursor on: the bits below are kept, the field holds the value, the rest stays
zero. -/
theorem AddBits_field (bo w v : Nat) (g : Globals) (hlen : g.Array.length = 256)
    (hbo : bo < 256) (hw : w ≤ 255) (hin : 8 * bo + g.Bit_Offset + w ≤ 2048)
    (hclean : ∀ P, 8 * bo + g.Bit_Offset ≤ P → bitOf g.Array P = false) :
    ∃ A', AddBits bo 0 w v g = some ⟨A', g.Bit_Offset + w⟩ ∧ A'.length = 256 ∧
      (∀ P, P < 8 * bo + g.Bit_Offset → bitOf A' P = bitOf g.Array P) ∧
      (∀ k, k < w → bitOf A' (8 * bo + g.Bit_Offset + k) = (v % 2 ^ 32).testBit k) ∧
      (∀ P, 8 * bo + g.Bit_Offset + w ≤ P → bitOf A' P = false) := by
  obtain ⟨A', he, hl, hP⟩ := AddBits_spec bo 0 w v g hlen hbo (by omega) hw (by omega)
  refine ⟨A', he, hl, ?_, ?_, ?_⟩
  · intro P hlt
    rw [hP P]
    have e : ¬ (8 * bo + 0 + g.Bit_Offset ≤ P ∧ P < 8 * bo + 0 + g.Bit_Offset + w) := by omega
    rw [decide_eq_false e]
    simp
  · intro k hk
    rw [hP, hclean _ (by omega)]
    have e : 8 * bo + 0 + g.Bit_Offset ≤ 8 * bo + g.Bit_Offset + k ∧
        8 * bo + g.Bit_Offset + k < 8 * bo + 0 + g.Bit_Offset + w := by omega
    have e2 : 8 * bo + g.Bit_Offset + k - (8 * bo + 0 + g.Bit_Offset) = k := by omega
    rw [decide_eq_true e, e2]
    rfl
  · intro P hle
    rw [hP P, hclean _ (by omega)]
    have e : ¬ (8 * bo + 0 + g.Bit_Offset ≤ P ∧ P < 8 * bo + 0 + g.Bit_Offset + w) := by omega
    rw [decide_eq_false e]
    rfl

/-- Reading a field whose bits are those of a value that fits the width
returns the value and advances the cursor by the width. -/
theorem GetBits_field (bo w v c : Nat) (A : List Nat) (hlen : A.length = 256)
    (hbo : bo < 256) (hw : w ≤ 32) (hin : 8 * bo + c + w ≤ 2048) (hv : v < 2 ^ w)
    (hf : ∀ k, k < w → bitOf A (8 * bo + c + k) = v.testBit k) :
    GetBits bo 0 w ⟨A, c⟩ = some (v, ⟨A, c + w⟩) := by
  have hg := GetBits_spec bo 0 w ⟨A, c⟩ hlen hbo (by omega) (by omega) (by simpa using hin)
  dsimp only at hg
  rw [hg]
  have hle : 2 ^ w ≤ 2 ^ 32 := Nat.pow_le_pow_right (by norm_num) hw
  have hr : readBits A (8 * bo + 0 + c) w = v % 2 ^ w := by
    apply readBits_eq_mod
    intro k hk
    rw [Nat.add_zero]
    exact hf k hk
  rw [hr, Nat.mod_eq_of_lt hv, Nat.mod_eq_of_lt (by omega)]

/-- Appending the value 0 leaves the buffer as it is. -/
theorem AddBits_addLoop_zero (bo boff bits c : Nat) (hbits : bits ≤ 255) :
    ∀ (fuel i : Nat) (A : List Nat), i ≤ bits → bits - i < fuel →
      AddBits.addLoop bo boff bits c fuel i 0 A = some A := by
  intro fuel
  induction fuel with
  | zero => intro i _ _ h; omega
  | succ fuel ih =>
    intro i A hi hf
    unfold AddBits.addLoop
    by_cases hlt : i < bits
    · have h3 : (i + 1) % 256 = i + 1 := by omega
      simp only [hlt, if_true, h3, Nat.zero_and, ne_eq, not_true_eq_false, if_false,
        Nat.zero_div]
      exact ih (i + 1) A (by omega) (by omega)
    · simp only [hlt, if_false]

theorem AddBits_zero (bo w : Nat) (g : Globals) (hw : w ≤ 255) (hc : g.Bit_Offset + w < 2 ^ 32) :
    AddBits bo 0 w 0 g = some ⟨g.Array, g.Bit_Offset + w⟩ := by
  have e3 : w % 256 = w := Nat.mod_eq_of_lt (by omega)
  have e4 : (g.Bit_Offset + w) % 2 ^ 32 = g.Bit_Offset + w := Nat.mod_eq_of_lt hc
  simp only [AddBits, e3, e4, Nat.zero_mod,
    AddBits_addLoop_zero (bo % 256) 0 w g.Bit_Offset hw 256 0 g.Array (by omega) (by omega)]

theorem toLong_eq (x : Int) (h1 : -2 ^ 31 ≤ x) (h2 : x < 2 ^ 31) : toLong x = x := by
  unfold toLong
  omega

theorem toULong_eq (x : Int) (h1 : 0 ≤ x) (h2 : x < 2 ^ 32) : toULong x = x.toNat := by
  unfold toULong
  congr 1
  omega

theorem toULong_lt (x : Int) : toULong x < 2 ^ 32 := by
  unfold toULong
  omega

theorem two_mul_or_bit (a s : Nat) (hs : s < 2) : 2 * a ||| s = 2 * a + s := by
  have := Nat.mul_add_lt_is_or (i := 1) (b := s) (by simpa using hs) a
  simpa using this.symm

/-- The encoder-offset round for a non-zero offset: a set present bit, the 5-bit
header `n = BitsNeeded(|offset|)`, then `n + 1` bits of the doubled magnitude
OR-ed with the direction bit. -/
theorem encoderOffsetPort_spec (B : BrickPiStruct) (port : Nat) (g : Globals)
    (hlen : g.Array.length = 256) (hin : g.Bit_Offset + 46 ≤ 2048)
    (hclean : ∀ P, 8 + g.Bit_Offset ≤ P → bitOf g.Array P = false)
    (hv : B.EncoderOffset.getD port 0 ≠ 0) (T : Int)
    (hT : T = if B.EncoderOffset.getD port 0 < 0 then
      toLong (B.EncoderOffset.getD port 0 * (-1)) else B.EncoderOffset.getD port 0) :
    ∃ A' n, BitsNeeded (toULong T) = some n ∧ n ≤ 31 ∧
      BrickPiUpdateValues.encoderOffsetPort B port g =
        some ⟨A', g.Bit_Offset + 1 + 5 + (n + 1)⟩ ∧
      A'.length = 256 ∧
      (∀ P, P < 8 + g.Bit_Offset → bitOf A' P = bitOf g.Array P) ∧
      bitOf A' (8 + g.Bit_Offset) = true ∧
      (∀ k, k < 5 → bitOf A' (8 + (g.Bit_Offset + 1) + k) = n.testBit k) ∧
      (∀ k, k < n + 1 → bitOf A' (8 + (g.Bit_Offset + 1 + 5) + k) =
        ((toULong (toLong (T * 2)) |||
          (if B.EncoderOffset.getD port 0 < 0 then 1 else 0)) % 2 ^ 32).testBit k) ∧
      (∀ P, 8 + (g.Bit_Offset + 1 + 5) + (n + 1) ≤ P → bitOf A' P = false) := by
  obtain ⟨A1, he1, hl1, hb1, hf1, hc1⟩ := AddBits_field 1 1 1 g hlen (by omega) (by omega)
    (by omega) (by simpa using hclean)
  have hn := BitsNeeded_eq (toULong T) (toULong_lt T)
  have hn31 : min (Nat.size (toULong T)) 31 ≤ 31 := Nat.min_le_right _ _
  obtain ⟨A2, he2, hl2, hb2, hf2, hc2⟩ := AddBits_field 1 5 (min (Nat.size (toULong T)) 31)
    ⟨A1, g.Bit_Offset + 1⟩ hl1 (by omega) (by omega) (by dsimp only; omega)
    (by simpa using hc1)
  dsimp only at he2 hb2 hf2 hc2
  obtain ⟨A3, he3, hl3, hb3, hf3, hc3⟩ := AddBits_field 1
    (min (Nat.size (toULong T)) 31 + 1)
    (toULong (toLong (T * 2)) ||| (if B.EncoderOffset.getD port 0 < 0 then 1 else 0))
    ⟨A2, g.Bit_Offset + 1 + 5⟩ hl2 (by omega) (by omega) (by dsimp only; omega)
    (by simpa using hc2)
  dsimp only at he3 hb3 hf3 hc3
  refine ⟨A3, min (Nat.size (toULong T)) 31, hn, hn31, ?_, hl3, ?_, ?_, ?_, ?_, ?_⟩
  · have e256 : (min (Nat.size (toULong T)) 31 + 1) % 256 =
        min (Nat.size (toULong T)) 31 + 1 := Nat.mod_eq_of_lt (by omega)
    simp only [BrickPiUpdateValues.encoderOffsetPort, hv, ne_eq, not_false_eq_true, if_true,
      he1, Option.bind_eq_bind, Option.some_bind, ← hT, hn, he2, e256, he3]
  · intro P hP
    rw [hb3 P (by omega), hb2 P (by omega), hb1 P (by omega)]
  · rw [hb3 _ (by omega), hb2 _ (by omega)]
    have := hf1 0 (by omega)
    rw [Nat.add_zero] at this
    rw [this]
    decide
  · intro k hk
    rw [hb3 _ (by omega), hf2 k hk, Nat.mod_eq_of_lt (by omega)]
  · intro k hk
    exact hf3 k hk
  · intro P hP
    exact hc3 P hP

/-! ## Encoder offsets in the outbound ValuesExchange -/

/-- C7: in the outbound ValuesExchange an encoder offset of 0 is one 0 bit and
nothing else (buffer untouched, cursor advanced by 1); a non-zero offset `v`
with `|v| < 2^30` is a 1 bit, the 5-bit header `n = BitsNeeded(|v|)`, and `n + 1`
bits holding `r = 2|v| + (1 if v < 0 else 0)`, from which `v` is recovered as
`-(r div 2)` for odd `r` and `r div 2` for even `r`; `BitsNeeded(5) = 3`. -/
theorem encoderOffset_encoding (B : BrickPiStruct) (port : Nat) (g : Globals)
    (hlen : g.Array.length = 256) (hin : g.Bit_Offset + 46 ≤ 2048)
    (hclean : ∀ P, 8 + g.Bit_Offset ≤ P → bitOf g.Array P = false) :
    (B.EncoderOffset.getD port 0 = 0 →
      BrickPiUpdateValues.encoderOffsetPort B port g = some ⟨g.Array, g.Bit_Offset + 1⟩ ∧
      GetBits 1 0 1 g = some (0, ⟨g.Array, g.Bit_Offset + 1⟩)) ∧
    (∀ v : Int, B.EncoderOffset.getD port 0 = v → v ≠ 0 → v.natAbs < 2 ^ 30 →
      ∃ A' n r, BitsNeeded v.natAbs = some n ∧
        r = 2 * v.natAbs + (if v < 0 then 1 else 0) ∧
        BrickPiUpdateValues.encoderOffsetPort B port g =
          some ⟨A', g.Bit_Offset + 1 + 5 + (n + 1)⟩ ∧
        GetBits 1 0 1 ⟨A', g.Bit_Offset⟩ = some (1, ⟨A', g.Bit_Offset + 1⟩) ∧
        GetBits 1 0 5 ⟨A', g.Bit_Offset + 1⟩ = some (n, ⟨A', g.Bit_Offset + 1 + 5⟩) ∧
        GetBits 1 0 (n + 1) ⟨A', g.Bit_Offset + 1 + 5⟩ =
          some (r, ⟨A', g.Bit_Offset + 1 + 5 + (n + 1)⟩) ∧
        (if r % 2 = 1 then -((r / 2 : Nat) : Int) else ((r / 2 : Nat) : Int)) = v) ∧
    BitsNeeded (5 : Int).natAbs = some 3 ∧ BitsNeeded (-5 : Int).natAbs = some 3 := by
  refine ⟨?_, ?_, by decide, by decide⟩
  · intro h0
    constructor
    · simp only [BrickPiUpdateValues.encoderOffsetPort, h0, ne_eq, not_true_eq_false,
        if_false]
      exact AddBits_zero 1 1 g (by omega) (by omega)
    · have := GetBits_field 1 1 0 g.Bit_Offset g.Array hlen (by omega) (by omega) (by omega)
        (by norm_num) (by
          intro k hk
          rw [hclean _ (by omega), Nat.zero_testBit])
      exact this
  · intro v hv hv0 hv30
    have hT : (v.natAbs : Int) = if B.EncoderOffset.getD port 0 < 0 then
        toLong (B.EncoderOffset.getD port 0 * (-1)) else B.EncoderOffset.getD port 0 := by
      rw [hv]
      split_ifs with hneg
      · rw [toLong_eq _ (by omega) (by omega)]
        omega
      · omega
    obtain ⟨A', n, hn, hn31, he, hl, _, h1, h5, hr, _⟩ :=
      encoderOffsetPort_spec B port g hlen hin hclean (by rw [hv]; exact hv0) _ hT
    have hu : toULong (v.natAbs : Int) = v.natAbs := by
      rw [toULong_eq _ (by omega) (by omega)]
      omega
    rw [hu] at hn
    have hsz : n = Nat.size v.natAbs := by
      have h30 : Nat.size v.natAbs ≤ 30 := Nat.size_le.mpr hv30
      rw [BitsNeeded_eq _ (by omega)] at hn
      have := Option.some.inj hn
      omega
    have ha : v.natAbs < 2 ^ n := by
      rw [hsz]
      exact Nat.lt_size_self _
    have hval : toULong (toLong ((v.natAbs : Int) * 2)) = 2 * v.natAbs := by
      rw [toLong_eq _ (by omega) (by omega), toULong_eq _ (by omega) (by omega)]
      omega
    have hs : (if v < 0 then 1 else 0 : Nat) < 2 := by split_ifs <;> omega
    rw [hv, hval, two_mul_or_bit _ _ hs] at hr
    have hr32 : 2 * v.natAbs + (if v < 0 then 1 else 0 : Nat) < 2 ^ 32 := by omega
    rw [Nat.mod_eq_of_lt hr32] at hr
    have hrn : 2 * v.natAbs + (if v < 0 then 1 else 0 : Nat) < 2 ^ (n + 1) := by
      rw [pow_succ]
      omega
    refine ⟨A', n, 2 * v.natAbs + (if v < 0 then 1 else 0), hn, rfl, he, ?_, ?_, ?_, ?_⟩
    · exact GetBits_field 1 1 1 g.Bit_Offset A' hl (by omega) (by omega) (by omega)
        (by norm_num) (by
          intro k hk
          have : k = 0 := by omega
          subst this
          rw [Nat.add_zero, h1]
          decide)
    · exact GetBits_field 1 5 n (g.Bit_Offset + 1) A' hl (by omega) (by omega) (by omega)
        (by norm_num; omega) h5
    · exact GetBits_field 1 (n + 1) _ (g.Bit_Offset + 1 + 5) A' hl (by omega) (by omega)
        (by omega) hrn hr
    · split_ifs with h1 h2 h2 <;> omega

/-- Witness of `encoderOffset_encoding`: port 0 with offset 5 on the zeroed buffer. -/
theorem encoderOffset_encoding_witness :
    ∃ A' n r, BitsNeeded (5 : Int).natAbs = some n ∧
      r = 2 * (5 : Int).natAbs + (if (5 : Int) < 0 then 1 else 0) ∧
      BrickPiUpdateValues.encoderOffsetPort { BrickPi_zero with EncoderOffset := [5, 0, 0, 0] } 0
          ⟨List.replicate 256 0, 0⟩ = some ⟨A', 0 + 1 + 5 + (n + 1)⟩ ∧
      GetBits 1 0 1 ⟨A', 0⟩ = some (1, ⟨A', 0 + 1⟩) ∧
      GetBits 1 0 5 ⟨A', 0 + 1⟩ = some (n, ⟨A', 0 + 1 + 5⟩) ∧
      GetBits 1 0 (n + 1) ⟨A', 0 + 1 + 5⟩ = some (r, ⟨A', 0 + 1 + 5 + (n + 1)⟩) ∧
      (if r % 2 = 1 then -((r / 2 : Nat) : Int) else ((r / 2 : Nat) : Int)) = 5 :=
  (encoderOffset_encoding { BrickPi_zero with EncoderOffset := [5, 0, 0, 0] } 0
    ⟨List.replicate 256 0, 0⟩ (List.length_replicate 256 0) (by decide)
    (fun P _ => bitOf_replicate_zero 256 P)).2.1 5 (by decide) (by decide) (by decide)

/-- C8 (amended): for every port with a non-zero pending encoder offset, the
number of bits the outbound ValuesExchange appends after the 5-bit width header
is the value written in that header plus one (the sign bit). -/
theorem encoderOffset_bits_after_header (B : BrickPiStruct) (port : Nat) (g : Globals)
    (hlen : g.Array.length = 256) (hin : g.Bit_Offset + 46 ≤ 2048)
    (hclean : ∀ P, 8 + g.Bit_Offset ≤ P → bitOf g.Array P = false)
    (hv : B.EncoderOffset.getD port 0 ≠ 0) :
    ∃ A' n, BrickPiUpdateValues.encoderOffsetPort B port g =
        some ⟨A', (g.Bit_Offset + 1 + 5) + (n + 1)⟩ ∧
      GetBits 1 0 5 ⟨A', g.Bit_Offset + 1⟩ = some (n, ⟨A', g.Bit_Offset + 1 + 5⟩) := by
  obtain ⟨A', n, _, hn31, he, hl, _, _, h5, _, _⟩ :=
    encoderOffsetPort_spec B port g hlen hin hclean hv _ rfl
  refine ⟨A', n, he, ?_⟩
  exact GetBits_field 1 5 n (g.Bit_Offset + 1) A' hl (by omega) (by omega) (by omega)
    (by norm_num; omega) h5

/-- Witness of `encoderOffset_bits_after_header`: port 0 with offset -5 on the
zeroed buffer. -/
theorem encoderOffset_bits_after_header_witness :
    ∃ A' n, BrickPiUpdateValues.encoderOffsetPort
        { BrickPi_zero with EncoderOffset := [-5, 0, 0, 0] } 0 ⟨List.replicate 256 0, 0⟩ =
        some ⟨A', (0 + 1 + 5) + (n + 1)⟩ ∧
      GetBits 1 0 5 ⟨A', 0 + 1⟩ = some (n, ⟨A', 0 + 1 + 5⟩) :=
  encoderOffset_bits_after_header { BrickPi_zero with EncoderOffset := [-5, 0, 0, 0] } 0
    ⟨List.replicate 256 0, 0⟩ (List.length_replicate 256 0) (by decide)
    (fun P _ => bitOf_replicate_zero 256 P) (by decide)

set_option maxRecDepth 100000 in
/-- C8 fails as stated: for offset 5 on the zeroed buffer the width header reads
3, while 4 bits follow it (the cursor ends at 10, the header at 6). -/
theorem encoderOffset_bits_counterexample :
    (BrickPiUpdateValues.encoderOffsetPort { BrickPi_zero with EncoderOffset := [5, 0, 0, 0] } 0
        ⟨List.replicate 256 0, 0⟩).map
      (fun g => ((GetBits 1 0 5 ⟨g.Array, 1⟩).map (fun r => r.1), g.Bit_Offset - (1 + 5))) =
      some (some 3, 4) := by
  decide

/-! ## Motor words in the outbound ValuesExchange -/

theorem or_one_odd (Y : Nat) : (Y ||| 1) % 2 = 1 := by
  have h := Nat.testBit_zero (Y ||| 1)
  rw [Nat.testBit_or] at h
  have h1 : Nat.testBit 1 0 = true := by decide
  rw [h1, Bool.or_true] at h
  exact of_decide_eq_true h.symm

theorem and_3FF (X : Nat) : X &&& 0x3FF = X % 1024 := by
  have := Nat.and_pow_two_sub_one_eq_mod X 10
  simpa using this

theorem and_FF (X : Nat) : X &&& 0xFF = X % 256 := by
  have := Nat.and_pow_two_sub_one_eq_mod X 8
  simpa using this

/-- The motor word is a 10-bit value with the enable bit set. -/
theorem motorWord_odd (speed : Int) :
    (BrickPiUpdateValues.motorWord speed).1 < 2 ^ 10 ∧
      (BrickPiUpdateValues.motorWord speed).1 % 2 = 1 := by
  simp only [BrickPiUpdateValues.motorWord, and_3FF]
  constructor
  · exact Nat.mod_lt _ (by norm_num)
  · have := or_one_odd (((toULong (if (if speed < 0 then toLong (speed * -1) else speed) >
      255 then 255 else if speed < 0 then toLong (speed * -1) else speed) &&& 0xFF) <<< 2) |||
      ((if speed < 0 then 1 else 0) <<< 1))
    omega

/-- The motor word of a speed above `INT_MIN`: magnitude capped at 255, direction
bit, enable bit. -/
theorem motorWord_spec (s : Int) (h1 : -2 ^ 31 < s) (h2 : s < 2 ^ 31) :
    (BrickPiUpdateValues.motorWord s).1 =
      ((min s.natAbs 255) <<< 2) ||| ((if s < 0 then 1 else 0) <<< 1) ||| 1 := by
  have hm : toULong (if (if s < 0 then toLong (s * -1) else s) > 255 then 255
      else if s < 0 then toLong (s * -1) else s) = min s.natAbs 255 := by
    by_cases hneg : s < 0
    · rw [if_pos hneg, toLong_eq _ (by omega) (by omega)]
      split_ifs with h
      · rw [toULong_eq _ (by omega) (by omega)]
        omega
      · rw [toULong_eq _ (by omega) (by omega)]
        omega
    · rw [if_neg hneg]
      split_ifs with h
      · rw [toULong_eq _ (by omega) (by omega)]
        omega
      · rw [toULong_eq _ (by omega) (by omega)]
        omega
  simp only [BrickPiUpdateValues.motorWord, hm, and_3FF, and_FF]
  have hmin : min s.natAbs 255 % 256 = min s.natAbs 255 := Nat.mod_eq_of_lt (by omega)
  rw [hmin]
  apply Nat.mod_eq_of_lt
  have a1 : (min s.natAbs 255) <<< 2 < 2 ^ 10 := by
    rw [Nat.shiftLeft_eq]
    omega
  have a2 : ((if s < 0 then 1 else 0 : Nat) <<< 1) < 2 ^ 10 := by
    rw [Nat.shiftLeft_eq]
    split_ifs <;> omega
  exact Nat.or_lt_two_pow (Nat.or_lt_two_pow a1 a2) (by norm_num)

/-- One motor round of a port that is not in Float mode appends the motor word
of the selected speed. -/
theorem motorPort_nonfloat (B : BrickPiStruct) (port : Nat) (speed : Int) (g : Globals)
    (hlen : g.Array.length = 256) (hin : g.Bit_Offset + 18 ≤ 2048)
    (hclean : ∀ P, 8 + g.Bit_Offset ≤ P → bitOf g.Array P = false)
    (hmode : B.MotorEnable.getD port 0 ≠ TYPE_MOTOR_FLOAT) :
    ∃ A', BrickPiUpdateValues.motorPort B port speed g =
        some ((BrickPiUpdateValues.motorSpeed B port speed).1,
          (BrickPiUpdateValues.motorWord (BrickPiUpdateValues.motorSpeed B port speed).2).2,
          ⟨A', g.Bit_Offset + 10⟩) ∧
      GetBits 1 0 10 ⟨A', g.Bit_Offset⟩ =
        some ((BrickPiUpdateValues.motorWord (BrickPiUpdateValues.motorSpeed B port speed).2).1,
          ⟨A', g.Bit_Offset + 10⟩) := by
  obtain ⟨hw10, _⟩ :=
    motorWord_odd (BrickPiUpdateValues.motorSpeed B port speed).2
  obtain ⟨A', he, hl, _, hf, _⟩ := AddBits_field 1 10
    (BrickPiUpdateValues.motorWord (BrickPiUpdateValues.motorSpeed B port speed).2).1 g hlen
    (by omega) (by omega) (by omega) (by simpa using hclean)
  refine ⟨A', ?_, ?_⟩
  · simp only [BrickPiUpdateValues.motorPort, hmode, if_false, he, Option.bind_eq_bind,
      Option.some_bind]
  · apply GetBits_field 1 10 _ g.Bit_Offset A' hl (by omega) (by omega) (by omega) hw10
    intro k hk
    rw [hf k hk, Nat.mod_eq_of_lt (by omega)]

/-- C9: in the outbound ValuesExchange the 10-bit motor word of a Float port is 0;
of a SpeedControl port with commanded speed `s` above `INT_MIN` it is
`(min(|s|, 255) << 2) | ((1 if s < 0 else 0) << 1) | 1`; and for every port not in
Float mode the enable bit is set and the magnitude field is at most 255. -/
theorem motor_word_encoding (B : BrickPiStruct) (port : Nat) (speed : Int) (g : Globals)
    (hlen : g.Array.length = 256) (hin : g.Bit_Offset + 18 ≤ 2048)
    (hclean : ∀ P, 8 + g.Bit_Offset ≤ P → bitOf g.Array P = false) :
    (B.MotorEnable.getD port 0 = TYPE_MOTOR_FLOAT →
      BrickPiUpdateValues.motorPort B port speed g =
        some (B, speed, ⟨g.Array, g.Bit_Offset + 10⟩) ∧
      GetBits 1 0 10 g = some (0, ⟨g.Array, g.Bit_Offset + 10⟩)) ∧
    (B.MotorEnable.getD port 0 = TYPE_MOTOR_SPEED →
      ∀ s : Int, B.MotorSpeed.getD port 0 = s → -2 ^ 31 < s → s < 2 ^ 31 →
      ∃ A' sp, BrickPiUpdateValues.motorPort B port speed g =
          some (B, sp, ⟨A', g.Bit_Offset + 10⟩) ∧
        GetBits 1 0 10 ⟨A', g.Bit_Offset⟩ =
          some (((min s.natAbs 255) <<< 2) ||| ((if s < 0 then 1 else 0) <<< 1) ||| 1,
            ⟨A', g.Bit_Offset + 10⟩)) ∧
    (B.MotorEnable.getD port 0 ≠ TYPE_MOTOR_FLOAT →
      ∃ B' A' sp w, BrickPiUpdateValues.motorPort B port speed g =
          some (B', sp, ⟨A', g.Bit_Offset + 10⟩) ∧
        GetBits 1 0 10 ⟨A', g.Bit_Offset⟩ = some (w, ⟨A', g.Bit_Offset + 10⟩) ∧
        w % 2 = 1 ∧ w / 4 ≤ 255) := by
  refine ⟨?_, ?_, ?_⟩
  · intro hf
    constructor
    · simp only [BrickPiUpdateValues.motorPort, hf, if_true,
        AddBits_zero 1 10 g (by omega) (by omega), Option.bind_eq_bind, Option.some_bind]
    · exact GetBits_field 1 10 0 g.Bit_Offset g.Array hlen (by omega) (by omega) (by omega)
        (by norm_num) (by
          intro k hk
          rw [hclean _ (by omega), Nat.zero_testBit])
  · intro hsp s hs h1 h2
    have hnf : B.MotorEnable.getD port 0 ≠ TYPE_MOTOR_FLOAT := by
      rw [hsp]
      decide
    obtain ⟨A', he, hg⟩ := motorPort_nonfloat B port speed g hlen hin hclean hnf
    have hms : BrickPiUpdateValues.motorSpeed B port speed = (B, s) := by
      simp only [BrickPiUpdateValues.motorSpeed, hsp, if_true, hs]
    rw [hms] at he hg
    dsimp only at he hg
    rw [motorWord_spec s h1 h2] at hg
    exact ⟨A', _, he, hg⟩
  · intro hnf
    obtain ⟨A', he, hg⟩ := motorPort_nonfloat B port speed g hlen hin hclean hnf
    obtain ⟨hw10, hodd⟩ := motorWord_odd (BrickPiUpdateValues.motorSpeed B port speed).2
    refine ⟨_, A', _, _, he, hg, hodd, ?_⟩
    norm_num at hw10
    omega

/-- Witness of `motor_word_encoding`: a SpeedControl port with speed -300. -/
theorem motor_word_encoding_witness :
    ∃ A' sp, BrickPiUpdateValues.motorPort
        { BrickPi_zero with MotorEnable := [1, 0, 0, 0], MotorSpeed := [-300, 0, 0, 0] } 0 0
        ⟨List.replicate 256 0, 0⟩ =
        some ({ BrickPi_zero with MotorEnable := [1, 0, 0, 0], MotorSpeed := [-300, 0, 0, 0] },
          sp, ⟨A', 0 + 10⟩) ∧
      GetBits 1 0 10 ⟨A', 0⟩ =
        some (((min (-300 : Int).natAbs 255) <<< 2) |||
          ((if (-300 : Int) < 0 then 1 else 0) <<< 1) ||| 1, ⟨A', 0 + 10⟩) :=
  (motor_word_encoding
    { BrickPi_zero with MotorEnable := [1, 0, 0, 0], MotorSpeed := [-300, 0, 0, 0] } 0 0
    ⟨List.replicate 256 0, 0⟩ (List.length_replicate 256 0) (by decide)
    (fun P _ => bitOf_replicate_zero 256 P)).2.1 (by decide) (-300) (by decide) (by decide)
    (by decide)

theorem f32_excess_small (m : Nat) (h : m < 2 ^ 24) : f32.excess m m = 0 := by
  cases m with
  | zero => rfl
  | succ k => simp only [f32.excess, h, if_true]

/-- Single precision holds every integer below `2^24` in magnitude exactly. -/
theorem f32_exact (x : Int) (h : x.natAbs < 2 ^ 24) : f32 x = x := by
  have hr : f32.roundNat x.natAbs = x.natAbs := by
    simp only [f32.roundNat, f32_excess_small _ h, pow_zero, Nat.div_one, Nat.mod_one,
      Nat.mul_zero, Nat.mul_one]
    norm_num
  unfold f32
  rw [hr]
  split_ifs with h0 <;> omega

theorem getD_set_self_int (l : List Int) (i : Nat) (v : Int) (h : i < l.length) :
    (l.set i v).getD i 0 = v := by
  simp [List.getD_eq_getElem?_getD, List.getElem?_set, h]

/-- The speed the position regulator selects when single precision is exact on
all intermediate values. -/
theorem motorSpeed_position (B : BrickPiStruct) (port : Nat) (speed : Int)
    (hmode : B.MotorEnable.getD port 0 = TYPE_MOTOR_POSITION)
    (error p1 p2 : Int) (d : Nat)
    (herr : error = B.MotorTarget.getD port 0 - B.Encoder.getD port 0)
    (hp1 : p1 = error * B.MotorTargetKP.getD port 0)
    (hp2 : p2 = (error - B.MotorTargetLastError.getD port 0) * B.MotorTargetKD.getD port 0)
    (hd : B.MotorDead.getD port 0 = d)
    (b1 : error.natAbs < 2 ^ 24)
    (b2 : (error - B.MotorTargetLastError.getD port 0).natAbs < 2 ^ 24)
    (b3 : p1.natAbs < 2 ^ 24) (b4 : p2.natAbs < 2 ^ 24)
    (b5 : (p1 + p2).natAbs + d < 2 ^ 24) :
    BrickPiUpdateValues.motorSpeed B port speed =
      ({ B with MotorTargetLastError := B.MotorTargetLastError.set port error },
        if (p1 + p2).natAbs < d then 0
        else if p1 + p2 < 0 then -((min ((p1 + p2).natAbs + d) 255 : Nat) : Int)
        else ((min ((p1 + p2).natAbs + d) 255 : Nat) : Int)) := by
  have hne : ¬ (TYPE_MOTOR_POSITION = TYPE_MOTOR_SPEED) := by decide
  have e1 : toLong (B.MotorTarget.getD port 0 - B.Encoder.getD port 0) = error := by
    rw [← herr]
    exact toLong_eq _ (by omega) (by omega)
  have e2 : toLong (error - B.MotorTargetLastError.getD port 0) =
      error - B.MotorTargetLastError.getD port 0 := toLong_eq _ (by omega) (by omega)
  simp only [BrickPiUpdateValues.motorSpeed, hmode, hne, if_false, if_true, e1, e2,
    f32_exact _ b1, f32_exact _ b2, ← hp1, ← hp2, f32_exact _ b3, f32_exact _ b4,
    f32_exact (p1 + p2) (by omega), hd]
  congr 1
  generalize p1 + p2 = s at b5 ⊢
  by_cases hdead : s < (d : Int) ∧ s > -(d : Int)
  · have hlt : s.natAbs < d := by omega
    simp only [hdead, and_self, if_true, hlt, gt_iff_lt, lt_self_iff_false, if_false]
    decide
  · have hge : ¬ s.natAbs < d := by omega
    simp only [hdead, if_false, hge]
    by_cases hpos : s > 0
    · have hn : ¬ s < 0 := by omega
      simp only [hpos, if_true, hn, if_false]
      rw [f32_exact _ (by omega)]
      simp only [Clip, Min, Max]
      split_ifs <;> omega
    · by_cases hneg : s < 0
      · simp only [hpos, if_false, hneg, if_true]
        rw [f32_exact _ (by omega)]
        simp only [Clip, Min, Max]
        split_ifs <;> omega
      · have hz : s = 0 := by omega
        subst hz
        have hd0 : d = 0 := by omega
        subst hd0
        decide

/-- C10 (amended): for a PositionControl port with integer-valued gains `Kp`, `Kd`
and dead-band `d`, as long as the error, the error difference, both products and
`|s| + d` stay below `2^24` in magnitude (where single precision is exact), one
attempt computes `error = MotorTarget - Encoder` and
`s = Kp*error + Kd*(error - MotorTargetLastError)`, stores `error` into
`MotorTargetLastError`, and appends the motor word with magnitude 0 and direction
0 if `|s| < d`, and otherwise with magnitude `min(|s| + d, 255)` and the direction
bit set exactly when `s < 0`. -/
theorem position_regulator (B : BrickPiStruct) (port : Nat) (speed : Int) (g : Globals)
    (hlen : g.Array.length = 256) (hin : g.Bit_Offset + 18 ≤ 2048)
    (hclean : ∀ P, 8 + g.Bit_Offset ≤ P → bitOf g.Array P = false)
    (hmode : B.MotorEnable.getD port 0 = TYPE_MOTOR_POSITION)
    (hport : port < B.MotorTargetLastError.length)
    (Kp Kd error s : Int) (d : Nat)
    (hKp : B.MotorTargetKP.getD port 0 = Kp) (hKd : B.MotorTargetKD.getD port 0 = Kd)
    (hd : B.MotorDead.getD port 0 = d)
    (herr : error = B.MotorTarget.getD port 0 - B.Encoder.getD port 0)
    (hs : s = Kp * error + Kd * (error - B.MotorTargetLastError.getD port 0))
    (b1 : error.natAbs < 2 ^ 24)
    (b2 : (error - B.MotorTargetLastError.getD port 0).natAbs < 2 ^ 24)
    (b3 : (Kp * error).natAbs < 2 ^ 24)
    (b4 : (Kd * (error - B.MotorTargetLastError.getD port 0)).natAbs < 2 ^ 24)
    (b5 : s.natAbs + d < 2 ^ 24) :
    ∃ B' sp A', BrickPiUpdateValues.motorPort B port speed g =
        some (B', sp, ⟨A', g.Bit_Offset + 10⟩) ∧
      B'.MotorTargetLastError.getD port 0 = error ∧
      GetBits 1 0 10 ⟨A', g.Bit_Offset⟩ =
        some (if s.natAbs < d then (0 <<< 2) ||| (0 <<< 1) ||| 1
          else ((min (s.natAbs + d) 255) <<< 2) ||| ((if s < 0 then 1 else 0) <<< 1) ||| 1,
          ⟨A', g.Bit_Offset + 10⟩) := by
  have hnf : B.MotorEnable.getD port 0 ≠ TYPE_MOTOR_FLOAT := by
    rw [hmode]
    decide
  obtain ⟨A', he, hg⟩ := motorPort_nonfloat B port speed g hlen hin hclean hnf
  have hsum : error * Kp + (error - B.MotorTargetLastError.getD port 0) * Kd = s := by
    rw [hs]
    ring
  have hms := motorSpeed_position B port speed hmode error (error * Kp)
    ((error - B.MotorTargetLastError.getD port 0) * Kd) d herr (by rw [hKp]) (by rw [hKd]) hd
    b1 b2 (by rw [Int.mul_comm]; exact b3) (by rw [Int.mul_comm]; exact b4)
    (by rw [hsum]; exact b5)
  rw [hsum] at hms
  rw [hms] at he hg
  dsimp only at he hg
  refine ⟨_, _, A', he, getD_set_self_int _ _ _ hport, ?_⟩
  rw [hg]
  congr 2
  by_cases hdead : s.natAbs < d
  · simp only [hdead, if_true]
    decide
  · simp only [hdead, if_false]
    by_cases hneg : s < 0
    · simp only [hneg, if_true]
      rw [motorWord_spec _ (by omega) (by omega)]
      have e1 : (-((min (s.natAbs + d) 255 : Nat) : Int)).natAbs = min (s.natAbs + d) 255 := by
        omega
      have e2 : -((min (s.natAbs + d) 255 : Nat) : Int) < 0 := by omega
      rw [e1, if_pos e2, Nat.min_eq_left (Nat.min_le_right _ _)]
    · simp only [hneg, if_false]
      rw [motorWord_spec _ (by omega) (by omega)]
      have e1 : (((min (s.natAbs + d) 255 : Nat) : Int)).natAbs = min (s.natAbs + d) 255 := by
        omega
      have e2 : ¬ ((min (s.natAbs + d) 255 : Nat) : Int) < 0 := by omega
      rw [e1, if_neg e2, Nat.min_eq_left (Nat.min_le_right _ _)]

/-- Witness of `position_regulator`: target 100, encoder 90, last error 4, gains
2 and 5, dead-band 10, so that `error = 10` and `s = 50`. -/
theorem position_regulator_witness :
    ∃ B' sp A', BrickPiUpdateValues.motorPort
        { BrickPi_zero with
          MotorEnable := [2, 0, 0, 0], MotorTarget := [100, 0, 0, 0],
          Encoder := [90, 0, 0, 0], MotorTargetLastError := [4, 0, 0, 0],
          MotorTargetKP := [2, 0, 0, 0], MotorTargetKD := [5, 0, 0, 0],
          MotorDead := [10, 0, 0, 0] } 0 0 ⟨List.replicate 256 0, 0⟩ =
        some (B', sp, ⟨A', 0 + 10⟩) ∧
      B'.MotorTargetLastError.getD 0 0 = 10 ∧
      GetBits 1 0 10 ⟨A', 0⟩ =
        some (if (50 : Int).natAbs < 10 then (0 <<< 2) ||| (0 <<< 1) ||| 1
          else ((min ((50 : Int).natAbs + 10) 255) <<< 2) |||
            ((if (50 : Int) < 0 then 1 else 0) <<< 1) ||| 1,
          ⟨A', 0 + 10⟩) :=
  position_regulator
    { BrickPi_zero with
      MotorEnable := [2, 0, 0, 0], MotorTarget := [100, 0, 0, 0],
      Encoder := [90, 0, 0, 0], MotorTargetLastError := [4, 0, 0, 0],
      MotorTargetKP := [2, 0, 0, 0], MotorTargetKD := [5, 0, 0, 0],
      MotorDead := [10, 0, 0, 0] } 0 0 ⟨List.replicate 256 0, 0⟩
    (List.length_replicate 256 0) (by decide) (fun P _ => bitOf_replicate_zero 256 P)
    (by decide) (by decide) 2 5 10 50 10 (by decide) (by decide) (by decide) (by decide)
    (by decide) (by decide) (by decide) (by decide) (by decide) (by decide)

set_option maxRecDepth 100000 in
/-- C10 fails as stated: with gains 1 and 1, dead-band 0, target 16777217,
encoder 0 and last error 33554433 the exact value is `s = 1`, for which the claim
gives the motor word `(1 << 2) | 1 = 5`; in single precision the error rounds to
16777216, the sum is 0, and the motor word appended is 1 (magnitude 0). -/
theorem position_regulator_counterexample :
    ((1 : Int) * (16777217 - 0) + 1 * ((16777217 - 0) - 33554433) = 1) ∧
      ((min ((1 : Int).natAbs + 0) 255) <<< 2) ||| ((if (1 : Int) < 0 then 1 else 0) <<< 1) ||| 1
        = 5 ∧
      (BrickPiUpdateValues.motorPort
        { BrickPi_zero with
          MotorEnable := [2, 0, 0, 0], MotorTarget := [16777217, 0, 0, 0],
          MotorTargetLastError := [33554433, 0, 0, 0],
          MotorTargetKP := [1, 0, 0, 0], MotorTargetKD := [1, 0, 0, 0] } 0 0
        ⟨List.replicate 256 0, 0⟩).map
        (fun r => (GetBits 1 0 10 ⟨r.2.2.Array, 0⟩).map (fun x => x.1)) = some (some 1) := by
  refine ⟨by decide, by decide, by decide⟩

/-! ## The dead band of the position regulator -/

/-- The speed the position regulator selects, in terms of the value `s` it
computed for `speed_f`. -/
theorem motorSpeed_position_computed (B : BrickPiStruct) (port : Nat) (speed : Int)
    (hmode : B.MotorEnable.getD port 0 = TYPE_MOTOR_POSITION) (error s : Int) (d : Nat)
    (herr : error = toLong (B.MotorTarget.getD port 0 - B.Encoder.getD port 0))
    (hs : s = f32 (f32 (f32 error * B.MotorTargetKP.getD port 0) +
      f32 (f32 (toLong (error - B.MotorTargetLastError.getD port 0)) *
        B.MotorTargetKD.getD port 0)))
    (hd : B.MotorDead.getD port 0 = d) :
    (BrickPiUpdateValues.motorSpeed B port speed).2 =
      Clip (if (if s < (d : Int) ∧ s > -(d : Int) then 0 else s) > 0 then
          f32 ((if s < (d : Int) ∧ s > -(d : Int) then 0 else s) + d)
        else if (if s < (d : Int) ∧ s > -(d : Int) then 0 else s) < 0 then
          f32 ((if s < (d : Int) ∧ s > -(d : Int) then 0 else s) - d)
        else (if s < (d : Int) ∧ s > -(d : Int) then 0 else s)) (-255) 255 := by
  have hne : ¬ (TYPE_MOTOR_POSITION = TYPE_MOTOR_SPEED) := by decide
  simp only [BrickPiUpdateValues.motorSpeed, hmode, hne, if_false, if_true, ← herr, ← hs, hd]

/-- C11 (amended): for a PositionControl port with dead-band 10, when the
computed regulator value has magnitude 9 the commanded speed is exactly 0 (motor
word with magnitude 0 and direction 0), and when it has magnitude 50 the
magnitude placed in the motor word is 60. -/
theorem deadband_ten (B : BrickPiStruct) (port : Nat) (speed : Int) (g : Globals)
    (hlen : g.Array.length = 256) (hin : g.Bit_Offset + 18 ≤ 2048)
    (hclean : ∀ P, 8 + g.Bit_Offset ≤ P → bitOf g.Array P = false)
    (hmode : B.MotorEnable.getD port 0 = TYPE_MOTOR_POSITION)
    (hd : B.MotorDead.getD port 0 = 10) (error s : Int)
    (herr : error = toLong (B.MotorTarget.getD port 0 - B.Encoder.getD port 0))
    (hs : s = f32 (f32 (f32 error * B.MotorTargetKP.getD port 0) +
      f32 (f32 (toLong (error - B.MotorTargetLastError.getD port 0)) *
        B.MotorTargetKD.getD port 0))) :
    (s.natAbs = 9 → ∃ B' A', BrickPiUpdateValues.motorPort B port speed g =
        some (B', 0, ⟨A', g.Bit_Offset + 10⟩) ∧
      GetBits 1 0 10 ⟨A', g.Bit_Offset⟩ =
        some ((0 <<< 2) ||| (0 <<< 1) ||| 1, ⟨A', g.Bit_Offset + 10⟩)) ∧
    (s.natAbs = 50 → ∃ B' A' word, BrickPiUpdateValues.motorPort B port speed g =
        some (B', 60, ⟨A', g.Bit_Offset + 10⟩) ∧
      GetBits 1 0 10 ⟨A', g.Bit_Offset⟩ = some (word, ⟨A', g.Bit_Offset + 10⟩) ∧
      (word >>> 2) &&& 0xFF = 60) := by
  have hnf : B.MotorEnable.getD port 0 ≠ TYPE_MOTOR_FLOAT := by
    rw [hmode]
    decide
  obtain ⟨A', he, hg⟩ := motorPort_nonfloat B port speed g hlen hin hclean hnf
  have hms := motorSpeed_position_computed B port speed hmode error s 10 herr hs hd
  rw [hms] at he hg
  constructor
  · intro h9
    have hw : BrickPiUpdateValues.motorWord (Clip (if (if s < ((10 : Nat) : Int) ∧
        s > -((10 : Nat) : Int) then 0 else s) > 0 then
          f32 ((if s < ((10 : Nat) : Int) ∧ s > -((10 : Nat) : Int) then 0 else s) + (10 : Nat))
        else if (if s < ((10 : Nat) : Int) ∧ s > -((10 : Nat) : Int) then 0 else s) < 0 then
          f32 ((if s < ((10 : Nat) : Int) ∧ s > -((10 : Nat) : Int) then 0 else s) - (10 : Nat))
        else (if s < ((10 : Nat) : Int) ∧ s > -((10 : Nat) : Int) then 0 else s)) (-255) 255) =
        ((0 <<< 2) ||| (0 <<< 1) ||| 1, 0) := by
      have hc : s = 9 ∨ s = -9 := by omega
      rcases hc with h | h <;> subst h <;> decide
    rw [hw] at he hg
    exact ⟨_, A', he, hg⟩
  · intro h50
    have hc : s = 50 ∨ s = -50 := by omega
    rcases hc with h | h
    · have hw : BrickPiUpdateValues.motorWord (Clip (if (if s < ((10 : Nat) : Int) ∧
          s > -((10 : Nat) : Int) then 0 else s) > 0 then
            f32 ((if s < ((10 : Nat) : Int) ∧ s > -((10 : Nat) : Int) then 0 else s) +
              (10 : Nat))
          else if (if s < ((10 : Nat) : Int) ∧ s > -((10 : Nat) : Int) then 0 else s) < 0 then
            f32 ((if s < ((10 : Nat) : Int) ∧ s > -((10 : Nat) : Int) then 0 else s) -
              (10 : Nat))
          else (if s < ((10 : Nat) : Int) ∧ s > -((10 : Nat) : Int) then 0 else s)) (-255) 255) =
          (241, 60) := by
        subst h
        decide
      rw [hw] at he hg
      exact ⟨_, A', 241, he, hg, by decide⟩
    · have hw : BrickPiUpdateValues.motorWord (Clip (if (if s < ((10 : Nat) : Int) ∧
          s > -((10 : Nat) : Int) then 0 else s) > 0 then
            f32 ((if s < ((10 : Nat) : Int) ∧ s > -((10 : Nat) : Int) then 0 else s) +
              (10 : Nat))
          else if (if s < ((10 : Nat) : Int) ∧ s > -((10 : Nat) : Int) then 0 else s) < 0 then
            f32 ((if s < ((10 : Nat) : Int) ∧ s > -((10 : Nat) : Int) then 0 else s) -
              (10 : Nat))
          else (if s < ((10 : Nat) : Int) ∧ s > -((10 : Nat) : Int) then 0 else s)) (-255) 255) =
          (243, 60) := by
        subst h
        decide
      rw [hw] at he hg
      exact ⟨_, A', 243, he, hg, by decide⟩

/-- Witness of `deadband_ten`: target 30, encoder 5, last error 25, gains 2 and
0, dead-band 10, so that `error = 25` and `s = 50`. -/
theorem deadband_ten_witness :
    ∃ B' A' word, BrickPiUpdateValues.motorPort
        { BrickPi_zero with
          MotorEnable := [2, 0, 0, 0], MotorTarget := [30, 0, 0, 0],
          Encoder := [5, 0, 0, 0], MotorTargetLastError := [25, 0, 0, 0],
          MotorTargetKP := [2, 0, 0, 0], MotorDead := [10, 0, 0, 0] } 0 0
        ⟨List.replicate 256 0, 0⟩ = some (B', 60, ⟨A', 0 + 10⟩) ∧
      GetBits 1 0 10 ⟨A', 0⟩ = some (word, ⟨A', 0 + 10⟩) ∧ (word >>> 2) &&& 0xFF = 60 :=
  (deadband_ten
    { BrickPi_zero with
      MotorEnable := [2, 0, 0, 0], MotorTarget := [30, 0, 0, 0],
      Encoder := [5, 0, 0, 0], MotorTargetLastError := [25, 0, 0, 0],
      MotorTargetKP := [2, 0, 0, 0], MotorDead := [10, 0, 0, 0] } 0 0
    ⟨List.replicate 256 0, 0⟩ (List.length_replicate 256 0) (by decide)
    (fun P _ => bitOf_replicate_zero 256 P) (by decide) (by decide) 25 50 (by decide)
    (by decide)).2 (by decide)

set_option maxRecDepth 100000 in
/-- C11 fails as stated: with target 30, encoder 5, last error 25, gains 2 and
0 and dead-band 10 the regulator computes 50, and the magnitude read back from
the motor word is 60 (50 moved away from zero by 10), not 40. -/
theorem deadband_ten_counterexample :
    f32 (f32 (f32 (toLong (30 - 5)) * 2) + f32 (f32 (toLong (toLong (30 - 5) - 25)) * 0)) = 50 ∧
      (BrickPiUpdateValues.motorPort
        { BrickPi_zero with
          MotorEnable := [2, 0, 0, 0], MotorTarget := [30, 0, 0, 0],
          Encoder := [5, 0, 0, 0], MotorTargetLastError := [25, 0, 0, 0],
          MotorTargetKP := [2, 0, 0, 0], MotorDead := [10, 0, 0, 0] } 0 0
        ⟨List.replicate 256 0, 0⟩).map
        (fun r => (GetBits 1 0 10 ⟨r.2.2.Array, 0⟩).map (fun x => (x.1 >>> 2) &&& 0xFF)) =
        some (some 60) := by
  refine ⟨by decide, by decide⟩

/-! ## Transmissions and receptions on the scratch buffer -/

theorem BrickPiTx_mod_dest (dest ByteCount : Nat) (OutArray : List Nat) :
    BrickPiTx dest ByteCount OutArray = BrickPiTx (dest % 256) ByteCount OutArray := by
  simp only [BrickPiTx, Nat.mod_mod]

/-- A call of `BrickPiTx` on the scratch buffer with at most 252 payload bytes:
the frame is recorded and the indicator LED left off. -/
theorem BrickPiTx_send_spec (dest ByteCount : Nat) (w : World)
    (hlen : w.g.Array.length = 256) (hBC : ByteCount ≤ 252) (hB : w.BaudRate ≠ 0) :
    BrickPiTx.send dest ByteCount w =
      some { w with
        sent := w.sent ++ [(w.BaudRate, (dest % 256) ::
          ((dest % 256 + ByteCount + (w.g.Array.take ByteCount).sum) % 256) :: ByteCount ::
            w.g.Array.take ByteCount)]
        BrickPi := { w.BrickPi with LED := w.BrickPi.LED.set 0 0 } } := by
  have h := BrickPiTx_frame (dest % 256) (w.g.Array.take ByteCount) (w.g.Array.drop ByteCount)
    (Nat.mod_lt _ (by norm_num)) (by rw [List.length_take]; omega)
  have hl : (w.g.Array.take ByteCount).length = ByteCount := by
    rw [List.length_take]
    omega
  rw [List.take_append_drop, hl] at h
  simp only [BrickPiTx.send, BrickPiTx_mod_dest dest, h, if_neg hB]

theorem sum_drop_two_of_length_three (rx : List Nat) (h : rx.length = 3) :
    (rx.drop 2).sum = rx.getD 2 0 := by
  match rx, h with
  | [a, b, c], _ => simp

/-- A call of `BrickPiRx` on the scratch buffer: the return code is the one the
event stands for, and only `Array` and `BytesReceived` change. -/
theorem BrickPiRx_receive_spec (ev : RxEvent) (w : World) (hwf : ev.wellFormed)
    (hlen : w.g.Array.length = 256) (hB : w.BaudRate ≠ 0) :
    ∃ A' n, BrickPiRx.receive ev w =
        some (ev.code, { w with g := ⟨A', w.g.Bit_Offset⟩, BytesReceived := n }) ∧
      A'.length = 256 ∧
      (ev.code ≠ 0 → n = w.BytesReceived) ∧
      (ev.code = -2 → A' = w.g.Array) ∧
      (∀ kind, (ev.code = 0 ∧ n = 1 ∧ A'.getD 0 0 = kind) ↔ ev.acknowledges kind) ∧
      (w.g.Array.getD 0 0 = MSG_TYPE_VALUES →
        ((ev.code = 0 ∧ A'.getD 0 0 = MSG_TYPE_VALUES) ↔ ev.acceptedValues)) := by
  cases ev with
  | timeout =>
    refine ⟨w.g.Array, w.BytesReceived, rfl, hlen, fun _ => rfl, fun _ => rfl, ?_, ?_⟩
    · intro kind
      simp [RxEvent.code, RxEvent.acknowledges]
    · intro _
      simp [RxEvent.code, RxEvent.acceptedValues]
  | ioError =>
    refine ⟨w.g.Array, w.BytesReceived, rfl, hlen, fun _ => rfl, ?_, ?_, ?_⟩
    · intro h
      simp [RxEvent.code] at h
    · intro kind
      simp [RxEvent.code, RxEvent.acknowledges]
    · intro _
      simp [RxEvent.code, RxEvent.acceptedValues]
  | bytes rx =>
    obtain ⟨hrx, hb⟩ := hwf
    obtain ⟨A, hl, hj, hv⟩ := BrickPiRx_validate_spec rx w.g.Array w.BytesReceived hrx hlen
      (getD_lt_of_forall rx 1 hb)
    by_cases c1 : rx.length < 2
    · rw [if_pos c1] at hv
      refine ⟨w.g.Array, w.BytesReceived, ?_, hlen, fun _ => rfl, fun _ => rfl, ?_, ?_⟩
      · simp only [BrickPiRx.receive, if_neg hB, hv, RxEvent.code, if_pos c1]
      · intro kind
        simp only [RxEvent.code, if_pos c1, RxEvent.acknowledges]
        constructor
        · intro h
          omega
        · intro h
          omega
      · intro _
        simp only [RxEvent.code, if_pos c1, RxEvent.acceptedValues]
        constructor
        · intro h
          omega
        · intro h
          omega
    · rw [if_neg c1] at hv
      by_cases c2 : rx.length < rx.getD 1 0 + 2
      · rw [if_pos c2] at hv
        refine ⟨w.g.Array, w.BytesReceived, ?_, hlen, fun _ => rfl, fun _ => rfl, ?_, ?_⟩
        · simp only [BrickPiRx.receive, if_neg hB, hv, RxEvent.code, if_neg c1, if_pos c2]
        · intro kind
          simp only [RxEvent.code, if_neg c1, if_pos c2, RxEvent.acknowledges]
          constructor
          · intro h
            omega
          · intro h
            omega
        · intro _
          simp only [RxEvent.code, if_neg c1, if_pos c2, RxEvent.acceptedValues]
          constructor
          · intro h
            omega
          · intro h
            omega
      · rw [if_neg c2] at hv
        by_cases c3 : (rx.getD 1 0 + (rx.drop 2).sum) % 256 ≠ rx.getD 0 0
        · rw [if_pos c3] at hv
          refine ⟨A, w.BytesReceived, ?_, hl, fun _ => rfl, ?_, ?_, ?_⟩
          · simp only [BrickPiRx.receive, if_neg hB, hv, RxEvent.code, if_neg c1, if_neg c2,
              if_pos c3]
          · intro h
            simp only [RxEvent.code, if_neg c1, if_neg c2, if_pos c3] at h
            omega
          · intro kind
            simp only [RxEvent.code, if_neg c1, if_neg c2, if_pos c3, RxEvent.acknowledges]
            constructor
            · intro h
              omega
            · intro h
              rw [sum_drop_two_of_length_three rx h.1] at c3
              omega
          · intro _
            simp only [RxEvent.code, if_neg c1, if_neg c2, if_pos c3, RxEvent.acceptedValues]
            constructor
            · intro h
              omega
            · intro h
              omega
        · rw [if_neg c3] at hv
          have c3' : (rx.getD 1 0 + (rx.drop 2).sum) % 256 = rx.getD 0 0 := by
            by_contra hne
            exact c3 hne
          refine ⟨A, rx.length - 2, ?_, hl, ?_, ?_, ?_, ?_⟩
          · simp only [BrickPiRx.receive, if_neg hB, hv, RxEvent.code, if_neg c1, if_neg c2,
              if_neg c3]
          · intro h
            simp only [RxEvent.code, if_neg c1, if_neg c2, if_neg c3] at h
            omega
          · intro h
            simp only [RxEvent.code, if_neg c1, if_neg c2, if_neg c3] at h
            omega
          · intro kind
            simp only [RxEvent.code, if_neg c1, if_neg c2, if_neg c3, RxEvent.acknowledges,
              true_and]
            constructor
            · rintro ⟨h1, h2⟩
              have h3 : rx.length = 3 := by omega
              have h4 := hj 0
              rw [if_pos (by omega)] at h4
              rw [sum_drop_two_of_length_three rx h3] at c3'
              refine ⟨h3, by omega, c3', ?_⟩
              rw [← h2, h4]
            · rintro ⟨h3, _, _, h6⟩
              have h4 := hj 0
              rw [if_pos (by omega)] at h4
              refine ⟨by omega, ?_⟩
              rw [h4]
              exact h6
          · intro h0
            simp only [RxEvent.code, if_neg c1, if_neg c2, if_neg c3, RxEvent.acceptedValues,
              true_and]
            have h4 := hj 0
            constructor
            · intro h
              refine ⟨by omega, hrx, by omega, c3', ?_⟩
              intro h2
              rw [if_pos (by omega)] at h4
              rw [← h4]
              exact h
            · rintro ⟨_, _, _, _, h5⟩
              by_cases h2 : 2 < rx.length
              · rw [if_pos (by omega)] at h4
                rw [h4]
                exact h5 h2
              · rw [if_neg (by omega)] at h4
                rw [h4]
                exact h0

/-! ## `BrickPiEmergencyStop` -/

theorem take_one_set_zero (A : List Nat) (v : Nat) (h : 0 < A.length) :
    (A.set 0 v).take 1 = [v] := by
  match A, h with
  | a :: t, _ => simp

/-- The addressed EmergencyStop exchange of one link in one round. -/
theorem EStop_exchange (ev : RxEvent) (dest : Nat) (w : World) (hwf : ev.wellFormed)
    (hlen : w.g.Array.length = 256) (hB : w.BaudRate ≠ 0) :
    ∃ w1 code w2, BrickPiTx.send dest 1 (w.setArray 0 MSG_TYPE_E_STOP) = some w1 ∧
      BrickPiRx.receive ev w1 = some (code, w2) ∧
      w2.sent = w.sent ++ [(w.BaudRate, [dest % 256, (dest % 256 + 1 + 4) % 256, 1, 4])] ∧
      w2.g.Array.length = 256 ∧ w2.BaudRate = w.BaudRate ∧
      w2.BrickPi.Address = w.BrickPi.Address ∧
      ((code = 0 ∧ w2.BytesReceived = 1 ∧ w2.g.Array.getD 0 0 = MSG_TYPE_E_STOP) ↔
        ev.acknowledges 4) := by
  have hl1 : (w.setArray 0 MSG_TYPE_E_STOP).g.Array.length = 256 := by
    simp only [World.setArray, List.length_set, hlen]
  have hs := BrickPiTx_send_spec dest 1 (w.setArray 0 MSG_TYPE_E_STOP) hl1 (by omega) hB
  have ht : (w.setArray 0 MSG_TYPE_E_STOP).g.Array.take 1 = [4] := by
    simp only [World.setArray]
    exact take_one_set_zero _ _ (by omega)
  rw [ht] at hs
  obtain ⟨A', n, hr, hl2, _, _, hack, _⟩ := BrickPiRx_receive_spec ev _ hwf
    (show ({ (w.setArray 0 MSG_TYPE_E_STOP) with
      sent := (w.setArray 0 MSG_TYPE_E_STOP).sent ++
        [((w.setArray 0 MSG_TYPE_E_STOP).BaudRate, [dest % 256, (dest % 256 + 1 + [4].sum) % 256,
          1, 4])]
      BrickPi := { (w.setArray 0 MSG_TYPE_E_STOP).BrickPi with
        LED := (w.setArray 0 MSG_TYPE_E_STOP).BrickPi.LED.set 0 0 } } : World).g.Array.length =
          256 from hl1) hB
  refine ⟨_, _, _, hs, hr, ?_, hl2, rfl, rfl, hack 4⟩
  simp [World.setArray]

/-- One round of `BrickPiEmergencyStop`: link 0 is asked, link 1 only after link
0 acknowledged, and `return 0` is reached when both acknowledge. -/
theorem EStop_links_spec (rx : Oracle) (i : Nat) (w : World)
    (hwf : ∀ key, (rx key).wellFormed) (hlen : w.g.Array.length = 256)
    (hB : w.BaudRate ≠ 0) :
    ∃ b w', BrickPiEmergencyStop.links rx i 3 0 w = some (b, w') ∧
      (b = true ↔ ((rx [i, 0]).acknowledges 4 ∧ (rx [i, 1]).acknowledges 4)) ∧
      w'.g.Array.length = 256 ∧ w'.BaudRate = w.BaudRate ∧
      w'.BrickPi.Address = w.BrickPi.Address ∧
      (¬ (rx [i, 0]).acknowledges 4 → w'.sent = w.sent ++
        [(w.BaudRate, [w.BrickPi.Address.getD 0 0 % 256,
          (w.BrickPi.Address.getD 0 0 % 256 + 1 + 4) % 256, 1, 4])]) ∧
      ((rx [i, 0]).acknowledges 4 → w'.sent = w.sent ++
        [(w.BaudRate, [w.BrickPi.Address.getD 0 0 % 256,
          (w.BrickPi.Address.getD 0 0 % 256 + 1 + 4) % 256, 1, 4]),
         (w.BaudRate, [w.BrickPi.Address.getD 1 0 % 256,
          (w.BrickPi.Address.getD 1 0 % 256 + 1 + 4) % 256, 1, 4])]) := by
  obtain ⟨w1, code, w2, hs, hr, hsent, hl2, hb2, ha2, hack⟩ :=
    EStop_exchange (rx [i, 0]) (w.BrickPi.Address.getD 0 0) w (hwf _) hlen hB
  by_cases h0 : (rx [i, 0]).acknowledges 4
  · obtain ⟨hc, hn, hk⟩ := hack.mpr h0
    obtain ⟨w3, code', w4, hs', hr', hsent', hl4, hb4, ha4, hack'⟩ :=
      EStop_exchange (rx [i, 1]) (w2.BrickPi.Address.getD 1 0) w2 (hwf _) hl2
        (by rw [hb2]; exact hB)
    have h01 : (0 + 1) % 256 = 1 := rfl
    have h12 : (1 : Nat) < 2 := by omega
    have h02 : (0 : Nat) < 2 := by omega
    have h010 : ¬ ((0 : Nat) = 1) := by omega
    by_cases hP : code' = 0 ∧ w4.BytesReceived = 1 ∧ w4.g.Array.getD 0 0 = MSG_TYPE_E_STOP
    · have hlinks : BrickPiEmergencyStop.links rx i 3 0 w = some (true, w4) := by
        simp only [BrickPiEmergencyStop.links, h02, h12, h010, hs, hr, hc, hn, hk, hs', hr', h01,
          hP.1, hP.2.1, hP.2.2, if_true, if_false, ne_eq, not_true_eq_false, and_self]
      refine ⟨true, w4, hlinks, ?_, hl4, by rw [hb4, hb2], by rw [ha4, ha2],
        fun h => absurd h0 h, ?_⟩
      · exact ⟨fun _ => ⟨h0, hack'.mp hP⟩, fun _ => rfl⟩
      · intro _
        rw [hsent', hsent, hb2, ha2, List.append_assoc]
        rfl
    · have hlinks : BrickPiEmergencyStop.links rx i 3 0 w = some (false, w4) := by
        by_cases hc' : code' = 0
        · have hx : ¬ (w4.BytesReceived = 1 ∧ w4.g.Array.getD 0 0 = MSG_TYPE_E_STOP) :=
            fun h => hP ⟨hc', h⟩
          simp only [BrickPiEmergencyStop.links, h02, h12, h010, hs, hr, hc, hn, hk, hs', hr',
            h01, hc', hx, if_true, if_false, ne_eq, not_true_eq_false, and_self,
            not_false_eq_true]
        · simp only [BrickPiEmergencyStop.links, h02, h12, h010, hs, hr, hc, hn, hk, hs', hr',
            h01, hc', if_true, if_false, ne_eq, not_true_eq_false, and_self,
            not_false_eq_true]
      refine ⟨false, w4, hlinks, ?_, hl4, by rw [hb4, hb2], by rw [ha4, ha2],
        fun h => absurd h0 h, ?_⟩
      · constructor
        · intro h
          exact absurd h (by decide)
        · intro h
          exact absurd (hack'.mpr h.2) hP
      · intro _
        rw [hsent', hsent, hb2, ha2, List.append_assoc]
        rfl
  · have h02 : (0 : Nat) < 2 := by omega
    have hlinks : BrickPiEmergencyStop.links rx i 3 0 w = some (false, w2) := by
      by_cases hc : code = 0
      · have hx : ¬ (w2.BytesReceived = 1 ∧ w2.g.Array.getD 0 0 = MSG_TYPE_E_STOP) :=
          fun h => h0 (hack.mp ⟨hc, h⟩)
        simp only [BrickPiEmergencyStop.links, h02, hs, hr, hc, hx, if_true, if_false, ne_eq,
          not_true_eq_false, not_false_eq_true]
      · simp only [BrickPiEmergencyStop.links, h02, hs, hr, hc, if_true, if_false, ne_eq,
          not_true_eq_false, not_false_eq_true]
    refine ⟨false, w2, hlinks, ?_, hl2, hb2, ha2, fun _ => hsent, fun h => absurd h h0⟩
    constructor
    · intro h
      exact absurd h (by decide)
    · intro h
      exact absurd h.1 h0

/-- The three broadcasts of `BrickPiEmergencyStop`. -/
theorem EStop_broadcast_spec (baud : Nat) (hbn : baud ≠ 0) :
    ∀ (fuel i : Nat) (w : World), i ≤ 3 → 3 - i < fuel → w.g.Array.length = 256 →
      w.BaudRate = baud →
      ∃ w', BrickPiEmergencyStop.broadcast fuel i w = some w' ∧
        w'.sent = w.sent ++ List.replicate (3 - i) (baud, [0, 5, 1, 4]) := by
  intro fuel
  induction fuel with
  | zero => intro i _ _ h; omega
  | succ fuel ih =>
    intro i w hi hf hlen hb
    unfold BrickPiEmergencyStop.broadcast
    by_cases h3 : i < 3
    · have hl1 : (w.setArray 0 MSG_TYPE_E_STOP).g.Array.length = 256 := by
        simp only [World.setArray, List.length_set, hlen]
      have hs := BrickPiTx_send_spec 0 1 (w.setArray 0 MSG_TYPE_E_STOP) hl1 (by omega)
        (show w.BaudRate ≠ 0 by rw [hb]; exact hbn)
      have ht : (w.setArray 0 MSG_TYPE_E_STOP).g.Array.take 1 = [4] := by
        simp only [World.setArray]
        exact take_one_set_zero _ _ (by omega)
      rw [ht] at hs
      have h256 : (i + 1) % 256 = i + 1 := by omega
      simp only [h3, if_true, hs, h256]
      obtain ⟨w', he, hsent⟩ := ih (i + 1) _ (by omega) (by omega)
        (show ({ (w.setArray 0 MSG_TYPE_E_STOP) with
          sent := (w.setArray 0 MSG_TYPE_E_STOP).sent ++
            [((w.setArray 0 MSG_TYPE_E_STOP).BaudRate, [0 % 256, (0 % 256 + 1 + [4].sum) % 256,
              1, 4])]
          BrickPi := { (w.setArray 0 MSG_TYPE_E_STOP).BrickPi with
            LED := (w.setArray 0 MSG_TYPE_E_STOP).BrickPi.LED.set 0 0 } } :
            World).g.Array.length = 256 from hl1)
        (show w.BaudRate = baud from hb)
      refine ⟨w', he, ?_⟩
      rw [hsent]
      have e : 3 - i = (3 - (i + 1)) + 1 := by omega
      rw [e, List.replicate_succ]
      simp [World.setArray, hb]
    · have : i = 3 := by omega
      subst this
      simp

/-- The addressed rounds of `BrickPiEmergencyStop` from round `i` on: `return 0`
is reached in the first round in which both links acknowledge. -/
theorem EStop_rounds_spec (rx : Oracle) (hwf : ∀ key, (rx key).wellFormed) (baud : Nat)
    (hbn : baud ≠ 0) (addr : List Nat) :
    ∀ (fuel i : Nat) (w : World), i ≤ 3 → 3 - i < fuel → w.g.Array.length = 256 →
      w.BaudRate = baud → w.BrickPi.Address = addr →
      ∃ b w' L, BrickPiEmergencyStop.rounds rx fuel i w = some (b, w') ∧
        (b = true ↔ ∃ r, i ≤ r ∧ r < 3 ∧
          (rx [r, 0]).acknowledges 4 ∧ (rx [r, 1]).acknowledges 4) ∧
        w'.sent = w.sent ++ L ∧
        (∀ f ∈ L, f = (baud, [addr.getD 0 0 % 256, (addr.getD 0 0 % 256 + 1 + 4) % 256, 1, 4]) ∨
          f = (baud, [addr.getD 1 0 % 256, (addr.getD 1 0 % 256 + 1 + 4) % 256, 1, 4])) ∧
        w'.g.Array.length = 256 ∧ w'.BaudRate = baud ∧
        ((∀ r l, ¬ (rx [r, l]).acknowledges 4) → L = List.replicate (3 - i)
          (baud, [addr.getD 0 0 % 256, (addr.getD 0 0 % 256 + 1 + 4) % 256, 1, 4])) ∧
        (i < 3 → (rx [i, 0]).acknowledges 4 → (rx [i, 1]).acknowledges 4 →
          L = [(baud, [addr.getD 0 0 % 256, (addr.getD 0 0 % 256 + 1 + 4) % 256, 1, 4]),
            (baud, [addr.getD 1 0 % 256, (addr.getD 1 0 % 256 + 1 + 4) % 256, 1, 4])]) := by
  intro fuel
  induction fuel with
  | zero => intro i _ _ h; omega
  | succ fuel ih =>
    intro i w hi hf hlen hb ha
    unfold BrickPiEmergencyStop.rounds
    by_cases h3 : i < 3
    · obtain ⟨b, w1, hlinks, hbiff, hl1, hb1, ha1, hs0, hs1⟩ :=
        EStop_links_spec rx i w hwf hlen (by rw [hb]; exact hbn)
      rw [hb, ha] at hs0 hs1
      rw [if_pos h3, hlinks]
      cases b with
      | true =>
        obtain ⟨h0, h1⟩ := hbiff.mp rfl
        refine ⟨true, w1, _, rfl, ?_, hs1 h0, ?_, hl1, by rw [hb1, hb], ?_, fun _ _ _ => rfl⟩
        · exact ⟨fun _ => ⟨i, le_refl i, h3, h0, h1⟩, fun _ => rfl⟩
        · intro f hf
          simp only [List.mem_cons, List.mem_singleton, List.not_mem_nil, or_false] at hf
          exact hf
        · intro hnone
          exact absurd h0 (hnone i 0)
      | false =>
        have hnb : ¬ ((rx [i, 0]).acknowledges 4 ∧ (rx [i, 1]).acknowledges 4) := by
          intro h
          have := hbiff.mpr h
          exact absurd this (by decide)
        have h256 : (i + 1) % 256 = i + 1 := by omega
        have e : 3 - i = (3 - (i + 1)) + 1 := by omega
        obtain ⟨b', w', L, he, hb', hsent, hL, hl', hbaud', hnone', _⟩ :=
          ih (i + 1) w1 (by omega) (by omega) hl1 (by rw [hb1, hb]) (by rw [ha1, ha])
        dsimp only
        rw [h256, he]
        by_cases h0 : (rx [i, 0]).acknowledges 4
        · refine ⟨b', w',
            [(baud, [addr.getD 0 0 % 256, (addr.getD 0 0 % 256 + 1 + 4) % 256, 1, 4]),
              (baud, [addr.getD 1 0 % 256, (addr.getD 1 0 % 256 + 1 + 4) % 256, 1, 4])] ++ L,
            rfl, ?_, ?_, ?_, hl', hbaud', ?_, ?_⟩
          · rw [hb']
            constructor
            · rintro ⟨r, q1, q2, q3⟩
              exact ⟨r, by omega, q2, q3⟩
            · rintro ⟨r, q1, q2, q3⟩
              have hne : r ≠ i := by
                intro hri
                rw [hri] at q3
                exact hnb q3
              exact ⟨r, by omega, q2, q3⟩
          · rw [hsent, hs1 h0, List.append_assoc]
          · intro f hf
            rw [List.mem_append] at hf
            rcases hf with hf | hf
            · simp only [List.mem_cons, List.mem_singleton, List.not_mem_nil, or_false] at hf
              exact hf
            · exact hL f hf
          · intro hnone
            exact absurd h0 (hnone i 0)
          · intro _ _ h1
            exact absurd ⟨h0, h1⟩ hnb
        · refine ⟨b', w',
            [(baud, [addr.getD 0 0 % 256, (addr.getD 0 0 % 256 + 1 + 4) % 256, 1, 4])] ++ L,
            rfl, ?_, ?_, ?_, hl', hbaud', ?_, ?_⟩
          · rw [hb']
            constructor
            · rintro ⟨r, q1, q2, q3⟩
              exact ⟨r, by omega, q2, q3⟩
            · rintro ⟨r, q1, q2, q3⟩
              have hne : r ≠ i := by
                intro hri
                rw [hri] at q3
                exact hnb q3
              exact ⟨r, by omega, q2, q3⟩
          · rw [hsent, hs0 h0, List.append_assoc]
          · intro f hf
            rw [List.mem_append] at hf
            rcases hf with hf | hf
            · simp only [List.mem_singleton] at hf
              exact Or.inl hf
            · exact hL f hf
          · intro hnone
            rw [hnone' hnone]
            rw [e, List.replicate_succ]
            rfl
          · intro _ h0' _
            exact absurd h0' h0
    · have : i = 3 := by omega
      subst this
      rw [if_neg h3]
      refine ⟨false, w, [], rfl, ?_, by simp, by simp, hlen, hb, fun _ => rfl,
        fun h => absurd h h3⟩
      constructor
      · intro h
        exact absurd h (by decide)
      · rintro ⟨r, h1, h2, _⟩
        omega

/-- C16: with the transport as a reply oracle and the line rate set, when both
links acknowledge in round 1 `BrickPiEmergencyStop` returns 0 after exactly two
addressed transmissions and no broadcast; when no link acknowledges in any round
it sends the addressed frame of link 0 three times, then three frames to address
0, and returns -1. -/
theorem EmergencyStop_outcomes (rx : Oracle) (w : World)
    (hwf : ∀ key, (rx key).wellFormed) (hlen : w.g.Array.length = 256)
    (hB : w.BaudRate ≠ 0) :
    ((rx [0, 0]).acknowledges 4 → (rx [0, 1]).acknowledges 4 →
      ∃ w', BrickPiEmergencyStop rx w = some (0, w') ∧
        w'.sent = w.sent ++
          [(w.BaudRate, [w.BrickPi.Address.getD 0 0 % 256,
            (w.BrickPi.Address.getD 0 0 % 256 + 1 + 4) % 256, 1, 4]),
           (w.BaudRate, [w.BrickPi.Address.getD 1 0 % 256,
            (w.BrickPi.Address.getD 1 0 % 256 + 1 + 4) % 256, 1, 4])]) ∧
    ((∀ i ii, ¬ (rx [i, ii]).acknowledges 4) →
      ∃ w', BrickPiEmergencyStop rx w = some (-1, w') ∧
        w'.sent = w.sent ++
          List.replicate 3 (w.BaudRate, [w.BrickPi.Address.getD 0 0 % 256,
            (w.BrickPi.Address.getD 0 0 % 256 + 1 + 4) % 256, 1, 4]) ++
          List.replicate 3 (w.BaudRate, [0, 5, 1, 4])) := by
  obtain ⟨b, w1, L, he, hb, hsent, _, hl1, hb1, hnone, hboth⟩ :=
    EStop_rounds_spec rx hwf w.BaudRate hB w.BrickPi.Address 4 0 w (by omega) (by omega) hlen
      rfl rfl
  constructor
  · intro h0 h1
    have hbt : b = true := hb.mpr ⟨0, le_refl 0, by omega, h0, h1⟩
    subst hbt
    refine ⟨w1, ?_, ?_⟩
    · simp only [BrickPiEmergencyStop, he]
    · rw [hsent, hboth (by omega) h0 h1]
  · intro hn
    have hbf : b = false := by
      cases b with
      | false => rfl
      | true =>
        obtain ⟨r, _, _, h0, _⟩ := hb.mp rfl
        exact absurd h0 (hn r 0)
    subst hbf
    obtain ⟨w2, he2, hsent2⟩ := EStop_broadcast_spec w.BaudRate hB 4 0 w1 (by omega) (by omega)
      hl1 hb1
    refine ⟨w2, ?_, ?_⟩
    · simp only [BrickPiEmergencyStop, he, he2]
    · rw [hsent2, hsent, hnone hn]

/-- Links at the addresses 1 and 2 whose peers always acknowledge: two addressed
frames, no broadcast, return 0. -/
theorem EmergencyStop_outcomes_witness :
    ∃ w', BrickPiEmergencyStop (fun _ => RxEvent.bytes [5, 1, 4])
        ⟨{ BrickPi_zero with Address := [1, 2] }, ⟨List.replicate 256 0, 0⟩, 0, 0, 115200,
          []⟩ = some (0, w') ∧
      w'.sent = [(115200, [1, 6, 1, 4]), (115200, [2, 7, 1, 4])] :=
  (EmergencyStop_outcomes (fun _ => RxEvent.bytes [5, 1, 4])
    ⟨{ BrickPi_zero with Address := [1, 2] }, ⟨List.replicate 256 0, 0⟩, 0, 0, 115200, []⟩
    (fun _ => ⟨by decide, by decide⟩) (List.length_replicate 256 0) (by decide)).1
    ⟨rfl, by decide, rfl, rfl⟩ ⟨rfl, by decide, rfl, rfl⟩

/-- C17 (amended): `BrickPiEmergencyStop` (the line rate being set) returns
success, without any broadcast, exactly when in one of the 3 rounds both links
acknowledge in that same round (link 1 is asked only after link 0 acknowledged
in the round); when in every round one of the two fails to acknowledge it sends
three broadcasts and returns failure, also when each link acknowledged in some
round. -/
theorem EmergencyStop_same_round (rx : Oracle) (w : World)
    (hwf : ∀ key, (rx key).wellFormed) (hlen : w.g.Array.length = 256)
    (hB : w.BaudRate ≠ 0) :
    ((∃ r, r < 3 ∧ (rx [r, 0]).acknowledges 4 ∧ (rx [r, 1]).acknowledges 4) →
      ∃ w' L, BrickPiEmergencyStop rx w = some (0, w') ∧ w'.sent = w.sent ++ L ∧
        ∀ f ∈ L, f = (w.BaudRate, [w.BrickPi.Address.getD 0 0 % 256,
            (w.BrickPi.Address.getD 0 0 % 256 + 1 + 4) % 256, 1, 4]) ∨
          f = (w.BaudRate, [w.BrickPi.Address.getD 1 0 % 256,
            (w.BrickPi.Address.getD 1 0 % 256 + 1 + 4) % 256, 1, 4])) ∧
    ((∀ r, r < 3 → ¬ ((rx [r, 0]).acknowledges 4 ∧ (rx [r, 1]).acknowledges 4)) →
      ∃ w' L, BrickPiEmergencyStop rx w = some (-1, w') ∧
        w'.sent = w.sent ++ L ++ List.replicate 3 (w.BaudRate, [0, 5, 1, 4]) ∧
        ∀ f ∈ L, f = (w.BaudRate, [w.BrickPi.Address.getD 0 0 % 256,
            (w.BrickPi.Address.getD 0 0 % 256 + 1 + 4) % 256, 1, 4]) ∨
          f = (w.BaudRate, [w.BrickPi.Address.getD 1 0 % 256,
            (w.BrickPi.Address.getD 1 0 % 256 + 1 + 4) % 256, 1, 4])) := by
  obtain ⟨b, w1, L, he, hb, hsent, hL, hl1, hb1, _, _⟩ :=
    EStop_rounds_spec rx hwf w.BaudRate hB w.BrickPi.Address 4 0 w (by omega) (by omega) hlen
      rfl rfl
  constructor
  · rintro ⟨r, hr, h0, h1⟩
    have hbt : b = true := hb.mpr ⟨r, Nat.zero_le r, hr, h0, h1⟩
    subst hbt
    refine ⟨w1, L, ?_, hsent, hL⟩
    simp only [BrickPiEmergencyStop, he]
  · intro hn
    have hbf : b = false := by
      cases b with
      | false => rfl
      | true =>
        obtain ⟨r, _, hr, h0, h1⟩ := hb.mp rfl
        exact absurd ⟨h0, h1⟩ (hn r hr)
    subst hbf
    obtain ⟨w2, he2, hsent2⟩ := EStop_broadcast_spec w.BaudRate hB 4 0 w1 (by omega) (by omega)
      hl1 hb1
    refine ⟨w2, L, ?_, ?_, hL⟩
    · simp only [BrickPiEmergencyStop, he, he2]
    · rw [hsent2, hsent]

/-- Witness of `EmergencyStop_same_round`: both peers always acknowledge. -/
theorem EmergencyStop_same_round_witness :
    ∃ w' L, BrickPiEmergencyStop (fun _ => RxEvent.bytes [5, 1, 4])
        ⟨BrickPi_zero, ⟨List.replicate 256 0, 0⟩, 0, 0, 115200, []⟩ = some (0, w') ∧
      w'.sent = [] ++ L ∧
      ∀ f ∈ L, f = (115200, [BrickPi_zero.Address.getD 0 0 % 256,
          (BrickPi_zero.Address.getD 0 0 % 256 + 1 + 4) % 256, 1, 4]) ∨
        f = (115200, [BrickPi_zero.Address.getD 1 0 % 256,
          (BrickPi_zero.Address.getD 1 0 % 256 + 1 + 4) % 256, 1, 4]) :=
  (EmergencyStop_same_round (fun _ => RxEvent.bytes [5, 1, 4])
    ⟨BrickPi_zero, ⟨List.replicate 256 0, 0⟩, 0, 0, 115200, []⟩
    (fun _ => ⟨by decide, by decide⟩) (List.length_replicate 256 0) (by decide)).1
    ⟨0, by decide, ⟨rfl, by decide, rfl, rfl⟩, ⟨rfl, by decide, rfl, rfl⟩⟩

set_option maxRecDepth 100000 in
/-- C17 fails as stated: link 0 (address 1) acknowledges only in round 1 and link
1 (address 2) would acknowledge only in round 2; the call sends the frames of
links 0, 1, 0, 0, then three broadcasts, and returns -1. -/
theorem EmergencyStop_rounds_counterexample :
    RxEvent.acknowledges 4 ((fun key : List Nat =>
        if key = [0, 0] ∨ key = [1, 1] then RxEvent.bytes [5, 1, 4] else RxEvent.timeout)
        [0, 0]) ∧
      RxEvent.acknowledges 4 ((fun key : List Nat =>
        if key = [0, 0] ∨ key = [1, 1] then RxEvent.bytes [5, 1, 4] else RxEvent.timeout)
        [1, 1]) ∧
      (BrickPiEmergencyStop (fun key : List Nat =>
          if key = [0, 0] ∨ key = [1, 1] then RxEvent.bytes [5, 1, 4] else RxEvent.timeout)
          ⟨{ BrickPi_zero with Address := [1, 2] }, ⟨List.replicate 256 0, 0⟩, 0, 0, 115200,
          []⟩).map
        (fun r => (r.1, r.2.sent.map (fun f => f.2))) =
        some (-1, [[1, 6, 1, 4], [2, 7, 1, 4], [1, 6, 1, 4], [1, 6, 1, 4], [0, 5, 1, 4],
          [0, 5, 1, 4], [0, 5, 1, 4]]) := by
  refine ⟨⟨rfl, by decide, rfl, rfl⟩, ⟨rfl, by decide, rfl, rfl⟩, by decide⟩

/-! ## `BrickPiSetTimeout` and `BrickPiSetBaud` -/

theorem take_four_set (A : List Nat) (a b c d : Nat) (h : 4 ≤ A.length) :
    ((((A.set 0 a).set 1 b).set 2 c).set 3 d).take 4 = [a, b, c, d] := by
  match A, h with
  | _ :: _ :: _ :: _ :: _, _ => rfl

theorem take_five_set (A : List Nat) (a b c d e : Nat) (h : 5 ≤ A.length) :
    (((((A.set 0 a).set 1 b).set 2 c).set 3 d).set 4 e).take 5 = [a, b, c, d, e] := by
  match A, h with
  | _ :: _ :: _ :: _ :: _ :: _, _ => rfl

/-- A call of `BrickPiTx` records the closed-form frame of the first `ByteCount`
bytes of the scratch buffer. -/
theorem BrickPiTx_send_wire (dest ByteCount : Nat) (w : World) (payload : List Nat)
    (hlen : w.g.Array.length = 256) (hBC : ByteCount ≤ 252) (hB : w.BaudRate ≠ 0)
    (hp : w.g.Array.take ByteCount = payload) :
    BrickPiTx.send dest ByteCount w =
      some { w with
        sent := w.sent ++ [(w.BaudRate, wireFrame dest payload)]
        BrickPi := { w.BrickPi with LED := w.BrickPi.LED.set 0 0 } } := by
  have hl : payload.length = ByteCount := by
    rw [← hp, List.length_take]
    omega
  rw [BrickPiTx_send_spec dest ByteCount w hlen hBC hB, hp]
  simp only [wireFrame, hl]

/-- One round of the loop of `BrickPiSetTimeout`: the TimeoutConfig frame is
sent, and the loop goes on when the peer acknowledges and ends with -1
otherwise. -/
theorem SetTimeout_step (rx : Oracle) (fuel i : Nat) (w : World) (hi : i < 2)
    (hwf : ∀ key, (rx key).wellFormed) (hlen : w.g.Array.length = 256)
    (hbr : w.BaudRate ≠ 0) :
    ∃ w', w'.g.Array.length = 256 ∧ w'.BaudRate = w.BaudRate ∧
      w'.BrickPi.Address = w.BrickPi.Address ∧ w'.BrickPi.Timeout = w.BrickPi.Timeout ∧
      w'.sent = w.sent ++ [(w.BaudRate, wireFrame (w.BrickPi.Address.getD i 0)
        (timeoutPayload (w.BrickPi.Timeout % 2 ^ 32)))] ∧
      ((rx [i]).acknowledges 5 →
        BrickPiSetTimeout rx (fuel + 1) i w = BrickPiSetTimeout rx fuel ((i + 1) % 256) w') ∧
      (¬ (rx [i]).acknowledges 5 → BrickPiSetTimeout rx (fuel + 1) i w = some (-1, w')) := by
  rw [BrickPiSetTimeout]
  simp only [hi, if_true]
  generalize hwp : ((((w.setArray 0 MSG_TYPE_TIMEOUT_SETTINGS).setArray 1
      (w.BrickPi.Timeout % 2 ^ 32 &&& 0xFF)).setArray 2
      (w.BrickPi.Timeout % 2 ^ 32 / 256 &&& 0xFF)).setArray 3
      (w.BrickPi.Timeout % 2 ^ 32 / 65536 &&& 0xFF)).setArray 4
      (w.BrickPi.Timeout % 2 ^ 32 / 16777216 &&& 0xFF) = wp
  have hl1 : wp.g.Array.length = 256 := by
    rw [← hwp]
    simp only [World.setArray, List.length_set, hlen]
  have ht : wp.g.Array.take 5 = timeoutPayload (w.BrickPi.Timeout % 2 ^ 32) := by
    rw [← hwp]
    simp only [World.setArray]
    exact take_five_set _ _ _ _ _ _ (by omega)
  have hB : wp.BrickPi = w.BrickPi := by rw [← hwp]; rfl
  have hS : wp.sent = w.sent := by rw [← hwp]; rfl
  have hR : wp.BaudRate = w.BaudRate := by rw [← hwp]; rfl
  have hbr' : wp.BaudRate ≠ 0 := by rw [hR]; exact hbr
  rw [hB, BrickPiTx_send_wire (w.BrickPi.Address.getD i 0) 5 wp _ hl1 (by omega) hbr' ht]
  obtain ⟨A', n, hr, hl2, _, _, hack, _⟩ := BrickPiRx_receive_spec (rx [i])
    { wp with
      sent := wp.sent ++ [(wp.BaudRate, wireFrame (w.BrickPi.Address.getD i 0)
        (timeoutPayload (w.BrickPi.Timeout % 2 ^ 32)))]
      BrickPi := { wp.BrickPi with LED := wp.BrickPi.LED.set 0 0 } } (hwf _) hl1 hbr'
  refine ⟨{ ({ wp with
      sent := wp.sent ++ [(wp.BaudRate, wireFrame (w.BrickPi.Address.getD i 0)
        (timeoutPayload (w.BrickPi.Timeout % 2 ^ 32)))]
      BrickPi := { wp.BrickPi with LED := wp.BrickPi.LED.set 0 0 } } : World) with
      g := ⟨A', wp.g.Bit_Offset⟩, BytesReceived := n }, hl2, hR, ?_, ?_, ?_, ?_, ?_⟩
  · show wp.BrickPi.Address = w.BrickPi.Address
    rw [hB]
  · show wp.BrickPi.Timeout = w.BrickPi.Timeout
    rw [hB]
  · show wp.sent ++ _ = _
    rw [hS, hR]
  · intro h
    obtain ⟨hc, hn, hk⟩ := (hack 5).mpr h
    have hk' : A'.getD 0 0 = MSG_TYPE_TIMEOUT_SETTINGS := hk
    simp only [hr, hc, hn, hk', ne_eq, not_true_eq_false, if_false, and_self]
  · intro h
    simp only [hr]
    by_cases hc : (rx [i]).code = 0
    · have hx : ¬ (n = 1 ∧ A'.getD 0 0 = MSG_TYPE_TIMEOUT_SETTINGS) :=
        fun hh => h ((hack 5).mp ⟨hc, hh⟩)
      simp only [hc, ne_eq, not_true_eq_false, if_false, hx, not_false_eq_true, if_true]
    · simp only [hc, ne_eq, not_false_eq_true, if_true]

/-- The function `BrickPiSetTimeout`: link 0 is asked, link 1 only after link 0
acknowledged, and the result is 0 when both acknowledge and -1 otherwise. -/
theorem SetTimeout_spec (rx : Oracle) (w : World)
    (hwf : ∀ key, (rx key).wellFormed) (hlen : w.g.Array.length = 256)
    (hbr : w.BaudRate ≠ 0) :
    ∃ r w' T, BrickPiSetTimeout rx 3 0 w = some (r, w') ∧
      (r = 0 ∨ r = -1) ∧
      (r = 0 ↔ ((rx [0]).acknowledges 5 ∧ (rx [1]).acknowledges 5)) ∧
      w'.sent = w.sent ++ T ∧ T ≠ [] ∧
      (∀ f ∈ T, f.1 = w.BaudRate ∧ f.2.getD 3 0 = MSG_TYPE_TIMEOUT_SETTINGS) ∧
      w'.g.Array.length = 256 := by
  obtain ⟨w1, hl1, hb1, ha1, ht1, hs1, hack1, hnack1⟩ :=
    SetTimeout_step rx 2 0 w (by omega) hwf hlen hbr
  by_cases h0 : (rx [0]).acknowledges 5
  · obtain ⟨w2, hl2, hb2, ha2, ht2, hs2, hack2, hnack2⟩ :=
      SetTimeout_step rx 1 1 w1 (by omega) hwf hl1 (by rw [hb1]; exact hbr)
    have h01 : (0 + 1) % 256 = 1 := rfl
    by_cases h1 : (rx [1]).acknowledges 5
    · refine ⟨0, w2,
        [(w.BaudRate, wireFrame (w.BrickPi.Address.getD 0 0)
            (timeoutPayload (w.BrickPi.Timeout % 2 ^ 32))),
          (w1.BaudRate, wireFrame (w1.BrickPi.Address.getD 1 0)
            (timeoutPayload (w1.BrickPi.Timeout % 2 ^ 32)))],
        ?_, Or.inl rfl, ?_, ?_, ?_, ?_, hl2⟩
      · rw [hack1 h0, h01, hack2 h1]
        rfl
      · exact ⟨fun _ => ⟨h0, h1⟩, fun _ => rfl⟩
      · rw [hs2, hs1, List.append_assoc]
        rfl
      · simp
      · intro f hf
        simp only [List.mem_cons, List.mem_singleton, List.not_mem_nil, or_false] at hf
        rcases hf with hf | hf
        · rw [hf]
          exact ⟨rfl, rfl⟩
        · rw [hf]
          exact ⟨hb1, rfl⟩
    · refine ⟨-1, w2,
        [(w.BaudRate, wireFrame (w.BrickPi.Address.getD 0 0)
            (timeoutPayload (w.BrickPi.Timeout % 2 ^ 32))),
          (w1.BaudRate, wireFrame (w1.BrickPi.Address.getD 1 0)
            (timeoutPayload (w1.BrickPi.Timeout % 2 ^ 32)))],
        ?_, Or.inr rfl, ?_, ?_, ?_, ?_, hl2⟩
      · rw [hack1 h0, h01, hnack2 h1]
      · constructor
        · intro h
          omega
        · intro h
          exact absurd h.2 h1
      · rw [hs2, hs1, List.append_assoc]
        rfl
      · simp
      · intro f hf
        simp only [List.mem_cons, List.mem_singleton, List.not_mem_nil, or_false] at hf
        rcases hf with hf | hf
        · rw [hf]
          exact ⟨rfl, rfl⟩
        · rw [hf]
          exact ⟨hb1, rfl⟩
  · refine ⟨-1, w1,
      [(w.BaudRate, wireFrame (w.BrickPi.Address.getD 0 0)
        (timeoutPayload (w.BrickPi.Timeout % 2 ^ 32)))],
      hnack1 h0, Or.inr rfl, ?_, hs1, by simp, ?_, hl1⟩
    · constructor
      · intro h
        omega
      · intro h
        exact absurd h.1 h0
    · intro f hf
      simp only [List.mem_singleton] at hf
      rw [hf]
      exact ⟨rfl, rfl⟩

theorem UART_Configure_world (termios : Nat → Int) (baud : Nat) (w : World) :
    (UART_Configure termios baud w).2 =
      { w with BaudRate := if BaudCompute termios baud = -1 then w.BaudRate else baud } := by
  unfold UART_Configure
  split_ifs <;> rfl

theorem or_bit_mod_ne_zero (x i : Nat) (hi : i < 2) : (x ||| (0x01 <<< i)) % 256 ≠ 0 := by
  intro h
  have h1 : ((x ||| (1 <<< i)) % 2 ^ 8).testBit i = true := by
    rw [Nat.testBit_mod_two_pow, Nat.testBit_or, Nat.one_shiftLeft, Nat.testBit_two_pow]
    simp
    omega
  have h2 : (x ||| (1 <<< i)) % 2 ^ 8 = 0 := h
  rw [h2, Nat.zero_testBit] at h1
  exact absurd h1 (by decide)

theorem BaudCompute_ne_zero (termios : Nat → Int) (baud : Nat)
    (h : BaudCompute termios baud ≠ -1) : baud ≠ 0 := by
  intro h0
  rw [h0] at h
  apply h
  unfold BaudCompute
  rw [if_neg (by decide)]

/-- One round of the loop of `BrickPiSetBaud`: the BaudConfig frame is sent at
the old rate, the line switched to the new one, and the bit of the link is set
in the failure mask unless the peer acknowledges. -/
theorem SetBaud_links_step (termios : Nat → Int) (rx : Oracle) (baud_old baud_new : Nat)
    (fuel i result : Nat) (w : World) (hi : i < 2)
    (hwf : ∀ key, (rx key).wellFormed) (hlen : w.g.Array.length = 256)
    (hbo : (if BaudCompute termios baud_old = -1 then w.BaudRate else baud_old) ≠ 0)
    (hbn : (if BaudCompute termios baud_new = -1 then
      (if BaudCompute termios baud_old = -1 then w.BaudRate else baud_old) else baud_new) ≠ 0) :
    ∃ w' result', BrickPiSetBaud.links termios rx baud_old baud_new (fuel + 1) i result w =
        BrickPiSetBaud.links termios rx baud_old baud_new fuel (i + 1) result' w' ∧
      w'.g.Array.length = 256 ∧
      w'.BrickPi.Address = w.BrickPi.Address ∧ w'.BrickPi.Timeout = w.BrickPi.Timeout ∧
      w'.BaudRate = (if BaudCompute termios baud_new = -1 then
        (if BaudCompute termios baud_old = -1 then w.BaudRate else baud_old) else baud_new) ∧
      w'.sent = w.sent ++
        [(if BaudCompute termios baud_old = -1 then w.BaudRate else baud_old,
          wireFrame (w.BrickPi.Address.getD i 0) (baudPayload baud_new))] ∧
      ((rx [0, i]).acknowledges 6 → result' = result) ∧
      (¬ (rx [0, i]).acknowledges 6 → result' ≠ 0) := by
  rw [BrickPiSetBaud.links]
  simp only [hi, if_true, UART_Configure_world]
  generalize hwp : (((w.setArray 0 MSG_TYPE_BAUD_SETTINGS).setArray 1
      (baud_new &&& 0xFF)).setArray 2 (baud_new / 256 &&& 0xFF)).setArray 3
      (baud_new / 65536 &&& 0xFF) = wp
  have hl1 : wp.g.Array.length = 256 := by
    rw [← hwp]
    simp only [World.setArray, List.length_set, hlen]
  have ht : wp.g.Array.take 4 = baudPayload baud_new := by
    rw [← hwp]
    simp only [World.setArray]
    exact take_four_set _ _ _ _ _ (by omega)
  have hB : wp.BrickPi = w.BrickPi := by rw [← hwp]; rfl
  have hS : wp.sent = w.sent := by rw [← hwp]; rfl
  have hR : wp.BaudRate = w.BaudRate := by rw [← hwp]; rfl
  rw [BrickPiTx_send_wire (wp.BrickPi.Address.getD i 0) 4
    { wp with BaudRate := if BaudCompute termios baud_old = -1 then wp.BaudRate else baud_old }
    _ hl1 (by omega) (by dsimp only; rw [hR]; exact hbo) ht]
  dsimp only
  obtain ⟨A', n, hr, hl2, _, _, hack, _⟩ := BrickPiRx_receive_spec (rx [0, i])
    { wp with
      BaudRate := if BaudCompute termios baud_new = -1 then
        (if BaudCompute termios baud_old = -1 then wp.BaudRate else baud_old) else baud_new
      sent := wp.sent ++ [(if BaudCompute termios baud_old = -1 then wp.BaudRate else baud_old,
        wireFrame (wp.BrickPi.Address.getD i 0) (baudPayload baud_new))]
      BrickPi := { wp.BrickPi with LED := wp.BrickPi.LED.set 0 0 } } (hwf _) hl1
    (by dsimp only; rw [hR]; exact hbn)
  rw [hr]
  dsimp only
  refine ⟨_, _, rfl, hl2, ?_, ?_, ?_, ?_, ?_, ?_⟩
  · show wp.BrickPi.Address = w.BrickPi.Address
    rw [hB]
  · show wp.BrickPi.Timeout = w.BrickPi.Timeout
    rw [hB]
  · show (if BaudCompute termios baud_new = -1 then
        (if BaudCompute termios baud_old = -1 then wp.BaudRate else baud_old) else baud_new) = _
    rw [hR]
  · show wp.sent ++ _ = _
    rw [hS, hR, hB]
  · intro h
    obtain ⟨hc, hn, hk⟩ := (hack 6).mpr h
    have hk' : A'.getD 0 0 = MSG_TYPE_BAUD_SETTINGS := hk
    simp only [hc, hn, hk', ne_eq, not_true_eq_false, if_false, and_self]
  · intro h
    by_cases hc : (rx [0, i]).code = 0
    · have hx : ¬ (n = 1 ∧ A'.getD 0 0 = MSG_TYPE_BAUD_SETTINGS) :=
        fun hh => h ((hack 6).mp ⟨hc, hh⟩)
      simp only [hc, ne_eq, not_true_eq_false, if_false, hx, not_false_eq_true, if_true]
      exact or_bit_mod_ne_zero _ i hi
    · simp only [hc, ne_eq, not_false_eq_true, if_true]
      split_ifs
      · exact or_bit_mod_ne_zero _ i hi
      · exact or_bit_mod_ne_zero _ i hi

/-- The function `BrickPiSetBaud` for two rates `termios` knows: both BaudConfig
frames go out at the old rate; when both links acknowledge the result is 0 at
once, otherwise `BrickPiSetTimeout` runs at the new rate and decides. -/
theorem SetBaud_spec (termios : Nat → Int) (rx : Oracle) (baud_old baud_new : Nat) (w : World)
    (hwf : ∀ key, (rx key).wellFormed) (hlen : w.g.Array.length = 256)
    (hold : baud_old < 2 ^ 32) (hnew : baud_new < 2 ^ 32)
    (hco : BaudCompute termios baud_old ≠ -1) (hcn : BaudCompute termios baud_new ≠ -1) :
    ∃ r w' T, BrickPiSetBaud termios rx baud_old baud_new w = some (r, w') ∧
      w'.g.Array.length = 256 ∧
      w'.sent = w.sent ++
        [(baud_old, wireFrame (w.BrickPi.Address.getD 0 0) (baudPayload baud_new)),
         (baud_old, wireFrame (w.BrickPi.Address.getD 1 0) (baudPayload baud_new))] ++ T ∧
      (((rx [0, 0]).acknowledges 6 ∧ (rx [0, 1]).acknowledges 6) → r = 0 ∧ T = []) ∧
      (¬ ((rx [0, 0]).acknowledges 6 ∧ (rx [0, 1]).acknowledges 6) →
        T ≠ [] ∧ (∀ f ∈ T, f.1 = baud_new ∧ f.2.getD 3 0 = MSG_TYPE_TIMEOUT_SETTINGS) ∧
        (r = 0 ↔ ((rx [1, 0]).acknowledges 5 ∧ (rx [1, 1]).acknowledges 5))) := by
  obtain ⟨w1, r1, he1, hl1, ha1, ht1, hb1, hs1, hk1, hn1⟩ :=
    SetBaud_links_step termios rx baud_old baud_new 2 0 0 w (by omega) hwf hlen
      (by rw [if_neg hco]; exact BaudCompute_ne_zero termios _ hco)
      (by rw [if_neg hcn]; exact BaudCompute_ne_zero termios _ hcn)
  obtain ⟨w2, r2, he2, hl2, ha2, ht2, hb2, hs2, hk2, hn2⟩ :=
    SetBaud_links_step termios rx baud_old baud_new 1 1 r1 w1 (by omega) hwf hl1
      (by rw [if_neg hco]; exact BaudCompute_ne_zero termios _ hco)
      (by rw [if_neg hcn]; exact BaudCompute_ne_zero termios _ hcn)
  rw [if_neg hcn] at hb1 hb2
  rw [if_neg hco] at hs1 hs2
  have hlinks : BrickPiSetBaud.links termios rx baud_old baud_new 3 0 0 w = some (r2, w2) := by
    rw [he1, he2]
    simp [BrickPiSetBaud.links]
  have hsent : w2.sent = w.sent ++
      [(baud_old, wireFrame (w.BrickPi.Address.getD 0 0) (baudPayload baud_new)),
       (baud_old, wireFrame (w.BrickPi.Address.getD 1 0) (baudPayload baud_new))] := by
    rw [hs2, hs1, ha1, List.append_assoc]
    rfl
  have hmo : baud_old % 2 ^ 32 = baud_old := Nat.mod_eq_of_lt hold
  have hmn : baud_new % 2 ^ 32 = baud_new := Nat.mod_eq_of_lt hnew
  by_cases hboth : (rx [0, 0]).acknowledges 6 ∧ (rx [0, 1]).acknowledges 6
  · have hr2 : r2 = 0 := by rw [hk2 hboth.2, hk1 hboth.1]
    refine ⟨0, w2, [], ?_, hl2, by rw [hsent, List.append_nil], fun _ => ⟨rfl, rfl⟩,
      fun h => absurd hboth h⟩
    simp only [BrickPiSetBaud, hmo, hmn, hlinks, hr2, ne_eq, not_true_eq_false, if_false]
  · have hr2 : r2 ≠ 0 := by
      by_cases h1 : (rx [0, 1]).acknowledges 6
      · have h0 : ¬ (rx [0, 0]).acknowledges 6 := fun h => hboth ⟨h, h1⟩
        rw [hk2 h1]
        exact hn1 h0
      · exact hn2 h1
    obtain ⟨t, w3, T, het, ht01, hiff, hs3, hT, hTf, hl3⟩ :=
      SetTimeout_spec (fun key => rx (1 :: key)) w2 (fun key => hwf _) hl2
        (by rw [hb2]; exact BaudCompute_ne_zero termios _ hcn)
    by_cases ht0 : t = 0
    · refine ⟨0, w3, T, ?_, hl3, by rw [hs3, hsent], fun h => absurd h hboth, fun _ =>
        ⟨hT, ?_, ?_⟩⟩
      · simp only [BrickPiSetBaud, hmo, hmn, hlinks, hr2, ne_eq, not_false_eq_true, if_true,
          het, ht0]
        rfl
      · intro f hf
        rw [← hb2]
        exact hTf f hf
      · rw [ht0] at hiff
        exact ⟨fun _ => hiff.mp rfl, fun _ => rfl⟩
    · have htm : t = -1 := by omega
      refine ⟨r2, w3, T, ?_, hl3, by rw [hs3, hsent], fun h => absurd h hboth, fun _ =>
        ⟨hT, ?_, ?_⟩⟩
      · simp only [BrickPiSetBaud, hmo, hmn, hlinks, hr2, ne_eq, not_false_eq_true, if_true,
          het, htm]
      · intro f hf
        rw [← hb2]
        exact hTf f hf
      · constructor
        · intro h
          exact absurd (by exact_mod_cast h) hr2
        · intro h
          exact absurd (hiff.mpr h) ht0

/-- C18 (amended): in `BrickPiSetBaud`, when both links acknowledge the
BaudConfig exchange the function returns 0 at once, without any TimeoutConfig
exchange; when a link fails to acknowledge, a TimeoutConfig exchange is performed
at the new baud, and the function returns 0 if both links acknowledge it and a
non-zero failure otherwise. -/
theorem SetBaud_confirmation (termios : Nat → Int) (rx : Oracle) (baud_old baud_new : Nat)
    (w : World) (hwf : ∀ key, (rx key).wellFormed) (hlen : w.g.Array.length = 256)
    (hold : baud_old < 2 ^ 32) (hnew : baud_new < 2 ^ 32)
    (hco : BaudCompute termios baud_old ≠ -1) (hcn : BaudCompute termios baud_new ≠ -1) :
    ((rx [0, 0]).acknowledges 6 → (rx [0, 1]).acknowledges 6 →
      ∃ w', BrickPiSetBaud termios rx baud_old baud_new w = some (0, w') ∧
        w'.sent = w.sent ++
          [(baud_old, wireFrame (w.BrickPi.Address.getD 0 0) (baudPayload baud_new)),
           (baud_old, wireFrame (w.BrickPi.Address.getD 1 0) (baudPayload baud_new))]) ∧
    (¬ ((rx [0, 0]).acknowledges 6 ∧ (rx [0, 1]).acknowledges 6) →
      ∃ r w' T, BrickPiSetBaud termios rx baud_old baud_new w = some (r, w') ∧
        w'.sent = w.sent ++
          [(baud_old, wireFrame (w.BrickPi.Address.getD 0 0) (baudPayload baud_new)),
           (baud_old, wireFrame (w.BrickPi.Address.getD 1 0) (baudPayload baud_new))] ++ T ∧
        T ≠ [] ∧ (∀ f ∈ T, f.1 = baud_new ∧ f.2.getD 3 0 = MSG_TYPE_TIMEOUT_SETTINGS) ∧
        (r = 0 ↔ ((rx [1, 0]).acknowledges 5 ∧ (rx [1, 1]).acknowledges 5))) := by
  obtain ⟨r, w', T, he, _, hs, hyes, hno⟩ :=
    SetBaud_spec termios rx baud_old baud_new w hwf hlen hold hnew hco hcn
  constructor
  · intro h0 h1
    obtain ⟨hr, hT⟩ := hyes ⟨h0, h1⟩
    rw [hr] at he
    rw [hT, List.append_nil] at hs
    exact ⟨w', he, hs⟩
  · intro hn
    obtain ⟨hT, hTf, hiff⟩ := hno hn
    exact ⟨r, w', T, he, hs, hT, hTf, hiff⟩

/-- Witness of `SetBaud_confirmation`: both peers acknowledge the BaudConfig. -/
theorem SetBaud_confirmation_witness :
    ∃ w', BrickPiSetBaud (fun _ => 0) (fun _ => RxEvent.bytes [7, 1, 6]) 9600 115200
        ⟨BrickPi_zero, ⟨List.replicate 256 0, 0⟩, 0, 0, 0, []⟩ = some (0, w') ∧
      w'.sent = [] ++
        [(9600, wireFrame (BrickPi_zero.Address.getD 0 0) (baudPayload 115200)),
         (9600, wireFrame (BrickPi_zero.Address.getD 1 0) (baudPayload 115200))] :=
  (SetBaud_confirmation (fun _ => 0) (fun _ => RxEvent.bytes [7, 1, 6]) 9600 115200
    ⟨BrickPi_zero, ⟨List.replicate 256 0, 0⟩, 0, 0, 0, []⟩
    (fun _ => ⟨by decide, by decide⟩) (List.length_replicate 256 0) (by norm_num) (by norm_num)
    (by decide) (by decide)).1 ⟨rfl, by decide, rfl, rfl⟩ ⟨rfl, by decide, rfl, rfl⟩

set_option maxRecDepth 100000 in
/-- C18 fails as stated: both links acknowledge the BaudConfig and every later
receive would time out, so that a TimeoutConfig confirmation could only fail;
`BrickPiSetBaud` returns 0 all the same, having sent the two BaudConfig frames
(kind byte 6, at 9600 baud) and no TimeoutConfig frame. -/
theorem SetBaud_confirmation_counterexample :
    (BrickPiSetBaud (fun _ => 0)
        (fun key : List Nat =>
          if key = [0, 0] ∨ key = [0, 1] then RxEvent.bytes [7, 1, 6] else RxEvent.timeout)
        9600 115200 ⟨BrickPi_zero, ⟨List.replicate 256 0, 0⟩, 0, 0, 0, []⟩).map
      (fun r => (r.1, r.2.sent.map (fun f => (f.1, f.2.getD 3 0)))) =
      some (0, [(9600, 6), (9600, 6)]) := by
  decide

/-! ## The baud bootstrap of `BrickPiSetup` -/

theorem tryInOrder_append (termios : Nat → Int) (rx : Oracle)
    (A B : List (List Nat × Nat × Nat)) (w : World) :
    tryInOrder termios rx (A ++ B) w =
      match tryInOrder termios rx A w with
      | none => none
      | some (r, w') => if r = 0 then some (0, w') else tryInOrder termios rx B w' := by
  induction A generalizing w with
  | nil => simp [tryInOrder]
  | cons e A ih =>
    obtain ⟨key, o, n⟩ := e
    simp only [List.cons_append, tryInOrder]
    cases h : BrickPiSetBaud termios (fun k => rx (key ++ k)) o n w with
    | none => rfl
    | some p =>
      obtain ⟨r, w1⟩ := p
      by_cases hr : r = 0
      · simp [hr]
      · simp only [hr, if_false]
        exact ih w1

theorem ForceBaud_tryInOrder (termios : Nat → Int) (rx : Oracle) (r baud : Nat)
    (hcat : ∀ b ∈ BAUD_RATES, BaudCompute termios b ≠ -1) :
    ∀ (fuel i : Nat) (w : World), i ≤ 15 → 15 - i < fuel →
      BrickPiForceBaud termios (fun key => rx (r :: 3 :: key)) baud fuel i w =
        tryInOrder termios rx
          (((List.range 15).drop i).map (fun j => ([r, 3, j], BAUD_RATES.getD j 0, baud))) w := by
  intro fuel
  induction fuel with
  | zero => intro i w _ h; omega
  | succ fuel ih =>
    intro i w hi hf
    by_cases h15 : i < 15
    · have hmem : BAUD_RATES.getD i 0 ∈ BAUD_RATES := by
        have : i < BAUD_RATES.length := h15
        rw [List.getD_eq_getElem _ _ this]
        exact List.getElem_mem _
      have hd : (List.range 15).drop i = i :: (List.range 15).drop (i + 1) := by
        rw [List.drop_eq_getElem_cons (by simpa using h15)]
        simp
      rw [hd]
      simp only [BrickPiForceBaud, h15, if_true, hcat _ hmem, ne_eq, not_false_eq_true,
        List.map_cons, tryInOrder, List.cons_append, List.nil_append]
      cases h : BrickPiSetBaud termios (fun k => rx (r :: 3 :: i :: k)) (BAUD_RATES.getD i 0)
          baud w with
      | none => rfl
      | some p =>
        obtain ⟨q, w1⟩ := p
        by_cases hq : q = 0
        · simp [hq]
        · simp only [hq, if_false]
          exact ih (i + 1) w1 (by omega) (by omega)
    · have : i = 15 := by omega
      subst this
      simp [BrickPiForceBaud, tryInOrder]

theorem bootstrap_round (termios : Nat → Int) (rx : Oracle)
    (hcat : ∀ b ∈ BAUD_RATES, BaudCompute termios b ≠ -1) (fuel i : Nat) (w : World)
    (hi : i < 5) :
    BrickPiSetup.bootstrap termios rx (fuel + 1) i w =
      match tryInOrder termios rx (bootstrapRound i) w with
      | none => none
      | some (r, w') =>
        if r = 0 then some (0, w')
        else if i = 4 then some (-1, w')
        else BrickPiSetup.bootstrap termios rx fuel (i + 1) w' := by
  have hF := fun w => ForceBaud_tryInOrder termios rx i BAUD_IDEAL hcat 16 0 w (by omega)
    (by omega)
  simp only [List.drop_zero] at hF
  have hmod : (i + 1) % 256 = i + 1 := Nat.mod_eq_of_lt (by omega)
  have hR : bootstrapRound i = ([i, 0], BAUD_IDEAL, BAUD_IDEAL) ::
      ([i, 1], BAUD_DEFAULT, BAUD_IDEAL) :: ([i, 2], BAUD_IDEAL, BAUD_IDEAL) ::
      (List.range 15).map (fun j => ([i, 3, j], BAUD_RATES.getD j 0, BAUD_IDEAL)) := rfl
  rw [BrickPiSetup.bootstrap, hR]
  simp only [hi, if_true, hmod, hF]
  generalize (List.range 15).map (fun j => ([i, 3, j], BAUD_RATES.getD j 0, BAUD_IDEAL)) = S
  simp only [tryInOrder, List.cons_append, List.nil_append]
  cases h1 : BrickPiSetBaud termios (fun k => rx (i :: 0 :: k)) BAUD_IDEAL BAUD_IDEAL w with
  | none => rfl
  | some p1 =>
    obtain ⟨r1, w1⟩ := p1
    by_cases hr1 : r1 = 0
    · simp [hr1]
    · simp only [hr1, if_false]
      cases h2 : BrickPiSetBaud termios (fun k => rx (i :: 1 :: k)) BAUD_DEFAULT BAUD_IDEAL
          w1 with
      | none => rfl
      | some p2 =>
        obtain ⟨r2, w2⟩ := p2
        by_cases hr2 : r2 = 0
        · simp [hr2]
        · simp only [hr2, if_false]
          cases h3 : BrickPiSetBaud termios (fun k => rx (i :: 2 :: k)) BAUD_IDEAL BAUD_IDEAL
              w2 with
          | none => rfl
          | some p3 =>
            obtain ⟨r3, w3⟩ := p3
            by_cases hr3 : r3 = 0
            · simp [hr3]
            · simp only [hr3, if_false]

theorem tryInOrder_ret (termios : Nat → Int) (rx : Oracle) :
    ∀ (S : List (List Nat × Nat × Nat)) (w : World) (r : Int) (w' : World),
      tryInOrder termios rx S w = some (r, w') → r = 0 ∨ r = -1 := by
  intro S
  induction S with
  | nil =>
    intro w r w' h
    simp only [tryInOrder, Option.some.injEq, Prod.mk.injEq] at h
    exact Or.inr h.1.symm
  | cons e S ih =>
    obtain ⟨key, o, n⟩ := e
    intro w r w' h
    simp only [tryInOrder] at h
    cases h1 : BrickPiSetBaud termios (fun k => rx (key ++ k)) o n w with
    | none => simp [h1] at h
    | some p =>
      obtain ⟨q, w1⟩ := p
      simp only [h1] at h
      by_cases hq : q = 0
      · simp only [hq, if_true, Option.some.injEq, Prod.mk.injEq] at h
        exact Or.inl h.1.symm
      · simp only [hq, if_false] at h
        exact ih w1 r w' h

theorem bootstrap_last (termios : Nat → Int) (rx : Oracle)
    (hcat : ∀ b ∈ BAUD_RATES, BaudCompute termios b ≠ -1) (fuel : Nat) (w : World) :
    BrickPiSetup.bootstrap termios rx (fuel + 1) 4 w =
      tryInOrder termios rx (bootstrapRound 4) w := by
  rw [bootstrap_round termios rx hcat fuel 4 w (by omega)]
  cases h : tryInOrder termios rx (bootstrapRound 4) w with
  | none => rfl
  | some p =>
    obtain ⟨r, w1⟩ := p
    rcases tryInOrder_ret termios rx _ _ _ _ h with h0 | h1
    · simp [h0]
    · simp [h1]

theorem bootstrap_next (termios : Nat → Int) (rx : Oracle)
    (hcat : ∀ b ∈ BAUD_RATES, BaudCompute termios b ≠ -1) (fuel i : Nat) (hi : i < 4)
    (rest : List (List Nat × Nat × Nat))
    (hrest : ∀ w, BrickPiSetup.bootstrap termios rx fuel (i + 1) w =
      tryInOrder termios rx rest w) (w : World) :
    BrickPiSetup.bootstrap termios rx (fuel + 1) i w =
      tryInOrder termios rx (bootstrapRound i ++ rest) w := by
  rw [bootstrap_round termios rx hcat fuel i w (by omega), tryInOrder_append]
  have h4 : i ≠ 4 := by omega
  cases h : tryInOrder termios rx (bootstrapRound i) w with
  | none => rfl
  | some p =>
    obtain ⟨r, w1⟩ := p
    simp only [h4, if_false, hrest]

theorem bootstrap_tryInOrder (termios : Nat → Int) (rx : Oracle)
    (hcat : ∀ b ∈ BAUD_RATES, BaudCompute termios b ≠ -1) (w : World) :
    BrickPiSetup.bootstrap termios rx 6 0 w = tryInOrder termios rx bootstrapSchedule w := by
  have e : bootstrapSchedule = bootstrapRound 0 ++ (bootstrapRound 1 ++ (bootstrapRound 2 ++
      (bootstrapRound 3 ++ bootstrapRound 4))) := by
    simp only [bootstrapSchedule, List.append_assoc]
  rw [e]
  exact bootstrap_next termios rx hcat 5 0 (by omega) _
    (bootstrap_next termios rx hcat 4 1 (by omega) _
      (bootstrap_next termios rx hcat 3 2 (by omega) _
        (bootstrap_next termios rx hcat 2 3 (by omega) _
          (bootstrap_last termios rx hcat 1)))) w

theorem BAUD_RATES_lt : ∀ b ∈ BAUD_RATES, b < 2 ^ 32 := by
  intro b hb
  simp only [BAUD_RATES, List.mem_cons, List.mem_singleton, List.not_mem_nil, or_false] at hb
  omega

theorem countP_baud_timeout (T : List (Nat × List Nat))
    (hT : ∀ f ∈ T, f.2.getD 3 0 = MSG_TYPE_TIMEOUT_SETTINGS) :
    T.countP (fun f => decide (f.2.getD 3 0 = MSG_TYPE_BAUD_SETTINGS)) = 0 := by
  rw [List.countP_eq_zero]
  intro f hf
  have := hT f hf
  simp only [MSG_TYPE_TIMEOUT_SETTINGS, MSG_TYPE_BAUD_SETTINGS] at *
  rw [this]
  decide

theorem tryInOrder_spec (termios : Nat → Int) (rx : Oracle)
    (hcat : ∀ b ∈ BAUD_RATES, BaudCompute termios b ≠ -1)
    (hwf : ∀ key, (rx key).wellFormed) :
    ∀ (S : List (List Nat × Nat × Nat)) (w : World),
      (∀ e ∈ S, e.2.1 ∈ BAUD_RATES ∧ e.2.2 ∈ BAUD_RATES) → w.g.Array.length = 256 →
      ∃ ret w' L, tryInOrder termios rx S w = some (ret, w') ∧ w'.g.Array.length = 256 ∧
        w'.sent = w.sent ++ L ∧ (ret = 0 ∨ ret = -1) ∧
        (ret = 0 ↔ ∃ e ∈ S, baudAccepted rx e.1) ∧
        ((∀ e ∈ S, ¬ baudAccepted rx e.1) →
          L.countP (fun f => decide (f.2.getD 3 0 = MSG_TYPE_BAUD_SETTINGS)) = 2 * S.length) ∧
        (∀ A e B, S = A ++ e :: B → (∀ a ∈ A, ¬ baudAccepted rx a.1) → baudAccepted rx e.1 →
          L.countP (fun f => decide (f.2.getD 3 0 = MSG_TYPE_BAUD_SETTINGS)) =
            2 * (A.length + 1)) := by
  intro S
  induction S with
  | nil =>
    intro w _ hlen
    refine ⟨-1, w, [], rfl, hlen, by simp, Or.inr rfl, by simp, by simp, ?_⟩
    intro A e B h
    simp at h
  | cons e0 S ih =>
    obtain ⟨key, o, n⟩ := e0
    intro w hS hlen
    have ho := (hS (key, o, n) (List.mem_cons_self _ _)).1
    have hn := (hS (key, o, n) (List.mem_cons_self _ _)).2
    obtain ⟨r, w1, T, he, hl1, hs1, hyes, hno⟩ := SetBaud_spec termios (fun k => rx (key ++ k)) o n w
      (fun k => hwf _) hlen (BAUD_RATES_lt o ho) (BAUD_RATES_lt n hn) (hcat o ho) (hcat n hn)
    have hB : ∀ a, (wireFrame a (baudPayload n)).getD 3 0 = MSG_TYPE_BAUD_SETTINGS :=
      fun a => rfl
    have hacc : r = 0 ↔ baudAccepted rx key := by
      unfold baudAccepted
      by_cases hb : (rx (key ++ [0, 0])).acknowledges 6 ∧ (rx (key ++ [0, 1])).acknowledges 6
      · exact ⟨fun _ => Or.inl hb, fun _ => (hyes hb).1⟩
      · rw [(hno hb).2.2]
        exact ⟨fun h => Or.inr h, fun h => h.resolve_left hb⟩
    have hcount : (([(o, wireFrame (w.BrickPi.Address.getD 0 0) (baudPayload n)),
        (o, wireFrame (w.BrickPi.Address.getD 1 0) (baudPayload n))] ++ T).countP
          (fun f => decide (f.2.getD 3 0 = MSG_TYPE_BAUD_SETTINGS))) = 2 := by
      have hT : T.countP (fun f => decide (f.2.getD 3 0 = MSG_TYPE_BAUD_SETTINGS)) = 0 := by
        apply countP_baud_timeout
        by_cases hb : (rx (key ++ [0, 0])).acknowledges 6 ∧ (rx (key ++ [0, 1])).acknowledges 6
        · rw [(hyes hb).2]
          intro f hf
          simp at hf
        · exact fun f hf => ((hno hb).2.1 f hf).2
      rw [List.countP_append, hT, List.countP_cons, List.countP_cons, List.countP_nil, hB, hB]
      rfl
    by_cases hr : r = 0
    · have ha := hacc.1 hr
      refine ⟨0, w1, _, ?_, hl1, hs1.trans (List.append_assoc _ _ _), Or.inl rfl,
        ⟨fun _ => ⟨_, List.mem_cons_self _ _, ha⟩, fun _ => rfl⟩, ?_, ?_⟩
      · simp only [tryInOrder, he, hr, if_true]
      · intro hall
        exact absurd ha (hall _ (List.mem_cons_self _ _))
      · intro A e B hAB hA _
        cases A with
        | nil => simpa using hcount
        | cons a A =>
          simp only [List.cons_append, List.cons.injEq] at hAB
          have := hA a (List.mem_cons_self _ _)
          rw [← hAB.1] at this
          exact absurd ha this
    · have ha : ¬ baudAccepted rx key := fun h => hr (hacc.2 h)
      obtain ⟨ret, w', L, hse, hl', hs', h01, hiff, hallc, hfirst⟩ :=
        ih w1 (fun e he => hS e (List.mem_cons_of_mem _ he)) hl1
      refine ⟨ret, w', ([(o, wireFrame (w.BrickPi.Address.getD 0 0) (baudPayload n)),
        (o, wireFrame (w.BrickPi.Address.getD 1 0) (baudPayload n))] ++ T) ++ L, ?_, hl', ?_, h01,
        ?_, ?_, ?_⟩
      · simp only [tryInOrder, he, hr, if_false, hse]
      · rw [hs', hs1]
        simp only [List.append_assoc]
      · rw [hiff]
        constructor
        · rintro ⟨e, he, hacc⟩
          exact ⟨e, List.mem_cons_of_mem _ he, hacc⟩
        · rintro ⟨e, he, hacc⟩
          rcases List.mem_cons.1 he with h | h
          · rw [h] at hacc
            exact absurd hacc ha
          · exact ⟨e, h, hacc⟩
      · intro hall
        rw [List.countP_append, hcount, hallc (fun e he => hall e (List.mem_cons_of_mem _ he)),
          List.length_cons]
        omega
      · intro A e B hAB hA hacc
        cases A with
        | nil =>
          simp only [List.nil_append, List.cons.injEq] at hAB
          rw [← hAB.1] at hacc
          exact absurd hacc ha
        | cons a A =>
          simp only [List.cons_append, List.cons.injEq] at hAB
          rw [List.countP_append, hcount,
            hfirst A e B hAB.2 (fun x hx => hA x (List.mem_cons_of_mem _ hx)) hacc,
            List.length_cons]
          omega

theorem bootstrapSchedule_rates : ∀ e ∈ bootstrapSchedule,
    e.2.1 ∈ BAUD_RATES ∧ e.2.2 ∈ BAUD_RATES := by
  decide

/-- C19: with every rate of the catalog known to `termios`, the baud bootstrap
of `BrickPiSetup` is the run, stopping at the first success, of the 90 calls of
`BrickPiSetBaud` of `bootstrapSchedule`: 5 rounds of (target, target),
(9600, target), (target, target) and the 15 rates of the catalog, which is in
ascending order.  It returns, with -1 exactly when no call of the schedule is
accepted, and then after 2 * (15 + 5 * 15) BaudConfig frames; when the call at
position `A.length` is the first accepted one it returns 0 after the BaudConfig
frames of `A.length + 1` calls. -/
theorem bootstrap_schedule (termios : Nat → Int) (rx : Oracle) (w : World)
    (hcat : ∀ b ∈ BAUD_RATES, BaudCompute termios b ≠ -1)
    (hwf : ∀ key, (rx key).wellFormed) (hlen : w.g.Array.length = 256) :
    BrickPiSetup.bootstrap termios rx 6 0 w = tryInOrder termios rx bootstrapSchedule w ∧
      bootstrapSchedule.length = 5 * (3 + 15) ∧ BAUD_RATES.length = 15 ∧
      BAUD_RATES.Pairwise (fun a b => a < b) ∧ BAUD_DEFAULT = 9600 ∧
      ∃ ret w' L, BrickPiSetup.bootstrap termios rx 6 0 w = some (ret, w') ∧
        w'.sent = w.sent ++ L ∧ (ret = 0 ∨ ret = -1) ∧
        (ret = -1 ↔ ∀ e ∈ bootstrapSchedule, ¬ baudAccepted rx e.1) ∧
        (ret = -1 →
          L.countP (fun f => decide (f.2.getD 3 0 = MSG_TYPE_BAUD_SETTINGS)) =
            2 * (15 + 5 * 15)) ∧
        (∀ A e B, bootstrapSchedule = A ++ e :: B → (∀ a ∈ A, ¬ baudAccepted rx a.1) →
          baudAccepted rx e.1 →
          ret = 0 ∧ L.countP (fun f => decide (f.2.getD 3 0 = MSG_TYPE_BAUD_SETTINGS)) =
            2 * (A.length + 1)) := by
  obtain ⟨ret, w', L, he, _, hs, h01, hiff, hall, hfirst⟩ :=
    tryInOrder_spec termios rx hcat hwf bootstrapSchedule w bootstrapSchedule_rates hlen
  have hb := bootstrap_tryInOrder termios rx hcat w
  have hneg : ret = -1 ↔ ∀ e ∈ bootstrapSchedule, ¬ baudAccepted rx e.1 := by
    constructor
    · intro h e hmem hacc
      have : ret = 0 := hiff.2 ⟨e, hmem, hacc⟩
      omega
    · intro h
      rcases h01 with h0 | h1
      · obtain ⟨e, hmem, hacc⟩ := hiff.1 h0
        exact absurd hacc (h e hmem)
      · exact h1
  refine ⟨hb, by decide, by decide, by decide, rfl, ret, w', L, hb.trans he, hs, h01, hneg, ?_, ?_⟩
  · intro h
    exact hall (hneg.1 h)
  · intro A e B hAB hA hacc
    refine ⟨hiff.2 ⟨e, ?_, hacc⟩, hfirst A e B hAB hA hacc⟩
    rw [hAB]
    exact List.mem_append_right _ (List.mem_cons_self _ _)

/-- Witness of `bootstrap_schedule`: no reply ever arrives, the bootstrap
returns -1 after 180 BaudConfig frames. -/
theorem bootstrap_schedule_witness :
    ∃ w', BrickPiSetup.bootstrap (fun _ => 0) (fun _ => RxEvent.timeout) 6 0
        ⟨BrickPi_zero, ⟨List.replicate 256 0, 0⟩, 0, 0, 0, []⟩ = some (-1, w') ∧
      w'.sent.countP (fun f => decide (f.2.getD 3 0 = MSG_TYPE_BAUD_SETTINGS)) = 180 := by
  obtain ⟨_, _, _, _, _, ret, w', L, he, hs, _, hiff, hall, _⟩ :=
    bootstrap_schedule (fun _ => 0) (fun _ => RxEvent.timeout)
      ⟨BrickPi_zero, ⟨List.replicate 256 0, 0⟩, 0, 0, 0, []⟩ (by decide) (fun _ => trivial)
      (List.length_replicate 256 0)
  have hno : ∀ e ∈ bootstrapSchedule, ¬ baudAccepted (fun _ => RxEvent.timeout) e.1 := by
    intro e _ h
    rcases h with h | h
    · exact h.1
    · exact h.1
  have hr := hiff.2 hno
  subst hr
  refine ⟨w', he, ?_⟩
  rw [hs, List.nil_append]
  exact hall rfl

/-! ## The outbound ValuesExchange is built -/

/-- The append loop never touches a byte below `byte_offset`. -/
theorem AddBits_addLoop_low (bo boff bits c : Nat) :
    ∀ (fuel i value : Nat) (A A' : List Nat),
      AddBits.addLoop bo boff bits c fuel i value A = some A' →
      ∀ j, j < bo → A'.getD j 0 = A.getD j 0 := by
  intro fuel
  induction fuel with
  | zero =>
    intro i value A A' h
    exact absurd h (by rw [AddBits.addLoop]; exact fun hh => Option.noConfusion hh)
  | succ fuel ih =>
    intro i value A A' h j hj
    unfold AddBits.addLoop at h
    by_cases hlt : i < bits
    · simp only [hlt, if_true] at h
      by_cases hv : value &&& 1 ≠ 0
      · rw [if_pos hv] at h
        by_cases hb : bo + (boff + c + i) % 2 ^ 32 / 8 < A.length
        · simp only [hb, if_true] at h
          rw [ih _ _ _ _ h j hj, getD_set_eq]
          have : ¬ (bo + (boff + c + i) % 2 ^ 32 / 8 = j ∧
              bo + (boff + c + i) % 2 ^ 32 / 8 < A.length) := by omega
          rw [if_neg this]
        · simp only [hb, if_false] at h
          exact absurd h (by simp)
      · rw [if_neg hv] at h
        exact ih _ _ _ _ h j hj
    · simp only [hlt, if_false, Option.some.injEq] at h
      rw [h]

/-- A field appended behind the kind byte, inside the buffer: the call returns,
the cursor advances by the width, the kind byte is kept. -/
theorem AddBits_total (w v : Nat) (g : Globals) (hlen : g.Array.length = 256)
    (hw : w ≤ 255) (hin : 8 + g.Bit_Offset + w ≤ 2048) :
    ∃ A', AddBits 1 0 w v g = some ⟨A', g.Bit_Offset + w⟩ ∧ A'.length = 256 ∧
      A'.getD 0 0 = g.Array.getD 0 0 := by
  obtain ⟨A', he, hl, _⟩ := AddBits_spec 1 0 w v g hlen (by omega) (by omega) hw (by omega)
  refine ⟨A', he, hl, ?_⟩
  unfold AddBits at he
  cases h : AddBits.addLoop (1 % 256) (0 % 256) (w % 256) g.Bit_Offset 256 0 (v % 2 ^ 32)
      g.Array with
  | none =>
    rw [h] at he
    exact absurd he (fun hh => Option.noConfusion hh)
  | some A1 =>
    rw [h] at he
    simp only [Option.some.injEq, Globals.mk.injEq] at he
    rw [← he.1]
    exact AddBits_addLoop_low _ _ _ _ _ _ _ _ _ h 0 (by norm_num)

/-- The encoder-offset round of a port returns, having appended at most 38 bits. -/
theorem encoderOffsetPort_total (B : BrickPiStruct) (port : Nat) (g : Globals)
    (hlen : g.Array.length = 256) (hin : 8 + g.Bit_Offset + 38 ≤ 2048) :
    ∃ A' k, BrickPiUpdateValues.encoderOffsetPort B port g = some ⟨A', g.Bit_Offset + k⟩ ∧
      k ≤ 38 ∧ A'.length = 256 ∧ A'.getD 0 0 = g.Array.getD 0 0 := by
  by_cases hv : B.EncoderOffset.getD port 0 ≠ 0
  · obtain ⟨A1, he1, hl1, hz1⟩ := AddBits_total 1 1 g hlen (by omega) (by omega)
    generalize hT : (if B.EncoderOffset.getD port 0 < 0 then
      toLong (B.EncoderOffset.getD port 0 * (-1)) else B.EncoderOffset.getD port 0) = T
    have hn := BitsNeeded_eq (toULong T) (toULong_lt T)
    have hn31 : min (Nat.size (toULong T)) 31 ≤ 31 := Nat.min_le_right _ _
    obtain ⟨A2, he2, hl2, hz2⟩ := AddBits_total 5 (min (Nat.size (toULong T)) 31)
      ⟨A1, g.Bit_Offset + 1⟩ hl1 (by omega) (by dsimp only; omega)
    obtain ⟨A3, he3, hl3, hz3⟩ := AddBits_total (min (Nat.size (toULong T)) 31 + 1)
      (toULong (toLong (T * 2)) ||| (if B.EncoderOffset.getD port 0 < 0 then 1 else 0))
      ⟨A2, g.Bit_Offset + 1 + 5⟩ hl2 (by omega) (by dsimp only; omega)
    dsimp only at he2 hz2 he3 hz3
    refine ⟨A3, 1 + 5 + (min (Nat.size (toULong T)) 31 + 1), ?_, by omega, hl3, ?_⟩
    · have e256 : (min (Nat.size (toULong T)) 31 + 1) % 256 =
          min (Nat.size (toULong T)) 31 + 1 := Nat.mod_eq_of_lt (by omega)
      simp only [BrickPiUpdateValues.encoderOffsetPort, hv, ne_eq, not_false_eq_true, if_true,
        he1, Option.bind_eq_bind, Option.some_bind, hT, hn, he2, e256, he3, Nat.add_assoc]
    · rw [hz3, hz2, hz1]
  · obtain ⟨A1, he1, hl1, hz1⟩ := AddBits_total 1 0 g hlen (by omega) (by omega)
    refine ⟨A1, 1, ?_, by omega, hl1, hz1⟩
    simp only [BrickPiUpdateValues.encoderOffsetPort, hv, if_false, he1]

/-- The motor round of a port returns, having appended 10 bits; of the device
state only `MotorTargetLastError` may change. -/
theorem motorPort_total (B : BrickPiStruct) (port : Nat) (speed : Int) (g : Globals)
    (hlen : g.Array.length = 256) (hin : 8 + g.Bit_Offset + 10 ≤ 2048) :
    ∃ E speed' A', BrickPiUpdateValues.motorPort B port speed g =
        some ({ B with MotorTargetLastError := E }, speed', ⟨A', g.Bit_Offset + 10⟩) ∧
      A'.length = 256 ∧ A'.getD 0 0 = g.Array.getD 0 0 := by
  by_cases hmode : B.MotorEnable.getD port 0 = TYPE_MOTOR_FLOAT
  · obtain ⟨A1, he1, hl1, hz1⟩ := AddBits_total 10 0 g hlen (by omega) (by omega)
    refine ⟨B.MotorTargetLastError, speed, A1, ?_, hl1, hz1⟩
    simp only [BrickPiUpdateValues.motorPort, hmode, if_true, he1, Option.bind_eq_bind,
      Option.some_bind]
  · obtain ⟨A1, he1, hl1, hz1⟩ := AddBits_total 10
      (BrickPiUpdateValues.motorWord (BrickPiUpdateValues.motorSpeed B port speed).2).1 g hlen
      (by omega) (by omega)
    have hB : ∃ E, (BrickPiUpdateValues.motorSpeed B port speed).1 =
        { B with MotorTargetLastError := E } := by
      unfold BrickPiUpdateValues.motorSpeed
      split_ifs
      · exact ⟨_, rfl⟩
      · exact ⟨_, rfl⟩
      · exact ⟨_, rfl⟩
    obtain ⟨E, hE⟩ := hB
    refine ⟨E, (BrickPiUpdateValues.motorWord
      (BrickPiUpdateValues.motorSpeed B port speed).2).2, A1, ?_, hl1, hz1⟩
    simp only [BrickPiUpdateValues.motorPort, hmode, if_false, he1, Option.bind_eq_bind,
      Option.some_bind, hE]

theorem getD_nil_mem {α : Type} (a : List (List α)) (i : Nat) (hi : i < a.length) :
    a.getD i [] ∈ a := by
  rw [List.getD_eq_getElem _ _ hi]
  exact List.getElem_mem _

theorem readAt2_eq (a : List (List Nat)) (i j : Nat) (hi : i < a.length)
    (hj : j < (a.getD i []).length) :
    readAt2 a i j = some ((a.getD i []).getD j 0) := by
  unfold readAt2
  rw [List.getD_eq_getElem _ _ hi] at hj ⊢
  simp only [List.get?_eq_getElem?, List.getElem?_eq_getElem hi]
  rw [List.getElem?_eq_getElem hj, List.getD_eq_getElem _ _ hj]

theorem readAt3_eq (a : List (List (List Nat))) (i j k : Nat) (hi : i < a.length)
    (hj : j < (a.getD i []).length) (hk : k < ((a.getD i []).getD j []).length) :
    readAt3 a i j k = some (((a.getD i []).getD j []).getD k 0) := by
  unfold readAt3
  have e : a.get? i = some (a.getD i []) := by
    rw [List.getD_eq_getElem _ _ hi]
    simp only [List.get?_eq_getElem?, List.getElem?_eq_getElem hi]
  rw [e]
  exact readAt2_eq _ j k hj hk

theorem I2COutBytes_total (B : BrickPiStruct) (port device Write : Nat)
    (hW : Write ≤ 16)
    (hOut : ∀ k, k < Write → ∃ b, readAt3 B.SensorI2COut port device k = some b) :
    ∀ (fuel out_byte : Nat) (g : Globals), out_byte ≤ Write → Write - out_byte < fuel →
      g.Array.length = 256 → 8 + g.Bit_Offset + 8 * (Write - out_byte) ≤ 2048 →
      ∃ A', I2COutBytes B 1 port device Write fuel out_byte g =
          some ⟨A', g.Bit_Offset + 8 * (Write - out_byte)⟩ ∧
        A'.length = 256 ∧ A'.getD 0 0 = g.Array.getD 0 0 := by
  intro fuel
  induction fuel with
  | zero => intro o g _ h; omega
  | succ fuel ih =>
    intro o g ho hf hlen hin
    unfold I2COutBytes
    by_cases hlt : o < Write
    · obtain ⟨b, hb⟩ := hOut o hlt
      obtain ⟨A1, he1, hl1, hz1⟩ := AddBits_total 8 b g hlen (by omega) (by omega)
      have hm : (o + 1) % 256 = o + 1 := Nat.mod_eq_of_lt (by omega)
      obtain ⟨A2, he2, hl2, hz2⟩ := ih (o + 1) ⟨A1, g.Bit_Offset + 8⟩ (by omega) (by omega) hl1
        (by dsimp only; omega)
      dsimp only at he2 hz2
      refine ⟨A2, ?_, hl2, by rw [hz2, hz1]⟩
      simp only [hlt, if_true, hb, he1, hm, he2]
      congr 2
      omega
    · have : Write - o = 0 := by omega
      refine ⟨g.Array, ?_, hlen, rfl⟩
      simp only [hlt, if_false, this, Nat.mul_zero, Nat.add_zero]

theorem i2cOutBitsFrom_step (B : BrickPiStruct) (port device : Nat)
    (h : device < B.SensorI2CDevices.getD port 0) :
    i2cOutBitsFrom B port device =
      (if (B.SensorSettings.getD port []).getD device 0 &&& BIT_I2C_SAME = 0 then
        8 + 8 * (B.SensorI2CWrite.getD port []).getD device 0 else 0) +
        i2cOutBitsFrom B port (device + 1) := by
  unfold i2cOutBitsFrom
  rw [List.drop_eq_getElem_cons (by simpa using h)]
  simp only [List.getElem_range, List.map_cons, List.sum_cons]

theorem i2cOutBitsFrom_end (B : BrickPiStruct) (port device : Nat)
    (h : B.SensorI2CDevices.getD port 0 ≤ device) : i2cOutBitsFrom B port device = 0 := by
  unfold i2cOutBitsFrom
  rw [List.drop_eq_nil_of_le (by simpa using h)]
  rfl

theorem shaped_rows (B : BrickPiStruct) (hs : B.shaped) (port : Nat) (hp : port < 4) :
    (B.SensorArray.getD port []).length = 4 ∧
      (B.SensorSettings.getD port []).length = 8 ∧
      (B.SensorI2CWrite.getD port []).length = 8 ∧
      (B.SensorI2CRead.getD port []).length = 8 ∧
      (B.SensorI2COut.getD port []).length = 8 ∧
      (∀ d, d < 8 → ((B.SensorI2COut.getD port []).getD d []).length = 16) ∧
      (B.SensorI2CIn.getD port []).length = 8 ∧
      (∀ d, d < 8 → ((B.SensorI2CIn.getD port []).getD d []).length = 16) := by
  obtain ⟨_, a1, a2, s1, s2, w1, w2, r1, r2, o1, o2, i1, i2⟩ := hs
  have ho := o2 _ (getD_nil_mem B.SensorI2COut port (by omega))
  have hi := i2 _ (getD_nil_mem B.SensorI2CIn port (by omega))
  refine ⟨a2 _ (getD_nil_mem _ port (by omega)), s2 _ (getD_nil_mem _ port (by omega)),
    w2 _ (getD_nil_mem _ port (by omega)), r2 _ (getD_nil_mem _ port (by omega)), ho.1, ?_,
    hi.1, ?_⟩
  · intro d hd
    exact ho.2 _ (getD_nil_mem _ d (by omega))
  · intro d hd
    exact hi.2 _ (getD_nil_mem _ d (by omega))

theorem i2cOutDevices_total (B : BrickPiStruct) (port : Nat) (hs : B.shaped) (hp : port < 4)
    (hfit : i2cPortFits B port) :
    ∀ (fuel device : Nat) (g : Globals), device ≤ B.SensorI2CDevices.getD port 0 →
      B.SensorI2CDevices.getD port 0 - device < fuel →
      g.Array.length = 256 → 8 + g.Bit_Offset + i2cOutBitsFrom B port device ≤ 2048 →
      ∃ A', BrickPiUpdateValues.i2cOutDevices B port fuel device g =
          some ⟨A', g.Bit_Offset + i2cOutBitsFrom B port device⟩ ∧
        A'.length = 256 ∧ A'.getD 0 0 = g.Array.getD 0 0 := by
  obtain ⟨_, hS, hWr, hRd, hO, hO2, _, _⟩ := shaped_rows B hs port hp
  have hs' := hs
  obtain ⟨_, _, _, s1, _, w1, _, r1, _, o1, _, _, _⟩ := hs'
  intro fuel
  induction fuel with
  | zero => intro d g _ h; omega
  | succ fuel ih =>
    intro d g hd hf hlen hin
    unfold BrickPiUpdateValues.i2cOutDevices
    by_cases hlt : d < B.SensorI2CDevices.getD port 0
    · have hD8 := hfit.1
      have hd8 : d < 8 := by omega
      have hm : (d + 1) % 256 = d + 1 := Nat.mod_eq_of_lt (by omega)
      rw [i2cOutBitsFrom_step B port d hlt] at hin ⊢
      have hset := readAt2_eq B.SensorSettings port d (by omega) (by omega)
      simp only [hlt, if_true, hset, hm]
      by_cases hsame : (B.SensorSettings.getD port []).getD d 0 &&& BIT_I2C_SAME = 0
      · simp only [hsame, if_true] at hin ⊢
        have hw := readAt2_eq B.SensorI2CWrite port d (by omega) (by omega)
        have hr := readAt2_eq B.SensorI2CRead port d (by omega) (by omega)
        have hW16 := (hfit.2 d hlt).1
        obtain ⟨A1, he1, hl1, hz1⟩ := AddBits_total 4 ((B.SensorI2CWrite.getD port []).getD d 0)
          g hlen (by omega) (by omega)
        obtain ⟨A2, he2, hl2, hz2⟩ := AddBits_total 4 ((B.SensorI2CRead.getD port []).getD d 0)
          ⟨A1, g.Bit_Offset + 4⟩ hl1 (by omega) (by dsimp only; omega)
        dsimp only at he2 hz2
        obtain ⟨A3, he3, hl3, hz3⟩ := I2COutBytes_total B port d
          ((B.SensorI2CWrite.getD port []).getD d 0) hW16
          (fun k hk => ⟨_, readAt3_eq B.SensorI2COut port d k (by omega) (by omega)
            (by rw [hO2 d hd8]; omega)⟩)
          256 0 ⟨A2, g.Bit_Offset + 4 + 4⟩ (by omega) (by omega) hl2 (by dsimp only; omega)
        dsimp only at he3 hz3
        obtain ⟨A4, he4, hl4, hz4⟩ := ih (d + 1)
          ⟨A3, g.Bit_Offset + 4 + 4 + 8 * ((B.SensorI2CWrite.getD port []).getD d 0 - 0)⟩
          (by omega) (by omega) hl3 (by dsimp only; omega)
        dsimp only at he4 hz4
        refine ⟨A4, ?_, hl4, by rw [hz4, hz3, hz2, hz1]⟩
        simp only [hw, hr, he1, he2, he3, he4]
        congr 2
        omega
      · simp only [hsame, if_false, Nat.zero_add] at hin ⊢
        exact ih (d + 1) g (by omega) (by omega) hlen hin
    · rw [i2cOutBitsFrom_end B port d (by omega)]
      refine ⟨g.Array, ?_, hlen, rfl⟩
      simp only [hlt, if_false, Nat.add_zero]

theorem i2cOutPort_total (B : BrickPiStruct) (port : Nat) (hs : B.shaped) (hp : port < 4)
    (hfit : isI2C B port → i2cPortFits B port) (g : Globals) (hlen : g.Array.length = 256)
    (hin : 8 + g.Bit_Offset + i2cOutBits B port ≤ 2048) :
    ∃ A', BrickPiUpdateValues.i2cOutPort B port g =
        some ⟨A', g.Bit_Offset + i2cOutBits B port⟩ ∧
      A'.length = 256 ∧ A'.getD 0 0 = g.Array.getD 0 0 := by
  unfold BrickPiUpdateValues.i2cOutPort i2cOutBits at *
  by_cases h : B.SensorType.getD port 0 = TYPE_SENSOR_I2C ∨
      B.SensorType.getD port 0 = TYPE_SENSOR_I2C_9V
  · simp only [h, if_true] at hin ⊢
    exact i2cOutDevices_total B port hs hp (hfit h) 256 0 g (by omega)
      (by have := (hfit h).1; omega) hlen hin
  · simp only [h, if_false, Nat.add_zero]
    exact ⟨g.Array, rfl, hlen, rfl⟩

/-- The outbound ValuesExchange of a link whose settings fit is built: the kind
byte is 3, the cursor at most 2008, and of the state only `MotorTargetLastError`
and the scratch globals change. -/
theorem encode_spec (i : Nat) (speed : Int) (w : World) (hfit : outboundFits w.BrickPi i) :
    ∃ E A c, BrickPiUpdateValues.encode i speed w =
        some { w with BrickPi := { w.BrickPi with MotorTargetLastError := E }, g := ⟨A, c⟩ } ∧
      A.length = 256 ∧ A.getD 0 0 = MSG_TYPE_VALUES ∧ c ≤ 2008 := by
  obtain ⟨hi, hs, hf0, hf1, hbud⟩ := hfit
  have hp0 : (i * 2 + 0) % 256 = i * 2 := by omega
  have hp1 : (i * 2 + 1) % 256 = i * 2 + 1 := by omega
  have hl0 : ((List.replicate 256 0).set 0 MSG_TYPE_VALUES).length = 256 := by
    rw [List.length_set, List.length_replicate]
  have hz0 : ((List.replicate 256 0).set 0 MSG_TYPE_VALUES).getD 0 0 = MSG_TYPE_VALUES := by
    rw [getD_set_eq, List.length_replicate]
    exact if_pos ⟨rfl, by norm_num⟩
  obtain ⟨A1, k1, he1, hk1, hl1, hz1⟩ := encoderOffsetPort_total w.BrickPi (i * 2)
    ⟨(List.replicate 256 0).set 0 MSG_TYPE_VALUES, 0⟩ hl0 (by dsimp only; omega)
  dsimp only at he1 hz1
  obtain ⟨A2, k2, he2, hk2, hl2, hz2⟩ := encoderOffsetPort_total w.BrickPi (i * 2 + 1)
    ⟨A1, 0 + k1⟩ hl1 (by dsimp only; omega)
  dsimp only at he2 hz2
  obtain ⟨E3, s3, A3, he3, hl3, hz3⟩ := motorPort_total w.BrickPi (i * 2) speed
    ⟨A2, 0 + k1 + k2⟩ hl2 (by dsimp only; omega)
  dsimp only at he3 hz3
  obtain ⟨E4, s4, A4, he4, hl4, hz4⟩ := motorPort_total
    { w.BrickPi with MotorTargetLastError := E3 } (i * 2 + 1) s3
    ⟨A3, 0 + k1 + k2 + 10⟩ hl3 (by dsimp only; omega)
  dsimp only at he4 hz4
  have hb0 : i2cOutBits { w.BrickPi with MotorTargetLastError := E4 } (i * 2) =
      i2cOutBits w.BrickPi (i * 2) := rfl
  have hb1 : i2cOutBits { w.BrickPi with MotorTargetLastError := E4 } (i * 2 + 1) =
      i2cOutBits w.BrickPi (i * 2 + 1) := rfl
  obtain ⟨A5, he5, hl5, hz5⟩ := i2cOutPort_total
    { w.BrickPi with MotorTargetLastError := E4 } (i * 2) hs (by omega) hf0
    ⟨A4, 0 + k1 + k2 + 10 + 10⟩ hl4 (by dsimp only; rw [hb0]; omega)
  dsimp only at he5 hz5
  obtain ⟨A6, he6, hl6, hz6⟩ := i2cOutPort_total
    { w.BrickPi with MotorTargetLastError := E4 } (i * 2 + 1) hs (by omega) hf1
    ⟨A5, 0 + k1 + k2 + 10 + 10 + i2cOutBits { w.BrickPi with MotorTargetLastError := E4 }
      (i * 2)⟩ hl5 (by dsimp only; rw [hb0, hb1]; omega)
  dsimp only at he6 hz6
  refine ⟨E4, A6, 0 + k1 + k2 + 10 + 10 +
    i2cOutBits { w.BrickPi with MotorTargetLastError := E4 } (i * 2) +
    i2cOutBits { w.BrickPi with MotorTargetLastError := E4 } (i * 2 + 1), ?_, hl6,
    by rw [hz6, hz5, hz4, hz3, hz2, hz1, hz0], ?_⟩
  · simp only [BrickPiUpdateValues.encode, hp0, hp1, he1, he2, he3, he4, he5, he6,
      Option.bind_eq_bind, Option.some_bind]
  · rw [hb0, hb1]
    omega

/-- One attempt of `BrickPiUpdateValues` for a link whose settings fit: it
returns the code of the event, one frame has gone to the address of the link,
and the pending offsets of the link are cleared unless the code is -2. -/
theorem attempt_spec (ev : RxEvent) (i : Nat) (speed : Int) (w : World)
    (hwf : ev.wellFormed) (hfit : outboundFits w.BrickPi i) (hB : w.BaudRate ≠ 0) :
    ∃ E A c n frame, BrickPiUpdateValues.attempt ev i speed w =
        some (ev.code, { w with
          BrickPi := { w.BrickPi with
            MotorTargetLastError := E
            LED := w.BrickPi.LED.set 0 0
            EncoderOffset :=
              if ev.code ≠ -2 then (w.BrickPi.EncoderOffset.set (i * 2 + 0) 0).set (i * 2 + 1) 0
              else w.BrickPi.EncoderOffset }
          g := ⟨A, c⟩
          BytesReceived := n
          sent := w.sent ++ [(w.BaudRate, frame)] }) ∧
      A.length = 256 ∧ frame.getD 0 0 = w.BrickPi.Address.getD i 0 % 256 ∧
      frame.getD 3 0 = MSG_TYPE_VALUES ∧
      ((ev.code = 0 ∧ A.getD 0 0 = MSG_TYPE_VALUES) ↔ ev.acceptedValues) := by
  obtain ⟨E, A, c, he, hl, hz, hc⟩ := encode_spec i speed w hfit
  have hBC : ((c + 7) / 8 + 1) % 256 = (c + 7) / 8 + 1 := Nat.mod_eq_of_lt (by omega)
  have hBC2 : (c + 7) / 8 + 1 ≤ 252 := by omega
  have hsend := BrickPiTx_send_spec (w.BrickPi.Address.getD i 0) ((c + 7) / 8 + 1)
    { w with BrickPi := { w.BrickPi with MotorTargetLastError := E }, g := ⟨A, c⟩ } hl hBC2 hB
  dsimp only at hsend
  obtain ⟨A', n, hrx, hl', _, _, _, hacc⟩ := BrickPiRx_receive_spec ev
    { w with
      BrickPi := { w.BrickPi with MotorTargetLastError := E, LED := w.BrickPi.LED.set 0 0 }
      g := ⟨A, c⟩
      sent := w.sent ++ [(w.BaudRate, (w.BrickPi.Address.getD i 0 % 256) ::
        ((w.BrickPi.Address.getD i 0 % 256 + ((c + 7) / 8 + 1) +
          (A.take ((c + 7) / 8 + 1)).sum) % 256) :: ((c + 7) / 8 + 1) ::
            A.take ((c + 7) / 8 + 1))] } hwf hl hB
  dsimp only at hrx hacc
  have hk : ((w.BrickPi.Address.getD i 0 % 256) ::
        ((w.BrickPi.Address.getD i 0 % 256 + ((c + 7) / 8 + 1) +
          (A.take ((c + 7) / 8 + 1)).sum) % 256) :: ((c + 7) / 8 + 1) ::
            A.take ((c + 7) / 8 + 1)).getD 3 0 = MSG_TYPE_VALUES := by
    have : A.take ((c + 7) / 8 + 1) = A.getD 0 0 :: (A.drop 1).take ((c + 7) / 8) := by
      match A, hl with
      | a :: t, _ => rfl
    rw [this, hz]
    rfl
  refine ⟨E, A', c, n, _, ?_, hl', ?_, hk, hacc hz⟩
  · simp only [BrickPiUpdateValues.attempt, he, Option.bind_eq_bind, Option.some_bind, hBC,
      hsend, hrx, BrickPiUpdateValues.clearOffsets]
    by_cases h2 : ev.code = -2
    · simp only [h2, ne_eq, not_true_eq_false, if_false]
    · simp only [h2, ne_eq, not_false_eq_true, if_true]
  · rfl

theorem RxEvent_code_timeout (ev : RxEvent) : ev.code = -2 ↔ ev = RxEvent.timeout := by
  cases ev with
  | timeout => simp [RxEvent.code]
  | ioError => simp [RxEvent.code]
  | bytes rx =>
    simp only [RxEvent.code, reduceCtorEq, iff_false]
    split_ifs <;> decide

theorem getD_set_int (l : List Int) (i j : Nat) (v : Int) :
    (l.set i v).getD j 0 = if i = j ∧ i < l.length then v else l.getD j 0 := by
  simp only [List.getD_eq_getElem?_getD, List.getElem?_set]
  by_cases h : i = j
  · by_cases h2 : i < l.length
    · subst h
      simp [h2]
    · subst h
      simp [h2, List.getElem?_eq_none (Nat.le_of_not_lt h2)]
  · simp [h]

theorem plain_not_isI2C (B : BrickPiStruct) (ht : B.SensorType = [0, 0, 0, 0]) (p : Nat) :
    ¬ isI2C B p := by
  unfold isI2C
  rw [ht]
  match p with
  | 0 | 1 | 2 | 3 => decide
  | _ + 4 =>
    intro h
    rcases h with h | h
    · change (0 : Nat) = _ at h
      exact absurd h (by decide)
    · change (0 : Nat) = _ at h
      exact absurd h (by decide)

theorem plain_outboundFits (i : Nat) (hi : i < 2) (B : BrickPiStruct)
    (hs : B.shaped) (ht : B.SensorType = [0, 0, 0, 0]) : outboundFits B i := by
  have hT : ∀ p, i2cOutBits B p = 0 := by
    intro p
    unfold i2cOutBits
    rw [ht]
    match p with
    | 0 | 1 | 2 | 3 => rfl
    | _ + 4 => rfl
  exact ⟨hi, hs, fun h => absurd h (plain_not_isI2C B ht _),
    fun h => absurd h (plain_not_isI2C B ht _), by rw [hT, hT]; omega⟩

theorem BrickPi_zero_shaped : BrickPi_zero.shaped := by
  unfold BrickPiStruct.shaped BrickPi_zero
  simp only [List.length_replicate, List.mem_replicate, and_imp, true_and]
  refine ⟨?_, ?_, ?_, ?_, ?_, ?_⟩ <;> intros <;> simp_all

theorem plain_inboundFits (i : Nat) (hi : i < 2) (B : BrickPiStruct)
    (hs : B.shaped) (ht : B.SensorType = [0, 0, 0, 0]) : inboundFits B i := by
  have hT : ∀ p, sensorInMax B p = 43 := by
    intro p
    unfold sensorInMax
    rw [ht]
    match p with
    | 0 | 1 | 2 | 3 => rfl
    | _ + 4 => rfl
  exact ⟨hi, hs, fun h => absurd h (plain_not_isI2C B ht _),
    fun h => absurd h (plain_not_isI2C B ht _), by rw [hT, hT]; omega⟩

/-! ## Pending encoder offsets after an attempt -/

/-- C14: an attempt of `BrickPiUpdateValues` for link `i` (the settings of the
link fitting the arrays, the line rate set) returns the code of the receive, which is -2 exactly
for the timeout; the pending offsets of the two ports of the link are 0 after it
when the code is not -2 (success, wrong checksum, wrong kind, short frame, I/O
error) and unchanged when it is -2; those of the other ports are unchanged. -/
theorem attempt_encoder_offsets (ev : RxEvent) (i : Nat) (speed : Int) (w : World)
    (hwf : ev.wellFormed) (hfit : outboundFits w.BrickPi i) (hB : w.BaudRate ≠ 0)
    (hlen : w.BrickPi.EncoderOffset.length = 4) :
    ∃ w', BrickPiUpdateValues.attempt ev i speed w = some (ev.code, w') ∧
      (ev.code = -2 ↔ ev = RxEvent.timeout) ∧
      (ev.code ≠ -2 → w'.BrickPi.EncoderOffset.getD (i * 2) 0 = 0 ∧
        w'.BrickPi.EncoderOffset.getD (i * 2 + 1) 0 = 0) ∧
      (ev.code = -2 → w'.BrickPi.EncoderOffset = w.BrickPi.EncoderOffset) ∧
      (∀ port, port ≠ i * 2 → port ≠ i * 2 + 1 →
        w'.BrickPi.EncoderOffset.getD port 0 = w.BrickPi.EncoderOffset.getD port 0) := by
  obtain ⟨E, A, c, n, frame, he, _, _, _, _⟩ := attempt_spec ev i speed w hwf hfit hB
  have hi : i < 2 := hfit.1
  refine ⟨_, he, RxEvent_code_timeout ev, ?_, ?_, ?_⟩
  · intro h
    dsimp only
    rw [if_pos h]
    constructor
    · rw [getD_set_int, getD_set_int, List.length_set]
      simp only [Nat.add_zero, true_and, hlen]
      split_ifs <;> first | rfl | omega
    · rw [getD_set_int, List.length_set]
      simp only [true_and, hlen]
      split_ifs <;> first | rfl | omega
  · intro h
    dsimp only
    rw [if_neg (not_not.2 h)]
  · intro port h0 h1
    dsimp only
    split_ifs
    · rw [getD_set_int, getD_set_int]
      have a : ¬ (i * 2 + 1 = port ∧ i * 2 + 1 < (w.BrickPi.EncoderOffset.set (i * 2 + 0)
          0).length) := fun h => h1 h.1.symm
      have b : ¬ (i * 2 + 0 = port ∧ i * 2 + 0 < w.BrickPi.EncoderOffset.length) :=
        fun h => h0 h.1.symm
      rw [if_neg a, if_neg b]
    · rfl

/-- The pending offsets 5 and -3 of link 0 and 7 of link 1: an I/O error on
link 0 clears the first two and keeps the third, a timeout keeps all of them. -/
theorem attempt_encoder_offsets_witness :
    (∃ w', BrickPiUpdateValues.attempt RxEvent.ioError 0 0
        ⟨{ BrickPi_zero with EncoderOffset := [5, -3, 7, 0] }, ⟨List.replicate 256 0, 0⟩,
          0, 0, 115200, []⟩ = some (-1, w') ∧
      w'.BrickPi.EncoderOffset.getD 0 0 = 0 ∧ w'.BrickPi.EncoderOffset.getD 1 0 = 0 ∧
      w'.BrickPi.EncoderOffset.getD 2 0 = 7) ∧
    (∃ w', BrickPiUpdateValues.attempt RxEvent.timeout 0 0
        ⟨{ BrickPi_zero with EncoderOffset := [5, -3, 7, 0] }, ⟨List.replicate 256 0, 0⟩,
          0, 0, 115200, []⟩ = some (-2, w') ∧
      w'.BrickPi.EncoderOffset = [5, -3, 7, 0]) := by
  constructor
  · obtain ⟨w', he, _, h, _, ho⟩ := attempt_encoder_offsets RxEvent.ioError 0 0
      ⟨{ BrickPi_zero with EncoderOffset := [5, -3, 7, 0] }, ⟨List.replicate 256 0, 0⟩,
        0, 0, 115200, []⟩ trivial
      (plain_outboundFits 0 (by omega) _ BrickPi_zero_shaped rfl) (by decide) rfl
    exact ⟨w', he, (h (by decide)).1, (h (by decide)).2, ho 2 (by decide) (by decide)⟩
  · obtain ⟨w', he, _, _, h, _⟩ := attempt_encoder_offsets RxEvent.timeout 0 0
      ⟨{ BrickPi_zero with EncoderOffset := [5, -3, 7, 0] }, ⟨List.replicate 256 0, 0⟩,
        0, 0, 115200, []⟩ trivial
      (plain_outboundFits 0 (by omega) _ BrickPi_zero_shaped rfl) (by decide) rfl
    exact ⟨w', he, h rfl⟩

/-- C15, amended: the pending offsets of a link are cleared by every attempt
of `BrickPiUpdateValues` whose receive did not time out, be the reply accepted
or not: the offsets of the two ports after the attempt equal those before it
exactly when the receive timed out or both were 0 already, and after every
receive that did not time out (I/O error, short frame, wrong checksum, wrong
kind, success) they are 0 (settings fitting the arrays, line rate set). -/
theorem offsets_kept_only_on_timeout (ev : RxEvent) (i : Nat) (speed : Int) (w : World)
    (hwf : ev.wellFormed) (hfit : outboundFits w.BrickPi i) (hB : w.BaudRate ≠ 0)
    (hlen : w.BrickPi.EncoderOffset.length = 4) :
    ∃ w', BrickPiUpdateValues.attempt ev i speed w = some (ev.code, w') ∧
      ((w'.BrickPi.EncoderOffset.getD (i * 2) 0 = w.BrickPi.EncoderOffset.getD (i * 2) 0 ∧
          w'.BrickPi.EncoderOffset.getD (i * 2 + 1) 0 =
            w.BrickPi.EncoderOffset.getD (i * 2 + 1) 0) ↔
        (ev = RxEvent.timeout ∨ (w.BrickPi.EncoderOffset.getD (i * 2) 0 = 0 ∧
          w.BrickPi.EncoderOffset.getD (i * 2 + 1) 0 = 0))) ∧
      (ev ≠ RxEvent.timeout → w'.BrickPi.EncoderOffset.getD (i * 2) 0 = 0 ∧
        w'.BrickPi.EncoderOffset.getD (i * 2 + 1) 0 = 0) := by
  obtain ⟨E, A, c, n, frame, he, _, _, _, _⟩ := attempt_spec ev i speed w hwf hfit hB
  have hi : i < 2 := hfit.1
  have e0 : ((w.BrickPi.EncoderOffset.set (i * 2 + 0) 0).set (i * 2 + 1) 0).getD (i * 2) 0
      = 0 := by
    rw [getD_set_int, getD_set_int, List.length_set]
    simp only [Nat.add_zero, true_and, hlen]
    split_ifs <;> first | rfl | omega
  have e1 : ((w.BrickPi.EncoderOffset.set (i * 2 + 0) 0).set (i * 2 + 1) 0).getD
      (i * 2 + 1) 0 = 0 := by
    rw [getD_set_int, List.length_set]
    simp only [true_and, hlen]
    split_ifs <;> first | rfl | omega
  refine ⟨_, he, ?_, ?_⟩
  · dsimp only
    by_cases h : ev = RxEvent.timeout
    · rw [if_neg (not_not.2 ((RxEvent_code_timeout ev).2 h))]
      exact ⟨fun _ => Or.inl h, fun _ => ⟨rfl, rfl⟩⟩
    · have h2 : ev.code ≠ -2 := fun hh => h ((RxEvent_code_timeout ev).1 hh)
      rw [if_pos h2, e0, e1]
      constructor
      · intro hh
        exact Or.inr ⟨hh.1.symm, hh.2.symm⟩
      · intro hh
        rcases hh with hh | hh
        · exact absurd hh h
        · exact ⟨hh.1.symm, hh.2.symm⟩
  · intro h
    have h2 : ev.code ≠ -2 := fun hh => h ((RxEvent_code_timeout ev).1 hh)
    dsimp only
    rw [if_pos h2]
    exact ⟨e0, e1⟩

/-- The pending offsets 5 and -3 of link 0: they stay when the receive times
out and are 0 after a frame with a wrong checksum. -/
theorem offsets_kept_only_on_timeout_witness :
    (∃ w', BrickPiUpdateValues.attempt RxEvent.timeout 0 0
        ⟨{ BrickPi_zero with EncoderOffset := [5, -3, 0, 0] }, ⟨List.replicate 256 0, 0⟩,
          0, 0, 115200, []⟩ = some (-2, w') ∧
      w'.BrickPi.EncoderOffset.getD 0 0 = 5 ∧ w'.BrickPi.EncoderOffset.getD 1 0 = -3) ∧
    (∃ w', BrickPiUpdateValues.attempt (RxEvent.bytes [9, 1, 3]) 0 0
        ⟨{ BrickPi_zero with EncoderOffset := [5, -3, 0, 0] }, ⟨List.replicate 256 0, 0⟩,
          0, 0, 115200, []⟩ = some (-5, w') ∧
      w'.BrickPi.EncoderOffset.getD 0 0 = 0 ∧ w'.BrickPi.EncoderOffset.getD 1 0 = 0) := by
  constructor
  · obtain ⟨w', he, h, _⟩ := offsets_kept_only_on_timeout RxEvent.timeout 0 0
      ⟨{ BrickPi_zero with EncoderOffset := [5, -3, 0, 0] }, ⟨List.replicate 256 0, 0⟩,
        0, 0, 115200, []⟩ trivial
      (plain_outboundFits 0 (by omega) _ BrickPi_zero_shaped rfl) (by decide) rfl
    exact ⟨w', he, (h.2 (Or.inl rfl)).1, (h.2 (Or.inl rfl)).2⟩
  · obtain ⟨w', he, _, h⟩ := offsets_kept_only_on_timeout (RxEvent.bytes [9, 1, 3]) 0 0
      ⟨{ BrickPi_zero with EncoderOffset := [5, -3, 0, 0] }, ⟨List.replicate 256 0, 0⟩,
        0, 0, 115200, []⟩ (by unfold RxEvent.wellFormed; decide)
      (plain_outboundFits 0 (by omega) _ BrickPi_zero_shaped rfl) (by decide) rfl
    exact ⟨w', he, (h (by simp)).1, (h (by simp)).2⟩

set_option maxRecDepth 100000 in
/-- C15 fails as stated: the receive of an attempt for link 0 ends in an I/O
error, which is no accepted reply, and the pending offset 5 of port 0 is 0
after the attempt. -/
theorem offsets_cleared_counterexample :
    (BrickPiUpdateValues.attempt RxEvent.ioError 0 0
        ⟨{ BrickPi_zero with EncoderOffset := [5, 0, 0, 0] }, ⟨List.replicate 256 0, 0⟩,
          0, 0, 115200, []⟩).map (fun r => (r.1, r.2.BrickPi.EncoderOffset)) =
      some (-1, [0, 0, 0, 0]) ∧ ¬ RxEvent.ioError.acceptedValues := by
  constructor
  · decide
  · exact fun h => h

/-! ## The inbound I2C block -/

theorem getD_set_gen {α : Type} (l : List α) (i j : Nat) (v d : α) :
    (l.set i v).getD j d = if i = j ∧ i < l.length then v else l.getD j d := by
  simp only [List.getD_eq_getElem?_getD, List.getElem?_set]
  by_cases h : i = j
  · by_cases h2 : i < l.length
    · subst h
      simp [h2]
    · subst h
      simp [h2, List.getElem?_eq_none (Nat.le_of_not_lt h2)]
  · simp [h]

/-- An in-bounds store `a[i][j][k] = v`: the dimensions stay, the buffers of
the other devices stay, the buffer of device `j` of port `i` changes at `k`. -/
theorem writeAt3_spec (a : List (List (List Nat))) (i j k v : Nat)
    (h1 : a.length = 4) (h2 : ∀ p ∈ a, p.length = 8 ∧ ∀ r ∈ p, r.length = 16)
    (hi : i < 4) (hj : j < 8) (hk : k < 16) :
    ∃ a', writeAt3 a i j k v = some a' ∧ a'.length = 4 ∧
      (∀ p ∈ a', p.length = 8 ∧ ∀ r ∈ p, r.length = 16) ∧
      (∀ p d, (p ≠ i ∨ d ≠ j) → (a'.getD p []).getD d [] = (a.getD p []).getD d []) ∧
      (∀ k', ((a'.getD i []).getD j []).getD k' 0 =
        if k' = k then v else ((a.getD i []).getD j []).getD k' 0) := by
  have hrow := h2 _ (getD_nil_mem a i (by omega))
  have hbuf := hrow.2 _ (getD_nil_mem (a.getD i []) j (by omega))
  refine ⟨a.set i ((a.getD i []).set j (((a.getD i []).getD j []).set k v)), ?_, ?_, ?_, ?_, ?_⟩
  · unfold writeAt3
    rw [if_pos ⟨by omega, by omega, by omega⟩]
  · rw [List.length_set, h1]
  · intro p hp
    rcases List.mem_or_eq_of_mem_set hp with h | h
    · exact h2 p h
    · rw [h, List.length_set]
      refine ⟨hrow.1, ?_⟩
      intro r hr
      rcases List.mem_or_eq_of_mem_set hr with h' | h'
      · exact hrow.2 r h'
      · rw [h', List.length_set]
        exact hbuf
  · intro p d hpd
    rw [getD_set_gen]
    by_cases hp : i = p
    · subst hp
      rw [if_pos ⟨rfl, by omega⟩, getD_set_gen]
      have : ¬ (j = d ∧ j < (a.getD i []).length) := by
        rintro ⟨h, _⟩
        rcases hpd with h' | h'
        · exact h' rfl
        · exact h' h.symm
      rw [if_neg this]
    · rw [if_neg (fun h => hp h.1)]
  · intro k'
    rw [getD_set_gen, if_pos ⟨rfl, by omega⟩, getD_set_gen, if_pos ⟨rfl, by omega⟩, getD_set_eq]
    by_cases hkk : k' = k
    · rw [if_pos hkk, if_pos ⟨hkk.symm, by omega⟩]
    · rw [if_neg hkk, if_neg (fun h => hkk h.1.symm)]

/-- The read loop of one I2C device: `Read - in_byte` bytes are taken from the
cursor on and stored from index `in_byte` on. -/
theorem i2cInBytes_spec (B : BrickPiStruct) (port device Read : Nat) (A : List Nat)
    (hp : port < 4) (hd : device < 8) (hR : Read ≤ 16) (hlen : A.length = 256) :
    ∀ (fuel in_byte c : Nat) (In : List (List (List Nat))), in_byte ≤ Read →
      Read - in_byte < fuel → In.length = 4 →
      (∀ p ∈ In, p.length = 8 ∧ ∀ r ∈ p, r.length = 16) →
      8 + c + 8 * (Read - in_byte) ≤ 2048 →
      ∃ In', BrickPiUpdateValues.i2cInBytes port device Read fuel in_byte
          { B with SensorI2CIn := In } ⟨A, c⟩ =
          some ({ B with SensorI2CIn := In' }, ⟨A, c + 8 * (Read - in_byte)⟩) ∧
        In'.length = 4 ∧ (∀ p ∈ In', p.length = 8 ∧ ∀ r ∈ p, r.length = 16) ∧
        (∀ p d, (p ≠ port ∨ d ≠ device) →
          (In'.getD p []).getD d [] = (In.getD p []).getD d []) ∧
        (∀ k, ((In'.getD port []).getD device []).getD k 0 =
          if in_byte ≤ k ∧ k < Read then readBits A (8 + c + 8 * (k - in_byte)) 8
          else ((In.getD port []).getD device []).getD k 0) := by
  intro fuel
  induction fuel with
  | zero => intro o c In _ h; omega
  | succ fuel ih =>
    intro o c In ho hf h1 h2 hin
    unfold BrickPiUpdateValues.i2cInBytes
    by_cases hlt : o < Read
    · have hg := GetBits_spec 1 0 8 ⟨A, c⟩ hlen (by omega) (by omega) (by omega)
        (by dsimp only; omega)
      dsimp only at hg
      have hv := readBits_lt A (8 * 1 + 0 + c) 8
      have hv1 : readBits A (8 * 1 + 0 + c) 8 % 2 ^ 32 % 256 = readBits A (8 + c) 8 := by
        have e : 8 * 1 + 0 + c = 8 + c := by omega
        rw [e] at hv ⊢
        omega
      obtain ⟨In1, hw, a1, a2, a3, a4⟩ := writeAt3_spec In port device o
        (readBits A (8 + c) 8) h1 h2 hp hd (by omega)
      have hm : (o + 1) % 256 = o + 1 := Nat.mod_eq_of_lt (by omega)
      obtain ⟨In2, he, b1, b2, b3, b4⟩ := ih (o + 1) (c + 8) In1 (by omega) (by omega) a1 a2
        (by omega)
      refine ⟨In2, ?_, b1, b2, ?_, ?_⟩
      · simp only [hlt, if_true, hg, hv1, hw, hm, he]
        congr 3
        omega
      · intro p d hpd
        rw [b3 p d hpd, a3 p d hpd]
      · intro k
        rw [b4 k, a4 k]
        by_cases hk1 : o + 1 ≤ k ∧ k < Read
        · rw [if_pos hk1, if_pos ⟨by omega, hk1.2⟩]
          congr 1
          omega
        · rw [if_neg hk1]
          by_cases hk2 : k = o
          · rw [if_pos hk2, if_pos ⟨by omega, by omega⟩]
            congr 1
            omega
          · rw [if_neg hk2, if_neg (by omega)]
    · have e : Read - o = 0 := by omega
      refine ⟨In, ?_, h1, h2, fun _ _ _ => rfl, ?_⟩
      · simp only [hlt, if_false, e, Nat.mul_zero, Nat.add_zero]
      · intro k
        rw [if_neg (by omega)]

theorem i2cInOffset_succ (B : BrickPiStruct) (port bitmap d : Nat) :
    i2cInOffset B port bitmap (d + 1) = i2cInOffset B port bitmap d +
      (if bitmap.testBit d then 8 * (B.SensorI2CRead.getD port []).getD d 0 else 0) := by
  unfold i2cInOffset
  rw [List.range_succ, List.map_append, List.sum_append]
  simp only [List.map_cons, List.map_nil, List.sum_cons, List.sum_nil, Nat.add_zero]

theorem i2cInOffset_mono (B : BrickPiStruct) (port bitmap : Nat) :
    ∀ d e, d ≤ e → i2cInOffset B port bitmap d ≤ i2cInOffset B port bitmap e := by
  intro d e h
  induction e with
  | zero =>
    have : d = 0 := by omega
    rw [this]
  | succ e ih =>
    by_cases hd : d = e + 1
    · rw [hd]
    · have := ih (by omega)
      rw [i2cInOffset_succ]
      omega

theorem and_shift_testBit (x d : Nat) : (x &&& (0x01 <<< d) ≠ 0) ↔ x.testBit d = true := by
  rw [Nat.one_shiftLeft, Nat.and_two_pow]
  cases h : x.testBit d
  · simp
  · simp

/-- The device loop of the inbound I2C block, from `device` on: the devices
whose bit is set in the bitmap get their read bytes from consecutive byte
fields, the buffers of the others stay. -/
theorem i2cInDevices_spec (B : BrickPiStruct) (port bitmap c0 : Nat) (A : List Nat)
    (hp : port < 4) (hs : B.shaped) (hfit : i2cPortFits B port) (hlen : A.length = 256)
    (hS : toULong (B.Sensor.getD port 0) = bitmap)
    (hin : 8 + c0 + i2cInOffset B port bitmap (B.SensorI2CDevices.getD port 0) ≤ 2048) :
    ∀ (fuel device : Nat) (In : List (List (List Nat))),
      device ≤ B.SensorI2CDevices.getD port 0 →
      B.SensorI2CDevices.getD port 0 - device < fuel → In.length = 4 →
      (∀ p ∈ In, p.length = 8 ∧ ∀ r ∈ p, r.length = 16) →
      ∃ In', BrickPiUpdateValues.i2cInDevices port fuel device { B with SensorI2CIn := In }
          ⟨A, c0 + i2cInOffset B port bitmap device⟩ =
          some ({ B with SensorI2CIn := In' },
            ⟨A, c0 + i2cInOffset B port bitmap (B.SensorI2CDevices.getD port 0)⟩) ∧
        In'.length = 4 ∧ (∀ p ∈ In', p.length = 8 ∧ ∀ r ∈ p, r.length = 16) ∧
        (∀ p d, (p ≠ port ∨ d < device ∨ B.SensorI2CDevices.getD port 0 ≤ d ∨
            bitmap.testBit d = false) →
          (In'.getD p []).getD d [] = (In.getD p []).getD d []) ∧
        (∀ d, device ≤ d → d < B.SensorI2CDevices.getD port 0 → bitmap.testBit d = true →
          ∀ k, ((In'.getD port []).getD d []).getD k 0 =
            if k < (B.SensorI2CRead.getD port []).getD d 0 then
              readBits A (8 + c0 + i2cInOffset B port bitmap d + 8 * k) 8
            else ((In.getD port []).getD d []).getD k 0) := by
  obtain ⟨_, _, _, hRd, _, _, _, _⟩ := shaped_rows B hs port hp
  have hr1 : B.SensorI2CRead.length = 4 := hs.2.2.2.2.2.2.2.1
  intro fuel
  induction fuel with
  | zero => intro d In _ h; omega
  | succ fuel ih =>
    intro d In hd hf h1 h2
    unfold BrickPiUpdateValues.i2cInDevices
    dsimp only
    by_cases hlt : d < B.SensorI2CDevices.getD port 0
    · have hD8 := hfit.1
      have hm : (d + 1) % 256 = d + 1 := Nat.mod_eq_of_lt (by omega)
      have h31 : ¬ 31 ≤ d := by omega
      have hstep := i2cInOffset_succ B port bitmap d
      have hmono := i2cInOffset_mono B port bitmap (d + 1) (B.SensorI2CDevices.getD port 0)
        (by omega)
      simp only [hlt, if_true, h31, if_false, hm, hS]
      by_cases hbit : bitmap.testBit d = true
      · rw [if_pos ((and_shift_testBit bitmap d).2 hbit)]
        rw [if_pos hbit] at hstep
        have hrd := readAt2_eq B.SensorI2CRead port d (by omega) (by omega)
        have hR16 := (hfit.2 d hlt).2
        obtain ⟨In1, he1, a1, a2, a3, a4⟩ := i2cInBytes_spec B port d
          ((B.SensorI2CRead.getD port []).getD d 0) A hp (by omega) hR16 hlen 256 0
          (c0 + i2cInOffset B port bitmap d) In (by omega) (by omega) h1 h2 (by omega)
        obtain ⟨In2, he2, b1, b2, b3, b4⟩ := ih (d + 1) In1 (by omega) (by omega) a1 a2
        have hc : c0 + i2cInOffset B port bitmap d +
            8 * ((B.SensorI2CRead.getD port []).getD d 0 - 0) =
            c0 + i2cInOffset B port bitmap (d + 1) := by omega
        rw [hc] at he1
        refine ⟨In2, ?_, b1, b2, ?_, ?_⟩
        · simp only [hrd, he1, he2]
        · intro p e hpe
          have hne : p ≠ port ∨ e ≠ d := by
            rcases hpe with h | h | h | h
            · exact Or.inl h
            · exact Or.inr (by omega)
            · exact Or.inr (by omega)
            · exact Or.inr (fun he => by rw [he, hbit] at h; exact Bool.noConfusion h)
          rw [b3 p e (by
            rcases hpe with h | h | h | h
            · exact Or.inl h
            · exact Or.inr (Or.inl (by omega))
            · exact Or.inr (Or.inr (Or.inl h))
            · exact Or.inr (Or.inr (Or.inr h))), a3 p e hne]
        · intro e he1' he2' hbe k
          by_cases hed : e = d
          · rw [hed, b3 port d (Or.inr (Or.inl (by omega))), a4 k]
            simp only [Nat.zero_le, true_and, Nat.sub_zero]
            by_cases hk : k < (B.SensorI2CRead.getD port []).getD d 0
            · rw [if_pos hk, if_pos hk]
              congr 1
              omega
            · rw [if_neg hk, if_neg hk]
          · rw [b4 e (by omega) he2' hbe k, a3 port e (Or.inr hed)]
      · rw [if_neg (fun h => hbit ((and_shift_testBit bitmap d).1 h))]
        rw [if_neg hbit, Nat.add_zero] at hstep
        obtain ⟨In2, he2, b1, b2, b3, b4⟩ := ih (d + 1) In (by omega) (by omega) h1 h2
        rw [hstep] at he2
        refine ⟨In2, he2, b1, b2, ?_, ?_⟩
        · intro p e hpe
          apply b3
          rcases hpe with h | h | h | h
          · exact Or.inl h
          · exact Or.inr (Or.inl (by omega))
          · exact Or.inr (Or.inr (Or.inl h))
          · exact Or.inr (Or.inr (Or.inr h))
        · intro e he1' he2' hbe k
          have hed : e ≠ d := fun h => hbit (h ▸ hbe)
          exact b4 e (by omega) he2' hbe k
    · have e : d = B.SensorI2CDevices.getD port 0 := by omega
      refine ⟨In, ?_, h1, h2, fun _ _ _ => rfl, ?_⟩
      · simp only [hlt, if_false]
        rw [← e]
      · intro e' h1' h2'
        omega

theorem toLong_toULong_small (v : Nat) (h : v < 2 ^ 31) :
    toLong (v : Int) = (v : Int) ∧ toULong (v : Int) = v := by
  constructor
  · exact toLong_eq _ (by omega) (by omega)
  · rw [toULong_eq _ (by omega) (by omega)]
    simp

/-- The inbound I2C block of a port with `N` devices: the `N`-bit bitmap goes
to `Sensor[port]`, the device loop follows. -/
theorem decodeSensor_i2c (B : BrickPiStruct) (port c : Nat) (A : List Nat)
    (hI : isI2C B port) (hp : port < 4) (hs : B.shaped) (hfit : i2cPortFits B port)
    (hlen : A.length = 256)
    (hin : 8 + c + B.SensorI2CDevices.getD port 0 + i2cInOffset B port
      (readBits A (8 + c) (B.SensorI2CDevices.getD port 0))
      (B.SensorI2CDevices.getD port 0) ≤ 2048) :
    ∃ In', BrickPiUpdateValues.decodeSensor B port ⟨A, c⟩ =
        some ({ B with
            Sensor := B.Sensor.set port
              ((readBits A (8 + c) (B.SensorI2CDevices.getD port 0) : Nat) : Int)
            SensorI2CIn := In' },
          ⟨A, c + B.SensorI2CDevices.getD port 0 + i2cInOffset B port
            (readBits A (8 + c) (B.SensorI2CDevices.getD port 0))
            (B.SensorI2CDevices.getD port 0)⟩) ∧
      In'.length = 4 ∧ (∀ p ∈ In', p.length = 8 ∧ ∀ r ∈ p, r.length = 16) ∧
      (∀ p d, (p ≠ port ∨ B.SensorI2CDevices.getD port 0 ≤ d ∨
          (readBits A (8 + c) (B.SensorI2CDevices.getD port 0)).testBit d = false) →
        (In'.getD p []).getD d [] = (B.SensorI2CIn.getD p []).getD d []) ∧
      (∀ d, d < B.SensorI2CDevices.getD port 0 →
        (readBits A (8 + c) (B.SensorI2CDevices.getD port 0)).testBit d = true →
        ∀ k, ((In'.getD port []).getD d []).getD k 0 =
          if k < (B.SensorI2CRead.getD port []).getD d 0 then
            readBits A (8 + c + B.SensorI2CDevices.getD port 0 + i2cInOffset B port
              (readBits A (8 + c) (B.SensorI2CDevices.getD port 0)) d + 8 * k) 8
          else ((B.SensorI2CIn.getD port []).getD d []).getD k 0) := by
  generalize hN : B.SensorI2CDevices.getD port 0 = N at *
  generalize hb : readBits A (8 + c) N = bitmap at *
  have hN8 : N ≤ 8 := by rw [← hN]; exact hfit.1
  have hlt : bitmap < 2 ^ N := by rw [← hb]; exact readBits_lt _ _ _
  have hle : 2 ^ N ≤ 2 ^ 8 := Nat.pow_le_pow_right (by norm_num) hN8
  have hg := GetBits_spec 1 0 N ⟨A, c⟩ hlen (by omega) (by omega) (by omega)
    (by dsimp only; omega)
  dsimp only at hg
  have e8 : 8 * 1 + 0 + c = 8 + c := by omega
  rw [e8, hb, Nat.mod_eq_of_lt (by omega)] at hg
  obtain ⟨t1, t2⟩ := toLong_toULong_small bitmap (by omega)
  have hSl : B.Sensor.length = 4 := hs.1
  have hS : toULong (({ B with Sensor := B.Sensor.set port (bitmap : Int) } :
      BrickPiStruct).Sensor.getD port 0) = bitmap := by
    dsimp only
    rw [getD_set_gen, if_pos ⟨rfl, by omega⟩, t2]
  have hs1 : ({ B with Sensor := B.Sensor.set port (bitmap : Int) } : BrickPiStruct).shaped :=
    ⟨by dsimp only; rw [List.length_set]; exact hs.1, hs.2⟩
  have hdev := i2cInDevices_spec { B with Sensor := B.Sensor.set port (bitmap : Int) } port
    bitmap (c + N) A hp hs1 hfit hlen hS (by dsimp only; rw [hN]; exact (by
      have : i2cInOffset { B with Sensor := B.Sensor.set port (bitmap : Int) } port bitmap N =
        i2cInOffset B port bitmap N := rfl
      rw [this]; omega)) 256 0 B.SensorI2CIn (by omega)
    (by dsimp only; rw [hN]; omega) hs.2.2.2.2.2.2.2.2.2.2.2.1 hs.2.2.2.2.2.2.2.2.2.2.2.2
  dsimp only at hdev
  rw [hN] at hdev
  obtain ⟨In', he, a1, a2, a3, a4⟩ := hdev
  have h0 : i2cInOffset { B with Sensor := B.Sensor.set port (bitmap : Int) } port bitmap 0
      = 0 := rfl
  rw [h0, Nat.add_zero] at he
  refine ⟨In', ?_, a1, a2, ?_, ?_⟩
  · have hT : ¬ B.SensorType.getD port 0 = TYPE_SENSOR_TOUCH := by
      rcases hI with h | h <;> rw [h] <;> decide
    have hU : ¬ (B.SensorType.getD port 0 = TYPE_SENSOR_ULTRASONIC_CONT ∨
        B.SensorType.getD port 0 = TYPE_SENSOR_ULTRASONIC_SS) := by
      rcases hI with h | h <;> rw [h] <;> decide
    have hC : ¬ B.SensorType.getD port 0 = TYPE_SENSOR_COLOR_FULL := by
      rcases hI with h | h <;> rw [h] <;> decide
    have hI' : B.SensorType.getD port 0 = TYPE_SENSOR_I2C ∨
        B.SensorType.getD port 0 = TYPE_SENSOR_I2C_9V := hI
    unfold BrickPiUpdateValues.decodeSensor
    rw [if_neg hT, if_neg hU, if_neg hC, if_pos hI']
    simp only [hN, hg, Option.bind_eq_bind, Option.some_bind, t1]
    exact he
  · intro p d hpd
    apply a3
    rcases hpd with h | h | h
    · exact Or.inl h
    · exact Or.inr (Or.inr (Or.inl h))
    · exact Or.inr (Or.inr (Or.inr h))
  · intro d hd hbit k
    have h := a4 d (by omega) hd hbit k
    have e : 8 + (c + N) + i2cInOffset { B with Sensor := B.Sensor.set port (bitmap : Int) }
        port bitmap d + 8 * k = 8 + c + N + i2cInOffset B port bitmap d + 8 * k := by
      have : i2cInOffset { B with Sensor := B.Sensor.set port (bitmap : Int) } port bitmap d =
        i2cInOffset B port bitmap d := rfl
      rw [this]
      omega
    rw [e] at h
    exact h

theorem i2cInOffset_five_three (B : BrickPiStruct) (port : Nat) :
    i2cInOffset B port 5 3 = 8 * ((B.SensorI2CRead.getD port []).getD 0 0 +
      (B.SensorI2CRead.getD port []).getD 2 0) := by
  rw [i2cInOffset_succ, i2cInOffset_succ, i2cInOffset_succ]
  have h0 : Nat.testBit 5 0 = true := by decide
  have h1 : Nat.testBit 5 1 = false := by decide
  have h2 : Nat.testBit 5 2 = true := by decide
  have hz : i2cInOffset B port 5 0 = 0 := rfl
  rw [h0, h1, h2, hz]
  simp only [if_true, Bool.false_eq_true, if_false]
  omega

/-- C20: the decoder of the inbound ValuesExchange, on a port of type I2C or
I2C-powered with `N` devices (settings inside the arrays, fields inside the
buffer), reads the `N`-bit bitmap into `Sensor[port]`; then, by ascending
device, a device whose bit is set gets its `SensorI2CRead` bytes from the next
8-bit fields and a device whose bit is clear gets nothing, its buffer staying as
it was; the cursor advances by `N` and 8 bits per byte read, which for `N = 3`
and bitmap 5 is 3 + 8 * (read length of device 0 + read length of device 2). -/
theorem i2c_presence_bitmap (B : BrickPiStruct) (port c N bitmap : Nat) (A : List Nat)
    (hI : isI2C B port) (hp : port < 4) (hs : B.shaped) (hfit : i2cPortFits B port)
    (hlen : A.length = 256) (hN : N = B.SensorI2CDevices.getD port 0)
    (hb : bitmap = readBits A (8 + c) N)
    (hin : 8 + c + N + i2cInOffset B port bitmap N ≤ 2048) :
    ∃ B' c', BrickPiUpdateValues.decodeSensor B port ⟨A, c⟩ = some (B', ⟨A, c'⟩) ∧
      B'.Sensor.getD port 0 = (bitmap : Int) ∧
      c' = c + N + i2cInOffset B port bitmap N ∧
      (∀ d, d < N → bitmap.testBit d = true →
        i2cInOffset B port bitmap (d + 1) =
          i2cInOffset B port bitmap d + 8 * (B.SensorI2CRead.getD port []).getD d 0 ∧
        (∀ k, k < (B.SensorI2CRead.getD port []).getD d 0 →
          readAt3 B'.SensorI2CIn port d k =
            some (readBits A (8 + c + N + i2cInOffset B port bitmap d + 8 * k) 8)) ∧
        (∀ k, (B.SensorI2CRead.getD port []).getD d 0 ≤ k →
          ((B'.SensorI2CIn.getD port []).getD d []).getD k 0 =
            ((B.SensorI2CIn.getD port []).getD d []).getD k 0)) ∧
      (∀ d, d < N → bitmap.testBit d = false →
        i2cInOffset B port bitmap (d + 1) = i2cInOffset B port bitmap d ∧
        (B'.SensorI2CIn.getD port []).getD d [] = (B.SensorI2CIn.getD port []).getD d []) ∧
      (N = 3 → bitmap = 5 →
        c' = c + (3 + 8 * ((B.SensorI2CRead.getD port []).getD 0 0 +
          (B.SensorI2CRead.getD port []).getD 2 0))) := by
  subst hN
  subst hb
  obtain ⟨In', he, a1, a2, a3, a4⟩ := decodeSensor_i2c B port c A hI hp hs hfit hlen hin
  refine ⟨_, _, he, ?_, rfl, ?_, ?_, ?_⟩
  · dsimp only
    rw [getD_set_gen, if_pos ⟨rfl, by rw [hs.1]; exact hp⟩]
  · intro d hd hbit
    refine ⟨?_, ?_, ?_⟩
    · rw [i2cInOffset_succ, if_pos hbit]
    · intro k hk
      have h16 := (hfit.2 d hd).2
      have h8 := hfit.1
      have hrow := a2 _ (getD_nil_mem In' port (by omega))
      have hbuf := hrow.2 _ (getD_nil_mem (In'.getD port []) d (by omega))
      rw [readAt3_eq In' port d k (by omega) (by omega) (by omega), a4 d hd hbit k, if_pos hk]
    · intro k hk
      dsimp only
      rw [a4 d hd hbit k, if_neg (by omega)]
  · intro d _ hbit
    refine ⟨?_, a3 port d (Or.inr (Or.inr hbit))⟩
    rw [i2cInOffset_succ, if_neg (by rw [hbit]; exact Bool.noConfusion), Nat.add_zero]
  · intro h3 h5
    rw [h3] at h5 ⊢
    rw [h5, i2cInOffset_five_three]
    omega

/-- Witness of `i2c_presence_bitmap`: port 0 with three devices of read lengths
1, 1 and 2 and the bitmap 5: the cursor advances by 3 + 8 * (1 + 2) = 27 bits. -/
theorem i2c_presence_bitmap_witness :
    ∃ B', BrickPiUpdateValues.decodeSensor
        { BrickPi_zero with
          SensorType := [41, 0, 0, 0]
          SensorI2CDevices := [3, 0, 0, 0]
          SensorI2CRead := [[1, 1, 2, 0, 0, 0, 0, 0], List.replicate 8 0, List.replicate 8 0,
            List.replicate 8 0] } 0
        ⟨3 :: 0xFD :: 0x0F :: 0xFF :: 0xFF :: List.replicate 251 0, 0⟩ =
        some (B', ⟨3 :: 0xFD :: 0x0F :: 0xFF :: 0xFF :: List.replicate 251 0, 27⟩) ∧
      B'.Sensor.getD 0 0 = 5 ∧ readAt3 B'.SensorI2CIn 0 0 0 = some 0xFF ∧
      (B'.SensorI2CIn.getD 0 []).getD 1 [] = List.replicate 16 0 ∧
      readAt3 B'.SensorI2CIn 0 2 0 = some 0xE1 := by
  obtain ⟨B', c', he, h1, h2, h3, h4, h5⟩ := i2c_presence_bitmap
    { BrickPi_zero with
      SensorType := [41, 0, 0, 0]
      SensorI2CDevices := [3, 0, 0, 0]
      SensorI2CRead := [[1, 1, 2, 0, 0, 0, 0, 0], List.replicate 8 0, List.replicate 8 0,
        List.replicate 8 0] } 0 0 3 5
    (3 :: 0xFD :: 0x0F :: 0xFF :: 0xFF :: List.replicate 251 0)
    (Or.inl rfl) (by omega) (by unfold BrickPiStruct.shaped; decide)
    ⟨by decide, by decide⟩ (by simp only [List.length_cons, List.length_replicate]) rfl
    (by decide) (by decide)
  have hc := h5 rfl rfl
  rw [hc] at he
  refine ⟨B', he, h1, ?_, ?_, ?_⟩
  · rw [(h3 0 (by omega) (by decide)).2.1 0 (by decide)]
    decide
  · rw [(h4 1 (by omega) (by decide)).2]
    rfl
  · rw [(h3 2 (by omega) (by decide)).2.1 0 (by decide)]
    decide

/-! ## Retries and the two links of `BrickPiUpdateValues` -/

theorem i2cInOffset_le (B : BrickPiStruct) (port bitmap : Nat) :
    ∀ D, i2cInOffset B port bitmap D ≤
      ((List.range D).map (fun d => 8 * (B.SensorI2CRead.getD port []).getD d 0)).sum := by
  intro D
  induction D with
  | zero => exact Nat.le_refl _
  | succ D ih =>
    rw [i2cInOffset_succ, List.range_succ, List.map_append, List.sum_append]
    simp only [List.map_cons, List.map_nil, List.sum_cons, List.sum_nil, Nat.add_zero]
    split_ifs <;> omega

theorem writeAt2_spec (a : List (List Int)) (i j : Nat) (v : Int)
    (h1 : a.length = 4) (h2 : ∀ r ∈ a, r.length = 4) (hi : i < 4) (hj : j < 4) :
    ∃ a', writeAt2 a i j v = some a' ∧ a'.length = 4 ∧ ∀ r ∈ a', r.length = 4 := by
  have hrow := h2 _ (getD_nil_mem a i (by omega))
  refine ⟨a.set i ((a.getD i []).set j v), ?_, ?_, ?_⟩
  · unfold writeAt2
    rw [if_pos ⟨by omega, by omega⟩]
  · rw [List.length_set, h1]
  · intro r hr
    rcases List.mem_or_eq_of_mem_set hr with h | h
    · exact h2 r h
    · rw [h, List.length_set]
      exact hrow

theorem shaped_update (B : BrickPiStruct) (hs : B.shaped) (Enc Sen : List Int)
    (SA : List (List Int)) (In : List (List (List Nat))) (h1 : Sen.length = 4)
    (h2 : SA.length = 4) (h3 : ∀ r ∈ SA, r.length = 4) (h4 : In.length = 4)
    (h5 : ∀ p ∈ In, p.length = 8 ∧ ∀ r ∈ p, r.length = 16) :
    ({ B with Encoder := Enc, Sensor := Sen, SensorArray := SA, SensorI2CIn := In } :
      BrickPiStruct).shaped := by
  obtain ⟨_, _, _, s1, s2, w1, w2, r1, r2, o1, o2, _, _⟩ := hs
  exact ⟨h1, h2, h3, s1, s2, w1, w2, r1, r2, o1, o2, h4, h5⟩

/-- The sensor part of the decoder for one port returns, whatever the type of
the sensor: it reads at most `sensorInMax` bits and changes `Sensor`,
`SensorArray` and `SensorI2CIn` only. -/
theorem decodeSensor_total (B : BrickPiStruct) (port c : Nat) (A : List Nat) (hp : port < 4)
    (hs : B.shaped) (hfit : isI2C B port → i2cPortFits B port) (hlen : A.length = 256)
    (hin : 8 + c + sensorInMax B port ≤ 2048) :
    ∃ v SA In c', BrickPiUpdateValues.decodeSensor B port ⟨A, c⟩ =
        some ({ B with Sensor := B.Sensor.set port v, SensorArray := SA, SensorI2CIn := In },
          ⟨A, c'⟩) ∧
      c' ≤ c + sensorInMax B port ∧ SA.length = 4 ∧
      (∀ r ∈ SA, r.length = 4) ∧ In.length = 4 ∧
      (∀ p ∈ In, p.length = 8 ∧ ∀ r ∈ p, r.length = 16) := by
  have hs' := hs
  obtain ⟨hS, hA1, hA2, _, _, _, _, _, _, _, _, hI1, hI2⟩ := hs'
  have hG : ∀ w, w ≤ 43 → 8 + c + w ≤ 2048 → GetBits 1 0 w ⟨A, c⟩ =
      some (readBits A (8 + c) w % 2 ^ 32, ⟨A, c + w⟩) := by
    intro w hw hin'
    have h := GetBits_spec 1 0 w ⟨A, c⟩ hlen (by omega) (by omega) (by omega)
      (by dsimp only; omega)
    have e8 : 8 * 1 + 0 + c = 8 + c := by omega
    rw [e8] at h
    exact h
  have hGc : ∀ c1 w, w ≤ 43 → 8 + c1 + w ≤ 2048 → GetBits 1 0 w ⟨A, c1⟩ =
      some (readBits A (8 + c1) w % 2 ^ 32, ⟨A, c1 + w⟩) := by
    intro c1 w hw hin'
    have h := GetBits_spec 1 0 w ⟨A, c1⟩ hlen (by omega) (by omega) (by omega)
      (by dsimp only; omega)
    have e8 : 8 * 1 + 0 + c1 = 8 + c1 := by omega
    rw [e8] at h
    exact h
  by_cases hI : B.SensorType.getD port 0 = TYPE_SENSOR_I2C ∨
      B.SensorType.getD port 0 = TYPE_SENSOR_I2C_9V
  · have hmax : sensorInMax B port = B.SensorI2CDevices.getD port 0 +
        ((List.range (B.SensorI2CDevices.getD port 0)).map (fun d =>
          8 * (B.SensorI2CRead.getD port []).getD d 0)).sum := by
      unfold sensorInMax
      rw [if_pos hI]
    have hle := i2cInOffset_le B port
      (readBits A (8 + c) (B.SensorI2CDevices.getD port 0)) (B.SensorI2CDevices.getD port 0)
    obtain ⟨In', he, a1, a2, _, _⟩ := decodeSensor_i2c B port c A hI hp hs (hfit hI) hlen
      (by rw [hmax] at hin; omega)
    exact ⟨_, B.SensorArray, In', _, he, by rw [hmax]; omega, hA1, hA2, a1, a2⟩
  · have hmax : sensorInMax B port = 43 := by
      unfold sensorInMax
      rw [if_neg hI]
    rw [hmax] at hin ⊢
    unfold BrickPiUpdateValues.decodeSensor
    rw [if_neg hI]
    by_cases hT : B.SensorType.getD port 0 = TYPE_SENSOR_TOUCH
    · rw [if_pos hT]
      simp only [hG 1 (by omega) (by omega), Option.bind_eq_bind, Option.some_bind]
      exact ⟨_, B.SensorArray, B.SensorI2CIn, _, rfl, by omega, hA1, hA2, hI1, hI2⟩
    · rw [if_neg hT]
      by_cases hU : B.SensorType.getD port 0 = TYPE_SENSOR_ULTRASONIC_CONT ∨
          B.SensorType.getD port 0 = TYPE_SENSOR_ULTRASONIC_SS
      · rw [if_pos hU]
        simp only [hG 8 (by omega) (by omega), Option.bind_eq_bind, Option.some_bind]
        exact ⟨_, B.SensorArray, B.SensorI2CIn, _, rfl, by omega, hA1, hA2, hI1, hI2⟩
      · rw [if_neg hU]
        by_cases hC : B.SensorType.getD port 0 = TYPE_SENSOR_COLOR_FULL
        · rw [if_pos hC]
          obtain ⟨a1, e1, l1, r1⟩ := writeAt2_spec B.SensorArray port INDEX_BLANK
            (toLong ((readBits A (8 + (c + 3)) 10 % 2 ^ 32 : Nat) : Int)) hA1 hA2 hp
            (by decide)
          obtain ⟨a2, e2, l2, r2⟩ := writeAt2_spec a1 port INDEX_RED
            (toLong ((readBits A (8 + (c + 3 + 10)) 10 % 2 ^ 32 : Nat) : Int)) l1 r1 hp
            (by decide)
          obtain ⟨a3, e3, l3, r3⟩ := writeAt2_spec a2 port INDEX_GREEN
            (toLong ((readBits A (8 + (c + 3 + 10 + 10)) 10 % 2 ^ 32 : Nat) : Int)) l2 r2 hp
            (by decide)
          obtain ⟨a4, e4, l4, r4⟩ := writeAt2_spec a3 port INDEX_BLUE
            (toLong ((readBits A (8 + (c + 3 + 10 + 10 + 10)) 10 % 2 ^ 32 : Nat) : Int)) l3 r3
            hp (by decide)
          simp only [hG 3 (by omega) (by omega), hGc (c + 3) 10 (by omega) (by omega),
            hGc (c + 3 + 10) 10 (by omega) (by omega),
            hGc (c + 3 + 10 + 10) 10 (by omega) (by omega),
            hGc (c + 3 + 10 + 10 + 10) 10 (by omega) (by omega),
            Option.bind_eq_bind, Option.some_bind, e1, e2, e3, e4]
          exact ⟨_, a4, B.SensorI2CIn, _, rfl, by omega, l4, r4, hI1, hI2⟩
        · rw [if_neg hC]
          simp only [hG 10 (by omega) (by omega), Option.bind_eq_bind, Option.some_bind]
          exact ⟨_, B.SensorArray, B.SensorI2CIn, _, rfl, by omega, hA1, hA2, hI1, hI2⟩

theorem fieldsWidth_cons (w v : Nat) (fs : List (Nat × Nat)) :
    fieldsWidth ((w, v) :: fs) = w + fieldsWidth fs := by
  simp only [fieldsWidth, List.map_cons, List.sum_cons]

theorem fieldsWidth_append (fs gs : List (Nat × Nat)) :
    fieldsWidth (fs ++ gs) = fieldsWidth fs + fieldsWidth gs := by
  simp only [fieldsWidth, List.map_append, List.sum_append]

theorem fieldsAt_congr (A B : List Nat) :
    ∀ (fs : List (Nat × Nat)) (base : Nat),
      (∀ P, base ≤ P → P < base + fieldsWidth fs → bitOf A P = bitOf B P) →
      fieldsAt A base fs → fieldsAt B base fs := by
  intro fs
  induction fs with
  | nil => intro _ _ _; trivial
  | cons f fs ih =>
    obtain ⟨w, v⟩ := f
    intro base h hf
    rw [fieldsWidth_cons] at h
    refine ⟨?_, ih (base + w) (fun P h1 h2 => h P (by omega) (by omega)) hf.2⟩
    rw [← hf.1]
    exact (readBits_congr A B base w (fun k hk => h _ (by omega) (by omega))).symm

theorem fieldsAt_append (A : List Nat) :
    ∀ (fs gs : List (Nat × Nat)) (base : Nat),
      fieldsAt A base (fs ++ gs) ↔
        (fieldsAt A base fs ∧ fieldsAt A (base + fieldsWidth fs) gs) := by
  intro fs
  induction fs with
  | nil =>
    intro gs base
    simp only [List.nil_append, fieldsAt, true_and, fieldsWidth, List.map_nil, List.sum_nil,
      Nat.add_zero]
  | cons f fs ih =>
    obtain ⟨w, v⟩ := f
    intro gs base
    rw [List.cons_append, fieldsWidth_cons]
    show (_ ∧ fieldsAt A (base + w) (fs ++ gs)) ↔ ((_ ∧ fieldsAt A (base + w) fs) ∧ _)
    rw [ih gs (base + w), and_assoc, Nat.add_assoc]

theorem addFields_append (bo : Nat) :
    ∀ (fs gs : List (Nat × Nat)) (g : Globals),
      addFields bo (fs ++ gs) g =
        match addFields bo fs g with
        | none => none
        | some g' => addFields bo gs g' := by
  intro fs
  induction fs with
  | nil => intro gs g; rfl
  | cons f fs ih =>
    obtain ⟨w, v⟩ := f
    intro gs g
    simp only [List.cons_append, addFields]
    cases AddBits bo 0 w v g with
    | none => rfl
    | some g1 => exact ih gs g1

/-- Fields appended to a buffer that is zero from the cursor on: the call
returns, the cursor has advanced by the widths, the bits and bytes below are
kept, the fields stand one after the other, the rest is still zero. -/
theorem addFields_spec (bo : Nat) (hbo : bo < 256) :
    ∀ (fs : List (Nat × Nat)) (g : Globals), g.Array.length = 256 →
      (∀ f ∈ fs, f.1 ≤ 32) → 8 * bo + g.Bit_Offset + fieldsWidth fs ≤ 2048 →
      (∀ P, 8 * bo + g.Bit_Offset ≤ P → bitOf g.Array P = false) →
      ∃ A', addFields bo fs g = some ⟨A', g.Bit_Offset + fieldsWidth fs⟩ ∧ A'.length = 256 ∧
        (∀ P, P < 8 * bo + g.Bit_Offset → bitOf A' P = bitOf g.Array P) ∧
        (∀ j, j < bo → A'.getD j 0 = g.Array.getD j 0) ∧
        fieldsAt A' (8 * bo + g.Bit_Offset) fs ∧
        (∀ P, 8 * bo + g.Bit_Offset + fieldsWidth fs ≤ P → bitOf A' P = false) := by
  intro fs
  induction fs with
  | nil =>
    intro g hlen _ _ hclean
    refine ⟨g.Array, rfl, hlen, fun _ _ => rfl, fun _ _ => rfl, trivial, ?_⟩
    intro P hP
    exact hclean P (by simp only [fieldsWidth, List.map_nil, List.sum_nil] at hP; omega)
  | cons f fs ih =>
    obtain ⟨w, v⟩ := f
    intro g hlen hw hin hclean
    rw [fieldsWidth_cons] at hin ⊢
    have hw32 : w ≤ 32 := hw (w, v) (List.mem_cons_self _ _)
    obtain ⟨A1, he1, hl1, hb1, hf1, hc1⟩ := AddBits_field bo w v g hlen hbo (by omega)
      (by omega) hclean
    have hlow1 : ∀ j, j < bo → A1.getD j 0 = g.Array.getD j 0 := by
      intro j hj
      unfold AddBits at he1
      cases h : AddBits.addLoop (bo % 256) (0 % 256) (w % 256) g.Bit_Offset 256 0 (v % 2 ^ 32)
          g.Array with
      | none =>
        rw [h] at he1
        exact absurd he1 (fun hh => Option.noConfusion hh)
      | some A2 =>
        rw [h] at he1
        simp only [Option.some.injEq, Globals.mk.injEq] at he1
        rw [← he1.1]
        exact AddBits_addLoop_low _ _ _ _ _ _ _ _ _ h j (by rw [Nat.mod_eq_of_lt hbo]; exact hj)
    obtain ⟨A2, he2, hl2, hb2, hlow2, hf2, hc2⟩ := ih ⟨A1, g.Bit_Offset + w⟩ hl1
      (fun f hf => hw f (List.mem_cons_of_mem _ hf)) (by dsimp only; omega)
      (fun P hP => hc1 P (by dsimp only at hP; omega))
    dsimp only at he2 hb2 hlow2 hf2 hc2
    refine ⟨A2, ?_, hl2, ?_, ?_, ⟨?_, ?_⟩, ?_⟩
    · simp only [addFields, he1, he2, Nat.add_assoc]
    · intro P hP
      rw [hb2 P (by omega), hb1 P hP]
    · intro j hj
      rw [hlow2 j hj, hlow1 j hj]
    · apply readBits_eq_mod
      intro k hk
      rw [hb2 _ (by omega), hf1 k hk]
      have hle : 2 ^ w ≤ 2 ^ 32 := Nat.pow_le_pow_right (by norm_num) hw32
      rw [Nat.testBit_mod_two_pow]
      have : k < 32 := by omega
      simp [this]
    · have e : 8 * bo + (g.Bit_Offset + w) = 8 * bo + g.Bit_Offset + w := by omega
      rw [e] at hf2
      exact hf2
    · intro P hP
      exact hc2 P (by omega)

/-- Fields that stand in the buffer are read back in order. -/
theorem getFields_spec (bo : Nat) (hbo : bo < 256) (A : List Nat) (hlen : A.length = 256) :
    ∀ (fs : List (Nat × Nat)) (c : Nat), (∀ f ∈ fs, f.1 ≤ 32) →
      8 * bo + c + fieldsWidth fs ≤ 2048 → fieldsAt A (8 * bo + c) fs →
      getFields bo (fs.map (fun f => f.1)) ⟨A, c⟩ =
        some (fs.map (fun f => f.2 % 2 ^ f.1), ⟨A, c + fieldsWidth fs⟩) := by
  intro fs
  induction fs with
  | nil =>
    intro c _ _ _
    simp only [List.map_nil, getFields, fieldsWidth, List.sum_nil, Nat.add_zero]
  | cons f fs ih =>
    obtain ⟨w, v⟩ := f
    intro c hw hin hf
    rw [fieldsWidth_cons] at hin ⊢
    have hw32 : w ≤ 32 := hw (w, v) (List.mem_cons_self _ _)
    have hg := GetBits_spec bo 0 w ⟨A, c⟩ hlen hbo (by omega) (by omega) (by dsimp only; omega)
    dsimp only at hg
    rw [Nat.add_zero, hf.1] at hg
    have hle : 2 ^ w ≤ 2 ^ 32 := Nat.pow_le_pow_right (by norm_num) hw32
    have hlt : v % 2 ^ w < 2 ^ w := Nat.mod_lt _ (by positivity)
    rw [Nat.mod_eq_of_lt (by omega)] at hg
    have e : 8 * bo + (c + w) = 8 * bo + c + w := by omega
    have h2 := ih (c + w) (fun f hf => hw f (List.mem_cons_of_mem _ hf)) (by omega)
      (by rw [e]; exact hf.2)
    simp only [List.map_cons, getFields, hg, h2, Nat.add_assoc]

theorem AddBits_width_zero (bo boff v : Nat) (g : Globals) (hc : g.Bit_Offset < 2 ^ 32) :
    AddBits bo boff 0 v g = some g := by
  unfold AddBits
  rw [AddBits.addLoop]
  simp only [Nat.zero_mod, Nat.lt_irrefl, if_false, Nat.add_zero, Nat.mod_eq_of_lt hc]

/-- C26: fields of widths in `[0, 32]`, appended in order with `AddBits` to the
zeroed buffer from cursor 0 and fitting the buffer, are read back in the same
order with `GetBits` from cursor 0, each value reduced modulo `2 ^ width`, the
cursor standing at the sum of the widths after either pass.  Every single call
advances the cursor by its width; an append keeps every bit below the position
it started at, and one of width 0 changes nothing. -/
theorem AddBits_GetBits_fields (byte_offset : Nat) (fs : List (Nat × Nat))
    (hbo : byte_offset < 256) (hw : ∀ f ∈ fs, f.1 ≤ 32)
    (hcap : 8 * byte_offset + fieldsWidth fs ≤ 2048) :
    (∃ A, addFields byte_offset fs ⟨List.replicate 256 0, 0⟩ = some ⟨A, fieldsWidth fs⟩ ∧
      getFields byte_offset (fs.map (fun f => f.1)) ⟨A, 0⟩ =
        some (fs.map (fun f => f.2 % 2 ^ f.1), ⟨A, fieldsWidth fs⟩)) ∧
    (∀ (g : Globals) (w v : Nat), g.Array.length = 256 → w ≤ 32 →
      8 * byte_offset + g.Bit_Offset + w ≤ 2048 →
      ∃ A' r, AddBits byte_offset 0 w v g = some ⟨A', g.Bit_Offset + w⟩ ∧
        (∀ P, P < 8 * byte_offset + g.Bit_Offset → bitOf A' P = bitOf g.Array P) ∧
        (w = 0 → A' = g.Array) ∧
        GetBits byte_offset 0 w g = some (r, ⟨g.Array, g.Bit_Offset + w⟩)) := by
  constructor
  · obtain ⟨A, he, hl, _, _, hf, _⟩ := addFields_spec byte_offset hbo fs
      ⟨List.replicate 256 0, 0⟩ (List.length_replicate 256 0) hw (by dsimp only; omega)
      (fun P _ => bitOf_replicate_zero 256 P)
    dsimp only at he hf
    rw [Nat.zero_add] at he
    refine ⟨A, he, ?_⟩
    have h := getFields_spec byte_offset hbo A hl fs 0 hw (by omega) hf
    rw [Nat.zero_add] at h
    exact h
  · intro g w v hlen hw32 hin
    obtain ⟨A', he, _, hP⟩ := AddBits_spec byte_offset 0 w v g hlen hbo (by omega) (by omega)
      (by omega)
    refine ⟨A', _, he, ?_, ?_, GetBits_spec byte_offset 0 w g hlen hbo (by omega) (by omega)
      (by omega)⟩
    · intro P hlt
      rw [hP P]
      have e : ¬ (8 * byte_offset + 0 + g.Bit_Offset ≤ P ∧
          P < 8 * byte_offset + 0 + g.Bit_Offset + w) := by omega
      rw [decide_eq_false e]
      simp
    · intro h0
      subst h0
      have h := AddBits_width_zero byte_offset 0 v g (by omega)
      rw [he] at h
      simp only [Option.some.injEq] at h
      rw [← h]

theorem AddBits_GetBits_fields_witness :
    ∃ A, addFields 1 [(5, 51), (0, 7), (10, 1000), (32, 4294967295)]
        ⟨List.replicate 256 0, 0⟩ =
        some ⟨A, fieldsWidth [(5, 51), (0, 7), (10, 1000), (32, 4294967295)]⟩ ∧
      getFields 1 ([(5, 51), (0, 7), (10, 1000), (32, 4294967295)].map (fun f => f.1)) ⟨A, 0⟩ =
        some ([(5, 51), (0, 7), (10, 1000), (32, 4294967295)].map (fun f => f.2 % 2 ^ f.1),
          ⟨A, fieldsWidth [(5, 51), (0, 7), (10, 1000), (32, 4294967295)]⟩) :=
  (AddBits_GetBits_fields 1 [(5, 51), (0, 7), (10, 1000), (32, 4294967295)] (by decide)
    (by decide) (by decide)).1

/-! ## The sensor and encoder blocks of the inbound ValuesExchange -/

/-- An in-bounds store `a[i][j] = v` on a 4 by 4 array: the dimensions stay,
the entry holds `v`, the others are kept. -/
theorem writeAt2_get (a : List (List Int)) (i j : Nat) (v : Int)
    (h1 : a.length = 4) (h2 : ∀ r ∈ a, r.length = 4) (hi : i < 4) (hj : j < 4) :
    ∃ a', writeAt2 a i j v = some a' ∧ a'.length = 4 ∧ (∀ r ∈ a', r.length = 4) ∧
      (a'.getD i []).getD j 0 = v ∧
      (∀ i' j', (i' ≠ i ∨ j' ≠ j) → (a'.getD i' []).getD j' 0 = (a.getD i' []).getD j' 0) := by
  have hrow := h2 _ (getD_nil_mem a i (by omega))
  obtain ⟨a', he, l1, l2⟩ := writeAt2_spec a i j v h1 h2 hi hj
  have ha : a' = a.set i ((a.getD i []).set j v) := by
    unfold writeAt2 at he
    rw [if_pos ⟨by omega, by omega⟩] at he
    exact (Option.some.inj he).symm
  refine ⟨a', he, l1, l2, ?_, ?_⟩
  · rw [ha, getD_set_gen, if_pos ⟨rfl, by omega⟩, getD_set_gen, if_pos ⟨rfl, by omega⟩]
  · intro i' j' hne
    rw [ha, getD_set_gen]
    by_cases hii : i = i'
    · subst hii
      rw [if_pos ⟨rfl, by omega⟩, getD_set_gen]
      have : ¬ (j = j' ∧ j < (a.getD i []).length) := by
        rintro ⟨h, _⟩
        rcases hne with h' | h'
        · exact h' rfl
        · exact h' h.symm
      rw [if_neg this]
    · rw [if_neg (fun h => hii h.1)]

theorem GetBits_at (A : List Nat) (hlen : A.length = 256) (c w : Nat) (hw : w ≤ 32)
    (hin : 8 + c + w ≤ 2048) :
    GetBits 1 0 w ⟨A, c⟩ = some (readBits A (8 + c) w, ⟨A, c + w⟩) := by
  have h := GetBits_spec 1 0 w ⟨A, c⟩ hlen (by omega) (by omega) (by omega)
    (by dsimp only; omega)
  dsimp only at h
  have e8 : 8 * 1 + 0 + c = 8 + c := by omega
  have hlt := readBits_lt A (8 + c) w
  have hle : 2 ^ w ≤ 2 ^ 32 := Nat.pow_le_pow_right (by norm_num) hw
  rw [e8, Nat.mod_eq_of_lt (by omega)] at h
  exact h

theorem toLong_small (v : Nat) (h : v < 2 ^ 31) : toLong (v : Int) = (v : Int) :=
  toLong_eq _ (by omega) (by omega)

/-- C21: the sensor block of the inbound ValuesExchange for a port that is not
of an I2C type (fields inside the buffer) takes 1 bit for Touch, 8 bits for the
two ultrasonic types, 43 bits for the full colour sensor (3 bits to
`Sensor[port]`, then four fields of 10 bits to `SensorArray[port]` at
`INDEX_BLANK`, `INDEX_RED`, `INDEX_GREEN`, `INDEX_BLUE`) and 10 bits for every
other type; `Sensor[port]` is the field read, hence below 2, 256, 8 and 1024. -/
theorem sensor_block_widths (B : BrickPiStruct) (port c : Nat) (A : List Nat)
    (hp : port < 4) (hs : B.shaped) (hlen : A.length = 256) (hnI : ¬ isI2C B port) :
    (B.SensorType.getD port 0 = TYPE_SENSOR_TOUCH → 8 + c + 1 ≤ 2048 →
      ∃ B', BrickPiUpdateValues.decodeSensor B port ⟨A, c⟩ = some (B', ⟨A, c + 1⟩) ∧
        B'.Sensor.getD port 0 = (readBits A (8 + c) 1 : Nat) ∧ readBits A (8 + c) 1 < 2 ∧
        B'.SensorArray = B.SensorArray) ∧
    ((B.SensorType.getD port 0 = TYPE_SENSOR_ULTRASONIC_CONT ∨
        B.SensorType.getD port 0 = TYPE_SENSOR_ULTRASONIC_SS) → 8 + c + 8 ≤ 2048 →
      ∃ B', BrickPiUpdateValues.decodeSensor B port ⟨A, c⟩ = some (B', ⟨A, c + 8⟩) ∧
        B'.Sensor.getD port 0 = (readBits A (8 + c) 8 : Nat) ∧ readBits A (8 + c) 8 < 256 ∧
        B'.SensorArray = B.SensorArray) ∧
    (B.SensorType.getD port 0 = TYPE_SENSOR_COLOR_FULL → 8 + c + 43 ≤ 2048 →
      ∃ B', BrickPiUpdateValues.decodeSensor B port ⟨A, c⟩ = some (B', ⟨A, c + 43⟩) ∧
        B'.Sensor.getD port 0 = (readBits A (8 + c) 3 : Nat) ∧ readBits A (8 + c) 3 < 8 ∧
        (B'.SensorArray.getD port []).getD INDEX_BLANK 0 = (readBits A (8 + c + 3) 10 : Nat) ∧
        (B'.SensorArray.getD port []).getD INDEX_RED 0 = (readBits A (8 + c + 13) 10 : Nat) ∧
        (B'.SensorArray.getD port []).getD INDEX_GREEN 0 = (readBits A (8 + c + 23) 10 : Nat) ∧
        (B'.SensorArray.getD port []).getD INDEX_BLUE 0 = (readBits A (8 + c + 33) 10 : Nat) ∧
        (∀ p, p ≠ port → B'.SensorArray.getD p [] = B.SensorArray.getD p [])) ∧
    ((B.SensorType.getD port 0 ≠ TYPE_SENSOR_TOUCH ∧
        B.SensorType.getD port 0 ≠ TYPE_SENSOR_ULTRASONIC_CONT ∧
        B.SensorType.getD port 0 ≠ TYPE_SENSOR_ULTRASONIC_SS ∧
        B.SensorType.getD port 0 ≠ TYPE_SENSOR_COLOR_FULL) → 8 + c + 10 ≤ 2048 →
      ∃ B', BrickPiUpdateValues.decodeSensor B port ⟨A, c⟩ = some (B', ⟨A, c + 10⟩) ∧
        B'.Sensor.getD port 0 = (readBits A (8 + c) 10 : Nat) ∧ readBits A (8 + c) 10 < 1024 ∧
        B'.SensorArray = B.SensorArray) := by
  have hSl : B.Sensor.length = 4 := hs.1
  have hA1 : B.SensorArray.length = 4 := hs.2.1
  have hA2 : ∀ r ∈ B.SensorArray, r.length = 4 := hs.2.2.1
  have hnI' : ¬ (B.SensorType.getD port 0 = TYPE_SENSOR_I2C ∨
      B.SensorType.getD port 0 = TYPE_SENSOR_I2C_9V) := hnI
  have hset : ∀ v : Nat, v < 2 ^ 31 →
      (B.Sensor.set port (toLong (v : Int))).getD port 0 = (v : Int) := by
    intro v hv
    rw [getD_set_gen, if_pos ⟨rfl, by omega⟩, toLong_small v hv]
  have hG := fun w (hw : w ≤ 10) (hin : 8 + c + w ≤ 2048) =>
    GetBits_at A hlen c w (by omega) hin
  refine ⟨?_, ?_, ?_, ?_⟩
  · intro hT hin
    have hlt := readBits_lt A (8 + c) 1
    refine ⟨{ B with Sensor := B.Sensor.set port (toLong ((readBits A (8 + c) 1 : Nat) : Int)) },
      ?_, hset (readBits A (8 + c) 1) (by omega), by omega, rfl⟩
    unfold BrickPiUpdateValues.decodeSensor
    rw [if_pos hT]
    simp only [hG 1 (by omega) (by omega), Option.bind_eq_bind, Option.some_bind]
  · intro hU hin
    have hT : ¬ B.SensorType.getD port 0 = TYPE_SENSOR_TOUCH := by
      rcases hU with h | h <;> rw [h] <;> decide
    have hlt := readBits_lt A (8 + c) 8
    refine ⟨{ B with Sensor := B.Sensor.set port (toLong ((readBits A (8 + c) 8 : Nat) : Int)) },
      ?_, hset (readBits A (8 + c) 8) (by omega), by omega, rfl⟩
    unfold BrickPiUpdateValues.decodeSensor
    rw [if_neg hT, if_pos hU]
    simp only [hG 8 (by omega) (by omega), Option.bind_eq_bind, Option.some_bind]
  · intro hC hin
    have hT : ¬ B.SensorType.getD port 0 = TYPE_SENSOR_TOUCH := by rw [hC]; decide
    have hU : ¬ (B.SensorType.getD port 0 = TYPE_SENSOR_ULTRASONIC_CONT ∨
        B.SensorType.getD port 0 = TYPE_SENSOR_ULTRASONIC_SS) := by rw [hC]; decide
    have hlt := readBits_lt A (8 + c) 3
    have hb := readBits_lt A (8 + (c + 3)) 10
    have hr := readBits_lt A (8 + (c + 3 + 10)) 10
    have hg := readBits_lt A (8 + (c + 3 + 10 + 10)) 10
    have hbl := readBits_lt A (8 + (c + 3 + 10 + 10 + 10)) 10
    obtain ⟨a1, e1, l1, r1, g1, k1⟩ := writeAt2_get B.SensorArray port INDEX_BLANK
      (toLong ((readBits A (8 + (c + 3)) 10 : Nat) : Int)) hA1 hA2 hp (by decide)
    obtain ⟨a2, e2, l2, r2, g2, k2⟩ := writeAt2_get a1 port INDEX_RED
      (toLong ((readBits A (8 + (c + 3 + 10)) 10 : Nat) : Int)) l1 r1 hp (by decide)
    obtain ⟨a3, e3, l3, r3, g3, k3⟩ := writeAt2_get a2 port INDEX_GREEN
      (toLong ((readBits A (8 + (c + 3 + 10 + 10)) 10 : Nat) : Int)) l2 r2 hp (by decide)
    obtain ⟨a4, e4, l4, r4, g4, k4⟩ := writeAt2_get a3 port INDEX_BLUE
      (toLong ((readBits A (8 + (c + 3 + 10 + 10 + 10)) 10 : Nat) : Int)) l3 r3 hp (by decide)
    have p1 : 8 + (c + 3) = 8 + c + 3 := by omega
    have p2 : 8 + (c + 3 + 10) = 8 + c + 13 := by omega
    have p3 : 8 + (c + 3 + 10 + 10) = 8 + c + 23 := by omega
    have p4 : 8 + (c + 3 + 10 + 10 + 10) = 8 + c + 33 := by omega
    refine ⟨{ B with
        Sensor := B.Sensor.set port (toLong ((readBits A (8 + c) 3 : Nat) : Int))
        SensorArray := a4 }, ?_, hset (readBits A (8 + c) 3) (by omega), by omega,
      ?_, ?_, ?_, ?_, ?_⟩
    · unfold BrickPiUpdateValues.decodeSensor
      rw [if_neg hT, if_neg hU, if_pos hC]
      simp only [hG 3 (by omega) (by omega), GetBits_at A hlen (c + 3) 10 (by omega) (by omega),
        GetBits_at A hlen (c + 3 + 10) 10 (by omega) (by omega),
        GetBits_at A hlen (c + 3 + 10 + 10) 10 (by omega) (by omega),
        GetBits_at A hlen (c + 3 + 10 + 10 + 10) 10 (by omega) (by omega),
        Option.bind_eq_bind, Option.some_bind, e1, e2, e3, e4]
    · show (a4.getD port []).getD INDEX_BLANK 0 = _
      rw [k4 port INDEX_BLANK (Or.inr (by decide)), k3 port INDEX_BLANK (Or.inr (by decide)),
        k2 port INDEX_BLANK (Or.inr (by decide)), g1, toLong_small _ (by omega), p1]
    · show (a4.getD port []).getD INDEX_RED 0 = _
      rw [k4 port INDEX_RED (Or.inr (by decide)), k3 port INDEX_RED (Or.inr (by decide)),
        g2, toLong_small _ (by omega), p2]
    · show (a4.getD port []).getD INDEX_GREEN 0 = _
      rw [k4 port INDEX_GREEN (Or.inr (by decide)), g3, toLong_small _ (by omega), p3]
    · show (a4.getD port []).getD INDEX_BLUE 0 = _
      rw [g4, toLong_small _ (by omega), p4]
    · intro p hpne
      show a4.getD p [] = B.SensorArray.getD p []
      have hw : ∀ (a a' : List (List Int)) (j : Nat) (v : Int), writeAt2 a port j v = some a' →
          a'.getD p [] = a.getD p [] := by
        intro a a' j v h
        unfold writeAt2 at h
        split_ifs at h
        rw [← Option.some.inj h, getD_set_gen, if_neg (fun hh => hpne hh.1.symm)]
      rw [hw _ _ _ _ e4, hw _ _ _ _ e3, hw _ _ _ _ e2, hw _ _ _ _ e1]
  · rintro ⟨hT, hU1, hU2, hC⟩ hin
    have hU : ¬ (B.SensorType.getD port 0 = TYPE_SENSOR_ULTRASONIC_CONT ∨
        B.SensorType.getD port 0 = TYPE_SENSOR_ULTRASONIC_SS) := by
      rintro (h | h)
      · exact hU1 h
      · exact hU2 h
    have hlt := readBits_lt A (8 + c) 10
    refine ⟨{ B with Sensor := B.Sensor.set port (toLong ((readBits A (8 + c) 10 : Nat) : Int)) },
      ?_, hset (readBits A (8 + c) 10) (by omega), by omega, rfl⟩
    unfold BrickPiUpdateValues.decodeSensor
    rw [if_neg hT, if_neg hU, if_neg hC, if_neg hnI']
    simp only [hG 10 (by omega) (by omega), Option.bind_eq_bind, Option.some_bind]

theorem sensor_block_widths_witness :
    ∃ B', BrickPiUpdateValues.decodeSensor { BrickPi_zero with SensorType := [36, 0, 0, 0] } 0
        ⟨7 :: 0xFD :: 0x3F :: 0 :: 0 :: 7 :: List.replicate 250 0, 0⟩ =
        some (B', ⟨7 :: 0xFD :: 0x3F :: 0 :: 0 :: 7 :: List.replicate 250 0, 43⟩) ∧
      B'.Sensor.getD 0 0 = 5 ∧
      (B'.SensorArray.getD 0 []).getD INDEX_BLANK 0 = 1023 ∧
      (B'.SensorArray.getD 0 []).getD INDEX_RED 0 = 1 ∧
      (B'.SensorArray.getD 0 []).getD INDEX_GREEN 0 = 512 ∧
      (B'.SensorArray.getD 0 []).getD INDEX_BLUE 0 = 3 := by
  obtain ⟨B', he, h0, _, h1, h2, h3, h4, _⟩ := (sensor_block_widths
    { BrickPi_zero with SensorType := [36, 0, 0, 0] } 0 0
    (7 :: 0xFD :: 0x3F :: 0 :: 0 :: 7 :: List.replicate 250 0)
    (by decide) (by unfold BrickPiStruct.shaped; decide)
    (by simp only [List.length_cons, List.length_replicate])
    (by unfold isI2C; decide)).2.2.1 rfl (by decide)
  refine ⟨B', he, ?_, ?_, ?_, ?_, ?_⟩
  · rw [h0]; decide
  · rw [h1]; decide
  · rw [h2]; decide
  · rw [h3]; decide
  · rw [h4]; decide

/-- The value of a sign-doubled field `r`: `-(r / 2)` when `r` is odd, `r / 2`
when it is even. -/
theorem decodeEncoder_spec (B : BrickPiStruct) (port bits c : Nat) (A : List Nat)
    (hlen : A.length = 256) (hb : bits ≤ 31) (hin : 8 + c + bits ≤ 2048) :
    BrickPiUpdateValues.decodeEncoder B port bits ⟨A, c⟩ =
      some ({ B with Encoder := (B.Encoder.set port
          (if readBits A (8 + c) bits % 2 = 1 then -((readBits A (8 + c) bits / 2 : Nat) : Int)
           else ((readBits A (8 + c) bits / 2 : Nat) : Int))) }, ⟨A, c + bits⟩) := by
  have h := GetBits_at A hlen c bits (by omega) hin
  have hlt := readBits_lt A (8 + c) bits
  have hle : 2 ^ bits ≤ 2 ^ 31 := Nat.pow_le_pow_right (by norm_num) hb
  unfold BrickPiUpdateValues.decodeEncoder
  simp only [h, Option.bind_eq_bind, Option.some_bind]
  generalize readBits A (8 + c) bits = r at hlt
  have hand : r &&& 1 = r % 2 := Nat.and_one_is_mod r
  by_cases ho : r % 2 = 1
  · have hne : r &&& 1 ≠ 0 := by omega
    rw [if_pos hne, if_pos ho, toLong_eq _ (by omega) (by omega)]
    simp only [mul_neg, mul_one]
  · have hne : ¬ r &&& 1 ≠ 0 := by omega
    rw [if_neg hne, if_neg ho, toLong_eq _ (by omega) (by omega)]

/-- C23: the decoder of an accepted inbound ValuesExchange (settings of the link
fitting the arrays) reads two 5-bit width headers `w0` and `w1` from payload
byte 1 on (bits 8 and 13 of the buffer), then a field `r0` of `w0` bits and a
field `r1` of `w1` bits, and sets `Encoder` of the first and second port of the
link to `-(r / 2)` when `r` is odd and to `r / 2` when it is even; a width of 0
gives 0, and the encoders of the other link are kept. -/
theorem inbound_encoder_decoding (i : Nat) (w : World) (w0 w1 r0 r1 : Nat)
    (hlen : w.g.Array.length = 256) (hfit : inboundFits w.BrickPi i)
    (hE : w.BrickPi.Encoder.length = 4)
    (hw0 : w0 = readBits w.g.Array 8 5) (hw1 : w1 = readBits w.g.Array 13 5)
    (hr0 : r0 = readBits w.g.Array 18 w0) (hr1 : r1 = readBits w.g.Array (18 + w0) w1) :
    ∃ w', BrickPiUpdateValues.decode i w = some w' ∧
      w'.BrickPi.Encoder.getD (i * 2) 0 =
        (if r0 % 2 = 1 then -((r0 / 2 : Nat) : Int) else ((r0 / 2 : Nat) : Int)) ∧
      w'.BrickPi.Encoder.getD (i * 2 + 1) 0 =
        (if r1 % 2 = 1 then -((r1 / 2 : Nat) : Int) else ((r1 / 2 : Nat) : Int)) ∧
      (w0 = 0 → w'.BrickPi.Encoder.getD (i * 2) 0 = 0) ∧
      (w1 = 0 → w'.BrickPi.Encoder.getD (i * 2 + 1) 0 = 0) ∧
      (∀ p, p ≠ i * 2 → p ≠ i * 2 + 1 →
        w'.BrickPi.Encoder.getD p 0 = w.BrickPi.Encoder.getD p 0) := by
  obtain ⟨hi, hs, hf0, hf1, hbud⟩ := hfit
  have hp0 : (0 + i * 2) % 256 = i * 2 := by omega
  have hp1 : (1 + i * 2) % 256 = i * 2 + 1 := by omega
  have ht0 := readBits_lt w.g.Array 8 5
  have ht1 := readBits_lt w.g.Array 13 5
  rw [← hw0] at ht0
  rw [← hw1] at ht1
  have hG0 : GetBits 1 0 5 ⟨w.g.Array, 0⟩ = some (w0, ⟨w.g.Array, 0 + 5⟩) := by
    rw [GetBits_at w.g.Array hlen 0 5 (by omega) (by omega), hw0]
  have hG1 : GetBits 1 0 5 ⟨w.g.Array, 0 + 5⟩ = some (w1, ⟨w.g.Array, 0 + 5 + 5⟩) := by
    rw [GetBits_at w.g.Array hlen (0 + 5) 5 (by omega) (by omega), hw1]
  have hm0 : w0 % 256 = w0 := by omega
  have hm1 : w1 % 256 = w1 := by omega
  have he0 := decodeEncoder_spec w.BrickPi (i * 2) w0 (0 + 5 + 5) w.g.Array hlen
    (by omega) (by omega)
  have q0 : 8 + (0 + 5 + 5) = 18 := rfl
  rw [q0, ← hr0] at he0
  obtain ⟨e0, he0d⟩ : ∃ e0 : Int, e0 =
      (if r0 % 2 = 1 then -((r0 / 2 : Nat) : Int) else ((r0 / 2 : Nat) : Int)) := ⟨_, rfl⟩
  rw [← he0d] at he0
  have he1 := decodeEncoder_spec
    { w.BrickPi with Encoder := w.BrickPi.Encoder.set (i * 2) e0 } (i * 2 + 1) w1
    (0 + 5 + 5 + w0) w.g.Array hlen (by omega) (by omega)
  have q1 : 8 + (0 + 5 + 5 + w0) = 18 + w0 := by omega
  rw [q1, ← hr1] at he1
  obtain ⟨e1, he1d⟩ : ∃ e1 : Int, e1 =
      (if r1 % 2 = 1 then -((r1 / 2 : Nat) : Int) else ((r1 / 2 : Nat) : Int)) := ⟨_, rfl⟩
  rw [← he1d] at he1
  dsimp only at he1
  have hs1 : ({ w.BrickPi with
      Encoder := (w.BrickPi.Encoder.set (i * 2) e0).set (i * 2 + 1) e1 } :
        BrickPiStruct).shaped := hs
  obtain ⟨s0, SA0, In0, c0, hd0, hc0, a1, a2, a3, a4⟩ := decodeSensor_total
    { w.BrickPi with Encoder := (w.BrickPi.Encoder.set (i * 2) e0).set (i * 2 + 1) e1 }
    (i * 2) (0 + 5 + 5 + w0 + w1) w.g.Array (by omega) hs1 hf0 hlen (by
      have : sensorInMax { w.BrickPi with
        Encoder := (w.BrickPi.Encoder.set (i * 2) e0).set (i * 2 + 1) e1 } (i * 2) =
        sensorInMax w.BrickPi (i * 2) := rfl
      rw [this]
      omega)
  dsimp only at hd0
  have hm0' : sensorInMax { w.BrickPi with
        Encoder := (w.BrickPi.Encoder.set (i * 2) e0).set (i * 2 + 1) e1 } (i * 2) =
        sensorInMax w.BrickPi (i * 2) := rfl
  rw [hm0'] at hc0
  have hs2 := shaped_update w.BrickPi hs
    ((w.BrickPi.Encoder.set (i * 2) e0).set (i * 2 + 1) e1)
    (w.BrickPi.Sensor.set (i * 2) s0) SA0 In0
    (by rw [List.length_set]; exact hs.1) a1 a2 a3 a4
  obtain ⟨s1, SA1, In1, c1, hd1, hc1, b1, b2, b3, b4⟩ := decodeSensor_total
    { w.BrickPi with
      Encoder := (w.BrickPi.Encoder.set (i * 2) e0).set (i * 2 + 1) e1
      Sensor := w.BrickPi.Sensor.set (i * 2) s0
      SensorArray := SA0
      SensorI2CIn := In0 }
    (i * 2 + 1) c0 w.g.Array (by omega) hs2 hf1 hlen (by
      have : sensorInMax { w.BrickPi with
        Encoder := (w.BrickPi.Encoder.set (i * 2) e0).set (i * 2 + 1) e1
        Sensor := w.BrickPi.Sensor.set (i * 2) s0
        SensorArray := SA0
        SensorI2CIn := In0 } (i * 2 + 1) = sensorInMax w.BrickPi (i * 2 + 1) := rfl
      rw [this]
      omega)
  dsimp only at hd1
  have hdec : BrickPiUpdateValues.decode i w = some { w with
      BrickPi := { w.BrickPi with
        Encoder := (w.BrickPi.Encoder.set (i * 2) e0).set (i * 2 + 1) e1
        Sensor := (w.BrickPi.Sensor.set (i * 2) s0).set (i * 2 + 1) s1
        SensorArray := SA1
        SensorI2CIn := In1 }
      g := ⟨w.g.Array, c1⟩ } := by
    unfold BrickPiUpdateValues.decode
    simp only [hG0, hG1, Option.bind_eq_bind, Option.some_bind,
      hp0, hp1, hm0, hm1, he0, he1, hd0, hd1]
  have g0 : ((w.BrickPi.Encoder.set (i * 2) e0).set (i * 2 + 1) e1).getD (i * 2) 0 = e0 := by
    rw [getD_set_gen, if_neg (by omega), getD_set_gen, if_pos ⟨rfl, by omega⟩]
  have g1 : ((w.BrickPi.Encoder.set (i * 2) e0).set (i * 2 + 1) e1).getD (i * 2 + 1) 0 =
      e1 := by
    rw [getD_set_gen, if_pos ⟨rfl, by rw [List.length_set]; omega⟩]
  have hz : ∀ a : List Nat, ∀ b, readBits a b 0 = 0 := by
    intro a b
    have := readBits_lt a b 0
    omega
  refine ⟨_, hdec, ?_, ?_, ?_, ?_, ?_⟩
  · show ((w.BrickPi.Encoder.set (i * 2) e0).set (i * 2 + 1) e1).getD (i * 2) 0 = _
    rw [g0, he0d]
  · show ((w.BrickPi.Encoder.set (i * 2) e0).set (i * 2 + 1) e1).getD (i * 2 + 1) 0 = _
    rw [g1, he1d]
  · intro hz0
    show ((w.BrickPi.Encoder.set (i * 2) e0).set (i * 2 + 1) e1).getD (i * 2) 0 = _
    rw [g0, he0d, hr0, hz0, hz]
    rfl
  · intro hz1
    show ((w.BrickPi.Encoder.set (i * 2) e0).set (i * 2 + 1) e1).getD (i * 2 + 1) 0 = _
    rw [g1, he1d, hr1, hz1, hz]
    rfl
  · intro p hp hp'
    show ((w.BrickPi.Encoder.set (i * 2) e0).set (i * 2 + 1) e1).getD p 0 = _
    rw [getD_set_gen, if_neg (fun h => hp' h.1.symm), getD_set_gen,
      if_neg (fun h => hp h.1.symm)]

theorem inbound_encoder_decoding_witness :
    ∃ w', BrickPiUpdateValues.decode 0
        ⟨BrickPi_zero, ⟨3 :: 100 :: 172 :: 1 :: List.replicate 252 0, 0⟩, 0, 0, 115200, []⟩ =
        some w' ∧
      w'.BrickPi.Encoder.getD 0 0 = -5 ∧ w'.BrickPi.Encoder.getD 1 0 = 3 := by
  obtain ⟨w', he, h0, h1, _⟩ := inbound_encoder_decoding 0
    ⟨BrickPi_zero, ⟨3 :: 100 :: 172 :: 1 :: List.replicate 252 0, 0⟩, 0, 0, 115200, []⟩ 4 3 11 6
    (by simp only [List.length_cons, List.length_replicate])
    (plain_inboundFits 0 (by decide) BrickPi_zero BrickPi_zero_shaped rfl)
    rfl (by decide) (by decide) (by decide) (by decide)
  exact ⟨w', he, h0, h1⟩

/-! ## The last position error over the attempts -/

/-- The device state after the speed selection of one motor port: only the last
position error of a `TYPE_MOTOR_POSITION` port changes, to the current error. -/
theorem motorSpeed_state (B : BrickPiStruct) (port : Nat) (speed : Int) :
    (BrickPiUpdateValues.motorSpeed B port speed).1 =
      { B with MotorTargetLastError := (
          if B.MotorEnable.getD port 0 = TYPE_MOTOR_POSITION then
            (B.MotorTargetLastError.set port
              (toLong (B.MotorTarget.getD port 0 - B.Encoder.getD port 0)))
          else B.MotorTargetLastError) } := by
  unfold BrickPiUpdateValues.motorSpeed
  by_cases h1 : B.MotorEnable.getD port 0 = TYPE_MOTOR_SPEED
  · have h2 : ¬ B.MotorEnable.getD port 0 = TYPE_MOTOR_POSITION := by rw [h1]; decide
    rw [if_pos h1, if_neg h2]
  · by_cases h2 : B.MotorEnable.getD port 0 = TYPE_MOTOR_POSITION
    · rw [if_neg h1, if_pos h2, if_pos h2]
    · rw [if_neg h1, if_neg h2, if_neg h2]

theorem motorPort_state (B : BrickPiStruct) (port : Nat) (speed : Int) (g : Globals)
    (B' : BrickPiStruct) (s' : Int) (g' : Globals)
    (h : BrickPiUpdateValues.motorPort B port speed g = some (B', s', g')) :
    B' = { B with MotorTargetLastError := (
          if B.MotorEnable.getD port 0 = TYPE_MOTOR_POSITION then
            (B.MotorTargetLastError.set port
              (toLong (B.MotorTarget.getD port 0 - B.Encoder.getD port 0)))
          else B.MotorTargetLastError) } := by
  unfold BrickPiUpdateValues.motorPort at h
  by_cases hf : B.MotorEnable.getD port 0 = TYPE_MOTOR_FLOAT
  · have h2 : ¬ B.MotorEnable.getD port 0 = TYPE_MOTOR_POSITION := by rw [hf]; decide
    rw [if_pos hf] at h
    rw [if_neg h2]
    cases hA : AddBits 1 0 10 0 g with
    | none => simp only [hA, Option.bind_eq_bind, Option.none_bind] at h; exact absurd h (by simp)
    | some g1 =>
      simp only [hA, Option.bind_eq_bind, Option.some_bind, Option.some.injEq,
        Prod.mk.injEq] at h
      exact h.1.symm
  · rw [if_neg hf] at h
    rw [← motorSpeed_state B port speed]
    cases hA : AddBits 1 0 10
        (BrickPiUpdateValues.motorWord (BrickPiUpdateValues.motorSpeed B port speed).2).1 g with
    | none => simp only [hA, Option.bind_eq_bind, Option.none_bind] at h; exact absurd h (by simp)
    | some g1 =>
      simp only [hA, Option.bind_eq_bind, Option.some_bind, Option.some.injEq,
        Prod.mk.injEq] at h
      exact h.1.symm

/-- The building of the outbound ValuesExchange changes the device state only in
the last position errors: that of a `TYPE_MOTOR_POSITION` port of the link
becomes the current error of the port. -/
theorem encode_lastError (i : Nat) (speed : Int) (w w1 : World) (hi : i < 2)
    (h : BrickPiUpdateValues.encode i speed w = some w1)
    (hL : w.BrickPi.MotorTargetLastError.length = 4) :
    w1.BrickPi = { w.BrickPi with MotorTargetLastError := w1.BrickPi.MotorTargetLastError } ∧
      w1.BrickPi.MotorTargetLastError.length = 4 ∧
      (∀ port, (port = i * 2 ∨ port = i * 2 + 1) →
        w.BrickPi.MotorEnable.getD port 0 = TYPE_MOTOR_POSITION →
        w1.BrickPi.MotorTargetLastError.getD port 0 =
          toLong (w.BrickPi.MotorTarget.getD port 0 - w.BrickPi.Encoder.getD port 0)) ∧
      (∀ port, port ≠ i * 2 → port ≠ i * 2 + 1 →
        w1.BrickPi.MotorTargetLastError.getD port 0 =
          w.BrickPi.MotorTargetLastError.getD port 0) := by
  have hp0 : (i * 2 + 0) % 256 = i * 2 := by omega
  have hp1 : (i * 2 + 1) % 256 = i * 2 + 1 := by omega
  unfold BrickPiUpdateValues.encode at h
  simp only [Option.bind_eq_bind, Option.bind_eq_some, hp0, hp1] at h
  obtain ⟨g1, _, g2, _, ⟨B1, s1, g3⟩, h3, ⟨B2, s2, g4⟩, h4, g5, _, g6, _, h⟩ := h
  dsimp only at h4 h
  have e1 := motorPort_state _ _ _ _ _ _ _ h3
  have e2 := motorPort_state _ _ _ _ _ _ _ h4
  have hw : w1.BrickPi = B2 := by
    rw [← Option.some.inj h]
  rw [hw, e2, e1]
  dsimp only
  refine ⟨rfl, ?_, ?_, ?_⟩
  · split_ifs <;> simp only [List.length_set, hL]
  · rintro port (hp | hp) hmode
    · subst hp
      rw [if_pos hmode]
      split_ifs
      · rw [getD_set_gen, if_neg (by omega), getD_set_gen, if_pos ⟨rfl, by omega⟩]
      · rw [getD_set_gen, if_pos ⟨rfl, by omega⟩]
    · subst hp
      rw [if_pos hmode]
      split_ifs
      · rw [getD_set_gen, if_pos ⟨rfl, by rw [List.length_set]; omega⟩]
      · rw [getD_set_gen, if_pos ⟨rfl, by omega⟩]
  · intro port hp hp'
    split_ifs
    · rw [getD_set_gen, if_neg (fun h => hp' h.1.symm), getD_set_gen,
        if_neg (fun h => hp h.1.symm)]
    · rw [getD_set_gen, if_neg (fun h => hp' h.1.symm)]
    · rw [getD_set_gen, if_neg (fun h => hp h.1.symm)]
    · rfl

/-- The send, the receive and the clearing of the pending offsets leave the last
position errors as the building of the message left them. -/
theorem attempt_lastError (ev : RxEvent) (i : Nat) (speed : Int) (w w' : World) (r : Int)
    (h : BrickPiUpdateValues.attempt ev i speed w = some (r, w')) :
    ∃ w1, BrickPiUpdateValues.encode i speed w = some w1 ∧
      w'.BrickPi.MotorTargetLastError = w1.BrickPi.MotorTargetLastError := by
  unfold BrickPiUpdateValues.attempt at h
  simp only [Option.bind_eq_bind, Option.bind_eq_some] at h
  obtain ⟨w1, h1, w2, h2, ⟨r3, w3⟩, h3, h⟩ := h
  refine ⟨w1, h1, ?_⟩
  have e2 : w2.BrickPi.MotorTargetLastError = w1.BrickPi.MotorTargetLastError := by
    unfold BrickPiTx.send at h2
    split at h2
    · exact absurd h2 (by simp)
    · split_ifs at h2
      rw [← Option.some.inj h2]
  have e3 : w3.BrickPi.MotorTargetLastError = w2.BrickPi.MotorTargetLastError := by
    unfold BrickPiRx.receive at h3
    split at h3
    · rw [← (Prod.mk.inj (Option.some.inj h3)).2]
    · rw [← (Prod.mk.inj (Option.some.inj h3)).2]
    · split_ifs at h3
      split at h3
      · exact absurd h3 (by simp)
      · rw [← (Prod.mk.inj (Option.some.inj h3)).2]
  have e4 : w'.BrickPi.MotorTargetLastError = w3.BrickPi.MotorTargetLastError := by
    dsimp only at h
    rw [← (Prod.mk.inj (Option.some.inj h)).2]
    unfold BrickPiUpdateValues.clearOffsets
    split_ifs <;> rfl
  rw [e4, e3, e2]

/-- C25 (amended): every attempt of `BrickPiUpdateValues` for a link (settings
fitting the arrays, line rate set) assigns `MotorTargetLastError` of a
`TYPE_MOTOR_POSITION` port of the link, to the current error
`MotorTarget - Encoder`; the speed the regulator selects on the state the attempt
leaves is the one for a last error equal to the current error; and when the
reply is rejected with `Retried < 4` the next attempt starts from that state. -/
theorem lastError_each_attempt (ev : RxEvent) (i : Nat) (speed : Int) (w : World) (port : Nat)
    (hwf : ev.wellFormed) (hfit : outboundFits w.BrickPi i) (hB : w.BaudRate ≠ 0)
    (hport : port = i * 2 ∨ port = i * 2 + 1)
    (hmode : w.BrickPi.MotorEnable.getD port 0 = TYPE_MOTOR_POSITION)
    (hL : w.BrickPi.MotorTargetLastError.length = 4) :
    ∃ w', BrickPiUpdateValues.attempt ev i speed w = some (ev.code, w') ∧
      w'.BrickPi.MotorTargetLastError.getD port 0 =
        toLong (w.BrickPi.MotorTarget.getD port 0 - w.BrickPi.Encoder.getD port 0) ∧
      (∀ s, (BrickPiUpdateValues.motorSpeed w'.BrickPi port s).2 =
        (BrickPiUpdateValues.motorSpeed { w.BrickPi with
          MotorTargetLastError := (w.BrickPi.MotorTargetLastError.set port
            (toLong (w.BrickPi.MotorTarget.getD port 0 - w.BrickPi.Encoder.getD port 0))) }
          port s).2) ∧
      w'.Retried = w.Retried ∧
      (¬ ev.acceptedValues → w.Retried < 4 → ∀ (rx : Oracle) (fuel : Nat),
        rx [i, w.Retried] = ev →
        BrickPiUpdateValues.retry rx i speed (fuel + 1) w =
          BrickPiUpdateValues.retry rx i speed fuel
            { w' with Retried := (w'.Retried + 1) % 256 }) := by
  obtain ⟨E, A, c, n, frame, he, hl, hd, hk, hacc⟩ := attempt_spec ev i speed w hwf hfit hB
  obtain ⟨w1, h1, hE⟩ := attempt_lastError _ _ _ _ _ _ he
  dsimp only at hE
  obtain ⟨_, _, hget, _⟩ := encode_lastError i speed w w1 hfit.1 h1 hL
  have hg := hget port hport hmode
  rw [← hE] at hg
  have hp4 : port < 4 := by
    have := hfit.1
    omega
  refine ⟨_, he, hg, ?_, rfl, ?_⟩
  · intro s
    have e : (w.BrickPi.MotorTargetLastError.set port
        (toLong (w.BrickPi.MotorTarget.getD port 0 - w.BrickPi.Encoder.getD port 0))).getD
        port 0 = toLong (w.BrickPi.MotorTarget.getD port 0 - w.BrickPi.Encoder.getD port 0) := by
      rw [getD_set_gen, if_pos ⟨rfl, by omega⟩]
    have hne : ¬ (TYPE_MOTOR_POSITION = TYPE_MOTOR_SPEED) := by decide
    unfold BrickPiUpdateValues.motorSpeed
    dsimp only
    rw [hmode, if_neg hne, if_neg hne, if_pos rfl, if_pos rfl]
    dsimp only
    rw [hg, e]
  · intro hrej hR rx fuel hrx
    have hcond : ev.code ≠ 0 ∨ A.getD 0 0 ≠ MSG_TYPE_VALUES := by
      by_contra hcon
      rw [not_or, not_not, not_not] at hcon
      exact hrej (hacc.1 hcon)
    rw [BrickPiUpdateValues.retry, hrx, he]
    dsimp only
    rw [if_pos hcond, if_pos hR]

set_option maxRecDepth 100000 in
theorem lastError_each_attempt_witness :
    ∃ w', BrickPiUpdateValues.attempt RxEvent.timeout 0 0
        ⟨{ BrickPi_zero with
        MotorEnable := [2, 0, 0, 0], MotorTarget := [100, 0, 0, 0], Encoder := [90, 0, 0, 0],
        MotorTargetLastError := [4, 0, 0, 0], MotorTargetKP := [2, 0, 0, 0],
        MotorTargetKD := [5, 0, 0, 0], MotorDead := [10, 0, 0, 0] },
      ⟨List.replicate 256 0, 0⟩, 0, 0, 115200, []⟩ = some (-2, w') ∧
      w'.BrickPi.MotorTargetLastError.getD 0 0 = 10 ∧
      (BrickPiUpdateValues.motorSpeed w'.BrickPi 0 0).2 = 30 := by
  obtain ⟨w', he, h1, h2, _⟩ := lastError_each_attempt RxEvent.timeout 0 0
    ⟨{ BrickPi_zero with
        MotorEnable := [2, 0, 0, 0], MotorTarget := [100, 0, 0, 0], Encoder := [90, 0, 0, 0],
        MotorTargetLastError := [4, 0, 0, 0], MotorTargetKP := [2, 0, 0, 0],
        MotorTargetKD := [5, 0, 0, 0], MotorDead := [10, 0, 0, 0] },
      ⟨List.replicate 256 0, 0⟩, 0, 0, 115200, []⟩ 0 trivial
    (plain_outboundFits 0 (by omega) _ BrickPi_zero_shaped rfl) (by decide) (Or.inl rfl) rfl rfl
  refine ⟨w', he, ?_, ?_⟩
  · rw [h1]; decide
  · rw [h2 0]; decide

set_option maxRecDepth 100000 in
/-- C25 fails as stated: position port 0 with target 100, encoder 90, last
error 4, gains 2 and 5, dead band 10, and a peer that never answers.  The five
attempts of the one call send the motor words 241, 121, 121, 121, 121
(magnitude 60 in the first frame, 30 in the retries): the first attempt stored
the error 10, so the retries compute the speed from the last error 10. -/
theorem lastError_once_counterexample :
    (BrickPiUpdateValues (fun _ => RxEvent.timeout) 0
        ⟨{ BrickPi_zero with
        MotorEnable := [2, 0, 0, 0], MotorTarget := [100, 0, 0, 0], Encoder := [90, 0, 0, 0],
        MotorTargetLastError := [4, 0, 0, 0], MotorTargetKP := [2, 0, 0, 0],
        MotorTargetKD := [5, 0, 0, 0], MotorDead := [10, 0, 0, 0] },
      ⟨List.replicate 256 0, 0⟩, 0, 0, 115200, []⟩).map
      (fun r => (r.1, r.2.sent.map (fun f => readBits (f.2.drop 3) 10 10),
        r.2.BrickPi.MotorTargetLastError)) =
      some (-1, [241, 121, 121, 121, 121], [10, 0, 0, 0]) := by
  decide

/-! ## The device loops as lists of fields -/

/-- The loop over the write bytes of a device is the appending of its literal
fields from `out_byte` on. -/
theorem I2COutBytes_fields (B : BrickPiStruct) (bo port device Write : Nat)
    (hs : B.shaped) (hp : port < 4) (hd : device < 8) (hW : Write ≤ 16) :
    ∀ (fuel out_byte : Nat) (g : Globals), out_byte ≤ Write → Write - out_byte < fuel →
      I2COutBytes B bo port device Write fuel out_byte g =
        addFields bo ((List.range' out_byte (Write - out_byte)).map (fun k =>
          (8, (((B.SensorI2COut.getD port []).getD device []).getD k 0)))) g := by
  obtain ⟨_, _, _, _, hO, hO2, _, _⟩ := shaped_rows B hs port hp
  have o1 : B.SensorI2COut.length = 4 := hs.2.2.2.2.2.2.2.2.2.1
  intro fuel
  induction fuel with
  | zero => intro o g _ h; omega
  | succ fuel ih =>
    intro o g ho hf
    unfold I2COutBytes
    by_cases hlt : o < Write
    · have hb := readAt3_eq B.SensorI2COut port device o (by omega) (by omega)
        (by rw [hO2 device hd]; omega)
      have hm : (o + 1) % 256 = o + 1 := Nat.mod_eq_of_lt (by omega)
      have hr : Write - o = (Write - (o + 1)) + 1 := by omega
      rw [if_pos hlt, hb, hr, List.range'_succ, List.map_cons]
      dsimp only
      rw [hm]
      show _ = match AddBits bo 0 8 _ g with
        | none => none
        | some g => addFields bo _ g
      cases hA : AddBits bo 0 8 (((B.SensorI2COut.getD port []).getD device []).getD o 0) g with
      | none => rfl
      | some g1 => exact ih (o + 1) g1 (by omega) (by omega)
    · have : Write - o = 0 := by omega
      rw [if_neg hlt, this]
      rfl

theorem range_eq_range_zero (n : Nat) : List.range n = List.range' 0 (n - 0) := by
  rw [Nat.sub_zero, List.range_eq_range']

/-- One round of the device loop of the outbound ValuesExchange: a device not
flagged `BIT_I2C_SAME` appends its length fields and literal bytes, a flagged one
nothing. -/
theorem i2cOutDevices_step (B : BrickPiStruct) (port device fuel : Nat) (g : Globals)
    (hs : B.shaped) (hp : port < 4) (hd : device < 8)
    (hlt : device < B.SensorI2CDevices.getD port 0)
    (hW : (B.SensorSettings.getD port []).getD device 0 &&& BIT_I2C_SAME = 0 →
      (B.SensorI2CWrite.getD port []).getD device 0 ≤ 16) :
    BrickPiUpdateValues.i2cOutDevices B port (fuel + 1) device g =
      match addFields 1 (valuesI2CDeviceFields B port device) g with
      | none => none
      | some g => BrickPiUpdateValues.i2cOutDevices B port fuel (device + 1) g := by
  obtain ⟨_, hS, hWr, hRd, hO, hO2, _, _⟩ := shaped_rows B hs port hp
  have hs' := hs
  obtain ⟨_, _, _, s1, _, w1, _, r1, _, o1, _, _, _⟩ := hs'
  have hm : (device + 1) % 256 = device + 1 := Nat.mod_eq_of_lt (by omega)
  have hset := readAt2_eq B.SensorSettings port device (by omega) (by omega)
  have hw := readAt2_eq B.SensorI2CWrite port device (by omega) (by omega)
  have hr := readAt2_eq B.SensorI2CRead port device (by omega) (by omega)
  rw [BrickPiUpdateValues.i2cOutDevices, if_pos hlt, hset, hm]
  unfold valuesI2CDeviceFields
  dsimp only
  by_cases hsame : (B.SensorSettings.getD port []).getD device 0 &&& BIT_I2C_SAME = 0
  · rw [if_pos hsame, if_pos hsame, hw, hr]
    dsimp only
    have hI := fun g => I2COutBytes_fields B 1 port device _ hs hp hd (hW hsame) 256 0 g
      (by omega) (by have := hW hsame; omega)
    unfold i2cLengthFields i2cLiteralFields
    simp only [hI, ← range_eq_range_zero, addFields]
    cases AddBits 1 0 4 ((B.SensorI2CWrite.getD port []).getD device 0) g with
    | none => rfl
    | some g1 =>
      dsimp only
      cases AddBits 1 0 4 ((B.SensorI2CRead.getD port []).getD device 0) g1 with
      | none => rfl
      | some g2 => rfl
  · rw [if_neg hsame, if_neg hsame]
    rfl

/-- One round of the device loop of `BrickPiSetupSensors` is the appending of
the fields of the device. -/
theorem SetupSensors_devices_step (B : BrickPiStruct) (port device fuel : Nat) (g : Globals)
    (hs : B.shaped) (hA1 : B.SensorI2CAddr.length = 4)
    (hA2 : ∀ r ∈ B.SensorI2CAddr, r.length = 8) (hp : port < 4) (hd : device < 8)
    (hlt : device < B.SensorI2CDevices.getD port 0)
    (hW : (B.SensorSettings.getD port []).getD device 0 &&& BIT_I2C_SAME ≠ 0 →
      (B.SensorI2CWrite.getD port []).getD device 0 ≤ 16) :
    BrickPiSetupSensors.devices B port (fuel + 1) device g =
      match addFields 3 (sensorTypeDeviceFields B port device) g with
      | none => none
      | some g => BrickPiSetupSensors.devices B port fuel (device + 1) g := by
  obtain ⟨_, hS, hWr, hRd, hO, hO2, _, _⟩ := shaped_rows B hs port hp
  have hs' := hs
  obtain ⟨_, _, _, s1, _, w1, _, r1, _, o1, _, _, _⟩ := hs'
  have hm : (device + 1) % 256 = device + 1 := Nat.mod_eq_of_lt (by omega)
  have hAr : (B.SensorI2CAddr.getD port []).length = 8 :=
    hA2 _ (getD_nil_mem _ port (by omega))
  have haddr := readAt2_eq B.SensorI2CAddr port device (by omega) (by omega)
  have hset := readAt2_eq B.SensorSettings port device (by omega) (by omega)
  have hw := readAt2_eq B.SensorI2CWrite port device (by omega) (by omega)
  have hr := readAt2_eq B.SensorI2CRead port device (by omega) (by omega)
  have hsh : ∀ a : Nat, a >>> 1 = a / 2 := fun a => by
    rw [Nat.shiftRight_eq_div_pow, pow_one]
  rw [BrickPiSetupSensors.devices, if_pos hlt, haddr, hm]
  dsimp only
  rw [hsh]
  unfold sensorTypeDeviceFields
  simp only [addFields]
  cases AddBits 3 0 7 ((B.SensorI2CAddr.getD port []).getD device 0 / 2) g with
  | none => rfl
  | some g1 =>
    dsimp only
    rw [hset]
    dsimp only
    cases AddBits 3 0 2 ((B.SensorSettings.getD port []).getD device 0) g1 with
    | none => rfl
    | some g2 =>
      dsimp only
      by_cases hsame : (B.SensorSettings.getD port []).getD device 0 &&& BIT_I2C_SAME ≠ 0
      · rw [if_pos hsame, if_pos hsame, hw, hr]
        dsimp only
        have hI := fun g => I2COutBytes_fields B 3 port device _ hs hp hd (hW hsame) 256 0 g
          (by omega) (by have := hW hsame; omega)
        unfold i2cLengthFields i2cLiteralFields
        simp only [hI, ← range_eq_range_zero, addFields]
        cases AddBits 3 0 4 ((B.SensorI2CWrite.getD port []).getD device 0) g2 with
        | none => rfl
        | some g3 =>
          dsimp only
          cases AddBits 3 0 4 ((B.SensorI2CRead.getD port []).getD device 0) g3 with
          | none => rfl
          | some g4 => rfl
      · rw [if_neg hsame, if_neg hsame]
        rfl

/-- The device loop of `BrickPiSetupSensors` is the appending of the fields of
the devices `device`, ... of the port, in order. -/
theorem SetupSensors_devices_fields (B : BrickPiStruct) (port : Nat)
    (hs : B.shaped) (hA1 : B.SensorI2CAddr.length = 4)
    (hA2 : ∀ r ∈ B.SensorI2CAddr, r.length = 8) (hp : port < 4)
    (hD : B.SensorI2CDevices.getD port 0 ≤ 8)
    (hW : ∀ device, device < 8 →
      (B.SensorSettings.getD port []).getD device 0 &&& BIT_I2C_SAME ≠ 0 →
      (B.SensorI2CWrite.getD port []).getD device 0 ≤ 16) :
    ∀ (fuel device : Nat) (g : Globals), device ≤ B.SensorI2CDevices.getD port 0 →
      B.SensorI2CDevices.getD port 0 - device < fuel →
      BrickPiSetupSensors.devices B port fuel device g =
        addFields 3 ((List.range' device (B.SensorI2CDevices.getD port 0 - device)).flatMap
          (sensorTypeDeviceFields B port)) g := by
  intro fuel
  induction fuel with
  | zero => intro d g _ h; omega
  | succ fuel ih =>
    intro d g hd hf
    by_cases hlt : d < B.SensorI2CDevices.getD port 0
    · have hr : B.SensorI2CDevices.getD port 0 - d =
          (B.SensorI2CDevices.getD port 0 - (d + 1)) + 1 := by omega
      rw [SetupSensors_devices_step B port d fuel g hs hA1 hA2 hp (by omega) hlt
        (hW d (by omega)), hr, List.range'_succ, List.flatMap_cons, addFields_append]
      cases addFields 3 (sensorTypeDeviceFields B port d) g with
      | none => rfl
      | some g1 => exact ih (d + 1) g1 (by omega) (by omega)
    · have : B.SensorI2CDevices.getD port 0 - d = 0 := by omega
      rw [BrickPiSetupSensors.devices, if_neg hlt, this]
      rfl

theorem set_getD_self (l : List Nat) (i : Nat) : l.set i (l.getD i 0) = l := by
  apply List.ext_getElem
  · rw [List.length_set]
  · intro n h1 h2
    rw [List.getElem_set]
    split_ifs with h
    · subst h
      rw [List.getD_eq_getElem _ _ h2]
    · rfl

theorem clampDevices_bounds (n : Nat) : 1 ≤ clampDevices n ∧ clampDevices n ≤ 8 := by
  unfold clampDevices
  split_ifs <;> omega

/-- One round of the port loop of `BrickPiSetupSensors` is the appending of the
fields of the port; an I2C port is left with its device count in 1..8. -/
theorem SetupSensors_sensorPort_fields (i ii : Nat) (B : BrickPiStruct) (g : Globals)
    (hi : i < 2) (hii : ii < 2) (hs : B.shaped) (hDl : B.SensorI2CDevices.length = 4)
    (hA1 : B.SensorI2CAddr.length = 4) (hA2 : ∀ r ∈ B.SensorI2CAddr, r.length = 8)
    (hW : ∀ device, device < 8 →
      (B.SensorSettings.getD (i * 2 + ii) []).getD device 0 &&& BIT_I2C_SAME ≠ 0 →
      (B.SensorI2CWrite.getD (i * 2 + ii) []).getD device 0 ≤ 16)
    (hty : g.Array.getD (BYTE_SENSOR_1_TYPE + ii) 0 = B.SensorType.getD (i * 2 + ii) 0) :
    BrickPiSetupSensors.sensorPort i ii B g =
      match addFields 3 (sensorTypePortFields B (i * 2 + ii)) g with
      | none => none
      | some g1 => some (clampPort B (i * 2 + ii), g1) := by
  have hpm : (i * 2 + ii) % 256 = i * 2 + ii := Nat.mod_eq_of_lt (by omega)
  have hp : i * 2 + ii < 4 := by omega
  obtain ⟨hc1, hc8⟩ := clampDevices_bounds (B.SensorI2CDevices.getD (i * 2 + ii) 0)
  have key : ∀ (L : List Nat) (g1 : Globals),
      L.getD (i * 2 + ii) 0 = clampDevices (B.SensorI2CDevices.getD (i * 2 + ii) 0) →
      (match AddBits 3 0 3 (toULong ((L.getD (i * 2 + ii) 0 : Int) - 1)) g1 with
        | none => none
        | some g2 =>
          match BrickPiSetupSensors.devices { B with SensorI2CDevices := L } (i * 2 + ii)
              256 0 g2 with
          | none => none
          | some g3 => some (({ B with SensorI2CDevices := L } : BrickPiStruct), g3)) =
        match AddBits 3 0 3 (clampDevices (B.SensorI2CDevices.getD (i * 2 + ii) 0) - 1) g1 with
        | none => none
        | some g2 =>
          match addFields 3 ((List.range (clampDevices
              (B.SensorI2CDevices.getD (i * 2 + ii) 0))).flatMap
              (sensorTypeDeviceFields B (i * 2 + ii))) g2 with
          | none => none
          | some g3 => some (({ B with SensorI2CDevices := L } : BrickPiStruct), g3) := by
    intro L g1 hL
    have hu : toULong ((L.getD (i * 2 + ii) 0 : Int) - 1) =
        clampDevices (B.SensorI2CDevices.getD (i * 2 + ii) 0) - 1 := by
      rw [hL, toULong_eq _ (by omega) (by omega)]
      omega
    have hdev := fun g2 => SetupSensors_devices_fields { B with SensorI2CDevices := L }
      (i * 2 + ii) hs hA1 hA2 hp (by dsimp only; omega) hW 256 0 g2 (Nat.zero_le _)
      (by dsimp only; omega)
    dsimp only at hdev
    rw [hL] at hdev
    have hf : sensorTypeDeviceFields { B with SensorI2CDevices := L } (i * 2 + ii) =
        sensorTypeDeviceFields B (i * 2 + ii) := rfl
    rw [hf, ← range_eq_range_zero] at hdev
    simp only [hu, hdev]
  unfold BrickPiSetupSensors.sensorPort
  dsimp only
  rw [hpm, hty]
  by_cases hI : B.SensorType.getD (i * 2 + ii) 0 = TYPE_SENSOR_I2C ∨
      B.SensorType.getD (i * 2 + ii) 0 = TYPE_SENSOR_I2C_9V
  · unfold sensorTypePortFields clampPort
    rw [if_pos hI, if_pos hI, if_pos hI]
    simp only [addFields]
    cases AddBits 3 0 8 (B.SensorI2CSpeed.getD (i * 2 + ii) 0) g with
    | none => rfl
    | some g1 =>
      dsimp only
      by_cases h8 : B.SensorI2CDevices.getD (i * 2 + ii) 0 > 8
      · have hc : clampDevices (B.SensorI2CDevices.getD (i * 2 + ii) 0) = 8 := by
          unfold clampDevices
          rw [if_pos h8]
        have hg : (B.SensorI2CDevices.set (i * 2 + ii) 8).getD (i * 2 + ii) 0 = 8 := by
          rw [getD_set_eq, if_pos ⟨rfl, by omega⟩]
        rw [if_pos h8]
        dsimp only
        rw [hg, if_neg (by decide)]
        dsimp only
        refine (key (B.SensorI2CDevices.set (i * 2 + ii) 8) g1 (by rw [hg, hc])).trans ?_
        rw [hc]
        cases AddBits 3 0 3 (8 - 1) g1 <;> rfl
      · rw [if_neg h8]
        by_cases h0 : B.SensorI2CDevices.getD (i * 2 + ii) 0 = 0
        · have hc : clampDevices (B.SensorI2CDevices.getD (i * 2 + ii) 0) = 1 := by
            unfold clampDevices
            rw [if_neg h8, if_pos h0]
          have hg : (B.SensorI2CDevices.set (i * 2 + ii) 1).getD (i * 2 + ii) 0 = 1 := by
            rw [getD_set_eq, if_pos ⟨rfl, by omega⟩]
          rw [if_pos h0]
          dsimp only
          refine (key (B.SensorI2CDevices.set (i * 2 + ii) 1) g1 (by rw [hg, hc])).trans ?_
          rw [hc]
          cases AddBits 3 0 3 (1 - 1) g1 <;> rfl
        · have hc : clampDevices (B.SensorI2CDevices.getD (i * 2 + ii) 0) =
              B.SensorI2CDevices.getD (i * 2 + ii) 0 := by
            unfold clampDevices
            rw [if_neg h8, if_neg h0]
          rw [if_neg h0]
          refine (key B.SensorI2CDevices g1 hc.symm).trans ?_
          rw [hc, set_getD_self]
          cases AddBits 3 0 3 (B.SensorI2CDevices.getD (i * 2 + ii) 0 - 1) g1 <;> rfl
  · unfold sensorTypePortFields clampPort
    rw [if_neg hI, if_neg hI, if_neg hI]
    rfl

theorem i2cLiteralFields_le (B : BrickPiStruct) (port device : Nat) :
    ∀ x ∈ i2cLiteralFields B port device, x.1 ≤ 32 := by
  intro x hx
  unfold i2cLiteralFields at hx
  rw [List.mem_map] at hx
  obtain ⟨k, _, hk⟩ := hx
  rw [← hk]
  norm_num

theorem sensorTypeDeviceFields_le (B : BrickPiStruct) (port device : Nat) :
    ∀ x ∈ sensorTypeDeviceFields B port device, x.1 ≤ 32 := by
  intro x hx
  unfold sensorTypeDeviceFields at hx
  rw [List.mem_cons, List.mem_cons] at hx
  rcases hx with h | h | h
  · rw [h]; norm_num
  · rw [h]; norm_num
  · split_ifs at h
    · unfold i2cLengthFields at h
      rw [List.mem_cons, List.mem_cons] at h
      rcases h with h | h | h
      · rw [h]; norm_num
      · rw [h]; norm_num
      · exact i2cLiteralFields_le B port device x h
    · exact absurd h (List.not_mem_nil x)

theorem sensorTypePortFields_le (B : BrickPiStruct) (port : Nat) :
    ∀ x ∈ sensorTypePortFields B port, x.1 ≤ 32 := by
  intro x hx
  unfold sensorTypePortFields at hx
  split_ifs at hx
  · rw [List.mem_cons, List.mem_cons, List.mem_flatMap] at hx
    rcases hx with h | h | ⟨d, _, h⟩
    · rw [h]; norm_num
    · rw [h]; norm_num
    · exact sensorTypeDeviceFields_le B port d x h
  · exact absurd hx (List.not_mem_nil x)

/-- The clamping of one port changes the device counts only, and there only the
entry of the port. -/
theorem clampPort_spec (B : BrickPiStruct) (port : Nat) :
    ∃ L, clampPort B port = { B with SensorI2CDevices := L } ∧
      L.length = B.SensorI2CDevices.length ∧
      (∀ q, q ≠ port → L.getD q 0 = B.SensorI2CDevices.getD q 0) := by
  unfold clampPort
  split_ifs
  · refine ⟨_, rfl, List.length_set _ _ _, ?_⟩
    intro q hq
    rw [getD_set_eq, if_neg (fun h => hq h.1.symm)]
  · exact ⟨B.SensorI2CDevices, rfl, rfl, fun _ _ => rfl⟩

theorem sensorTypePortFields_congr (B : BrickPiStruct) (L : List Nat) (port : Nat)
    (h : L.getD port 0 = B.SensorI2CDevices.getD port 0) :
    sensorTypePortFields { B with SensorI2CDevices := L } port = sensorTypePortFields B port := by
  unfold sensorTypePortFields
  dsimp only
  rw [h]
  rfl

/-- The buffer `BrickPiSetupSensors` starts a message with: kind and the two
type bytes, zero from byte 3 on. -/
theorem SetupSensors_header (t0 t1 : Nat) :
    ((((List.replicate 256 0).set 0 MSG_TYPE_SENSOR_TYPE).set BYTE_SENSOR_1_TYPE t0).set
        BYTE_SENSOR_2_TYPE t1).length = 256 ∧
      ((((List.replicate 256 0).set 0 MSG_TYPE_SENSOR_TYPE).set BYTE_SENSOR_1_TYPE t0).set
        BYTE_SENSOR_2_TYPE t1).getD 0 0 = MSG_TYPE_SENSOR_TYPE ∧
      ((((List.replicate 256 0).set 0 MSG_TYPE_SENSOR_TYPE).set BYTE_SENSOR_1_TYPE t0).set
        BYTE_SENSOR_2_TYPE t1).getD 1 0 = t0 ∧
      ((((List.replicate 256 0).set 0 MSG_TYPE_SENSOR_TYPE).set BYTE_SENSOR_1_TYPE t0).set
        BYTE_SENSOR_2_TYPE t1).getD 2 0 = t1 ∧
      (∀ P, 24 ≤ P → bitOf ((((List.replicate 256 0).set 0 MSG_TYPE_SENSOR_TYPE).set
        BYTE_SENSOR_1_TYPE t0).set BYTE_SENSOR_2_TYPE t1) P = false) := by
  have hl : ∀ (a b c : Nat), ((((List.replicate 256 0).set 0 a).set 1 b).set 2 c).length =
      256 := by
    intro a b c
    rw [List.length_set, List.length_set, List.length_set, List.length_replicate]
  have hl2 : ∀ (a b : Nat), (((List.replicate 256 0).set 0 a).set 1 b).length = 256 := by
    intro a b
    rw [List.length_set, List.length_set, List.length_replicate]
  have hl1 : ∀ (a : Nat), ((List.replicate 256 0).set 0 a).length = 256 := by
    intro a
    rw [List.length_set, List.length_replicate]
  refine ⟨hl _ _ _, ?_, ?_, ?_, ?_⟩
  · show ((((List.replicate 256 0).set 0 MSG_TYPE_SENSOR_TYPE).set 1 t0).set 2 t1).getD 0 0 = _
    rw [getD_set_eq, if_neg (by omega), getD_set_eq, if_neg (by omega), getD_set_eq,
      if_pos ⟨rfl, by rw [List.length_replicate]; omega⟩]
  · show ((((List.replicate 256 0).set 0 MSG_TYPE_SENSOR_TYPE).set 1 t0).set 2 t1).getD 1 0 = _
    rw [getD_set_eq, if_neg (by omega), getD_set_eq, if_pos ⟨rfl, by rw [hl1]; omega⟩]
  · show ((((List.replicate 256 0).set 0 MSG_TYPE_SENSOR_TYPE).set 1 t0).set 2 t1).getD 2 0 = _
    rw [getD_set_eq, if_pos ⟨rfl, by rw [hl2]; omega⟩]
  · intro P hP
    show bitOf ((((List.replicate 256 0).set 0 MSG_TYPE_SENSOR_TYPE).set 1 t0).set 2 t1) P = _
    unfold bitOf
    rw [getD_set_eq, if_neg (by omega), getD_set_eq, if_neg (by omega), getD_set_eq,
      if_neg (by omega), getD_replicate_zero]
    exact Nat.zero_testBit _

/-! ## The write-length field of an I2C device -/

theorem fieldsAt_bytes (A : List Nat) (f : Nat → Nat) :
    ∀ (n s base : Nat), fieldsAt A base ((List.range' s n).map (fun k => (8, f k))) →
      ∀ j, j < n → readBits A (base + 8 * j) 8 = f (s + j) % 2 ^ 8 := by
  intro n
  induction n with
  | zero => intro s base _ j hj; omega
  | succ n ih =>
    intro s base h j hj
    rw [List.range'_succ, List.map_cons] at h
    obtain ⟨h0, h1⟩ := h
    match j with
    | 0 => exact h0
    | j + 1 =>
      have := ih (s + 1) (base + 8) h1 j (by omega)
      have e1 : base + 8 * (j + 1) = base + 8 + 8 * j := by omega
      have e2 : s + (j + 1) = s + 1 + j := by omega
      rw [e1, e2]
      exact this

theorem fieldsWidth_bytes (f : Nat → Nat) :
    ∀ (n s : Nat), fieldsWidth ((List.range' s n).map (fun k => (8, f k))) = 8 * n := by
  intro n
  induction n with
  | zero => intro s; rfl
  | succ n ih =>
    intro s
    rw [List.range'_succ, List.map_cons, fieldsWidth_cons, ih]
    omega

theorem mem_bytes_width (f : Nat → Nat) (n s : Nat) :
    ∀ x ∈ (List.range' s n).map (fun k => (8, f k)), x.1 ≤ 32 := by
  intro x hx
  rw [List.mem_map] at hx
  obtain ⟨k, _, hk⟩ := hx
  rw [← hk]
  norm_num

theorem i2cLengthFields_width (B : BrickPiStruct) (port device : Nat) :
    fieldsWidth (i2cLengthFields B port device) =
      8 + 8 * (B.SensorI2CWrite.getD port []).getD device 0 := by
  unfold i2cLengthFields i2cLiteralFields
  rw [fieldsWidth_cons, fieldsWidth_cons, List.range_eq_range', fieldsWidth_bytes]
  omega

theorem i2cLengthFields_le (B : BrickPiStruct) (port device : Nat) :
    ∀ x ∈ i2cLengthFields B port device, x.1 ≤ 32 := by
  intro x hx
  unfold i2cLengthFields i2cLiteralFields at hx
  rw [List.mem_cons, List.mem_cons, List.range_eq_range'] at hx
  rcases hx with h | h | h
  · rw [h]; norm_num
  · rw [h]; norm_num
  · exact mem_bytes_width _ _ _ x h

/-- The length fields of a device at bit `base` of the buffer: the write
length field, the read length field, and as many literal bytes as the write
length. -/
theorem i2cLengthFields_at (B : BrickPiStruct) (port device : Nat) (A : List Nat) (base : Nat)
    (h : fieldsAt A base (i2cLengthFields B port device)) :
    readBits A base 4 = (B.SensorI2CWrite.getD port []).getD device 0 % 2 ^ 4 ∧
      readBits A (base + 4) 4 = (B.SensorI2CRead.getD port []).getD device 0 % 2 ^ 4 ∧
      ∀ k, k < (B.SensorI2CWrite.getD port []).getD device 0 →
        readBits A (base + 8 + 8 * k) 8 =
          ((B.SensorI2COut.getD port []).getD device []).getD k 0 % 2 ^ 8 := by
  unfold i2cLengthFields i2cLiteralFields at h
  obtain ⟨h0, h1, h2⟩ := h
  rw [List.range_eq_range'] at h2
  refine ⟨h0, h1, ?_⟩
  intro k hk
  have := fieldsAt_bytes A (fun k => ((B.SensorI2COut.getD port []).getD device []).getD k 0)
    _ 0 (base + 4 + 4) h2 k hk
  rw [Nat.zero_add] at this
  exact this

/-- The device loop of the outbound ValuesExchange is the appending of the
fields of the devices `device`, ... of the port, in order. -/
theorem i2cOutDevices_fields (B : BrickPiStruct) (port : Nat)
    (hs : B.shaped) (hp : port < 4) (hD : B.SensorI2CDevices.getD port 0 ≤ 8)
    (hW : ∀ device, device < 8 →
      (B.SensorSettings.getD port []).getD device 0 &&& BIT_I2C_SAME = 0 →
      (B.SensorI2CWrite.getD port []).getD device 0 ≤ 16) :
    ∀ (fuel device : Nat) (g : Globals), device ≤ B.SensorI2CDevices.getD port 0 →
      B.SensorI2CDevices.getD port 0 - device < fuel →
      BrickPiUpdateValues.i2cOutDevices B port fuel device g =
        addFields 1 ((List.range' device (B.SensorI2CDevices.getD port 0 - device)).flatMap
          (valuesI2CDeviceFields B port)) g := by
  intro fuel
  induction fuel with
  | zero => intro d g _ h; omega
  | succ fuel ih =>
    intro d g hd hf
    by_cases hlt : d < B.SensorI2CDevices.getD port 0
    · have hr : B.SensorI2CDevices.getD port 0 - d =
          (B.SensorI2CDevices.getD port 0 - (d + 1)) + 1 := by omega
      rw [i2cOutDevices_step B port d fuel g hs hp (by omega) hlt (hW d (by omega)), hr,
        List.range'_succ, List.flatMap_cons, addFields_append]
      cases addFields 1 (valuesI2CDeviceFields B port d) g with
      | none => rfl
      | some g1 => exact ih (d + 1) g1 (by omega) (by omega)
    · have : B.SensorI2CDevices.getD port 0 - d = 0 := by omega
      rw [BrickPiUpdateValues.i2cOutDevices, if_neg hlt, this]
      rfl

theorem valuesI2CDeviceFields_le (B : BrickPiStruct) (port device : Nat) :
    ∀ x ∈ valuesI2CDeviceFields B port device, x.1 ≤ 32 := by
  intro x hx
  unfold valuesI2CDeviceFields at hx
  split_ifs at hx
  · exact i2cLengthFields_le B port device x hx
  · exact absurd hx (List.not_mem_nil x)

theorem flatMap_fields_le (f : Nat → List (Nat × Nat)) (hf : ∀ d, ∀ x ∈ f d, x.1 ≤ 32)
    (l : List Nat) : ∀ x ∈ l.flatMap f, x.1 ≤ 32 := by
  intro x hx
  rw [List.mem_flatMap] at hx
  obtain ⟨d, _, h⟩ := hx
  exact hf d x h

/-- The fields of the devices `device`, ... of a port begin with those of the
device `device`. -/
theorem flatMap_range_step (f : Nat → List (Nat × Nat)) (D device : Nat) (h : device < D) :
    (List.range' device (D - device)).flatMap f =
      f device ++ (List.range' (device + 1) (D - (device + 1))).flatMap f := by
  have hr : D - device = (D - (device + 1)) + 1 := by omega
  rw [hr, List.range'_succ, List.flatMap_cons]

/-- C24 (amended): for an I2C device with write length `Write` in 0..15 (arrays
with the dimensions of the C declaration, at most 8 devices with write lengths
at most 16, buffer clean from the cursor on, the fields of the devices from this
one on inside it) the device loop started at the device returns, and in the
message it leaves the 4-bit write-length field of the device carries `Write`,
the 4-bit read-length field follows, then exactly `Write` literal bytes, those
of `SensorI2COut[port][device]`, and right after them the fields of the next
devices begin: in the outbound ValuesExchange for a device not flagged
`BIT_I2C_SAME` (fields from the cursor on, `8 + 8 * Write` bits), in the
SensorTypeConfig message for a flagged device (after the 9 bits of address and
flags, `17 + 8 * Write` bits in all). -/
theorem i2c_write_length_field (B : BrickPiStruct) (port device fuel c Write : Nat)
    (A : List Nat) (hs : B.shaped) (hA1 : B.SensorI2CAddr.length = 4)
    (hA2 : ∀ r ∈ B.SensorI2CAddr, r.length = 8) (hp : port < 4)
    (hD : B.SensorI2CDevices.getD port 0 ≤ 8)
    (hlt : device < B.SensorI2CDevices.getD port 0)
    (hfuel : B.SensorI2CDevices.getD port 0 - device < fuel)
    (hWr : Write = (B.SensorI2CWrite.getD port []).getD device 0)
    (hW : Write ≤ 15)
    (hW16 : ∀ d, d < 8 → (B.SensorI2CWrite.getD port []).getD d 0 ≤ 16)
    (hlen : A.length = 256) :
    ((B.SensorSettings.getD port []).getD device 0 &&& BIT_I2C_SAME = 0 →
      8 + c + fieldsWidth ((List.range' device
        (B.SensorI2CDevices.getD port 0 - device)).flatMap (valuesI2CDeviceFields B port)) ≤
        2048 →
      (∀ P, 8 + c ≤ P → bitOf A P = false) →
      ∃ A', BrickPiUpdateValues.i2cOutDevices B port fuel device ⟨A, c⟩ =
          some ⟨A', c + (8 + 8 * Write) + fieldsWidth ((List.range' (device + 1)
            (B.SensorI2CDevices.getD port 0 - (device + 1))).flatMap
            (valuesI2CDeviceFields B port))⟩ ∧
        (∀ P, P < 8 + c → bitOf A' P = bitOf A P) ∧
        readBits A' (8 + c) 4 = Write ∧
        readBits A' (8 + c + 4) 4 = (B.SensorI2CRead.getD port []).getD device 0 % 16 ∧
        (∀ k, k < Write →
          readBits A' (8 + c + 8 + 8 * k) 8 =
            ((B.SensorI2COut.getD port []).getD device []).getD k 0 % 256) ∧
        fieldsAt A' (8 + c + (8 + 8 * Write)) ((List.range' (device + 1)
          (B.SensorI2CDevices.getD port 0 - (device + 1))).flatMap
          (valuesI2CDeviceFields B port))) ∧
    ((B.SensorSettings.getD port []).getD device 0 &&& BIT_I2C_SAME ≠ 0 →
      24 + c + fieldsWidth ((List.range' device
        (B.SensorI2CDevices.getD port 0 - device)).flatMap (sensorTypeDeviceFields B port)) ≤
        2048 →
      (∀ P, 24 + c ≤ P → bitOf A P = false) →
      ∃ A', BrickPiSetupSensors.devices B port fuel device ⟨A, c⟩ =
          some ⟨A', c + (17 + 8 * Write) + fieldsWidth ((List.range' (device + 1)
            (B.SensorI2CDevices.getD port 0 - (device + 1))).flatMap
            (sensorTypeDeviceFields B port))⟩ ∧
        (∀ P, P < 24 + c → bitOf A' P = bitOf A P) ∧
        readBits A' (24 + c + 9) 4 = Write ∧
        readBits A' (24 + c + 13) 4 = (B.SensorI2CRead.getD port []).getD device 0 % 16 ∧
        (∀ k, k < Write →
          readBits A' (24 + c + 17 + 8 * k) 8 =
            ((B.SensorI2COut.getD port []).getD device []).getD k 0 % 256) ∧
        fieldsAt A' (24 + c + (17 + 8 * Write)) ((List.range' (device + 1)
          (B.SensorI2CDevices.getD port 0 - (device + 1))).flatMap
          (sensorTypeDeviceFields B port))) := by
  subst hWr
  have hw := i2cLengthFields_width B port device
  constructor
  · intro hsame hin hclean
    have hstep := flatMap_range_step (valuesI2CDeviceFields B port)
      (B.SensorI2CDevices.getD port 0) device hlt
    have hdev : valuesI2CDeviceFields B port device = i2cLengthFields B port device := by
      unfold valuesI2CDeviceFields
      rw [if_pos hsame]
    rw [hdev] at hstep
    obtain ⟨A', he, _, hb, _, hf, _⟩ := addFields_spec 1 (by norm_num)
      ((List.range' device (B.SensorI2CDevices.getD port 0 - device)).flatMap
        (valuesI2CDeviceFields B port)) ⟨A, c⟩ hlen
      (flatMap_fields_le _ (valuesI2CDeviceFields_le B port) _)
      (by dsimp only; omega) (by simpa using hclean)
    dsimp only at he hb hf
    have e8 : 8 * 1 + c = 8 + c := by omega
    rw [e8] at hb hf
    rw [hstep, fieldsWidth_append, hw] at he
    rw [hstep, fieldsAt_append, hw] at hf
    obtain ⟨f0, f1, f2⟩ := i2cLengthFields_at B port device A' (8 + c) hf.1
    refine ⟨A', ?_, hb, ?_, f1, f2, hf.2⟩
    · rw [i2cOutDevices_fields B port hs hp hD (fun d hd _ => hW16 d hd) fuel device ⟨A, c⟩
        (by omega) hfuel, hstep, he, Nat.add_assoc c]
    · rw [f0]
      exact Nat.mod_eq_of_lt (by omega)
  · intro hsame hin hclean
    have hstep := flatMap_range_step (sensorTypeDeviceFields B port)
      (B.SensorI2CDevices.getD port 0) device hlt
    have hfw : fieldsWidth (sensorTypeDeviceFields B port device) =
        17 + 8 * (B.SensorI2CWrite.getD port []).getD device 0 := by
      unfold sensorTypeDeviceFields
      rw [if_pos hsame, fieldsWidth_cons, fieldsWidth_cons, hw]
      omega
    obtain ⟨A', he, _, hb, _, hf, _⟩ := addFields_spec 3 (by norm_num)
      ((List.range' device (B.SensorI2CDevices.getD port 0 - device)).flatMap
        (sensorTypeDeviceFields B port)) ⟨A, c⟩ hlen
      (flatMap_fields_le _ (sensorTypeDeviceFields_le B port) _)
      (by dsimp only; omega) (by simpa using hclean)
    dsimp only at he hb hf
    have e8 : 8 * 3 + c = 24 + c := by omega
    rw [e8] at hb hf
    rw [hstep, fieldsWidth_append, hfw] at he
    rw [hstep, fieldsAt_append, hfw] at hf
    obtain ⟨hf0, hf1⟩ := hf
    unfold sensorTypeDeviceFields at hf0
    rw [if_pos hsame] at hf0
    obtain ⟨_, _, hf0⟩ := hf0
    obtain ⟨f0, f1, f2⟩ := i2cLengthFields_at B port device A' (24 + c + 7 + 2) hf0
    refine ⟨A', ?_, hb, ?_, ?_, ?_, hf1⟩
    · rw [SetupSensors_devices_fields B port hs hA1 hA2 hp hD (fun d hd _ => hW16 d hd) fuel
        device ⟨A, c⟩ (by omega) hfuel, hstep, he, Nat.add_assoc c]
    · have e : 24 + c + 9 = 24 + c + 7 + 2 := by omega
      rw [e, f0]
      exact Nat.mod_eq_of_lt (by omega)
    · have e : 24 + c + 13 = 24 + c + 7 + 2 + 4 := by omega
      rw [e]
      exact f1
    · intro k hk
      have e : 24 + c + 17 + 8 * k = 24 + c + 7 + 2 + 8 + 8 * k := by omega
      rw [e]
      exact f2 k hk

set_option maxRecDepth 100000 in
/-- Two devices with the write lengths 2 and 1: the loop returns, the field
of the first device carries 2, the bytes `0xAA` and `0xBB` follow the read
length, and the write-length field of the second device comes right after. -/
theorem i2c_write_length_field_witness :
    (∃ A', BrickPiUpdateValues.i2cOutDevices
        { BrickPi_zero with
        SensorType := [41, 0, 0, 0], SensorI2CDevices := [2, 0, 0, 0],
        SensorSettings := [[0, 0, 0, 0, 0, 0, 0, 0], List.replicate 8 0, List.replicate 8 0,
          List.replicate 8 0],
        SensorI2CWrite := [[2, 1, 0, 0, 0, 0, 0, 0], List.replicate 8 0, List.replicate 8 0,
          List.replicate 8 0],
        SensorI2CRead := [[3, 0, 0, 0, 0, 0, 0, 0], List.replicate 8 0, List.replicate 8 0,
          List.replicate 8 0],
        SensorI2COut := [([0xAA, 0xBB] ++ List.replicate 14 0) ::
          (0xCC :: List.replicate 15 0) :: List.replicate 6 (List.replicate 16 0),
          List.replicate 8 (List.replicate 16 0), List.replicate 8 (List.replicate 16 0),
          List.replicate 8 (List.replicate 16 0)] } 0 256 0
        ⟨List.replicate 256 0, 0⟩ = some ⟨A', 40⟩ ∧
      readBits A' 8 4 = 2 ∧ readBits A' 16 8 = 0xAA ∧ readBits A' 24 8 = 0xBB ∧
      readBits A' 32 4 = 1) ∧
    (∃ A', BrickPiSetupSensors.devices
        { BrickPi_zero with
        SensorType := [41, 0, 0, 0], SensorI2CDevices := [2, 0, 0, 0],
        SensorSettings := [[2, 2, 0, 0, 0, 0, 0, 0], List.replicate 8 0, List.replicate 8 0,
          List.replicate 8 0],
        SensorI2CWrite := [[2, 1, 0, 0, 0, 0, 0, 0], List.replicate 8 0, List.replicate 8 0,
          List.replicate 8 0],
        SensorI2CRead := [[3, 0, 0, 0, 0, 0, 0, 0], List.replicate 8 0, List.replicate 8 0,
          List.replicate 8 0],
        SensorI2COut := [([0xAA, 0xBB] ++ List.replicate 14 0) ::
          (0xCC :: List.replicate 15 0) :: List.replicate 6 (List.replicate 16 0),
          List.replicate 8 (List.replicate 16 0), List.replicate 8 (List.replicate 16 0),
          List.replicate 8 (List.replicate 16 0)] } 0 256 0
        ⟨List.replicate 256 0, 0⟩ = some ⟨A', 58⟩ ∧
      readBits A' 33 4 = 2 ∧ readBits A' 41 8 = 0xAA ∧ readBits A' 49 8 = 0xBB ∧
      readBits A' 66 4 = 1) := by
  constructor
  · obtain ⟨A', he, _, h4, _, hk, hn⟩ := (i2c_write_length_field
      { BrickPi_zero with
        SensorType := [41, 0, 0, 0], SensorI2CDevices := [2, 0, 0, 0],
        SensorSettings := [[0, 0, 0, 0, 0, 0, 0, 0], List.replicate 8 0, List.replicate 8 0,
          List.replicate 8 0],
        SensorI2CWrite := [[2, 1, 0, 0, 0, 0, 0, 0], List.replicate 8 0, List.replicate 8 0,
          List.replicate 8 0],
        SensorI2CRead := [[3, 0, 0, 0, 0, 0, 0, 0], List.replicate 8 0, List.replicate 8 0,
          List.replicate 8 0],
        SensorI2COut := [([0xAA, 0xBB] ++ List.replicate 14 0) ::
          (0xCC :: List.replicate 15 0) :: List.replicate 6 (List.replicate 16 0),
          List.replicate 8 (List.replicate 16 0), List.replicate 8 (List.replicate 16 0),
          List.replicate 8 (List.replicate 16 0)] } 0 0 256 0 2
      (List.replicate 256 0) (by unfold BrickPiStruct.shaped; decide) rfl (by decide)
      (by decide) (by decide) (by decide) (by decide) rfl (by decide)
      (by intro d hd; interval_cases d <;> decide) (List.length_replicate 256 0)).1
      (by decide) (by decide) (fun P _ => bitOf_replicate_zero 256 P)
    exact ⟨A', he, h4, hk 0 (by decide), hk 1 (by decide), hn.1⟩
  · obtain ⟨A', he, _, h4, _, hk, hn⟩ := (i2c_write_length_field
      { BrickPi_zero with
        SensorType := [41, 0, 0, 0], SensorI2CDevices := [2, 0, 0, 0],
        SensorSettings := [[2, 2, 0, 0, 0, 0, 0, 0], List.replicate 8 0, List.replicate 8 0,
          List.replicate 8 0],
        SensorI2CWrite := [[2, 1, 0, 0, 0, 0, 0, 0], List.replicate 8 0, List.replicate 8 0,
          List.replicate 8 0],
        SensorI2CRead := [[3, 0, 0, 0, 0, 0, 0, 0], List.replicate 8 0, List.replicate 8 0,
          List.replicate 8 0],
        SensorI2COut := [([0xAA, 0xBB] ++ List.replicate 14 0) ::
          (0xCC :: List.replicate 15 0) :: List.replicate 6 (List.replicate 16 0),
          List.replicate 8 (List.replicate 16 0), List.replicate 8 (List.replicate 16 0),
          List.replicate 8 (List.replicate 16 0)] } 0 0 256 0 2
      (List.replicate 256 0) (by unfold BrickPiStruct.shaped; decide) rfl (by decide)
      (by decide) (by decide) (by decide) (by decide) rfl (by decide)
      (by intro d hd; interval_cases d <;> decide) (List.length_replicate 256 0)).2
      (by decide) (by decide) (fun P _ => bitOf_replicate_zero 256 P)
    exact ⟨A', he, h4, hk 0 (by decide), hk 1 (by decide), hn.2.2.1⟩

set_option maxRecDepth 100000 in
/-- C24 fails as stated: a device with write length 16, the largest the data
model allows.  The round appends 16 literal bytes (the cursor advances by
`8 + 8 * 16 = 136` in the ValuesExchange, by `17 + 8 * 16 = 145` in the
SensorTypeConfig message), and the 4-bit write-length field carries 0. -/
theorem write_length_sixteen_counterexample :
    (BrickPiUpdateValues.i2cOutDevices
        { BrickPi_zero with
        SensorType := [41, 0, 0, 0], SensorI2CDevices := [1, 0, 0, 0],
        SensorSettings := [[0, 0, 0, 0, 0, 0, 0, 0], List.replicate 8 0, List.replicate 8 0,
          List.replicate 8 0],
        SensorI2CWrite := [[16, 0, 0, 0, 0, 0, 0, 0], List.replicate 8 0, List.replicate 8 0,
          List.replicate 8 0],
        SensorI2COut := [(List.replicate 16 0xFF) ::
          List.replicate 7 (List.replicate 16 0), List.replicate 8 (List.replicate 16 0),
          List.replicate 8 (List.replicate 16 0), List.replicate 8 (List.replicate 16 0)] } 0 256 0
        ⟨List.replicate 256 0, 0⟩).map (fun g => (g.Bit_Offset, readBits g.Array 8 4)) =
      some (136, 0) ∧
    (BrickPiSetupSensors.devices
        { BrickPi_zero with
        SensorType := [41, 0, 0, 0], SensorI2CDevices := [1, 0, 0, 0],
        SensorSettings := [[2, 0, 0, 0, 0, 0, 0, 0], List.replicate 8 0, List.replicate 8 0,
          List.replicate 8 0],
        SensorI2CWrite := [[16, 0, 0, 0, 0, 0, 0, 0], List.replicate 8 0, List.replicate 8 0,
          List.replicate 8 0],
        SensorI2COut := [(List.replicate 16 0xFF) ::
          List.replicate 7 (List.replicate 16 0), List.replicate 8 (List.replicate 16 0),
          List.replicate 8 (List.replicate 16 0), List.replicate 8 (List.replicate 16 0)] } 0 256 0
        ⟨List.replicate 256 0, 0⟩).map (fun g => (g.Bit_Offset, readBits g.Array 33 4)) =
      some (145, 0) := by
  constructor <;> decide

/-! ## The message of `BrickPiSetupSensors` -/

/-- The message `BrickPiSetupSensors` builds for link `i`: kind and type bytes,
then from byte 3 on the fields of the two ports in order, zero bits above. -/
theorem SetupSensors_build_spec (i : Nat) (B : BrickPiStruct) (hfit : setupFits B i) :
    ∃ A', BrickPiSetupSensors.build i B =
        some (clampPort (clampPort B (i * 2)) (i * 2 + 1),
          ⟨A', fieldsWidth (sensorTypePortFields B (i * 2) ++
            sensorTypePortFields B (i * 2 + 1))⟩) ∧
      A'.length = 256 ∧ A'.getD 0 0 = MSG_TYPE_SENSOR_TYPE ∧
      A'.getD 1 0 = B.SensorType.getD (i * 2) 0 ∧
      A'.getD 2 0 = B.SensorType.getD (i * 2 + 1) 0 ∧
      fieldsAt A' 24 (sensorTypePortFields B (i * 2) ++ sensorTypePortFields B (i * 2 + 1)) ∧
      (∀ P, 24 + fieldsWidth (sensorTypePortFields B (i * 2) ++
        sensorTypePortFields B (i * 2 + 1)) ≤ P → bitOf A' P = false) := by
  obtain ⟨hi, hs, hDl, hA1, hA2, hW, hbud⟩ := hfit
  have e0 : PORT_1 + i * 2 = i * 2 := by unfold PORT_1; omega
  have e1 : PORT_2 + i * 2 = i * 2 + 1 := by unfold PORT_2; omega
  obtain ⟨hl3, z0, z1, z2, zc⟩ := SetupSensors_header (B.SensorType.getD (i * 2) 0)
    (B.SensorType.getD (i * 2 + 1) 0)
  rw [fieldsWidth_append] at hbud ⊢
  obtain ⟨A4, he4, hl4, _, hb4, hf4, hz4⟩ := addFields_spec 3 (by norm_num)
    (sensorTypePortFields B (i * 2))
    ⟨(((List.replicate 256 0).set 0 MSG_TYPE_SENSOR_TYPE).set BYTE_SENSOR_1_TYPE
      (B.SensorType.getD (i * 2) 0)).set BYTE_SENSOR_2_TYPE (B.SensorType.getD (i * 2 + 1) 0), 0⟩
    hl3 (sensorTypePortFields_le B (i * 2)) (by dsimp only; omega)
    (fun P hP => zc P (by dsimp only at hP; omega))
  dsimp only at he4 hb4 hf4 hz4
  obtain ⟨A5, he5, hl5, hk5, hb5, hf5, hz5⟩ := addFields_spec 3 (by norm_num)
    (sensorTypePortFields B (i * 2 + 1))
    ⟨A4, 0 + fieldsWidth (sensorTypePortFields B (i * 2))⟩
    hl4 (sensorTypePortFields_le B (i * 2 + 1)) (by dsimp only; omega)
    (fun P hP => hz4 P (by dsimp only at hP; omega))
  dsimp only at he5 hk5 hb5 hf5 hz5
  obtain ⟨L, hcl, hLl, hLq⟩ := clampPort_spec B (i * 2)
  have hp0 := SetupSensors_sensorPort_fields i 0 B
    ⟨(((List.replicate 256 0).set 0 MSG_TYPE_SENSOR_TYPE).set BYTE_SENSOR_1_TYPE
      (B.SensorType.getD (i * 2) 0)).set BYTE_SENSOR_2_TYPE (B.SensorType.getD (i * 2 + 1) 0), 0⟩
    hi (by omega) hs hDl hA1 hA2 (fun d hd => hW (i * 2) d (Or.inl rfl) hd) z1
  simp only [Nat.add_zero] at hp0
  have hp1 := SetupSensors_sensorPort_fields i 1 { B with SensorI2CDevices := L }
    ⟨A4, 0 + fieldsWidth (sensorTypePortFields B (i * 2))⟩
    hi (by omega) hs (by rw [← hDl]; exact hLl) hA1 hA2
    (fun d hd => hW (i * 2 + 1) d (Or.inr rfl) hd)
    (by
      show A4.getD 2 0 = B.SensorType.getD (i * 2 + 1) 0
      rw [hb4 2 (by omega)]
      exact z2)
  rw [sensorTypePortFields_congr B L (i * 2 + 1) (hLq _ (by omega)), he5] at hp1
  have hz : 0 + fieldsWidth (sensorTypePortFields B (i * 2)) +
      fieldsWidth (sensorTypePortFields B (i * 2 + 1)) =
      fieldsWidth (sensorTypePortFields B (i * 2)) +
      fieldsWidth (sensorTypePortFields B (i * 2 + 1)) := by omega
  have h24 : 8 * 3 + (0 + fieldsWidth (sensorTypePortFields B (i * 2))) =
      24 + fieldsWidth (sensorTypePortFields B (i * 2)) := by omega
  rw [hz] at hp1
  rw [h24] at hf5
  refine ⟨A5, ?_, hl5, ?_, ?_, ?_, ?_, ?_⟩
  · unfold BrickPiSetupSensors.build
    dsimp only
    rw [e0, e1, hp0, he4]
    dsimp only
    rw [hcl]
    exact hp1
  · rw [hb5 0 (by omega), hb4 0 (by omega)]
    exact z0
  · rw [hb5 1 (by omega), hb4 1 (by omega)]
    exact z1
  · rw [hb5 2 (by omega), hb4 2 (by omega)]
    exact z2
  · rw [fieldsAt_append]
    refine ⟨?_, hf5⟩
    exact fieldsAt_congr A4 A5 _ 24 (fun P _ hP => (hk5 P (by omega)).symm) hf4
  · intro P hP
    exact hz5 P (by omega)

theorem getD_take (l : List Nat) (n j : Nat) :
    (l.take n).getD j 0 = if j < n then l.getD j 0 else 0 := by
  simp only [List.getD_eq_getElem?_getD, List.getElem?_take]
  split_ifs <;> rfl

theorem bitOf_take (A : List Nat) (n : Nat) (hz : ∀ P, 8 * n ≤ P → bitOf A P = false) (P : Nat) :
    bitOf (A.take n) P = bitOf A P := by
  by_cases h : P / 8 < n
  · unfold bitOf
    rw [getD_take, if_pos h]
  · rw [hz P (by omega)]
    unfold bitOf
    rw [getD_take, if_neg h]
    exact Nat.zero_testBit _

theorem clampPort_Address (B : BrickPiStruct) (port : Nat) :
    (clampPort B port).Address = B.Address := by
  obtain ⟨L, h, _⟩ := clampPort_spec B port
  rw [h]

/-- After the two rounds of the port loop the stored device count of an I2C
port of the link is in 1..8. -/
theorem clampPort_link (i : Nat) (B : BrickPiStruct) (hi : i < 2)
    (hDl : B.SensorI2CDevices.length = 4) (port : Nat)
    (hp : port = i * 2 ∨ port = i * 2 + 1) (hI : isI2C B port) :
    (clampPort (clampPort B (i * 2)) (i * 2 + 1)).SensorI2CDevices.getD port 0 =
      clampDevices (B.SensorI2CDevices.getD port 0) := by
  have hI' : B.SensorType.getD port 0 = TYPE_SENSOR_I2C ∨
    B.SensorType.getD port 0 = TYPE_SENSOR_I2C_9V := hI
  obtain ⟨L, hL, hLl, hLq⟩ := clampPort_spec B (i * 2)
  rcases hp with hp | hp
  · subst hp
    obtain ⟨L2, hL2, _, hLq2⟩ := clampPort_spec (clampPort B (i * 2)) (i * 2 + 1)
    rw [hL2]
    dsimp only
    rw [hLq2 (i * 2) (by omega)]
    unfold clampPort
    rw [if_pos hI']
    dsimp only
    rw [getD_set_eq, if_pos ⟨rfl, by omega⟩]
  · subst hp
    rw [hL]
    unfold clampPort
    dsimp only
    rw [if_pos hI']
    dsimp only
    rw [getD_set_eq, if_pos ⟨rfl, by rw [hLl]; omega⟩, hLq _ (by omega)]

/-- The frame `BrickPiSetupSensors` hands to `BrickPiTx` for link `i` when the
fields take at most 1992 bits, so that the payload has at most 252 bytes. -/
theorem SetupSensors_transmit_spec (i : Nat) (w : World) (hfit : setupFits w.BrickPi i)
    (hB : w.BaudRate ≠ 0)
    (hbits : fieldsWidth (sensorTypePortFields w.BrickPi (i * 2) ++
      sensorTypePortFields w.BrickPi (i * 2 + 1)) ≤ 1992) :
    ∃ w' payload checksum, BrickPiSetupSensors.transmit i w = some w' ∧
      w'.sent = w.sent ++ [(w.BaudRate,
        (w.BrickPi.Address.getD i 0 % 256) :: checksum :: payload.length :: payload)] ∧
      payload.length = 3 + (fieldsWidth (sensorTypePortFields w.BrickPi (i * 2) ++
        sensorTypePortFields w.BrickPi (i * 2 + 1)) + 7) / 8 ∧
      payload.getD 0 0 = MSG_TYPE_SENSOR_TYPE ∧
      payload.getD 1 0 = w.BrickPi.SensorType.getD (i * 2) 0 ∧
      payload.getD 2 0 = w.BrickPi.SensorType.getD (i * 2 + 1) 0 ∧
      fieldsAt payload 24 (sensorTypePortFields w.BrickPi (i * 2) ++
        sensorTypePortFields w.BrickPi (i * 2 + 1)) ∧
      (∀ P, 24 + fieldsWidth (sensorTypePortFields w.BrickPi (i * 2) ++
        sensorTypePortFields w.BrickPi (i * 2 + 1)) ≤ P → bitOf payload P = false) ∧
      (∀ port, ¬ isI2C w.BrickPi port → sensorTypePortFields w.BrickPi port = []) ∧
      w'.BrickPi.SensorI2CDevices =
        (clampPort (clampPort w.BrickPi (i * 2)) (i * 2 + 1)).SensorI2CDevices ∧
      (∀ port, (port = i * 2 ∨ port = i * 2 + 1) → isI2C w.BrickPi port →
        w'.BrickPi.SensorI2CDevices.getD port 0 =
          clampDevices (w.BrickPi.SensorI2CDevices.getD port 0)) := by
  obtain ⟨A, hb, hl, a0, a1, a2, hf, hz⟩ := SetupSensors_build_spec i w.BrickPi hfit
  obtain ⟨hi, hs, hDl, _, _, _, hbud⟩ := hfit
  generalize hW : fieldsWidth (sensorTypePortFields w.BrickPi (i * 2) ++
    sensorTypePortFields w.BrickPi (i * 2 + 1)) = W at hb hf hz hbud hbits ⊢
  have hn : ((W + 7) / 8 + 3) % 256 = 3 + (W + 7) / 8 := by omega
  have hsend := BrickPiTx_send_spec
    ((clampPort (clampPort w.BrickPi (i * 2)) (i * 2 + 1)).Address.getD i 0) (3 + (W + 7) / 8)
    { w with BrickPi := clampPort (clampPort w.BrickPi (i * 2)) (i * 2 + 1), g := ⟨A, W⟩ }
    hl (by omega) hB
  dsimp only at hsend
  rw [clampPort_Address, clampPort_Address] at hsend
  have hlen : (A.take (3 + (W + 7) / 8)).length = 3 + (W + 7) / 8 := by
    rw [List.length_take]
    omega
  have hzt : ∀ P, 8 * (3 + (W + 7) / 8) ≤ P → bitOf A P = false :=
    fun P hP => hz P (by omega)
  refine ⟨{ w with
      sent := w.sent ++ [(w.BaudRate,
        (w.BrickPi.Address.getD i 0 % 256) ::
        ((w.BrickPi.Address.getD i 0 % 256 +
          (3 + (W + 7) / 8) + (A.take (3 + (W + 7) / 8)).sum) % 256) :: (3 + (W + 7) / 8) ::
          A.take (3 + (W + 7) / 8))]
      BrickPi := { clampPort (clampPort w.BrickPi (i * 2)) (i * 2 + 1) with
        LED := (clampPort (clampPort w.BrickPi (i * 2)) (i * 2 + 1)).LED.set 0 0 }
      g := ⟨A, W⟩ },
    A.take (3 + (W + 7) / 8),
    (w.BrickPi.Address.getD i 0 % 256 +
      (3 + (W + 7) / 8) + (A.take (3 + (W + 7) / 8)).sum) % 256,
    ?_, ?_, hlen, ?_, ?_, ?_, ?_, ?_, ?_, ?_, ?_⟩
  · unfold BrickPiSetupSensors.transmit
    rw [hb]
    dsimp only
    rw [hn, clampPort_Address, clampPort_Address]
    exact hsend
  · dsimp only
    rw [hlen]
  · rw [getD_take, if_pos (by omega)]
    exact a0
  · rw [getD_take, if_pos (by omega)]
    exact a1
  · rw [getD_take, if_pos (by omega)]
    exact a2
  · exact fieldsAt_congr A _ _ 24 (fun P _ _ => (bitOf_take A _ hzt P).symm) hf
  · intro P hP
    rw [bitOf_take A _ hzt P]
    exact hz P hP
  · intro port hn
    unfold sensorTypePortFields
    exact if_neg hn
  · rfl
  · intro port hp hI
    exact clampPort_link i w.BrickPi hi hDl port hp hI

/-- C22 (amended): for link `i` (arrays with the dimensions of the C
declaration, write lengths of the fixed-per-cycle devices at most 16, the fields
inside the 256-byte buffer, line rate set) `BrickPiSetupSensors` builds in
`Array` a payload whose bytes 0..2 are kind 2, the type of the first port and the
type of the second port of the link, and which carries from byte 3 (bit 24) on
the fields the specification lists for the two ports in port order
(`sensorTypePortFields`: nothing for a port that is not of an I2C type; bus
speed, clamped device count less one, then per device address shifted right by
one, flags and, when the fixed-per-cycle flag is set, write length, read length
and literal bytes), the bits above the fields being 0 and the stored device
count of an I2C port of the link being left in 1..8.  When the fields take at
most 1992 bits the payload handed to `BrickPiTx` consists of the first
`3 + ceil(bits / 8)` bytes of it. -/
theorem SetupSensors_payload (i : Nat) (w : World) (hfit : setupFits w.BrickPi i)
    (hB : w.BaudRate ≠ 0) :
    (∃ B' A, BrickPiSetupSensors.build i w.BrickPi =
        some (B', ⟨A, fieldsWidth (sensorTypePortFields w.BrickPi (i * 2) ++
        sensorTypePortFields w.BrickPi (i * 2 + 1))⟩) ∧
      A.length = 256 ∧ A.getD 0 0 = MSG_TYPE_SENSOR_TYPE ∧
      A.getD 1 0 = w.BrickPi.SensorType.getD (i * 2) 0 ∧
      A.getD 2 0 = w.BrickPi.SensorType.getD (i * 2 + 1) 0 ∧
      fieldsAt A 24 (sensorTypePortFields w.BrickPi (i * 2) ++
        sensorTypePortFields w.BrickPi (i * 2 + 1)) ∧
      (∀ P, 24 + fieldsWidth (sensorTypePortFields w.BrickPi (i * 2) ++
        sensorTypePortFields w.BrickPi (i * 2 + 1)) ≤ P → bitOf A P = false) ∧
      (∀ port, (port = i * 2 ∨ port = i * 2 + 1) → isI2C w.BrickPi port →
        B'.SensorI2CDevices.getD port 0 =
          clampDevices (w.BrickPi.SensorI2CDevices.getD port 0))) ∧
    (∀ port, ¬ isI2C w.BrickPi port → sensorTypePortFields w.BrickPi port = []) ∧
    (fieldsWidth (sensorTypePortFields w.BrickPi (i * 2) ++
        sensorTypePortFields w.BrickPi (i * 2 + 1)) ≤ 1992 →
      ∃ w' payload checksum, BrickPiSetupSensors.transmit i w = some w' ∧
        w'.sent = w.sent ++ [(w.BaudRate,
          (w.BrickPi.Address.getD i 0 % 256) :: checksum :: payload.length :: payload)] ∧
        payload.length = 3 + (fieldsWidth (sensorTypePortFields w.BrickPi (i * 2) ++
        sensorTypePortFields w.BrickPi (i * 2 + 1)) + 7) / 8 ∧
        payload.getD 0 0 = MSG_TYPE_SENSOR_TYPE ∧
        payload.getD 1 0 = w.BrickPi.SensorType.getD (i * 2) 0 ∧
        payload.getD 2 0 = w.BrickPi.SensorType.getD (i * 2 + 1) 0 ∧
        fieldsAt payload 24 (sensorTypePortFields w.BrickPi (i * 2) ++
        sensorTypePortFields w.BrickPi (i * 2 + 1)) ∧
        (∀ P, 24 + fieldsWidth (sensorTypePortFields w.BrickPi (i * 2) ++
        sensorTypePortFields w.BrickPi (i * 2 + 1)) ≤ P → bitOf payload P = false) ∧
        (∀ port, (port = i * 2 ∨ port = i * 2 + 1) → isI2C w.BrickPi port →
          w'.BrickPi.SensorI2CDevices.getD port 0 =
            clampDevices (w.BrickPi.SensorI2CDevices.getD port 0))) := by
  obtain ⟨A, hb, hl, a0, a1, a2, hf, hz⟩ := SetupSensors_build_spec i w.BrickPi hfit
  refine ⟨⟨_, A, hb, hl, a0, a1, a2, hf, hz,
    fun port hp hI => clampPort_link i w.BrickPi hfit.1 hfit.2.2.1 port hp hI⟩, ?_, ?_⟩
  · intro port hn
    unfold sensorTypePortFields
    exact if_neg hn
  · intro hbits
    obtain ⟨w', payload, checksum, h1, h2, h3, h4, h5, h6, h7, h8, _, _, h11⟩ :=
      SetupSensors_transmit_spec i w hfit hB hbits
    exact ⟨w', payload, checksum, h1, h2, h3, h4, h5, h6, h7, h8, h11⟩

set_option maxRecDepth 100000 in
/-- Link 0 with an I2C sensor on its first port (stored device count 0, one
fixed-per-cycle device with two write bytes) and a Touch sensor on the second:
44 bits of fields, a payload of 9 bytes, the stored count left at 1. -/
theorem SetupSensors_payload_witness :
    ∃ w' payload checksum, BrickPiSetupSensors.transmit 0
        ⟨{ BrickPi_zero with
        SensorType := [41, 32, 0, 0], SensorI2CSpeed := [7, 0, 0, 0],
        SensorI2CDevices := [0, 0, 0, 0],
        SensorI2CAddr := [[0x52, 0x10, 0, 0, 0, 0, 0, 0], List.replicate 8 0,
          List.replicate 8 0, List.replicate 8 0],
        SensorSettings := [[2, 1, 0, 0, 0, 0, 0, 0], List.replicate 8 0, List.replicate 8 0,
          List.replicate 8 0],
        SensorI2CWrite := [[2, 1, 0, 0, 0, 0, 0, 0], List.replicate 8 0, List.replicate 8 0,
          List.replicate 8 0],
        SensorI2CRead := [[3, 1, 0, 0, 0, 0, 0, 0], List.replicate 8 0, List.replicate 8 0,
          List.replicate 8 0],
        SensorI2COut := [([0xAA, 0xBB] ++ List.replicate 14 0) ::
          List.replicate 7 (List.replicate 16 0), List.replicate 8 (List.replicate 16 0),
          List.replicate 8 (List.replicate 16 0), List.replicate 8 (List.replicate 16 0)] },
      ⟨List.replicate 256 0, 0⟩, 0, 0, 115200, []⟩ = some w' ∧
      w'.sent = [(115200, 0 :: checksum :: 9 :: payload)] ∧
      payload.getD 0 0 = 2 ∧ payload.getD 1 0 = 41 ∧ payload.getD 2 0 = 32 ∧
      fieldsAt payload 24 [(8, 7), (3, 0), (7, 41), (2, 2), (4, 2), (4, 3), (8, 0xAA),
        (8, 0xBB)] ∧
      w'.BrickPi.SensorI2CDevices.getD 0 0 = 1 := by
  obtain ⟨w', payload, checksum, he, hs, hl, h0, h1, h2, hf, _, hd⟩ :=
    (SetupSensors_payload 0
      ⟨{ BrickPi_zero with
        SensorType := [41, 32, 0, 0], SensorI2CSpeed := [7, 0, 0, 0],
        SensorI2CDevices := [0, 0, 0, 0],
        SensorI2CAddr := [[0x52, 0x10, 0, 0, 0, 0, 0, 0], List.replicate 8 0,
          List.replicate 8 0, List.replicate 8 0],
        SensorSettings := [[2, 1, 0, 0, 0, 0, 0, 0], List.replicate 8 0, List.replicate 8 0,
          List.replicate 8 0],
        SensorI2CWrite := [[2, 1, 0, 0, 0, 0, 0, 0], List.replicate 8 0, List.replicate 8 0,
          List.replicate 8 0],
        SensorI2CRead := [[3, 1, 0, 0, 0, 0, 0, 0], List.replicate 8 0, List.replicate 8 0,
          List.replicate 8 0],
        SensorI2COut := [([0xAA, 0xBB] ++ List.replicate 14 0) ::
          List.replicate 7 (List.replicate 16 0), List.replicate 8 (List.replicate 16 0),
          List.replicate 8 (List.replicate 16 0), List.replicate 8 (List.replicate 16 0)] },
      ⟨List.replicate 256 0, 0⟩, 0, 0, 115200, []⟩
      ⟨by decide, by unfold BrickPiStruct.shaped; decide, rfl, rfl, by decide,
        by
          intro port device hp hd _
          rcases hp with rfl | rfl <;> interval_cases device <;> decide,
        by decide⟩
      (by decide)).2.2 (by decide)
  exact ⟨w', payload, checksum, he, hs.trans (by rw [hl]; rfl), h0, h1, h2, hf,
    hd 0 (Or.inl rfl) (Or.inl rfl)⟩

set_option maxRecDepth 1000000 in
/-- C22 fails as stated: link 0 with two I2C ports, 8 and 6 fixed-per-cycle
devices with the write lengths 16 (13 devices) and 9 (one device).  The fields
take 1996 bits, inside the 256-byte buffer, so that the claimed payload has
`3 + ceil(1996 / 8) = 253` bytes; the byte count 253 + 3 wraps to 0 in
`BrickPiTx`, the frame written for link 0 is empty, and with both peers
acknowledging `BrickPiSetupSensors` returns 0. -/
theorem SetupSensors_length_counterexample :
    fieldsWidth (sensorTypePortFields
      { BrickPi_zero with
        SensorType := [41, 41, 0, 0], SensorI2CDevices := [8, 6, 0, 0],
        SensorSettings := [List.replicate 8 2, List.replicate 8 2, List.replicate 8 0,
          List.replicate 8 0],
        SensorI2CWrite := [List.replicate 8 16, [16, 16, 16, 16, 16, 9, 0, 0],
          List.replicate 8 0, List.replicate 8 0] } 0 ++
      sensorTypePortFields
      { BrickPi_zero with
        SensorType := [41, 41, 0, 0], SensorI2CDevices := [8, 6, 0, 0],
        SensorSettings := [List.replicate 8 2, List.replicate 8 2, List.replicate 8 0,
          List.replicate 8 0],
        SensorI2CWrite := [List.replicate 8 16, [16, 16, 16, 16, 16, 9, 0, 0],
          List.replicate 8 0, List.replicate 8 0] } 1) = 1996 ∧
    (BrickPiSetupSensors (fun _ => RxEvent.bytes [3, 1, 2]) 3 0
      ⟨{ BrickPi_zero with
        SensorType := [41, 41, 0, 0], SensorI2CDevices := [8, 6, 0, 0],
        SensorSettings := [List.replicate 8 2, List.replicate 8 2, List.replicate 8 0,
          List.replicate 8 0],
        SensorI2CWrite := [List.replicate 8 16, [16, 16, 16, 16, 16, 9, 0, 0],
          List.replicate 8 0, List.replicate 8 0] },
        ⟨List.replicate 256 0, 0⟩, 0, 0, 115200, []⟩).map (fun r => (r.1, r.2.sent)) =
      some (0, [(115200, []), (115200, [0, 5, 3, 2, 0, 0])]) := by
  constructor <;> decide

end BrickPi
